import Mathlib

/-!
# Block grace join core (`mkql_block_grace_join.cpp`)

A shallow embedding of the adaptive block join operator and the properties
established about it.

Conventions of the embedding.

* Byte buffers (`TPackedTuple`, `TOverflow`) are lists of natural numbers; a
  packed tuple is the slice of `TotalRowSize` bytes at a row offset.
* `ui32` members (`OutputRows`, `MaxLength_`, `CurrBucket_`, `CurrProbeRow_`,
  block and row numbers of an indirection index) are natural numbers reduced
  modulo `2 ^ 32` wherever the source computes with them; `size_t` values count
  elements or bytes of objects held in memory and are plain natural numbers.
* Pointers into a buffer are row numbers of that buffer.
* The block layout converter, the hash table and the policy are collaborators
  whose code lives elsewhere; they enter as structures of functions and the
  theorems state which of their contracted properties they use.
* An access the source performs outside a container is `none`; in an output
  slot it shows as `TValue.Invalid`.
-/

namespace BlockGraceJoin

/-- The modulus of `ui32` arithmetic. -/
def UI32 : Nat := 2 ^ 32

/-- The modulus of `ui64` arithmetic. -/
def UI64 : Nat := 2 ^ 64

/-- `NUdf::EFetchStatus`. -/
inductive EFetchStatus where
  | Ok
  | Finish
  | Yield
  deriving DecidableEq, Repr

/-- `NPackedTuple::EColumnSizeType`. -/
inductive EColumnSizeType where
  | Fixed
  | Variable
  deriving DecidableEq, Repr

/-- `NPackedTuple::EColumnRole`. -/
inductive EColumnRole where
  | Key
  | Payload
  deriving DecidableEq, Repr

/-- `NPackedTuple::TTupleLayout`, the fields the core reads; `Columns` keeps the
`SizeType` of each column descriptor. -/
structure TTupleLayout where
  TotalRowSize : Nat
  PayloadSize : Nat
  Columns : List EColumnSizeType
  deriving DecidableEq, Repr

/-- `IBlockLayoutConverter::PackResult`.  `OverflowCapacity` is
`Overflow.capacity()` of the underlying vector. -/
structure PackResult where
  PackedTuples : List Nat
  Overflow : List Nat
  NTuples : Nat
  OverflowCapacity : Nat
  deriving DecidableEq, Repr

/-- `TTempJoinStorage::TBlock`: a fetched block, `Size` rows in every column. -/
structure TBlock where
  Size : Nat
  Columns : List (List Nat)
  deriving DecidableEq, Repr

/-- A wide value held in `TBlockState::Values`: an arrow array or a scalar. -/
inductive TValue where
  | Invalid
  | Array (d : List Nat)
  | Scalar (n : Nat)
  deriving DecidableEq, Repr

/-- The two physical buffers of a join state a left/right slot can point to. -/
inductive ESide where
  | Build
  | Probe
  deriving DecidableEq, Repr

/-- The bytes of row `row` in a packed buffer of stride `rowSize`
(`data() + row * TotalRowSize`, `TotalRowSize` bytes). -/
def tupleAt (buf : List Nat) (rowSize row : Nat) : List Nat :=
  (buf.drop (row * rowSize)).take rowSize

/-- `TTable::TIterator`: the build rows still to be returned by `NextMatch`. -/
abbrev TIterator := List Nat

/-- The hash table (`TNeumannHashTable`), seen through the two calls the core
makes.  `Find tuple overflow` is the iterator; `NextMatch` pops its head and
answers `nullptr` on the empty iterator. -/
structure TTable where
  Find : List Nat → List Nat → TIterator

/-- `Table_.NextMatch(it)`: the found build row and the advanced iterator. -/
def TTable.NextMatch (it : TIterator) : Option (Nat × TIterator) :=
  match it with
  | [] => none
  | j :: rest => some (j, rest)

/-- `TJoinState`: state of joined output (with the `TBlockState` members
`Values` and `Count` it inherits). -/
structure TJoinState where
  BuildPackedInput : PackResult
  ProbePackedInput : PackResult
  BuildPackedOutput : List Nat
  ProbePackedOutput : List Nat
  OutputRows : Nat
  MaxLength : Nat
  WasSwapped : Bool
  LeftConverter : ESide
  LeftPackedTuple : ESide
  LeftOverflow : ESide
  LeftIOMap : List Nat
  LeftPayloadStorage : ESide
  RightConverter : ESide
  RightPackedTuple : ESide
  RightOverflow : ESide
  RightIOMap : List Nat
  RightPayloadStorage : ESide
  Values : List TValue
  Count : Nat
  deriving DecidableEq, Repr

/-- The empty pack result a default-constructed member starts from. -/
def PackResult.empty : PackResult :=
  { PackedTuples := [], Overflow := [], NTuples := 0, OverflowCapacity := 0 }

/-- `batchSize` of `DoBatchLookup`. -/
def batchSize : Nat := 64

/-- The body of the `while ((foundTuple = Table_.NextMatch(it)) != nullptr)`
loop: copy the found build tuple and the probe tuple `inTuple` into the packed
outputs and count one row. -/
def appendMatch (buildRowSize probeRowSize : Nat) (found inTuple : Nat)
    (js : TJoinState) : TJoinState :=
  { js with
    BuildPackedOutput :=
      js.BuildPackedOutput ++ tupleAt js.BuildPackedInput.PackedTuples buildRowSize found
    ProbePackedOutput :=
      js.ProbePackedOutput ++ tupleAt js.ProbePackedInput.PackedTuples probeRowSize inTuple
    OutputRows := (js.OutputRows + 1) % UI32 }

/-- The `NextMatch` loop of one iterator. -/
def nextMatchLoop (buildRowSize probeRowSize : Nat) (inTuple : Nat) :
    TIterator → TJoinState → TJoinState
  | [], js => js
  | found :: it, js =>
    nextMatchLoop buildRowSize probeRowSize inTuple it
      (appendMatch buildRowSize probeRowSize found inTuple js)

/-- First pass over one batch: `iterators[offset] = {Table_.Find(tuple, overflow), tuple}`
for the `remaining` tuples starting at row `i`. -/
def findBatch (table : TTable) (probeRowSize : Nat) (probe : PackResult)
    (i remaining : Nat) : List (TIterator × Nat) :=
  (List.range remaining).map fun offset =>
    (table.Find (tupleAt probe.PackedTuples probeRowSize (i + offset)) probe.Overflow, i + offset)

/-- Second pass over one batch: drain every iterator in turn. -/
def drainBatch (buildRowSize probeRowSize : Nat) (iterators : List (TIterator × Nat))
    (js : TJoinState) : TJoinState :=
  iterators.foldl (fun st p => nextMatchLoop buildRowSize probeRowSize p.2 p.1 st) js

/-- One iteration of the outer loop of `DoBatchLookup`: both passes over the
`remaining` tuples from row `row` (where the `tuple` pointer stands). -/
def lookupBatch (table : TTable) (buildLayout probeLayout : TTupleLayout)
    (row remaining : Nat) (js : TJoinState) : TJoinState :=
  drainBatch buildLayout.TotalRowSize probeLayout.TotalRowSize
    (findBatch table probeLayout.TotalRowSize js.ProbePackedInput row remaining) js

/-- The loop `for (size_t i = 0; i < nTuples; i += batchSize)` of
`THashJoin::DoBatchLookup`, continued from row `i`; `fuel` bounds the number of
iterations left. -/
def THashJoin.lookupFrom (table : TTable) (buildLayout probeLayout : TTupleLayout)
    (nTuples : Nat) : Nat → Nat → TJoinState → TJoinState
  | 0, _, js => js
  | fuel + 1, i, js =>
    if i < nTuples then
      THashJoin.lookupFrom table buildLayout probeLayout nTuples fuel (i + batchSize)
        (lookupBatch table buildLayout probeLayout i (min batchSize (nTuples - i)) js)
    else js

/-- `THashJoin::DoBatchLookup`. -/
def THashJoin.DoBatchLookup (table : TTable) (buildLayout probeLayout : TTupleLayout)
    (js : TJoinState) : TJoinState :=
  THashJoin.lookupFrom table buildLayout probeLayout js.ProbePackedInput.NTuples
    js.ProbePackedInput.NTuples 0 js

/-- A default-initialised join state over the given packed inputs (no output
yet, `MaxLength_ = maxLength`, not swapped). -/
def TJoinState.initial (build probe : PackResult) (maxLength : Nat) : TJoinState :=
  { BuildPackedInput := build, ProbePackedInput := probe,
    BuildPackedOutput := [], ProbePackedOutput := [], OutputRows := 0,
    MaxLength := maxLength, WasSwapped := false,
    LeftConverter := ESide.Build, LeftPackedTuple := ESide.Build,
    LeftOverflow := ESide.Build, LeftIOMap := [], LeftPayloadStorage := ESide.Build,
    RightConverter := ESide.Probe, RightPackedTuple := ESide.Probe,
    RightOverflow := ESide.Probe, RightIOMap := [], RightPayloadStorage := ESide.Probe,
    Values := [], Count := 0 }

/-- A layout of one-byte rows. -/
def byteLayout : TTupleLayout :=
  { TotalRowSize := 1, PayloadSize := 0, Columns := [EColumnSizeType.Fixed] }

/-- Equality of whole packed tuples, used as key equality in the examples. -/
def bytesEq (a b : List Nat) : Bool := a == b

/-- A three-row build input with keys 1, 2, 2. -/
def sampleBuild : PackResult :=
  { PackedTuples := [1, 2, 2], Overflow := [], NTuples := 3, OverflowCapacity := 0 }

/-- A two-row probe input with keys 2, 3. -/
def sampleProbe : PackResult :=
  { PackedTuples := [2, 3], Overflow := [], NTuples := 2, OverflowCapacity := 0 }

/-- A table over `sampleBuild`: key 2 is found at rows 2 and 1, in that order. -/
def sampleTable : TTable :=
  { Find := fun tuple _ => if tuple = [2] then [2, 1] else [] }

/-! ## Collaborators: layout converter -/

/-- `IBlockLayoutConverter`, the calls the core makes.  `Pack columns out` is the
pack result after appending the rows of `columns`; `BucketPack` routes the rows
into the bucket array; `Unpack` yields the columns of a pack result. -/
structure IBlockLayoutConverter where
  Layout : TTupleLayout
  Pack : List (List Nat) → PackResult → PackResult
  BucketPack : List (List Nat) → List PackResult → Nat → List PackResult
  Unpack : PackResult → List (List Nat)

/-! ## `TExternalPayloadStorage` -/

/-- `TExternalPayloadStorage`.  `NumColumns` is `Builders_.size()`, the number of
payload item types given to the constructor. -/
structure TExternalPayloadStorage where
  PayloadColumnsStorage : List TBlock
  NumColumns : Nat
  NonClearable : Bool
  IndirectionIndexes : List Nat
  deriving DecidableEq, Repr

/-- `TExternalPayloadStorage::Size`, a `ui32`. -/
def TExternalPayloadStorage.Size (st : TExternalPayloadStorage) : Nat :=
  st.PayloadColumnsStorage.length % UI32

/-- `TExternalPayloadStorage::AddBlock`. -/
def TExternalPayloadStorage.AddBlock (st : TExternalPayloadStorage) (block : TBlock) :
    TExternalPayloadStorage :=
  { st with PayloadColumnsStorage := st.PayloadColumnsStorage ++ [block] }

/-- `TExternalPayloadStorage::Clear`. -/
def TExternalPayloadStorage.Clear (st : TExternalPayloadStorage) : TExternalPayloadStorage :=
  if st.NonClearable then st else { st with PayloadColumnsStorage := [] }

/-- The indirection index written for row `i` of block number `blockIndex`:
`(static_cast<ui64>(blockIndex) << 32) | i`. -/
def indirectionIndex (blockIndex i : Nat) : Nat :=
  ((blockIndex <<< 32) ||| i) % UI64

/-- `static_cast<ui32>(rawIndex >> 32)`. -/
def decodeBlockIndex (raw : Nat) : Nat := (raw >>> 32) % UI32

/-- `static_cast<ui32>(rawIndex & 0xFFFFFFFF)`. -/
def decodeElemIndex (raw : Nat) : Nat := (raw &&& 0xFFFFFFFF) % UI32

/-- The columns of `block` whose index satisfies `keep`, in original order. -/
def selectColumns (keep : Nat → Bool) (columns : List (List Nat)) : List (List Nat) :=
  (columns.enum.filter fun ic => keep ic.1).map fun ic => ic.2

/-- `TExternalPayloadStorage::SplitBlock`: the key block (key columns and the
index column), the payload block, and the storage with its index buffer
rewritten. -/
def TExternalPayloadStorage.SplitBlock (block : TBlock) (st : TExternalPayloadStorage)
    (keyColumnsSet : List Nat) : (TBlock × TBlock) × TExternalPayloadStorage :=
  let keyColumns := selectColumns (fun i => keyColumnsSet.contains i) block.Columns
  let payloadColumns := selectColumns (fun i => !keyColumnsSet.contains i) block.Columns
  let blockIndex := st.Size
  let indexes := (List.range block.Size).map fun i => indirectionIndex blockIndex i
  (({ Size := block.Size, Columns := keyColumns ++ [indexes] },
    { Size := block.Size, Columns := payloadColumns }),
   { st with IndirectionIndexes := indexes })

/-- All results of a list of accesses, `none` as soon as one access is outside
its container. -/
def collectAll {α : Type} : List (Option α) → Option (List α)
  | [] => some []
  | x :: xs => x.bind fun a => (collectAll xs).map fun rest => a :: rest

/-- The item `RestorePayload` adds for payload column `i` and output row `j`. -/
def TExternalPayloadStorage.restoreItem (st : TExternalPayloadStorage) (indexes : List Nat)
    (i j : Nat) : Option Nat := do
  let raw ← indexes[j]?
  let block ← st.PayloadColumnsStorage[decodeBlockIndex raw]?
  let column ← block.Columns[i]?
  column[decodeElemIndex raw]?

/-- `TExternalPayloadStorage::RestorePayload(indexes, length)`: one datum per
payload column. -/
def TExternalPayloadStorage.RestorePayload (st : TExternalPayloadStorage)
    (indexes : List Nat) (length : Nat) : Option (List (List Nat)) :=
  collectAll ((List.range st.NumColumns).map fun i =>
    collectAll ((List.range length).map fun j => st.restoreItem indexes i j))

/-! ## Streams, policy and computation context -/

/-- How a run of the model can fail to produce a value: the loop bound of the
model ran out, the source performs an undefined operation, or it throws. -/
inductive TFailure where
  | OutOfFuel
  | Undefined (what : String)
  | Exception (message : String)
  deriving DecidableEq, Repr

/-- One answer of an upstream `WideFetch`: a block, `Yield` or `Finish`. -/
inductive TFetched where
  | Ok (block : TBlock)
  | Yield
  | Finish
  deriving DecidableEq, Repr

/-- The status of an upstream answer. -/
def TFetched.status : TFetched → EFetchStatus
  | TFetched.Ok _ => EFetchStatus.Ok
  | TFetched.Yield => EFetchStatus.Yield
  | TFetched.Finish => EFetchStatus.Finish

/-- An upstream wide stream: the answers it will give, in order; once they are
used up it answers `Finish`. -/
abbrev TStream := List TFetched

/-- `stream.WideFetch(...)`: the answer and the stream afterwards. -/
def TStream.WideFetch : TStream → TFetched × TStream
  | [] => (TFetched.Finish, [])
  | answer :: rest => (answer, rest)

/-- `IBlockGraceJoinPolicy::EJoinAlgo`, the two answers the core handles. -/
inductive EJoinAlgo where
  | HashJoin
  | InMemoryGraceJoin
  deriving DecidableEq, Repr

/-- `IBlockGraceJoinPolicy`, the interface the core consumes. -/
structure IBlockGraceJoinPolicy where
  STREAM_NOT_FETCHED : Nat
  GetMaximumInitiallyFetchedData : Nat
  PickAlgorithm : Nat → Nat → EJoinAlgo
  UseExternalPayload : EJoinAlgo → Nat → Nat → Bool

/-- An item type, by an identifying number. -/
abbrev TType := Nat

/-- `ctx.TypeEnv.GetUi64Lazy()`. -/
def Ui64Type : TType := 0

/-- What the core takes from its computation context and the libraries around
it: the converter factory, the block length bound of a list of item types, the
hash table constructor (`SetTupleLayout` then `Build`), the item hashers, the
hash combinator and the cardinality estimator. -/
structure TComputationContext where
  MakeBlockLayoutConverter : List TType → List EColumnRole → IBlockLayoutConverter
  CalcMaxBlockLength : List TType → Nat
  BuildTable : TTupleLayout → PackResult → TTable
  Hash : TType → Nat → Nat
  CombineHashes : Nat → Nat → Nat
  Estimate : Nat → Nat → List Nat → Nat → List Nat → Nat

/-- `CalculateTupleHash`, continued from `hash`. -/
def CalculateTupleHash.loop (combine : Nat → Nat → Nat) : Nat → List Nat → Nat
  | hash, [] => hash
  | hash, h :: rest => if h = 0 then 0 else CalculateTupleHash.loop combine (combine hash h) rest

/-- `CalculateTupleHash`. -/
def CalculateTupleHash (combine : Nat → Nat → Nat) (hashes : List Nat) : Nat :=
  CalculateTupleHash.loop combine 0 hashes

/-- `CalculateExpectedOverflowSize`. -/
def CalculateExpectedOverflowSize (layout : TTupleLayout) (nTuples : Nat) : Nat :=
  let varSizedCount := (layout.Columns.filter fun c => c = EColumnSizeType.Variable).length
  if varSizedCount = 0 then 0 else varSizedCount * nTuples * 64 / 10

/-- `roles[keyCol] = Key` for every key column, on a role vector of `size`
entries all `Payload`; `none` when a key column is outside the vector. -/
def makeRoles (size : Nat) (keyColumns : List Nat) : Option (List EColumnRole) :=
  keyColumns.foldlM (fun roles keyCol =>
    if keyCol < roles.length then some (roles.set keyCol EColumnRole.Key) else none)
    (List.replicate size EColumnRole.Payload)

/-! ## `TTempJoinStorage` -/

/-- `TTempJoinStorage::EStatus`. -/
inductive EStatus where
  | Unknown
  | OneStreamFinished
  | BothStreamsFinished
  | MemoryLimitExceeded
  deriving DecidableEq, Repr

/-- `TTempJoinStorage`. -/
structure TTempJoinStorage where
  LeftStream : TStream
  LeftItemTypes : List TType
  LeftKeyColumns : List Nat
  LeftData : List TBlock
  LeftFetchedTuples : Nat
  LeftEstimatedSize : Nat
  LeftIsFinished : Bool
  LeftConverter : IBlockLayoutConverter
  LeftSamples : List Nat
  RightStream : TStream
  RightItemTypes : List TType
  RightKeyColumns : List Nat
  RightData : List TBlock
  RightFetchedTuples : Nat
  RightEstimatedSize : Nat
  RightIsFinished : Bool
  RightConverter : IBlockLayoutConverter
  RightSamples : List Nat
  Policy : IBlockGraceJoinPolicy

/-- `TTempJoinStorage::TTempJoinStorage`.  The item type lists are those of the
stream components, the trailing block-length component included. -/
def TTempJoinStorage.construct (ctx : TComputationContext)
    (leftItemTypesArg : List TType) (leftKeyColumns : List Nat) (leftStream : TStream)
    (rightItemTypesArg : List TType) (rightKeyColumns : List Nat) (rightStream : TStream)
    (policy : IBlockGraceJoinPolicy) : Except TFailure TTempJoinStorage := do
  let leftItemTypes := leftItemTypesArg.take (leftItemTypesArg.length - 1)
  let leftRoles ← match makeRoles (leftItemTypesArg.length - 1) leftKeyColumns with
    | some roles => pure roles
    | none => throw (TFailure.Undefined "leftRoles[keyCol]")
  let rightItemTypes := rightItemTypesArg.take (rightItemTypesArg.length - 1)
  let rightRoles ← match makeRoles (rightItemTypesArg.length - 1) rightKeyColumns with
    | some roles => pure roles
    | none => throw (TFailure.Undefined "rightRoles[keyCol]")
  pure
    { LeftStream := leftStream, LeftItemTypes := leftItemTypes,
      LeftKeyColumns := leftKeyColumns, LeftData := [],
      LeftFetchedTuples := 0, LeftEstimatedSize := 0, LeftIsFinished := false,
      LeftConverter := ctx.MakeBlockLayoutConverter leftItemTypes leftRoles, LeftSamples := [],
      RightStream := rightStream, RightItemTypes := rightItemTypes,
      RightKeyColumns := rightKeyColumns, RightData := [],
      RightFetchedTuples := 0, RightEstimatedSize := 0, RightIsFinished := false,
      RightConverter := ctx.MakeBlockLayoutConverter rightItemTypes rightRoles,
      RightSamples := [], Policy := policy }

/-- `TTempJoinStorage::EstimateBlockSize`. -/
def EstimateBlockSize (block : TBlock) (layout : TTupleLayout) : Nat :=
  block.Size * layout.TotalRowSize

/-- The key hash `SampleBlock` computes for row `i`; `none` when a key column is
outside the block or the row is outside a column. -/
def sampleRow (ctx : TComputationContext) (itemTypes : List TType) (block : TBlock)
    (keyColumns : List Nat) (i : Nat) : Option Nat := do
  let hashes ← collectAll (keyColumns.map fun col => do
    let type ← itemTypes[col]?
    let column ← block.Columns[col]?
    let item ← column[i]?
    some (ctx.Hash type item))
  some (CalculateTupleHash ctx.CombineHashes hashes)

/-- `TTempJoinStorage::SampleBlock` with `step = 100`: the samples to append. -/
def SampleBlock (ctx : TComputationContext) (itemTypes : List TType) (block : TBlock)
    (keyColumns : List Nat) : Option (List Nat) :=
  collectAll ((List.range ((block.Size + 99) / 100)).map fun k =>
    sampleRow ctx itemTypes block keyColumns (100 * k))

/-- The left half of `TTempJoinStorage::FetchStreams`: `resultLeft` and the
storage after the fetch, if one is issued. -/
def TTempJoinStorage.fetchLeft (ctx : TComputationContext) (ts : TTempJoinStorage) :
    Except TFailure (EFetchStatus × TTempJoinStorage) :=
  if !ts.LeftIsFinished &&
      decide (ts.LeftEstimatedSize < ts.Policy.GetMaximumInitiallyFetchedData) then
    match ts.LeftStream.WideFetch with
    | (TFetched.Ok leftBlock, rest) =>
      match SampleBlock ctx ts.LeftItemTypes leftBlock ts.LeftKeyColumns with
      | none => throw (TFailure.Undefined "SampleBlock")
      | some samples =>
        pure (EFetchStatus.Ok,
          { ts with
            LeftStream := rest
            LeftEstimatedSize :=
              ts.LeftEstimatedSize + EstimateBlockSize leftBlock ts.LeftConverter.Layout
            LeftFetchedTuples := ts.LeftFetchedTuples + leftBlock.Size
            LeftSamples := ts.LeftSamples ++ samples
            LeftData := ts.LeftData ++ [leftBlock] })
    | (TFetched.Finish, rest) =>
      pure (EFetchStatus.Finish, { ts with LeftStream := rest, LeftIsFinished := true })
    | (TFetched.Yield, rest) => pure (EFetchStatus.Yield, { ts with LeftStream := rest })
  else pure (EFetchStatus.Finish, ts)

/-- The right half of `TTempJoinStorage::FetchStreams`. -/
def TTempJoinStorage.fetchRight (ctx : TComputationContext) (ts : TTempJoinStorage) :
    Except TFailure (EFetchStatus × TTempJoinStorage) :=
  if !ts.RightIsFinished &&
      decide (ts.RightEstimatedSize < ts.Policy.GetMaximumInitiallyFetchedData) then
    match ts.RightStream.WideFetch with
    | (TFetched.Ok rightBlock, rest) =>
      match SampleBlock ctx ts.RightItemTypes rightBlock ts.RightKeyColumns with
      | none => throw (TFailure.Undefined "SampleBlock")
      | some samples =>
        pure (EFetchStatus.Ok,
          { ts with
            RightStream := rest
            RightEstimatedSize :=
              ts.RightEstimatedSize + EstimateBlockSize rightBlock ts.RightConverter.Layout
            RightFetchedTuples := ts.RightFetchedTuples + rightBlock.Size
            RightSamples := ts.RightSamples ++ samples
            RightData := ts.RightData ++ [rightBlock] })
    | (TFetched.Finish, rest) =>
      pure (EFetchStatus.Finish, { ts with RightStream := rest, RightIsFinished := true })
    | (TFetched.Yield, rest) => pure (EFetchStatus.Yield, { ts with RightStream := rest })
  else pure (EFetchStatus.Finish, ts)

/-- `TTempJoinStorage::FetchStreams`. -/
def TTempJoinStorage.FetchStreams (ctx : TComputationContext) (ts : TTempJoinStorage) :
    Except TFailure (EFetchStatus × TTempJoinStorage) :=
  match ts.fetchLeft ctx with
  | Except.error e => throw e
  | Except.ok (resultLeft, ts1) =>
    match ts1.fetchRight ctx with
    | Except.error e => throw e
    | Except.ok (resultRight, ts2) =>
      if resultLeft = EFetchStatus.Yield ∨ resultRight = EFetchStatus.Yield then
        pure (EFetchStatus.Yield, ts2)
      else pure (EFetchStatus.Finish, ts2)

/-- `TTempJoinStorage::GetStatus`. -/
def TTempJoinStorage.GetStatus (ts : TTempJoinStorage) : EStatus :=
  let maxFetchedSize := ts.Policy.GetMaximumInitiallyFetchedData
  if ts.LeftIsFinished && ts.RightIsFinished then EStatus.BothStreamsFinished
  else if (ts.LeftIsFinished && decide (ts.RightEstimatedSize > maxFetchedSize)) ||
      (decide (ts.LeftEstimatedSize > maxFetchedSize) && ts.RightIsFinished) then
    EStatus.OneStreamFinished
  else if decide (ts.LeftEstimatedSize > maxFetchedSize) &&
      decide (ts.RightEstimatedSize > maxFetchedSize) then
    EStatus.MemoryLimitExceeded
  else EStatus.Unknown

/-- `TTempJoinStorage::GetFetchedTuples`. -/
def TTempJoinStorage.GetFetchedTuples (ts : TTempJoinStorage) : Nat × Nat :=
  (ts.LeftFetchedTuples, ts.RightFetchedTuples)

/-- `TTempJoinStorage::GetPayloadSizes`. -/
def TTempJoinStorage.GetPayloadSizes (ts : TTempJoinStorage) : Nat × Nat :=
  (ts.LeftConverter.Layout.PayloadSize, ts.RightConverter.Layout.PayloadSize)

/-- `TTempJoinStorage::EstimateCardinality`. -/
def TTempJoinStorage.EstimateCardinality (ctx : TComputationContext) (ts : TTempJoinStorage) :
    Nat :=
  let buckets := max (max ts.LeftFetchedTuples ts.RightFetchedTuples / 2000) 1
  ctx.Estimate buckets ts.LeftFetchedTuples ts.LeftSamples ts.RightFetchedTuples ts.RightSamples

/-- `TTempJoinStorage::IsFinished`. -/
def TTempJoinStorage.IsFinished (ts : TTempJoinStorage) : Bool × Bool :=
  (ts.LeftIsFinished, ts.RightIsFinished)

/-- `TTempJoinStorage::DetachData`. -/
def TTempJoinStorage.DetachData (ts : TTempJoinStorage) : List TBlock × List TBlock :=
  (ts.LeftData, ts.RightData)

/-! ## `TJoinState` -/

/-- `TJoinState::TJoinState`: `width` is `resultItemTypes->size()`, `maxLength`
is `CalcMaxBlockLength(*resultItemTypes)`. -/
def TJoinState.construct (width maxLength : Nat) (leftIOMap rightIOMap : List Nat)
    (wasSwapped : Bool) : TJoinState :=
  let side := fun (s : ESide) =>
    if wasSwapped then (match s with | ESide.Build => ESide.Probe | ESide.Probe => ESide.Build)
    else s
  { BuildPackedInput := PackResult.empty, ProbePackedInput := PackResult.empty,
    BuildPackedOutput := [], ProbePackedOutput := [], OutputRows := 0,
    MaxLength := maxLength, WasSwapped := wasSwapped,
    LeftConverter := side ESide.Build, LeftPackedTuple := side ESide.Build,
    LeftOverflow := side ESide.Build, LeftIOMap := leftIOMap,
    LeftPayloadStorage := side ESide.Build,
    RightConverter := side ESide.Probe, RightPackedTuple := side ESide.Probe,
    RightOverflow := side ESide.Probe, RightIOMap := rightIOMap,
    RightPayloadStorage := side ESide.Probe,
    Values := List.replicate width TValue.Invalid, Count := 0 }

/-- `TJoinState::GetSwapped`. -/
def TJoinState.GetSwapped (js : TJoinState) : Bool := js.WasSwapped

/-- `TJoinState::SetSwapped`. -/
def TJoinState.SetSwapped (js : TJoinState) (wasSwapped : Bool) : TJoinState :=
  if wasSwapped != js.WasSwapped then
    { js with
      LeftPackedTuple := js.RightPackedTuple, RightPackedTuple := js.LeftPackedTuple,
      LeftOverflow := js.RightOverflow, RightOverflow := js.LeftOverflow,
      WasSwapped := wasSwapped }
  else js

/-- `TJoinState::IsNotFull`: `OutputRows * 5 < MaxLength_ * 4` on `ui32`. -/
def TJoinState.IsNotFull (js : TJoinState) : Bool :=
  decide ((js.OutputRows * 5) % UI32 < (js.MaxLength * 4) % UI32)

/-- `TJoinState::HasEnoughMemory`. -/
def TJoinState.HasEnoughMemory (js : TJoinState) : Bool :=
  js.ProbePackedInput.OverflowCapacity == 0 ||
    decide (js.ProbePackedInput.Overflow.length * 5 < js.ProbePackedInput.OverflowCapacity * 4)

/-- `TJoinState::HasBlocks`. -/
def TJoinState.HasBlocks (js : TJoinState) : Bool := decide (js.Count > 0)

/-- `TJoinState::ResetOutput`. -/
def TJoinState.ResetOutput (js : TJoinState) : TJoinState :=
  { js with OutputRows := 0, BuildPackedOutput := [], ProbePackedOutput := [] }

/-- The packed output buffer a slot designates. -/
def TJoinState.packedOutput (js : TJoinState) : ESide → List Nat
  | ESide.Build => js.BuildPackedOutput
  | ESide.Probe => js.ProbePackedOutput

/-- The overflow buffer a slot designates. -/
def TJoinState.overflowOf (js : TJoinState) : ESide → List Nat
  | ESide.Build => js.BuildPackedInput.Overflow
  | ESide.Probe => js.ProbePackedInput.Overflow

/-- The capacity of the overflow buffer a slot designates. -/
def TJoinState.overflowCapacityOf (js : TJoinState) : ESide → Nat
  | ESide.Build => js.BuildPackedInput.OverflowCapacity
  | ESide.Probe => js.ProbePackedInput.OverflowCapacity

/-- The objects a join state points to: both converters and the two payload
storages (`none` is `nullptr`). -/
structure TJoinObjects where
  BuildConverter : IBlockLayoutConverter
  ProbeConverter : IBlockLayoutConverter
  BuildPayloadStorage : Option TExternalPayloadStorage
  ProbePayloadStorage : Option TExternalPayloadStorage

/-- The converter a slot designates. -/
def TJoinObjects.converter (o : TJoinObjects) : ESide → IBlockLayoutConverter
  | ESide.Build => o.BuildConverter
  | ESide.Probe => o.ProbeConverter

/-- The payload storage a slot designates. -/
def TJoinObjects.storage (o : TJoinObjects) : ESide → Option TExternalPayloadStorage
  | ESide.Build => o.BuildPayloadStorage
  | ESide.Probe => o.ProbePayloadStorage

/-- The column list `MakeBlocks` assembles for one side: the unpacked columns
and, when the side has a payload storage, the unpacked columns without the
trailing index column followed by the restored payload columns. -/
def assembleColumns (converter : IBlockLayoutConverter)
    (storage : Option TExternalPayloadStorage) (packed : PackResult) (outputRows : Nat) :
    Option (List (List Nat)) :=
  let columns := converter.Unpack packed
  match storage with
  | none => some columns
  | some st => do
    let indexes ← columns.getLast?
    let payload ← st.RestorePayload indexes outputRows
    some (columns.dropLast ++ payload)

/-- The arrow block made of column `i` of an assembled column list. -/
def slotValue (columns : Option (List (List Nat))) (i : Nat) : TValue :=
  match columns.bind fun cs => cs[i]? with
  | some d => TValue.Array d
  | none => TValue.Invalid

/-- The loop `for (i = 0; i < ioMap.size(); i++, index++)
Values[index] = CreateArrowBlock(columns[ioMap[i]])` from output slot `index`. -/
def writeSlots (columns : Option (List (List Nat))) :
    List Nat → Nat → List TValue → List TValue
  | [], _, values => values
  | c :: rest, index, values =>
    writeSlots columns rest (index + 1) (values.set index (slotValue columns c))

/-- The pack result `MakeBlocks` forms from a packed output slot and an overflow
slot: `{*PackedTuple_, *Overflow_, OutputRows}`. -/
def TJoinState.packResultOf (js : TJoinState) (tuples overflow : ESide) : PackResult :=
  { PackedTuples := js.packedOutput tuples,
    Overflow := js.overflowOf overflow,
    NTuples := js.OutputRows,
    OverflowCapacity := js.overflowCapacityOf overflow }

/-- The left column list of `MakeBlocks`. -/
def TJoinState.leftColumns (js : TJoinState) (o : TJoinObjects) : Option (List (List Nat)) :=
  assembleColumns (o.converter js.LeftConverter) (o.storage js.LeftPayloadStorage)
    (js.packResultOf js.LeftPackedTuple js.LeftOverflow) js.OutputRows

/-- The right column list of `MakeBlocks`. -/
def TJoinState.rightColumns (js : TJoinState) (o : TJoinObjects) : Option (List (List Nat)) :=
  assembleColumns (o.converter js.RightConverter) (o.storage js.RightPayloadStorage)
    (js.packResultOf js.RightPackedTuple js.RightOverflow) js.OutputRows

/-- `TJoinState::MakeBlocks` (with `FillArrays`, which takes the block length
into `Count`). -/
def TJoinState.MakeBlocks (js : TJoinState) (o : TJoinObjects) : TJoinState :=
  let values0 := js.Values.set (js.Values.length - 1) (TValue.Scalar js.OutputRows)
  let values1 := writeSlots (js.leftColumns o) js.LeftIOMap 0 values0
  let values2 := writeSlots (js.rightColumns o) js.RightIOMap js.LeftIOMap.length values1
  { js with Values := values2, Count := js.OutputRows }

/-- `TJoinState::ResetInput`, with the payload storages it clears. -/
def TJoinState.ResetInput (js : TJoinState) (o : TJoinObjects) : TJoinState × TJoinObjects :=
  ({ js with
      ProbePackedInput :=
        { js.ProbePackedInput with PackedTuples := [], Overflow := [], NTuples := 0 } },
   { o with
      BuildPayloadStorage := o.BuildPayloadStorage.map TExternalPayloadStorage.Clear,
      ProbePayloadStorage := o.ProbePayloadStorage.map TExternalPayloadStorage.Clear })

/-! ## `THashJoin` -/

/-- `THashJoin`.  `Objects` holds `BuildConverter_`, `ProbeConverter_` and the two
external payload storages, which the join state points to as well. -/
structure THashJoin where
  BuildData : List TBlock
  BuildKeyColumns : List Nat
  BuildKeyColumnsSet : List Nat
  IsBuildIndirected : Bool
  ProbeStream : TStream
  ProbeInputs : Nat
  ProbeData : List TBlock
  ProbeKeyColumns : List Nat
  ProbeKeyColumnsSet : List Nat
  IsProbeIndirected : Bool
  Objects : TJoinObjects
  JoinState : TJoinState
  Table : TTable
  IsFinished : Bool

/-- The item types a side hands to its converter and, when the side is
indirected, the payload item types of its storage. -/
def splitItemTypes (isIndirected : Bool) (itemTypesArg : List TType) (keyColumnsSet : List Nat) :
    List TType × List TType :=
  let data := itemTypesArg.take (itemTypesArg.length - 1)
  if isIndirected then
    ((data.enum.filter fun it => keyColumnsSet.contains it.1).map (fun it => it.2) ++ [Ui64Type],
     (data.enum.filter fun it => !keyColumnsSet.contains it.1).map fun it => it.2)
  else (data, [])

/-- A fresh payload storage for the given payload item types. -/
def TExternalPayloadStorage.construct (payloadItemTypes : List TType) (nonClearable : Bool) :
    TExternalPayloadStorage :=
  { PayloadColumnsStorage := [], NumColumns := payloadItemTypes.length,
    NonClearable := nonClearable, IndirectionIndexes := [] }

/-- `vector.reserve(n)` on the overflow buffer of a pack result. -/
def PackResult.reserveOverflow (p : PackResult) (n : Nat) : PackResult :=
  { p with OverflowCapacity := max p.OverflowCapacity n }

/-- The swap decision of `THashJoin::THashJoin`. -/
def THashJoin.wasSwapped (ts : TTempJoinStorage) : Bool :=
  (!ts.LeftIsFinished && ts.RightIsFinished) ||
    (ts.LeftIsFinished && ts.RightIsFinished &&
      decide (ts.LeftFetchedTuples > ts.RightFetchedTuples))

/-- `THashJoin::THashJoin`. -/
def THashJoin.construct (ctx : TComputationContext) (resultItemTypes : List TType)
    (leftItemTypesArg : List TType) (leftKeyColumns : List Nat) (leftIOMap : List Nat)
    (rightItemTypesArg : List TType) (rightKeyColumns : List Nat) (rightIOMap : List Nat)
    (policy : IBlockGraceJoinPolicy) (tempStorage : TTempJoinStorage) :
    Except TFailure THashJoin := do
  let (_, rightFetchedTuples) := tempStorage.GetFetchedTuples
  let (leftPSz0, rightPSz0) := tempStorage.GetPayloadSizes
  let cardinality := tempStorage.EstimateCardinality ctx
  let (leftData0, rightData0) := tempStorage.DetachData
  let wasSwapped := THashJoin.wasSwapped tempStorage
  let probeStream := if wasSwapped then tempStorage.LeftStream else tempStorage.RightStream
  let (leftData, rightData) := if wasSwapped then (rightData0, leftData0) else (leftData0, rightData0)
  let (buildItemTypesArg, probeItemTypesArg) :=
    if wasSwapped then (rightItemTypesArg, leftItemTypesArg)
    else (leftItemTypesArg, rightItemTypesArg)
  let (buildKeyColumns, probeKeyColumns) :=
    if wasSwapped then (rightKeyColumns, leftKeyColumns) else (leftKeyColumns, rightKeyColumns)
  let (leftPSz, rightPSz) := if wasSwapped then (rightPSz0, leftPSz0) else (leftPSz0, rightPSz0)
  if cardinality = 0 then throw (TFailure.Undefined "rightFetchedTuples / cardinality")
  let isBuildIndirected :=
    policy.UseExternalPayload EJoinAlgo.HashJoin leftPSz (rightFetchedTuples / cardinality)
  let isProbeIndirected :=
    policy.UseExternalPayload EJoinAlgo.HashJoin rightPSz (rightFetchedTuples / cardinality)
  let (leftItemTypes, leftPayloadItemTypes) :=
    splitItemTypes isBuildIndirected buildItemTypesArg buildKeyColumns
  let buildStorage :=
    if isBuildIndirected then some (TExternalPayloadStorage.construct leftPayloadItemTypes true)
    else none
  let buildRoles ← match makeRoles leftItemTypes.length buildKeyColumns with
    | some roles => pure roles
    | none => throw (TFailure.Undefined "buildRoles[keyCol]")
  let buildConverter := ctx.MakeBlockLayoutConverter leftItemTypes buildRoles
  let (rightItemTypes, rightPayloadItemTypes) :=
    splitItemTypes isProbeIndirected probeItemTypesArg probeKeyColumns
  let probeStorage :=
    if isProbeIndirected then some (TExternalPayloadStorage.construct rightPayloadItemTypes false)
    else none
  let probeRoles ← match makeRoles rightItemTypes.length probeKeyColumns with
    | some roles => pure roles
    | none => throw (TFailure.Undefined "probeRoles[keyCol]")
  let probeConverter := ctx.MakeBlockLayoutConverter rightItemTypes probeRoles
  let joinState0 := TJoinState.construct resultItemTypes.length
    (ctx.CalcMaxBlockLength resultItemTypes % UI32) leftIOMap rightIOMap wasSwapped
  let nTuplesBuild := (leftData.map fun block => block.Size).sum
  let nTuplesProbe := ctx.CalcMaxBlockLength rightItemTypes * 4
  let joinState :=
    { joinState0 with
      BuildPackedInput := joinState0.BuildPackedInput.reserveOverflow
        (CalculateExpectedOverflowSize buildConverter.Layout nTuplesBuild)
      ProbePackedInput := joinState0.ProbePackedInput.reserveOverflow
        (CalculateExpectedOverflowSize probeConverter.Layout nTuplesProbe) }
  pure
    { BuildData := leftData, BuildKeyColumns := buildKeyColumns,
      BuildKeyColumnsSet := buildKeyColumns, IsBuildIndirected := isBuildIndirected,
      ProbeStream := probeStream, ProbeInputs := probeItemTypesArg.length,
      ProbeData := rightData, ProbeKeyColumns := probeKeyColumns,
      ProbeKeyColumnsSet := probeKeyColumns, IsProbeIndirected := isProbeIndirected,
      Objects :=
        { BuildConverter := buildConverter, ProbeConverter := probeConverter,
          BuildPayloadStorage := buildStorage, ProbePayloadStorage := probeStorage },
      JoinState := joinState,
      Table := { Find := fun _ _ => [] },
      IsFinished := false }

/-- The loop of `THashJoin::BuildIndex` over `BuildData_`. -/
def THashJoin.packBuildData (isIndirected : Bool) (keyColumnsSet : List Nat)
    (converter : IBlockLayoutConverter) :
    List TBlock → PackResult × Option TExternalPayloadStorage →
      Except TFailure (PackResult × Option TExternalPayloadStorage)
  | [], acc => pure acc
  | block :: rest, (packed, storage) =>
    if isIndirected then
      match storage with
      | none => throw (TFailure.Undefined "*payloadStorage")
      | some st =>
        let split := TExternalPayloadStorage.SplitBlock block st keyColumnsSet
        THashJoin.packBuildData isIndirected keyColumnsSet converter rest
          (converter.Pack split.1.1.Columns packed, some (split.2.AddBlock split.1.2))
    else
      THashJoin.packBuildData isIndirected keyColumnsSet converter rest
        (converter.Pack block.Columns packed, storage)

/-- `THashJoin::BuildIndex`. -/
def THashJoin.BuildIndex (ctx : TComputationContext) (hj : THashJoin) :
    Except TFailure THashJoin := do
  let (packed, storage) ←
    THashJoin.packBuildData hj.IsBuildIndirected hj.BuildKeyColumnsSet hj.Objects.BuildConverter
      hj.BuildData (hj.JoinState.BuildPackedInput, hj.Objects.BuildPayloadStorage)
  pure
    { hj with
      BuildData := []
      JoinState := { hj.JoinState with BuildPackedInput := packed }
      Objects := { hj.Objects with BuildPayloadStorage := storage }
      Table := ctx.BuildTable hj.Objects.BuildConverter.Layout packed }

/-- `THashJoin::PackNextProbeBlock`. -/
def THashJoin.PackNextProbeBlock (hj : THashJoin) : Except TFailure THashJoin :=
  match hj.ProbeData with
  | [] => throw (TFailure.Undefined "ProbeData_.front()")
  | block :: rest =>
    if hj.IsProbeIndirected then
      match hj.Objects.ProbePayloadStorage with
      | none => throw (TFailure.Undefined "*payloadStorage")
      | some st =>
        let split := TExternalPayloadStorage.SplitBlock block st hj.ProbeKeyColumnsSet
        pure
          { hj with
            JoinState :=
              { hj.JoinState with
                ProbePackedInput :=
                  hj.Objects.ProbeConverter.Pack split.1.1.Columns hj.JoinState.ProbePackedInput }
            Objects :=
              { hj.Objects with ProbePayloadStorage := some (split.2.AddBlock split.1.2) }
            ProbeData := rest }
    else
      pure
        { hj with
          JoinState :=
            { hj.JoinState with
              ProbePackedInput :=
                hj.Objects.ProbeConverter.Pack block.Columns hj.JoinState.ProbePackedInput }
          ProbeData := rest }

/-- How the `while` loop of `THashJoin::DoProbe` ends: by `return Yield`, or by
leaving the loop with the last fetch status. -/
inductive TProbeLoopEnd where
  | Yielded (hj : THashJoin)
  | Left (status : EFetchStatus) (hj : THashJoin)

/-- How one iteration of the loop of `THashJoin::DoProbe` ends: `return Yield`,
`break`, or the end of the body with the new `status`. -/
inductive TProbeStep where
  | Yield (hj : THashJoin)
  | Break (status : EFetchStatus) (hj : THashJoin)
  | Next (status : EFetchStatus) (hj : THashJoin)

/-- The hash join at the end of one iteration. -/
def TProbeStep.join : TProbeStep → THashJoin
  | TProbeStep.Yield hj => hj
  | TProbeStep.Break _ hj => hj
  | TProbeStep.Next _ hj => hj

/-- The hash join at the end of the loop. -/
def TProbeLoopEnd.join : TProbeLoopEnd → THashJoin
  | TProbeLoopEnd.Yielded hj => hj
  | TProbeLoopEnd.Left _ hj => hj

/-- `if (!IsFinished_) status = ProbeStream_.WideFetch(...)`: the new status,
the fetched block if the answer was `Ok`, and the join with its stream advanced. -/
def THashJoin.fetchProbe (status : EFetchStatus) (hj : THashJoin) :
    EFetchStatus × Option TBlock × THashJoin :=
  if hj.IsFinished then (status, none, hj)
  else
    match hj.ProbeStream.WideFetch with
    | (TFetched.Ok block, rest) => (EFetchStatus.Ok, some block, { hj with ProbeStream := rest })
    | (TFetched.Yield, rest) => (EFetchStatus.Yield, none, { hj with ProbeStream := rest })
    | (TFetched.Finish, rest) => (EFetchStatus.Finish, none, { hj with ProbeStream := rest })

/-- The lookup of the packed probe block and the clearing of the packed probe
tuples that ends the loop body. -/
def THashJoin.lookupAndClear (hj : THashJoin) : THashJoin :=
  let js := THashJoin.DoBatchLookup hj.Table hj.Objects.BuildConverter.Layout
    hj.Objects.ProbeConverter.Layout hj.JoinState
  { hj with
    JoinState :=
      { js with ProbePackedInput := { js.ProbePackedInput with PackedTuples := [], NTuples := 0 } } }

/-- `if (status == Finish) IsFinished_ = true`. -/
def THashJoin.markFinished (status : EFetchStatus) (hj : THashJoin) : THashJoin :=
  if status = EFetchStatus.Finish then { hj with IsFinished := true } else hj

/-- `if (status == Ok) ProbeData_.emplace_back(fetchedBlock)`. -/
def THashJoin.cacheFetched (status : EFetchStatus) (fetched : Option TBlock) (hj : THashJoin) :
    THashJoin :=
  if status = EFetchStatus.Ok then
    match fetched with
    | some fetchedBlock => { hj with ProbeData := hj.ProbeData ++ [fetchedBlock] }
    | none => hj
  else hj

/-- The loop body of `THashJoin::DoProbe` after the fetch gave `status` and,
on `Ok`, the block `fetched`. -/
def THashJoin.afterFetch (status : EFetchStatus) (fetched : Option TBlock) (hj : THashJoin) :
    Except TFailure TProbeStep :=
  if status = EFetchStatus.Yield ∧ hj.ProbeData = [] then pure (TProbeStep.Yield hj)
  else if status = EFetchStatus.Finish ∧ (hj.markFinished status).ProbeData = [] then
    pure (TProbeStep.Break status (hj.markFinished status))
  else
    match ((hj.markFinished status).cacheFetched status fetched).PackNextProbeBlock with
    | Except.error e => throw e
    | Except.ok packed => pure (TProbeStep.Next status packed.lookupAndClear)

/-- The body of the loop of `THashJoin::DoProbe`. -/
def THashJoin.probeStep (status : EFetchStatus) (hj : THashJoin) : Except TFailure TProbeStep :=
  THashJoin.afterFetch (hj.fetchProbe status).1 (hj.fetchProbe status).2.1
    (hj.fetchProbe status).2.2

/-- The `while (IsNotFull() && HasEnoughMemory())` loop of `THashJoin::DoProbe`,
entered with the current value of `status`. -/
def THashJoin.probeLoop : Nat → EFetchStatus → THashJoin → Except TFailure TProbeLoopEnd
  | 0, _, _ => throw TFailure.OutOfFuel
  | fuel + 1, status, hj =>
    if hj.JoinState.IsNotFull && hj.JoinState.HasEnoughMemory then
      match hj.probeStep status with
      | Except.error e => throw e
      | Except.ok (TProbeStep.Yield hj1) => pure (TProbeLoopEnd.Yielded hj1)
      | Except.ok (TProbeStep.Break status1 hj1) => pure (TProbeLoopEnd.Left status1 hj1)
      | Except.ok (TProbeStep.Next status1 hj1) => THashJoin.probeLoop fuel status1 hj1
    else pure (TProbeLoopEnd.Left status hj)

/-- The part of `THashJoin::DoProbe` after the loop. -/
def THashJoin.finishProbe (status : EFetchStatus) (hj : THashJoin) :
    Except TFailure (EFetchStatus × THashJoin) :=
  if hj.JoinState.OutputRows = 0 then
    if status = EFetchStatus.Finish then
      let r := hj.JoinState.ResetInput hj.Objects
      pure (EFetchStatus.Finish, { hj with JoinState := r.1.ResetOutput, Objects := r.2 })
    else throw (TFailure.Exception "status == NUdf::EFetchStatus::Finish")
  else
    let made := hj.JoinState.MakeBlocks hj.Objects
    let r := made.ResetInput hj.Objects
    pure (EFetchStatus.Ok, { hj with JoinState := r.1.ResetOutput, Objects := r.2 })

/-- `THashJoin::DoProbe`.  The loop bound is the number of upstream answers and
buffered blocks still to be consumed, which every iteration but the last
decreases. -/
def THashJoin.DoProbe (hj : THashJoin) : Except TFailure (EFetchStatus × THashJoin) :=
  if hj.JoinState.HasBlocks then pure (EFetchStatus.Ok, hj)
  else
    match THashJoin.probeLoop (hj.ProbeStream.length + hj.ProbeData.length + 2)
        EFetchStatus.Finish hj with
    | Except.error e => throw e
    | Except.ok (TProbeLoopEnd.Yielded hj1) => pure (EFetchStatus.Yield, hj1)
    | Except.ok (TProbeLoopEnd.Left status hj1) => THashJoin.finishProbe status hj1

/-- `THashJoin::FillOutput`: the block held by the join state is handed out
(whole) and no block remains. -/
def THashJoin.FillOutput (hj : THashJoin) : List TValue × THashJoin :=
  (hj.JoinState.Values, { hj with JoinState := { hj.JoinState with Count := 0 } })

/-! ## `TInMemoryGraceJoin` -/

/-- `L2_CACHE_SIZE`. -/
def L2_CACHE_SIZE : Nat := 256 * 1024

/-- The number of significant bits of `x`, by halving at most `fuel` times. -/
def bitLength.go : Nat → Nat → Nat
  | 0, _ => 0
  | fuel + 1, x => if x = 0 then 0 else bitLength.go fuel (x / 2) + 1

/-- `sizeof(size_t) * 8 - std::countl_zero(x)`: the number of significant bits. -/
def bitLength (x : Nat) : Nat := bitLength.go x x

/-- `TInMemoryGraceJoin`.  `Objects` holds `LeftConverter_` and `RightConverter_`
(as build and probe converter of the join state, which is constructed not
swapped) and the two external payload storages. -/
structure TInMemoryGraceJoin where
  Objects : TJoinObjects
  BucketsLogNum : Nat
  LeftBuckets : List PackResult
  RightBuckets : List PackResult
  JoinState : TJoinState
  Table : TTable
  CurrBucket : Nat
  CurrProbeRow : Nat
  NeedNextBucket : Bool

/-- The loops of the constructor that bucket-pack the buffered blocks of one
side. -/
def TInMemoryGraceJoin.packBuckets (isIndirected : Bool) (keyColumnsSet : List Nat)
    (converter : IBlockLayoutConverter) (logBuckets : Nat) :
    List TBlock → List PackResult × Option TExternalPayloadStorage →
      Except TFailure (List PackResult × Option TExternalPayloadStorage)
  | [], acc => pure acc
  | block :: rest, (buckets, storage) =>
    if isIndirected then
      match storage with
      | none => throw (TFailure.Undefined "*payloadStorage")
      | some st =>
        let split := TExternalPayloadStorage.SplitBlock block st keyColumnsSet
        TInMemoryGraceJoin.packBuckets isIndirected keyColumnsSet converter logBuckets rest
          (converter.BucketPack split.1.1.Columns buckets logBuckets,
            some (split.2.AddBlock split.1.2))
    else
      TInMemoryGraceJoin.packBuckets isIndirected keyColumnsSet converter logBuckets rest
        (converter.BucketPack block.Columns buckets logBuckets, storage)

/-- `BucketsLogNum_` as the constructor computes it from the two packed sizes. -/
def bucketsLogNum (leftTupleSize rightTupleSize : Nat) : Nat :=
  let minTupleSize := min leftTupleSize rightTupleSize
  let bucketDesiredSize := 4 * L2_CACHE_SIZE
  if minTupleSize ≠ 0 then bitLength ((minTupleSize - 1) / bucketDesiredSize) else 0

/-- `TInMemoryGraceJoin::TInMemoryGraceJoin`. -/
def TInMemoryGraceJoin.construct (ctx : TComputationContext) (resultItemTypes : List TType)
    (leftItemTypesArg : List TType) (leftKeyColumns : List Nat) (leftIOMap : List Nat)
    (rightItemTypesArg : List TType) (rightKeyColumns : List Nat) (rightIOMap : List Nat)
    (policy : IBlockGraceJoinPolicy) (tempStorage : TTempJoinStorage) :
    Except TFailure TInMemoryGraceJoin := do
  let (leftPSz, rightPSz) := tempStorage.GetPayloadSizes
  let (leftFetchedTuples, rightFetchedTuples) := tempStorage.GetFetchedTuples
  let maxFetchedTuples := max leftFetchedTuples rightFetchedTuples
  let cardinality := tempStorage.EstimateCardinality ctx
  let (leftData, rightData) := tempStorage.DetachData
  let leftRowsNum := (leftData.map fun block => block.Size).sum
  let rightRowsNum := (rightData.map fun block => block.Size).sum
  if cardinality = 0 then throw (TFailure.Undefined "maxFetchedTuples / cardinality")
  let isLeftIndirected :=
    policy.UseExternalPayload EJoinAlgo.InMemoryGraceJoin leftPSz (maxFetchedTuples / cardinality)
  let isRightIndirected :=
    policy.UseExternalPayload EJoinAlgo.InMemoryGraceJoin rightPSz (maxFetchedTuples / cardinality)
  let (leftItemTypes, leftPayloadItemTypes) :=
    splitItemTypes isLeftIndirected leftItemTypesArg leftKeyColumns
  let leftStorage :=
    if isLeftIndirected then some (TExternalPayloadStorage.construct leftPayloadItemTypes true)
    else none
  let leftRoles ← match makeRoles leftItemTypes.length leftKeyColumns with
    | some roles => pure roles
    | none => throw (TFailure.Undefined "leftRoles[keyCol]")
  let leftConverter := ctx.MakeBlockLayoutConverter leftItemTypes leftRoles
  let (rightItemTypes, rightPayloadItemTypes) :=
    splitItemTypes isRightIndirected rightItemTypesArg rightKeyColumns
  let rightStorage :=
    if isRightIndirected then some (TExternalPayloadStorage.construct rightPayloadItemTypes true)
    else none
  let rightRoles ← match makeRoles rightItemTypes.length rightKeyColumns with
    | some roles => pure roles
    | none => throw (TFailure.Undefined "rightRoles[keyCol]")
  let rightConverter := ctx.MakeBlockLayoutConverter rightItemTypes rightRoles
  let logNum := bucketsLogNum (leftRowsNum * leftConverter.Layout.TotalRowSize)
    (rightRowsNum * rightConverter.Layout.TotalRowSize)
  if 32 ≤ logNum then throw (TFailure.Undefined "1u << BucketsLogNum_")
  let leftOverflowSizeEst :=
    CalculateExpectedOverflowSize leftConverter.Layout (leftRowsNum >>> logNum)
  let rightOverflowSizeEst :=
    CalculateExpectedOverflowSize rightConverter.Layout (rightRowsNum >>> logNum)
  let leftBuckets0 :=
    List.replicate (2 ^ logNum) (PackResult.empty.reserveOverflow leftOverflowSizeEst)
  let rightBuckets0 :=
    List.replicate (2 ^ logNum) (PackResult.empty.reserveOverflow rightOverflowSizeEst)
  let joinState := TJoinState.construct resultItemTypes.length
    (ctx.CalcMaxBlockLength resultItemTypes % UI32) leftIOMap rightIOMap false
  let (leftBuckets, leftStorage1) ←
    TInMemoryGraceJoin.packBuckets isLeftIndirected leftKeyColumns leftConverter logNum
      leftData (leftBuckets0, leftStorage)
  let (rightBuckets, rightStorage1) ←
    TInMemoryGraceJoin.packBuckets isRightIndirected rightKeyColumns rightConverter logNum
      rightData (rightBuckets0, rightStorage)
  pure
    { Objects :=
        { BuildConverter := leftConverter, ProbeConverter := rightConverter,
          BuildPayloadStorage := leftStorage1, ProbePayloadStorage := rightStorage1 },
      BucketsLogNum := logNum, LeftBuckets := leftBuckets, RightBuckets := rightBuckets,
      JoinState := joinState, Table := { Find := fun _ _ => [] },
      CurrBucket := 0, CurrProbeRow := 0, NeedNextBucket := true }

/-- A pack result after `std::move` took its buffers. -/
def PackResult.movedFrom (p : PackResult) : PackResult :=
  { p with PackedTuples := [], Overflow := [], OverflowCapacity := 0 }

/-- `TInMemoryGraceJoin::BuildIndex`. -/
def TInMemoryGraceJoin.BuildIndex (ctx : TComputationContext) (g : TInMemoryGraceJoin) :
    Except TFailure TInMemoryGraceJoin :=
  match g.LeftBuckets[g.CurrBucket]?, g.RightBuckets[g.CurrBucket]? with
  | some leftPack, some rightPack =>
    let moved :=
      { g with
        LeftBuckets := g.LeftBuckets.set g.CurrBucket leftPack.movedFrom
        RightBuckets := g.RightBuckets.set g.CurrBucket rightPack.movedFrom }
    if leftPack.NTuples < rightPack.NTuples then
      pure
        { moved with
          JoinState :=
            { g.JoinState.SetSwapped false with
              BuildPackedInput := leftPack, ProbePackedInput := rightPack }
          Table := ctx.BuildTable g.Objects.BuildConverter.Layout leftPack }
    else
      pure
        { moved with
          JoinState :=
            { g.JoinState.SetSwapped true with
              BuildPackedInput := rightPack, ProbePackedInput := leftPack }
          Table := ctx.BuildTable g.Objects.ProbeConverter.Layout rightPack }
  | _, _ => throw (TFailure.Undefined "Buckets_[CurrBucket_]")

/-- The loop `for (; CurrProbeRow_ < nTuples && IsNotFull(); CurrProbeRow_ += batchSize)`
of `TInMemoryGraceJoin::DoBatchLookup`: `currProbeRow` is the `ui32` member,
`row` the row the `tuple` pointer stands at. -/
def TInMemoryGraceJoin.lookupLoop (table : TTable) (buildLayout probeLayout : TTupleLayout)
    (nTuples : Nat) : Nat → Nat → Nat → TJoinState → Except TFailure (Nat × TJoinState)
  | 0, _, _, _ => throw TFailure.OutOfFuel
  | fuel + 1, currProbeRow, row, js =>
    if currProbeRow < nTuples ∧ js.IsNotFull = true then
      let remaining := min batchSize (nTuples - currProbeRow)
      TInMemoryGraceJoin.lookupLoop table buildLayout probeLayout nTuples fuel
        ((currProbeRow + batchSize) % UI32) (row + remaining)
        (lookupBatch table buildLayout probeLayout row remaining js)
    else pure (currProbeRow, js)

/-- `buildLayout` of `TInMemoryGraceJoin::DoBatchLookup`: the right converter's
layout when swapped, the left one's otherwise. -/
def TInMemoryGraceJoin.buildLayout (g : TInMemoryGraceJoin) : TTupleLayout :=
  if g.JoinState.GetSwapped then g.Objects.ProbeConverter.Layout
  else g.Objects.BuildConverter.Layout

/-- `probeLayout` of `TInMemoryGraceJoin::DoBatchLookup`. -/
def TInMemoryGraceJoin.probeLayout (g : TInMemoryGraceJoin) : TTupleLayout :=
  if g.JoinState.GetSwapped then g.Objects.BuildConverter.Layout
  else g.Objects.ProbeConverter.Layout

/-- The end of `TInMemoryGraceJoin::DoBatchLookup`: with the probe rows used up,
ask for the next bucket. -/
def TInMemoryGraceJoin.afterLookup (g : TInMemoryGraceJoin) (currProbeRow : Nat)
    (js : TJoinState) : TInMemoryGraceJoin :=
  if currProbeRow ≥ g.JoinState.ProbePackedInput.NTuples then
    { g with JoinState := js, NeedNextBucket := true,
             CurrBucket := (g.CurrBucket + 1) % UI32, CurrProbeRow := 0 }
  else { g with JoinState := js, CurrProbeRow := currProbeRow }

/-- `TInMemoryGraceJoin::DoBatchLookup`. -/
def TInMemoryGraceJoin.DoBatchLookup (g : TInMemoryGraceJoin) :
    Except TFailure TInMemoryGraceJoin :=
  match TInMemoryGraceJoin.lookupLoop g.Table g.buildLayout g.probeLayout
      g.JoinState.ProbePackedInput.NTuples (g.JoinState.ProbePackedInput.NTuples + 1)
      g.CurrProbeRow g.CurrProbeRow g.JoinState with
  | Except.error e => throw e
  | Except.ok (currProbeRow, js) => pure (g.afterLookup currProbeRow js)

/-- The part of `TInMemoryGraceJoin::DoProbe` from `MakeBlocks` on. -/
def TInMemoryGraceJoin.emitBlock (g : TInMemoryGraceJoin) : EFetchStatus × TInMemoryGraceJoin :=
  let made := g.JoinState.MakeBlocks g.Objects
  if g.NeedNextBucket then
    let r := made.ResetInput g.Objects
    (EFetchStatus.Ok, { g with JoinState := r.1.ResetOutput, Objects := r.2 })
  else (EFetchStatus.Ok, { g with JoinState := made.ResetOutput })

/-- `if (NeedNextBucket_) { NeedNextBucket_ = false; BuildIndex(joinState); }`. -/
def TInMemoryGraceJoin.loadBucket (ctx : TComputationContext) (g : TInMemoryGraceJoin) :
    Except TFailure TInMemoryGraceJoin :=
  if g.NeedNextBucket then TInMemoryGraceJoin.BuildIndex ctx { g with NeedNextBucket := false }
  else pure g

/-- The work of one `TInMemoryGraceJoin::DoProbe` activation between the
`HasBlocks` check and the test of `OutputRows`: load the next bucket if asked
for, then look up. -/
def TInMemoryGraceJoin.lookupStep (ctx : TComputationContext) (g : TInMemoryGraceJoin) :
    Except TFailure TInMemoryGraceJoin :=
  match g.loadBucket ctx with
  | Except.error e => throw e
  | Except.ok g1 => g1.DoBatchLookup

/-- How `TInMemoryGraceJoin::DoProbe` goes on after its lookups: it returns
`Finish`, it returns `Ok` for a block it still holds, or it has rows and calls
`MakeBlocks`. -/
inductive TGraceProbeEnd where
  | Finished (g : TInMemoryGraceJoin)
  | HoldsBlocks (g : TInMemoryGraceJoin)
  | Emits (g : TInMemoryGraceJoin)

/-- `TInMemoryGraceJoin::DoProbe` up to the call of `MakeBlocks`; `fuel` bounds
the depth of the self-call `return DoProbe()`. -/
def TInMemoryGraceJoin.probeCore (ctx : TComputationContext) :
    Nat → TInMemoryGraceJoin → Except TFailure TGraceProbeEnd
  | 0, _ => throw TFailure.OutOfFuel
  | fuel + 1, g =>
    if g.CurrBucket >>> g.BucketsLogNum ≠ 0 then pure (TGraceProbeEnd.Finished g)
    else if g.JoinState.HasBlocks then pure (TGraceProbeEnd.HoldsBlocks g)
    else
      match g.lookupStep ctx with
      | Except.error e => throw e
      | Except.ok g2 =>
        if g2.JoinState.OutputRows = 0 then TInMemoryGraceJoin.probeCore ctx fuel g2
        else pure (TGraceProbeEnd.Emits g2)

/-- `TInMemoryGraceJoin::DoProbe`. -/
def TInMemoryGraceJoin.DoProbe (ctx : TComputationContext) (fuel : Nat)
    (g : TInMemoryGraceJoin) : Except TFailure (EFetchStatus × TInMemoryGraceJoin) :=
  match TInMemoryGraceJoin.probeCore ctx fuel g with
  | Except.error e => throw e
  | Except.ok (TGraceProbeEnd.Finished g1) => pure (EFetchStatus.Finish, g1)
  | Except.ok (TGraceProbeEnd.HoldsBlocks g1) => pure (EFetchStatus.Ok, g1)
  | Except.ok (TGraceProbeEnd.Emits g1) => pure g1.emitBlock

/-- `TInMemoryGraceJoin::FillOutput`: the block held by the join state is handed
out (whole) and no block remains. -/
def TInMemoryGraceJoin.FillOutput (g : TInMemoryGraceJoin) : List TValue × TInMemoryGraceJoin :=
  (g.JoinState.Values, { g with JoinState := { g.JoinState with Count := 0 } })

/-! ## `TStreamValue` -/

/-- `TStreamValue::EMode`. -/
inductive EMode where
  | Start
  | HashJoin
  | InMemoryGraceJoin
  | GraceHashJoin
  deriving DecidableEq, Repr

/-- The value of `Join_`: empty, a hash join or an in-memory grace join. -/
inductive TJoin where
  | Empty
  | Hash (join : THashJoin)
  | Grace (join : TInMemoryGraceJoin)

/-- `TStreamValue`. -/
structure TStreamValue where
  Mode : EMode
  ResultItemTypes : List TType
  LeftItemTypes : List TType
  LeftKeyColumns : List Nat
  LeftIOMap : List Nat
  RightItemTypes : List TType
  RightKeyColumns : List Nat
  RightIOMap : List Nat
  Policy : IBlockGraceJoinPolicy
  TempStorage : Option TTempJoinStorage
  Join : TJoin

/-- `TStreamValue::TStreamValue`. -/
def TStreamValue.construct (ctx : TComputationContext) (resultItemTypes : List TType)
    (leftStream : TStream) (leftItemTypes : List TType) (leftKeyColumns leftIOMap : List Nat)
    (rightStream : TStream) (rightItemTypes : List TType) (rightKeyColumns rightIOMap : List Nat)
    (policy : IBlockGraceJoinPolicy) : Except TFailure TStreamValue := do
  let tempStorage ← TTempJoinStorage.construct ctx leftItemTypes leftKeyColumns leftStream
    rightItemTypes rightKeyColumns rightStream policy
  pure
    { Mode := EMode.Start, ResultItemTypes := resultItemTypes,
      LeftItemTypes := leftItemTypes, LeftKeyColumns := leftKeyColumns, LeftIOMap := leftIOMap,
      RightItemTypes := rightItemTypes, RightKeyColumns := rightKeyColumns,
      RightIOMap := rightIOMap, Policy := policy,
      TempStorage := some tempStorage, Join := TJoin.Empty }

/-- How the bootstrap loop of `WideFetch` ends: by `return Yield`, or with a
status other than `Unknown`. -/
inductive TBootstrapEnd where
  | Yielded (ts : TTempJoinStorage)
  | Decided (status : EStatus) (ts : TTempJoinStorage)

/-- The loop `while (status == EStatus::Unknown)` of the `Start` case. -/
def TStreamValue.bootstrapLoop (ctx : TComputationContext) :
    Nat → TTempJoinStorage → Except TFailure TBootstrapEnd
  | 0, _ => throw TFailure.OutOfFuel
  | fuel + 1, ts =>
    match ts.FetchStreams ctx with
    | Except.error e => throw e
    | Except.ok (fetchStatus, ts1) =>
      if fetchStatus = EFetchStatus.Yield then pure (TBootstrapEnd.Yielded ts1)
      else if ts1.GetStatus = EStatus.Unknown then TStreamValue.bootstrapLoop ctx fuel ts1
      else pure (TBootstrapEnd.Decided ts1.GetStatus ts1)

/-- `TStreamValue::MakeHashJoin` followed by `BuildIndex` and the switch to
`EMode::HashJoin`. -/
def TStreamValue.startHashJoin (ctx : TComputationContext) (sv : TStreamValue)
    (ts : TTempJoinStorage) : Except TFailure TStreamValue := do
  let hashJoin ← THashJoin.construct ctx sv.ResultItemTypes sv.LeftItemTypes sv.LeftKeyColumns
    sv.LeftIOMap sv.RightItemTypes sv.RightKeyColumns sv.RightIOMap sv.Policy ts
  let built ← hashJoin.BuildIndex ctx
  pure { sv with Mode := EMode.HashJoin, TempStorage := none, Join := TJoin.Hash built }

/-- `TStreamValue::MakeInMemoryGraceJoin` and the switch to
`EMode::InMemoryGraceJoin`. -/
def TStreamValue.startInMemoryGraceJoin (ctx : TComputationContext) (sv : TStreamValue)
    (ts : TTempJoinStorage) : Except TFailure TStreamValue := do
  let join ← TInMemoryGraceJoin.construct ctx sv.ResultItemTypes sv.LeftItemTypes
    sv.LeftKeyColumns sv.LeftIOMap sv.RightItemTypes sv.RightKeyColumns sv.RightIOMap sv.Policy ts
  pure { sv with Mode := EMode.InMemoryGraceJoin, TempStorage := none, Join := TJoin.Grace join }

/-- The tuple counts `WideFetch` hands to `PickAlgorithm` on `OneStreamFinished`:
`STREAM_NOT_FETCHED` replaces the left count when the left stream is not
finished, and the right count otherwise. -/
def TStreamValue.oneStreamTuples (sv : TStreamValue) (ts : TTempJoinStorage) : Nat × Nat :=
  let (lTuples, rTuples) := ts.GetFetchedTuples
  let (isLeftFinished, _) := ts.IsFinished
  if !isLeftFinished then (sv.Policy.STREAM_NOT_FETCHED, rTuples)
  else (lTuples, sv.Policy.STREAM_NOT_FETCHED)

/-- The `switch (status)` of the `Start` case of `WideFetch`: the operator after
the mode switch. -/
def TStreamValue.switchMode (ctx : TComputationContext) (sv : TStreamValue) :
    EStatus → TTempJoinStorage → Except TFailure TStreamValue
  | EStatus.BothStreamsFinished, ts =>
    if sv.Policy.PickAlgorithm ts.GetFetchedTuples.1 ts.GetFetchedTuples.2 =
        EJoinAlgo.HashJoin then
      TStreamValue.startHashJoin ctx sv ts
    else TStreamValue.startInMemoryGraceJoin ctx sv ts
  | EStatus.OneStreamFinished, ts =>
    if sv.Policy.PickAlgorithm (sv.oneStreamTuples ts).1 (sv.oneStreamTuples ts).2 =
        EJoinAlgo.HashJoin then
      TStreamValue.startHashJoin ctx sv ts
    else throw (TFailure.Exception "Grace hash join not implemented yet")
  | EStatus.MemoryLimitExceeded, _ =>
    throw (TFailure.Exception "Grace hash join not implemented yet")
  | EStatus.Unknown, _ => throw (TFailure.Undefined "Y_UNREACHABLE")

/-- The `Start` case of `WideFetch` up to `goto switch_mode`: the operator after
the mode switch, or `Yield` with the operator still in `Start`. -/
def TStreamValue.start (ctx : TComputationContext) (fuel : Nat) (sv : TStreamValue) :
    Except TFailure (Option EFetchStatus × TStreamValue) :=
  match sv.TempStorage with
  | none => throw (TFailure.Undefined "*GetTempState()")
  | some tempStorage =>
    match TStreamValue.bootstrapLoop ctx fuel tempStorage with
    | Except.error e => throw e
    | Except.ok (TBootstrapEnd.Yielded ts) =>
      pure (some EFetchStatus.Yield, { sv with TempStorage := some ts })
    | Except.ok (TBootstrapEnd.Decided status ts) =>
      (sv.switchMode ctx status ts).map fun sv1 => (none, sv1)

/-- The `HashJoin` and `InMemoryGraceJoin` cases of `WideFetch`. -/
def TStreamValue.probe (ctx : TComputationContext) (sv : TStreamValue) :
    Except TFailure (EFetchStatus × List TValue × TStreamValue) :=
  match sv.Mode, sv.Join with
  | EMode.HashJoin, TJoin.Hash hashJoin =>
    match hashJoin.DoProbe with
    | Except.error e => throw e
    | Except.ok (status, hj1) =>
      if status = EFetchStatus.Ok then
        pure (status, hj1.FillOutput.1, { sv with Join := TJoin.Hash hj1.FillOutput.2 })
      else pure (status, [], { sv with Join := TJoin.Hash hj1 })
  | EMode.InMemoryGraceJoin, TJoin.Grace join =>
    match TInMemoryGraceJoin.DoProbe ctx (2 ^ join.BucketsLogNum + 2) join with
    | Except.error e => throw e
    | Except.ok (status, g1) =>
      if status = EFetchStatus.Ok then
        pure (status, g1.FillOutput.1, { sv with Join := TJoin.Grace g1.FillOutput.2 })
      else pure (status, [], { sv with Join := TJoin.Grace g1 })
  | EMode.GraceHashJoin, _ => throw (TFailure.Exception "Grace hash join not implemented yet")
  | _, _ => throw (TFailure.Undefined "Join_")

/-- `TStreamValue::WideFetch`: the status, the output values written on `Ok`, and
the operator afterwards.  `fuel` bounds the iterations of the bootstrap loop. -/
def TStreamValue.WideFetch (ctx : TComputationContext) (fuel : Nat) (sv : TStreamValue) :
    Except TFailure (EFetchStatus × List TValue × TStreamValue) :=
  match sv.Mode with
  | EMode.Start =>
    match TStreamValue.start ctx fuel sv with
    | Except.error e => throw e
    | Except.ok (some status, sv1) => pure (status, [], sv1)
    | Except.ok (none, sv1) => TStreamValue.probe ctx sv1
  | _ => TStreamValue.probe ctx sv

/-! ## `WrapBlockGraceJoinCore` -/

/-- `EJoinKind`; the core names `Inner` only. -/
inductive EJoinKind where
  | Inner
  | Other (raw : Nat)
  deriving DecidableEq, Repr

/-- The callable handed to `WrapBlockGraceJoinCore`, as far as the function
inspects it: the shape of the result and input stream types, and the literal
arguments.  `JoinKind` is `GetJoinKind(rawKind)`, `none` when that helper rejects
the raw value; `Policy` is the raw pointer (0 is null). -/
structure TCallable where
  InputsCount : Nat
  ReturnIsStream : Bool
  ReturnIsMulti : Bool
  JoinComponents : Nat
  LeftIsStream : Bool
  LeftIsMulti : Bool
  LeftComponents : Nat
  RightIsStream : Bool
  RightIsMulti : Bool
  RightComponents : Nat
  JoinKind : Option EJoinKind
  LeftKeyColumns : List Nat
  LeftKeyDrops : List Nat
  RightKeyColumns : List Nat
  RightKeyDrops : List Nat
  Policy : Nat
  deriving DecidableEq, Repr

/-- `TBlockGraceJoinCoreWraper`: what the node is constructed with.  The item
type vectors are kept by their sizes; `Policy` is `none` for the process default
policy. -/
structure TBlockGraceJoinCoreWraper where
  ResultItemTypes : Nat
  LeftItemTypes : Nat
  LeftKeyColumns : List Nat
  LeftIOMap : List Nat
  RightItemTypes : Nat
  RightKeyColumns : List Nat
  RightIOMap : List Nat
  Policy : Option Nat
  deriving DecidableEq, Repr

/-- `MKQL_ENSURE(condition, message)`. -/
def MKQL_ENSURE (condition : Bool) (message : String) : Except String Unit :=
  if condition then Except.ok () else Except.error message

/-- The loop building `leftIOMap` / `rightIOMap`: every index below
`streamItems - 1` that is not in the drop set, pushed as a `ui32`. -/
def makeIOMap (streamItems : Nat) (keyDrops : List Nat) : List Nat :=
  (List.range (streamItems - 1)).filterMap fun i =>
    if keyDrops.contains (i % UI32) then none else some (i % UI32)

/-- `WrapBlockGraceJoinCore`. -/
def WrapBlockGraceJoinCore (callable : TCallable) : Except String TBlockGraceJoinCoreWraper := do
  MKQL_ENSURE (callable.InputsCount == 9) "Expected 9 args"
  MKQL_ENSURE callable.ReturnIsStream "Expected WideStream as a resulting stream"
  MKQL_ENSURE callable.ReturnIsMulti "Expected Multi as a resulting item type"
  MKQL_ENSURE (decide (callable.JoinComponents > 0)) "Expected at least one column"
  MKQL_ENSURE callable.LeftIsStream "Expected WideStream as a left stream"
  MKQL_ENSURE callable.LeftIsMulti "Expected Multi as a left stream item type"
  MKQL_ENSURE (decide (callable.LeftComponents > 0)) "Expected at least one column"
  MKQL_ENSURE callable.RightIsStream "Expected WideStream as a right stream"
  MKQL_ENSURE callable.RightIsMulti "Expected Multi as a right stream item type"
  MKQL_ENSURE (decide (callable.RightComponents > 0)) "Expected at least one column"
  MKQL_ENSURE (callable.JoinKind == some EJoinKind.Inner)
    "Only inner join is supported in block grace hash join prototype"
  MKQL_ENSURE (callable.LeftKeyDrops.all fun drop => callable.LeftKeyColumns.contains drop)
    "Only key columns has to be specified in drop column set"
  MKQL_ENSURE (callable.RightKeyDrops.all fun drop => callable.RightKeyColumns.contains drop)
    "Only key columns has to be specified in drop column set"
  MKQL_ENSURE (callable.LeftKeyColumns.length == callable.RightKeyColumns.length)
    "Key columns mismatch"
  pure
    { ResultItemTypes := callable.JoinComponents
      LeftItemTypes := callable.LeftComponents
      LeftKeyColumns := callable.LeftKeyColumns
      LeftIOMap := makeIOMap callable.LeftComponents callable.LeftKeyDrops
      RightItemTypes := callable.RightComponents
      RightKeyColumns := callable.RightKeyColumns
      RightIOMap := makeIOMap callable.RightComponents callable.RightKeyDrops
      Policy := if callable.Policy = 0 then none else some callable.Policy }

/-- The well-typed part of a call: nine inputs, result and both inputs wide
streams with at least one component. -/
def TCallable.WellTyped (c : TCallable) : Prop :=
  c.InputsCount = 9 ∧ c.ReturnIsStream = true ∧ c.ReturnIsMulti = true ∧ 0 < c.JoinComponents ∧
  c.LeftIsStream = true ∧ c.LeftIsMulti = true ∧ 0 < c.LeftComponents ∧
  c.RightIsStream = true ∧ c.RightIsMulti = true ∧ 0 < c.RightComponents

instance (c : TCallable) : Decidable c.WellTyped := by
  unfold TCallable.WellTyped
  infer_instance

/-! ## A concrete converter for the examples -/

/-- Row `r` of a list of columns. -/
def rowOf (columns : List (List Nat)) (r : Nat) : List Nat :=
  columns.map fun c => c.getD r 0

/-- A converter over `numColumns` one-byte columns: a packed tuple is the row
itself, nothing goes to overflow, and rows go to the bucket numbered by the
value of column `keyColumn` modulo the bucket count. -/
def rowConverter (numColumns keyColumn : Nat) : IBlockLayoutConverter :=
  { Layout :=
      { TotalRowSize := numColumns, PayloadSize := numColumns - 1,
        Columns := List.replicate numColumns EColumnSizeType.Fixed }
    Pack := fun columns out =>
      let n := (columns.headD []).length
      { out with
        PackedTuples := out.PackedTuples ++ ((List.range n).map (rowOf columns)).flatten
        NTuples := out.NTuples + n }
    BucketPack := fun columns buckets logBuckets =>
      let n := (columns.headD []).length
      (List.range n).foldl (fun bs r =>
        let b := ((columns.getD keyColumn []).getD r 0) % 2 ^ logBuckets
        bs.modify (fun out =>
          { out with PackedTuples := out.PackedTuples ++ rowOf columns r
                     NTuples := out.NTuples + 1 }) b) buckets
    Unpack := fun packed =>
      (List.range numColumns).map fun c =>
        (List.range packed.NTuples).map fun r => packed.PackedTuples.getD (r * numColumns + c) 0 }

/-! ## Well-formedness of packed data and of the table -/

/-- A pack result holds `NTuples` rows of `rowSize` bytes. -/
def PackResult.WellFormed (rowSize : Nat) (p : PackResult) : Prop :=
  p.PackedTuples.length = p.NTuples * rowSize

/-- Every row a table returns is a row of a build input of `n` rows, and no row
is returned twice for one probe tuple. -/
def TTable.Valid (table : TTable) (n : Nat) : Prop :=
  ∀ tuple overflow, (table.Find tuple overflow).Nodup ∧ ∀ j ∈ table.Find tuple overflow, j < n

/-- Both packed outputs hold the same number `n` of tuples, which `OutputRows`
counts as a `ui32`. -/
def TJoinState.HoldsRows (js : TJoinState) (buildRowSize probeRowSize n : Nat) : Prop :=
  js.BuildPackedOutput.length = n * buildRowSize ∧
  js.ProbePackedOutput.length = n * probeRowSize ∧
  js.OutputRows = n % UI32

/-- The hash join is sound for counting rows: its packed inputs are well
formed, its table returns rows of the build input, its probe converter packs
well-formed results, and the packed outputs hold one common number of tuples. -/
def THashJoin.Sound (hj : THashJoin) : Prop :=
  (∃ n, hj.JoinState.HoldsRows hj.Objects.BuildConverter.Layout.TotalRowSize
    hj.Objects.ProbeConverter.Layout.TotalRowSize n) ∧
  hj.JoinState.BuildPackedInput.WellFormed hj.Objects.BuildConverter.Layout.TotalRowSize ∧
  hj.JoinState.ProbePackedInput.WellFormed hj.Objects.ProbeConverter.Layout.TotalRowSize ∧
  hj.Table.Valid hj.JoinState.BuildPackedInput.NTuples ∧
  (∀ columns out, out.WellFormed hj.Objects.ProbeConverter.Layout.TotalRowSize →
    (hj.Objects.ProbeConverter.Pack columns out).WellFormed
      hj.Objects.ProbeConverter.Layout.TotalRowSize)

/-! ## Sample data for the examples -/

/-- A converter like `rowConverter` over one key column with a variable-size
tail: every row also appends `tailSize` bytes to the overflow buffer, whose
capacity grows only when the buffer outgrows it. -/
def tailConverter (tailSize : Nat) : IBlockLayoutConverter :=
  { Layout :=
      { TotalRowSize := 1, PayloadSize := 0, Columns := [EColumnSizeType.Variable] }
    Pack := fun columns out =>
      let n := (columns.headD []).length
      { PackedTuples := out.PackedTuples ++ ((List.range n).map (rowOf columns)).flatten
        Overflow := out.Overflow ++ List.replicate (n * tailSize) 0
        NTuples := out.NTuples + n
        OverflowCapacity := max out.OverflowCapacity (out.Overflow.length + n * tailSize) }
    BucketPack := fun _ buckets _ => buckets
    Unpack := fun packed =>
      [(List.range packed.NTuples).map fun r => packed.PackedTuples.getD r 0] }

/-- A table that scans the build rows for an equal first byte. -/
def scanTable (layout : TTupleLayout) (packed : PackResult) : TTable :=
  { Find := fun tuple _ =>
      (List.range packed.NTuples).filter fun j =>
        (tupleAt packed.PackedTuples layout.TotalRowSize j).head? == tuple.head? }

/-- A computation context over row converters with key column 0. -/
def sampleContext : TComputationContext :=
  { MakeBlockLayoutConverter := fun itemTypes _ => rowConverter itemTypes.length 0
    CalcMaxBlockLength := fun _ => 8
    BuildTable := scanTable
    Hash := fun _ item => item + 1
    CombineHashes := fun a b => 31 * a + b
    Estimate := fun _ _ _ _ _ => 1 }

/-- A computation context over one-column converters with a ten-byte tail per
row, and blocks of at most one row. -/
def tailContext : TComputationContext :=
  { sampleContext with
    MakeBlockLayoutConverter := fun _ _ => tailConverter 10
    CalcMaxBlockLength := fun _ => 1 }

/-- A policy that always picks the hash join without indirection and lets the
bootstrap fetch `limit` bytes per side. -/
def hashJoinPolicy (limit : Nat) : IBlockGraceJoinPolicy :=
  { STREAM_NOT_FETCHED := 2 ^ 64 - 1, GetMaximumInitiallyFetchedData := limit,
    PickAlgorithm := fun _ _ => EJoinAlgo.HashJoin,
    UseExternalPayload := fun _ _ _ => false }


/-- A block of two rows and three columns. -/
def sampleBlock : TBlock := { Size := 2, Columns := [[1, 2], [10, 20], [7, 8]] }

/-- A payload storage for two payload columns that already holds one block. -/
def sampleStorage : TExternalPayloadStorage :=
  { PayloadColumnsStorage := [{ Size := 1, Columns := [[5], [6]] }], NumColumns := 2,
    NonClearable := false, IndirectionIndexes := [] }

/-- A one-row block of two columns whose key column is the second one. -/
def keyLastBlock : TBlock := { Size := 1, Columns := [[10], [20]] }

/-- An empty payload storage for one payload column. -/
def emptyStorage : TExternalPayloadStorage :=
  { PayloadColumnsStorage := [], NumColumns := 1, NonClearable := true,
    IndirectionIndexes := [] }

/-- A well-typed call: three-column inputs (two data columns and the block
length), key column 0 on both sides, the right key dropped. -/
def sampleCallable : TCallable :=
  { InputsCount := 9, ReturnIsStream := true, ReturnIsMulti := true, JoinComponents := 4,
    LeftIsStream := true, LeftIsMulti := true, LeftComponents := 3,
    RightIsStream := true, RightIsMulti := true, RightComponents := 3,
    JoinKind := some EJoinKind.Inner,
    LeftKeyColumns := [0], LeftKeyDrops := [],
    RightKeyColumns := [0], RightKeyDrops := [0], Policy := 0 }

/-- The sample call with a right drop index (1) that is not a right key column. -/
def badDropCallable : TCallable := { sampleCallable with RightKeyDrops := [1] }

/-- The wrapper `WrapBlockGraceJoinCore` builds for `sampleCallable`. -/
def sampleWrapper : TBlockGraceJoinCoreWraper :=
  { ResultItemTypes := 4, LeftItemTypes := 3, LeftKeyColumns := [0], LeftIOMap := [0, 1],
    RightItemTypes := 3, RightKeyColumns := [0], RightIOMap := [1], Policy := none }

/-- The operator over an empty left stream and a right stream that delivers one
one-row block (two data columns, so two packed bytes) and then ends, with a
bootstrap limit of exactly two bytes. -/
def emptyLeftOperator : Except TFailure TStreamValue :=
  TStreamValue.construct sampleContext [1, 1, 1, 0]
    [] [1, 1, 0] [0] [0, 1]
    [TFetched.Ok { Size := 1, Columns := [[5], [6]] }] [1, 1, 0] [0] [1]
    (hashJoinPolicy 2)

/-- The bootstrap state of `emptyLeftOperator` after its first `FetchStreams`:
left finished, right not finished with an estimated size equal to the limit. -/
def stuckStorage : TTempJoinStorage :=
  { LeftStream := [], LeftItemTypes := [1, 1], LeftKeyColumns := [0], LeftData := [],
    LeftFetchedTuples := 0, LeftEstimatedSize := 0, LeftIsFinished := true,
    LeftConverter := rowConverter 2 0, LeftSamples := [],
    RightStream := [], RightItemTypes := [1, 1], RightKeyColumns := [0],
    RightData := [{ Size := 1, Columns := [[5], [6]] }],
    RightFetchedTuples := 1, RightEstimatedSize := 2, RightIsFinished := false,
    RightConverter := rowConverter 2 0, RightSamples := [6],
    Policy := hashJoinPolicy 2 }

/-- The hash join the operator builds over a one-column left input with the row
7 and a right input of two blocks, rows 1, 2 and row 7, both streams ended
within the bootstrap limit; probe rows carry a ten-byte overflow tail and the
probe overflow buffer is reserved for 25 bytes. -/
def twoBlockJoin : Except TFailure THashJoin := do
  let sv ← TStreamValue.construct tailContext [1, 1, 0]
    [TFetched.Ok { Size := 1, Columns := [[7]] }] [1, 0] [0] [0]
    [TFetched.Ok { Size := 2, Columns := [[1, 2]] }, TFetched.Ok { Size := 1, Columns := [[7]] }]
    [1, 0] [0] [0] (hashJoinPolicy 100)
  let started ← TStreamValue.start tailContext 10 sv
  match started.2.Join with
  | TJoin.Hash hashJoin => pure hashJoin
  | _ => throw (TFailure.Undefined "Join_")

/-- The hash join the operator builds over a left input with the rows 7, 7 and a
right input with the rows 7, 7, with `MaxLength_ = 1`. -/
def duplicateKeyJoin : Except TFailure THashJoin := do
  let sv ← TStreamValue.construct tailContext [1, 1, 0]
    [TFetched.Ok { Size := 2, Columns := [[7, 7]] }] [1, 0] [0] [0]
    [TFetched.Ok { Size := 2, Columns := [[7, 7]] }] [1, 0] [0] [0] (hashJoinPolicy 100)
  let started ← TStreamValue.start tailContext 10 sv
  match started.2.Join with
  | TJoin.Hash hashJoin => pure hashJoin
  | _ => throw (TFailure.Undefined "Join_")

/-! ## Inner-join content of one lookup pass -/

/-- The packed rows of a pack result, as row numbers `0 .. NTuples - 1`. -/
def PackResult.rows (p : PackResult) : List Nat := List.range p.NTuples

/-- The build rows whose key equals the key of probe row `p`; `keyEq` is the
join-key equality on packed tuples (false whenever a key component is null). -/
def matchingBuildRows (keyEq : List Nat → List Nat → Bool)
    (buildLayout probeLayout : TTupleLayout) (js : TJoinState) (p : Nat) : List Nat :=
  js.BuildPackedInput.rows.filter fun j =>
    keyEq (tupleAt js.BuildPackedInput.PackedTuples buildLayout.TotalRowSize j)
      (tupleAt js.ProbePackedInput.PackedTuples probeLayout.TotalRowSize p)

/-- All (build row, probe row) pairs with equal keys. -/
def joinPairs (keyEq : List Nat → List Nat → Bool)
    (buildLayout probeLayout : TTupleLayout) (js : TJoinState) : List (Nat × Nat) :=
  js.ProbePackedInput.rows.flatMap fun p =>
    (matchingBuildRows keyEq buildLayout probeLayout js p).map fun j => (j, p)

/-- The pairs the table yields for a list of probe rows, in emission order. -/
def foundPairs (table : TTable) (probeRowSize : Nat) (probe : PackResult)
    (rows : List Nat) : List (Nat × Nat) :=
  rows.flatMap fun p =>
    (table.Find (tupleAt probe.PackedTuples probeRowSize p) probe.Overflow).map fun j => (j, p)

/-- Appending a sequence of (build row, probe row) pairs one by one. -/
def emitPairs (buildRowSize probeRowSize : Nat) (pairs : List (Nat × Nat))
    (js : TJoinState) : TJoinState :=
  pairs.foldl (fun st q => appendMatch buildRowSize probeRowSize q.1 q.2 st) js

/-! ## The in-memory grace join as a whole -/

/-- The driver of the in-memory grace join as `WideFetch` runs it: `DoProbe`
until the first `Finish`, `FillOutput` after every `Ok`.  The result lists the
join states handed to `MakeBlocks`, one per emitted block. -/
def TInMemoryGraceJoin.run (ctx : TComputationContext) :
    Nat → TInMemoryGraceJoin → Except TFailure (List TJoinState)
  | 0, _ => throw TFailure.OutOfFuel
  | fuel + 1, g =>
    match TInMemoryGraceJoin.probeCore ctx (2 ^ g.BucketsLogNum + 2) g with
    | Except.error e => throw e
    | Except.ok (TGraceProbeEnd.Finished _) => pure []
    | Except.ok (TGraceProbeEnd.HoldsBlocks g1) => TInMemoryGraceJoin.run ctx fuel g1.FillOutput.2
    | Except.ok (TGraceProbeEnd.Emits g1) =>
      match TInMemoryGraceJoin.run ctx fuel g1.emitBlock.2.FillOutput.2 with
      | Except.error e => throw e
      | Except.ok blocks => pure (g1.JoinState :: blocks)

/-- The packed tuples `MakeBlocks` unpacks as the left columns. -/
def TJoinState.leftOutput (js : TJoinState) : List Nat := js.packedOutput js.LeftPackedTuple

/-- The packed tuples `MakeBlocks` unpacks as the right columns. -/
def TJoinState.rightOutput (js : TJoinState) : List Nat := js.packedOutput js.RightPackedTuple

/-- The packed output slots point as the swap flag says: left is build exactly
when not swapped. -/
def TJoinState.SlotsAgree (js : TJoinState) : Prop :=
  js.LeftPackedTuple = (if js.WasSwapped then ESide.Probe else ESide.Build) ∧
  js.RightPackedTuple = (if js.WasSwapped then ESide.Build else ESide.Probe)

/-- The first bucket that `BuildIndex` has not taken yet. -/
def TInMemoryGraceJoin.nextBucket (g : TInMemoryGraceJoin) : Nat :=
  if g.NeedNextBucket then g.CurrBucket else g.CurrBucket + 1

/-- A well-formed bucket pair whose sizes fit the `ui32` counters: well-formed
packed rows, at most `2 ^ 32 - 64` rows a side (so `CurrProbeRow_ += 64` does not
wrap) and fewer than `2 ^ 32` row pairs (so `OutputRows` does not wrap). -/
def BucketPairFits (leftRowSize rightRowSize : Nat) (l r : PackResult) : Prop :=
  l.WellFormed leftRowSize ∧ r.WellFormed rightRowSize ∧
  l.NTuples * r.NTuples < UI32 ∧ l.NTuples + batchSize ≤ UI32 ∧ r.NTuples + batchSize ≤ UI32

/-- The state of an in-memory grace join between two `DoProbe` calls: bucket
arrays of `2 ^ BucketsLogNum_` fitting bucket pairs, valid tables, a loaded
bucket (when one is loaded) that fits, output slots agreeing with the swap flag,
and empty packed outputs. -/
structure TInMemoryGraceJoin.Ready (ctx : TComputationContext) (g : TInMemoryGraceJoin) :
    Prop where
  tables : ∀ packed,
    (ctx.BuildTable g.Objects.BuildConverter.Layout packed).Valid packed.NTuples ∧
    (ctx.BuildTable g.Objects.ProbeConverter.Layout packed).Valid packed.NTuples
  logNum : g.BucketsLogNum < 32
  leftLength : g.LeftBuckets.length = 2 ^ g.BucketsLogNum
  rightLength : g.RightBuckets.length = 2 ^ g.BucketsLogNum
  bucketRange : g.nextBucket ≤ 2 ^ g.BucketsLogNum
  buckets : ∀ b l r, g.nextBucket ≤ b → g.LeftBuckets[b]? = some l →
    g.RightBuckets[b]? = some r →
    BucketPairFits g.Objects.BuildConverter.Layout.TotalRowSize
      g.Objects.ProbeConverter.Layout.TotalRowSize l r
  loaded : g.NeedNextBucket = false →
    g.JoinState.BuildPackedInput.WellFormed g.buildLayout.TotalRowSize ∧
    g.JoinState.ProbePackedInput.WellFormed g.probeLayout.TotalRowSize ∧
    g.Table.Valid g.JoinState.BuildPackedInput.NTuples ∧
    g.JoinState.BuildPackedInput.NTuples * g.JoinState.ProbePackedInput.NTuples < UI32 ∧
    g.JoinState.ProbePackedInput.NTuples + batchSize ≤ UI32
  idle : g.NeedNextBucket = true → g.CurrProbeRow = 0
  slots : g.JoinState.SlotsAgree
  outputRows : g.JoinState.OutputRows = 0
  buildOutput : g.JoinState.BuildPackedOutput = []
  probeOutput : g.JoinState.ProbePackedOutput = []
  count : g.JoinState.Count = 0
  maxLength : 1 ≤ g.JoinState.MaxLength ∧ g.JoinState.MaxLength < 2 ^ 30

/-- One emitted row pair: the bucket it comes from, the row numbers of its left
and right tuple in that bucket pair, and the two packed tuples. -/
structure TPair where
  Bucket : Nat
  LeftRow : Nat
  RightRow : Nat
  Left : List Nat
  Right : List Nat

/-- A (build row, probe row) pair of the loaded bucket as a row pair of the left
and the right side. -/
def TInMemoryGraceJoin.pairOf (g : TInMemoryGraceJoin) (q : Nat × Nat) : TPair :=
  if g.JoinState.WasSwapped then
    { Bucket := g.CurrBucket, LeftRow := q.2, RightRow := q.1,
      Left := tupleAt g.JoinState.ProbePackedInput.PackedTuples g.probeLayout.TotalRowSize q.2,
      Right := tupleAt g.JoinState.BuildPackedInput.PackedTuples g.buildLayout.TotalRowSize q.1 }
  else
    { Bucket := g.CurrBucket, LeftRow := q.1, RightRow := q.2,
      Left := tupleAt g.JoinState.BuildPackedInput.PackedTuples g.buildLayout.TotalRowSize q.1,
      Right := tupleAt g.JoinState.ProbePackedInput.PackedTuples g.probeLayout.TotalRowSize q.2 }

/-- The row pairs the loaded bucket still has to emit: those of the probe rows
from `CurrProbeRow_` on, in lookup order. -/
def TInMemoryGraceJoin.pendingLoaded (g : TInMemoryGraceJoin) : List TPair :=
  (foundPairs g.Table g.probeLayout.TotalRowSize g.JoinState.ProbePackedInput
    (List.range' g.CurrProbeRow (g.JoinState.ProbePackedInput.NTuples - g.CurrProbeRow))).map
    g.pairOf

/-- The row pairs of bucket pair `b`, in the order `BuildIndex` and the lookups
produce them: the side with fewer tuples is built, the other probed. -/
def bucketPending (ctx : TComputationContext) (leftLayout rightLayout : TTupleLayout)
    (b : Nat) (l r : PackResult) : List TPair :=
  if l.NTuples < r.NTuples then
    (foundPairs (ctx.BuildTable leftLayout l) rightLayout.TotalRowSize r r.rows).map fun q =>
      { Bucket := b, LeftRow := q.1, RightRow := q.2,
        Left := tupleAt l.PackedTuples leftLayout.TotalRowSize q.1,
        Right := tupleAt r.PackedTuples rightLayout.TotalRowSize q.2 }
  else
    (foundPairs (ctx.BuildTable rightLayout r) leftLayout.TotalRowSize l l.rows).map fun q =>
      { Bucket := b, LeftRow := q.2, RightRow := q.1,
        Left := tupleAt l.PackedTuples leftLayout.TotalRowSize q.2,
        Right := tupleAt r.PackedTuples rightLayout.TotalRowSize q.1 }

/-- The row pairs of the buckets from `first` on. -/
def TInMemoryGraceJoin.pendingBuckets (ctx : TComputationContext) (g : TInMemoryGraceJoin)
    (first : Nat) : List TPair :=
  (List.range' first (2 ^ g.BucketsLogNum - first)).flatMap fun b =>
    bucketPending ctx g.Objects.BuildConverter.Layout g.Objects.ProbeConverter.Layout b
      (g.LeftBuckets.getD b PackResult.empty) (g.RightBuckets.getD b PackResult.empty)

/-- Everything the join still has to emit, in emission order. -/
def TInMemoryGraceJoin.pending (ctx : TComputationContext) (g : TInMemoryGraceJoin) :
    List TPair :=
  (if g.NeedNextBucket then [] else g.pendingLoaded) ++ g.pendingBuckets ctx g.nextBucket

/-- The join key of a packed tuple on each side (`none` when a key component is
null), and with it the key equality of a left and a right tuple. -/
structure TKeys (κ : Type) where
  leftKey : List Nat → Option κ
  rightKey : List Nat → Option κ

/-- A left and a right tuple have the same, non-null key. -/
def TKeys.keyEq {κ : Type} [DecidableEq κ] (keys : TKeys κ) (l r : List Nat) : Bool :=
  match keys.leftKey l, keys.rightKey r with
  | some a, some b => decide (a = b)
  | _, _ => false

/-- The inner join of bucket pair `b` by rows: every left row with every right
row of an equal key. -/
def bucketMatches {κ : Type} [DecidableEq κ] (keys : TKeys κ)
    (leftLayout rightLayout : TTupleLayout) (b : Nat) (l r : PackResult) : List TPair :=
  l.rows.flatMap fun i =>
    (r.rows.filter fun j =>
      keys.keyEq (tupleAt l.PackedTuples leftLayout.TotalRowSize i)
        (tupleAt r.PackedTuples rightLayout.TotalRowSize j)).map fun j =>
      { Bucket := b, LeftRow := i, RightRow := j,
        Left := tupleAt l.PackedTuples leftLayout.TotalRowSize i,
        Right := tupleAt r.PackedTuples rightLayout.TotalRowSize j }

/-- The inner join of all bucket pairs by rows. -/
def TInMemoryGraceJoin.allMatches {κ : Type} [DecidableEq κ] (keys : TKeys κ)
    (g : TInMemoryGraceJoin) : List TPair :=
  (List.range (2 ^ g.BucketsLogNum)).flatMap fun b =>
    bucketMatches keys g.Objects.BuildConverter.Layout g.Objects.ProbeConverter.Layout b
      (g.LeftBuckets.getD b PackResult.empty) (g.RightBuckets.getD b PackResult.empty)

/-- The packed tuples of a pack result, row by row. -/
def PackResult.tuples (p : PackResult) (rowSize : Nat) : List (List Nat) :=
  p.rows.map fun i => tupleAt p.PackedTuples rowSize i

/-- The non-null keys of all buffered left rows. -/
def TInMemoryGraceJoin.leftKeys {κ : Type} (keys : TKeys κ) (g : TInMemoryGraceJoin) : List κ :=
  ((List.range (2 ^ g.BucketsLogNum)).flatMap fun b =>
    (g.LeftBuckets.getD b PackResult.empty).tuples
      g.Objects.BuildConverter.Layout.TotalRowSize).filterMap keys.leftKey

/-- The non-null keys of all buffered right rows. -/
def TInMemoryGraceJoin.rightKeys {κ : Type} (keys : TKeys κ) (g : TInMemoryGraceJoin) : List κ :=
  ((List.range (2 ^ g.BucketsLogNum)).flatMap fun b =>
    (g.RightBuckets.getD b PackResult.empty).tuples
      g.Objects.ProbeConverter.Layout.TotalRowSize).filterMap keys.rightKey

/-- Rows were routed so that equal keys land in the same bucket index on both
sides. -/
def TInMemoryGraceJoin.Routed {κ : Type} (keys : TKeys κ) (g : TInMemoryGraceJoin) : Prop :=
  ∀ b c k, b < 2 ^ g.BucketsLogNum → c < 2 ^ g.BucketsLogNum →
    some k ∈ ((g.LeftBuckets.getD b PackResult.empty).tuples
      g.Objects.BuildConverter.Layout.TotalRowSize).map keys.leftKey →
    some k ∈ ((g.RightBuckets.getD c PackResult.empty).tuples
      g.Objects.ProbeConverter.Layout.TotalRowSize).map keys.rightKey →
    b = c

/-- The hash tables find exactly the build rows whose key equals the key of the
probe tuple, each once: for a table over left tuples probed with a right tuple
and for a table over right tuples probed with a left tuple. -/
def TInMemoryGraceJoin.TablesJoinOn {κ : Type} [DecidableEq κ] (keys : TKeys κ)
    (ctx : TComputationContext) (g : TInMemoryGraceJoin) : Prop :=
  (∀ packed tuple overflow,
    ((ctx.BuildTable g.Objects.BuildConverter.Layout packed).Find tuple overflow).Perm
      (packed.rows.filter fun i =>
        keys.keyEq (tupleAt packed.PackedTuples g.Objects.BuildConverter.Layout.TotalRowSize i)
          tuple)) ∧
  (∀ packed tuple overflow,
    ((ctx.BuildTable g.Objects.ProbeConverter.Layout packed).Find tuple overflow).Perm
      (packed.rows.filter fun j =>
        keys.keyEq tuple
          (tupleAt packed.PackedTuples g.Objects.ProbeConverter.Layout.TotalRowSize j)))

/-- A converter over one one-byte key column: a packed tuple is the key byte,
nothing goes to overflow, and rows go to the bucket numbered by the key modulo
the bucket count. -/
def keyConverter : IBlockLayoutConverter :=
  { Layout := { TotalRowSize := 1, PayloadSize := 0, Columns := [EColumnSizeType.Fixed] }
    Pack := fun columns out =>
      { out with
        PackedTuples := out.PackedTuples ++ columns.headD []
        NTuples := out.NTuples + (columns.headD []).length }
    BucketPack := fun columns buckets logBuckets =>
      (columns.headD []).foldl (fun bs key =>
        bs.modify (fun out =>
          { out with PackedTuples := out.PackedTuples ++ [key]
                     NTuples := out.NTuples + 1 }) (key % 2 ^ logBuckets)) buckets
    Unpack := fun packed => [packed.PackedTuples.take packed.NTuples] }

/-- The pack result of `keyConverter` for a list of keys. -/
def packedKeys (keyBytes : List Nat) : PackResult :=
  { PackedTuples := keyBytes, Overflow := [], NTuples := keyBytes.length, OverflowCapacity := 0 }

/-- A hash join with its index built over the build rows 7 and 7, one buffered
probe block with the rows 7 and 7, and a finished probe stream. -/
def sampleHashJoin : THashJoin :=
  { BuildData := [], BuildKeyColumns := [0], BuildKeyColumnsSet := [0],
    IsBuildIndirected := false,
    ProbeStream := [], ProbeInputs := 2, ProbeData := [{ Size := 2, Columns := [[7, 7]] }],
    ProbeKeyColumns := [0], ProbeKeyColumnsSet := [0], IsProbeIndirected := false,
    Objects :=
      { BuildConverter := keyConverter, ProbeConverter := keyConverter,
        BuildPayloadStorage := none, ProbePayloadStorage := none },
    JoinState :=
      { TJoinState.construct 3 8 [0] [0] false with BuildPackedInput := packedKeys [7, 7] },
    Table := scanTable keyConverter.Layout (packedKeys [7, 7]),
    IsFinished := true }

/-- The key of a packed tuple on either side is its first byte. -/
def headKeys : TKeys (Option Nat) :=
  { leftKey := fun tuple => some tuple.head?, rightKey := fun tuple => some tuple.head? }

/-- An in-memory grace join over two buckets, keys routed by parity: left rows
2, 2 and 1, right rows 2 and 1, 3, 1. -/
def sampleGraceJoin : TInMemoryGraceJoin :=
  { Objects :=
      { BuildConverter := keyConverter, ProbeConverter := keyConverter,
        BuildPayloadStorage := none, ProbePayloadStorage := none },
    BucketsLogNum := 1,
    LeftBuckets := [packedKeys [2, 2], packedKeys [1]],
    RightBuckets := [packedKeys [2], packedKeys [1, 3, 1]],
    JoinState := TJoinState.construct 3 8 [0] [0] false,
    Table := { Find := fun _ _ => [] },
    CurrBucket := 0, CurrProbeRow := 0, NeedNextBucket := true }

/-- A join state constructed with `wasSwapped` after the `SetSwapped` calls
`ws`, in order. -/
def TJoinState.afterSwaps (width maxLength : Nat) (leftIOMap rightIOMap : List Nat)
    (wasSwapped : Bool) (ws : List Bool) : TJoinState :=
  ws.foldl TJoinState.SetSwapped
    (TJoinState.construct width maxLength leftIOMap rightIOMap wasSwapped)

/-- A bootstrap state with both streams finished: three buffered left rows and
one buffered right row, two one-byte columns a side. -/
def bothFinishedStorage : TTempJoinStorage :=
  { stuckStorage with
    LeftData := [{ Size := 3, Columns := [[7, 7, 7], [1, 2, 3]] }],
    LeftFetchedTuples := 3, LeftEstimatedSize := 6, LeftSamples := [8],
    RightIsFinished := true, Policy := hashJoinPolicy 100 }

/-- A bootstrap state whose left stream is finished and whose right side stands
exactly at the limit (two bytes fetched, limit two) with a block and the end of
the stream still to come. -/
def atLimitStorage : TTempJoinStorage :=
  { stuckStorage with
    RightStream := [TFetched.Ok { Size := 1, Columns := [[9], [9]] }, TFetched.Finish] }

/-- A bootstrap state before any fetch whose left stream yields first and whose
right stream delivers a block. -/
def yieldingStorage : TTempJoinStorage :=
  { stuckStorage with
    LeftStream := [TFetched.Yield, TFetched.Finish], LeftIsFinished := false,
    RightStream := [TFetched.Ok { Size := 1, Columns := [[9], [9]] }, TFetched.Finish],
    RightData := [], RightFetchedTuples := 0, RightEstimatedSize := 0, RightSamples := [],
    Policy := hashJoinPolicy 100 }

/-- An operator whose left stream yields, then delivers one row and ends, and
whose right stream delivers one row and ends; the policy picks the hash join. -/
def yieldingOperator : Except TFailure TStreamValue :=
  TStreamValue.construct sampleContext [1, 1, 1, 0]
    [TFetched.Yield, TFetched.Ok { Size := 1, Columns := [[7], [1]] }] [1, 1, 0] [0] [0, 1]
    [TFetched.Ok { Size := 1, Columns := [[7], [2]] }] [1, 1, 0] [0] [1]
    (hashJoinPolicy 100)

/-- A bootstrap state whose left stream is finished with no rows and whose right
side has fetched two rows, four bytes, over the limit of two. -/
def oneFinishedStorage : TTempJoinStorage :=
  { stuckStorage with
    RightData := [{ Size := 2, Columns := [[5, 5], [6, 6]] }],
    RightFetchedTuples := 2, RightEstimatedSize := 4 }

/-- The bucket indices for which one `TInMemoryGraceJoin::DoProbe` call invokes
`BuildIndex`, in order: an activation that gets past the `Finish` and
`HasBlocks` checks invokes `BuildIndex` for `CurrBucket_` exactly when
`NeedNextBucket_` is set, and calls itself again when the lookup left no rows. -/
def TInMemoryGraceJoin.probeLoads (ctx : TComputationContext) :
    Nat → TInMemoryGraceJoin → List Nat
  | 0, _ => []
  | fuel + 1, g =>
    if g.CurrBucket >>> g.BucketsLogNum ≠ 0 then []
    else if g.JoinState.HasBlocks then []
    else
      (if g.NeedNextBucket then [g.CurrBucket] else []) ++
        match g.lookupStep ctx with
        | Except.error _ => []
        | Except.ok g2 =>
          if g2.JoinState.OutputRows = 0 then TInMemoryGraceJoin.probeLoads ctx fuel g2
          else []

/-- The driver `run`, observed for its `BuildIndex` invocations: the bucket
indices in invocation order over all `DoProbe` calls up to the first `Finish`,
and the join that `Finish` leaves. -/
def TInMemoryGraceJoin.runLoads (ctx : TComputationContext) :
    Nat → TInMemoryGraceJoin → Except TFailure (List Nat × TInMemoryGraceJoin)
  | 0, _ => throw TFailure.OutOfFuel
  | fuel + 1, g =>
    match TInMemoryGraceJoin.probeCore ctx (2 ^ g.BucketsLogNum + 2) g with
    | Except.error e => throw e
    | Except.ok (TGraceProbeEnd.Finished g1) =>
      pure (TInMemoryGraceJoin.probeLoads ctx (2 ^ g.BucketsLogNum + 2) g, g1)
    | Except.ok (TGraceProbeEnd.HoldsBlocks g1) =>
      match TInMemoryGraceJoin.runLoads ctx fuel g1.FillOutput.2 with
      | Except.error e => throw e
      | Except.ok (loads, last) =>
        pure (TInMemoryGraceJoin.probeLoads ctx (2 ^ g.BucketsLogNum + 2) g ++ loads, last)
    | Except.ok (TGraceProbeEnd.Emits g1) =>
      match TInMemoryGraceJoin.runLoads ctx fuel g1.emitBlock.2.FillOutput.2 with
      | Except.error e => throw e
      | Except.ok (loads, last) =>
        pure (TInMemoryGraceJoin.probeLoads ctx (2 ^ g.BucketsLogNum + 2) g ++ loads, last)

/-! ## Samples and reference definitions for the later properties -/

/-- A policy that always picks the hash join and keeps the payload of both sides
in external storage. -/
def indirectPolicy (limit : Nat) : IBlockGraceJoinPolicy :=
  { STREAM_NOT_FETCHED := 2 ^ 64 - 1, GetMaximumInitiallyFetchedData := limit,
    PickAlgorithm := fun _ _ => EJoinAlgo.HashJoin,
    UseExternalPayload := fun _ _ _ => true }

/-- The hash join constructor run for two empty inputs of three data columns
(item types 11, 22, 33 and the block length) joined on the last data column,
under a policy that indirects the payload. -/
def keyLastHashJoin : Except TFailure THashJoin := do
  let tempStorage ← TTempJoinStorage.construct sampleContext
    [11, 22, 33, 0] [2] [] [11, 22, 33, 0] [2] [] (indirectPolicy 100)
  THashJoin.construct sampleContext [11, 22, 33, 11, 22, 33, 0]
    [11, 22, 33, 0] [2] [0, 1, 2] [11, 22, 33, 0] [2] [0, 1, 2] (indirectPolicy 100) tempStorage

/-- The grace join constructor run for the same inputs and policy. -/
def keyLastGraceJoin : Except TFailure TInMemoryGraceJoin := do
  let tempStorage ← TTempJoinStorage.construct sampleContext
    [11, 22, 33, 0] [2] [] [11, 22, 33, 0] [2] [] (indirectPolicy 100)
  TInMemoryGraceJoin.construct sampleContext [11, 22, 33, 11, 22, 33, 0]
    [11, 22, 33, 0] [2] [0, 1, 2] [11, 22, 33, 0] [2] [0, 1, 2] (indirectPolicy 100) tempStorage

/-- The one-tuple-at-a-time lookup that the batched lookup is compared with: for
each probe tuple in input order call `Find`, then append one pair per
`NextMatch` result, in the order returned. -/
def naiveLookup (table : TTable) (buildLayout probeLayout : TTupleLayout)
    (js : TJoinState) : TJoinState :=
  (List.range js.ProbePackedInput.NTuples).foldl (fun st inTuple =>
    nextMatchLoop buildLayout.TotalRowSize probeLayout.TotalRowSize inTuple
      (table.Find (tupleAt js.ProbePackedInput.PackedTuples probeLayout.TotalRowSize inTuple)
        js.ProbePackedInput.Overflow) st) js

/-- The bootstrap state after `n` successive `FetchStreams` calls. -/
def TTempJoinStorage.fetchTimes (ctx : TComputationContext) :
    Nat → TTempJoinStorage → Except TFailure TTempJoinStorage
  | 0, ts => pure ts
  | n + 1, ts =>
    match ts.FetchStreams ctx with
    | Except.error e => throw e
    | Except.ok (_, ts1) => TTempJoinStorage.fetchTimes ctx n ts1

/-- A finished side stands below the fetch limit. -/
def TTempJoinStorage.FinishedBelowLimit (ts : TTempJoinStorage) : Prop :=
  (ts.LeftIsFinished = true →
    ts.LeftEstimatedSize < ts.Policy.GetMaximumInitiallyFetchedData) ∧
  (ts.RightIsFinished = true →
    ts.RightEstimatedSize < ts.Policy.GetMaximumInitiallyFetchedData)

/-- The hash join the operator builds when the left stream ends after the row 7
and the right stream has delivered the blocks (1, 2) and (3, 4), four bytes over
a limit of three, with the block (7) still to come; probe rows carry a ten-byte
overflow tail and the probe overflow buffer is reserved for 25 bytes. -/
def openStreamJoin : Except TFailure THashJoin := do
  let sv ← TStreamValue.construct tailContext [1, 1, 0]
    [TFetched.Ok { Size := 1, Columns := [[7]] }] [1, 0] [0] [0]
    [TFetched.Ok { Size := 2, Columns := [[1, 2]] }, TFetched.Ok { Size := 2, Columns := [[3, 4]] },
      TFetched.Ok { Size := 1, Columns := [[7]] }]
    [1, 0] [0] [0] (hashJoinPolicy 3)
  let started ← TStreamValue.start tailContext 10 sv
  match started.2.Join with
  | TJoin.Hash hashJoin => pure hashJoin
  | _ => throw (TFailure.Undefined "Join_")

/-- The queue `ProbeData_` as `PackNextProbeBlock` finds it in a loop iteration
of `THashJoin::DoProbe` entered with `status`: after the fetch and the
`emplace_back` of a fetched block. -/
def THashJoin.queueAtPack (status : EFetchStatus) (hj : THashJoin) : List TBlock :=
  (((hj.fetchProbe status).2.2.markFinished (hj.fetchProbe status).1).cacheFetched
    (hj.fetchProbe status).1 (hj.fetchProbe status).2.1).ProbeData

/-- A call over three-column inputs (two data columns and the block length)
whose key column index is 5 on both sides, with no drops. -/
def wideKeyCallable : TCallable :=
  { sampleCallable with LeftKeyColumns := [5], RightKeyColumns := [5], RightKeyDrops := [] }

/-! ## Indirection indices held by the payload storage -/

/-- The index designates a block held by the storage and a row of that block. -/
def TExternalPayloadStorage.holds (st : TExternalPayloadStorage) (raw : Nat) : Bool :=
  match st.PayloadColumnsStorage[decodeBlockIndex raw]? with
  | some block => decide (decodeElemIndex raw < block.Size)
  | none => false

/-- What the core relies on when it packs a key block whose last column is the
index column: `indexOf` reads the index out of a packed tuple.  `Pack` keeps the
rows already packed and appends one row per index, each carrying its index;
`Unpack` yields, as its last column, the index of every row. -/
def IBlockLayoutConverter.CarriesIndex (conv : IBlockLayoutConverter)
    (indexOf : List Nat → Nat) : Prop :=
  0 < conv.Layout.TotalRowSize ∧
  (∀ (columns : List (List Nat)) (indexes : List Nat) (out : PackResult),
    columns.getLast? = some indexes → out.WellFormed conv.Layout.TotalRowSize →
    (conv.Pack columns out).WellFormed conv.Layout.TotalRowSize ∧
    (conv.Pack columns out).NTuples = out.NTuples + indexes.length ∧
    (∀ r, r < out.NTuples →
      tupleAt (conv.Pack columns out).PackedTuples conv.Layout.TotalRowSize r =
        tupleAt out.PackedTuples conv.Layout.TotalRowSize r) ∧
    (∀ i, i < indexes.length →
      indexOf (tupleAt (conv.Pack columns out).PackedTuples conv.Layout.TotalRowSize
        (out.NTuples + i)) = indexes.getD i 0)) ∧
  (∀ packed : PackResult, packed.WellFormed conv.Layout.TotalRowSize →
    (conv.Unpack packed).getLast? =
      some ((List.range packed.NTuples).map fun r =>
        indexOf (tupleAt packed.PackedTuples conv.Layout.TotalRowSize r)))

/-- The state of a hash join with an indirected probe side in which every
indirection index it holds is held by the payload storage `st`: the index of
every packed probe input row and of every tuple of the packed probe output.
The block counts and block sizes fit the `ui32` halves of an index. -/
structure THashJoin.IndexSafe (indexOf : List Nat → Nat) (hj : THashJoin)
    (st : TExternalPayloadStorage) : Prop where
  indirected : hj.IsProbeIndirected = true
  storage : hj.Objects.ProbePayloadStorage = some st
  input : hj.JoinState.ProbePackedInput.WellFormed hj.Objects.ProbeConverter.Layout.TotalRowSize
  inputRows : ∀ r, r < hj.JoinState.ProbePackedInput.NTuples →
    st.holds (indexOf (tupleAt hj.JoinState.ProbePackedInput.PackedTuples
      hj.Objects.ProbeConverter.Layout.TotalRowSize r)) = true
  output : ∃ tuples : List (List Nat), hj.JoinState.ProbePackedOutput = tuples.flatten ∧
    ∀ t ∈ tuples, t.length = hj.Objects.ProbeConverter.Layout.TotalRowSize ∧
      st.holds (indexOf t) = true
  room : st.PayloadColumnsStorage.length + hj.ProbeData.length + hj.ProbeStream.length < UI32
  queued : ∀ block ∈ hj.ProbeData, block.Size ≤ UI32
  upstream : ∀ block, TFetched.Ok block ∈ hj.ProbeStream → block.Size ≤ UI32

/-- The index a tuple of `indexedConverter` carries: its second byte. -/
def indexValue (tuple : List Nat) : Nat := tuple.getD 1 0

/-- A converter over one key column followed by the index column: a packed
tuple is the key and the index of the row, one row per entry of the last column;
nothing goes to overflow. -/
def indexedConverter : IBlockLayoutConverter :=
  { Layout :=
      { TotalRowSize := 2, PayloadSize := 1,
        Columns := [EColumnSizeType.Fixed, EColumnSizeType.Fixed] }
    Pack := fun columns out =>
      let indexes := columns.getLast?.getD []
      { out with
        PackedTuples := out.PackedTuples ++
          ((List.range indexes.length).map fun r =>
            [(columns.headD []).getD r 0, indexes.getD r 0]).flatten
        NTuples := out.NTuples + indexes.length }
    BucketPack := fun _ buckets _ => buckets
    Unpack := fun packed =>
      [(List.range packed.NTuples).map fun r => (tupleAt packed.PackedTuples 2 r).getD 0 0,
       (List.range packed.NTuples).map fun r => indexValue (tupleAt packed.PackedTuples 2 r)] }

/-- A hash join with an indirected probe side: build rows 7 and 7, one buffered
probe block with the keys 7, 7 and the payload 30, 40, an empty clearable probe
payload storage and a finished probe stream. -/
def indirectedHashJoin : THashJoin :=
  { BuildData := [], BuildKeyColumns := [0], BuildKeyColumnsSet := [0],
    IsBuildIndirected := false,
    ProbeStream := [], ProbeInputs := 3,
    ProbeData := [{ Size := 2, Columns := [[7, 7], [30, 40]] }],
    ProbeKeyColumns := [0], ProbeKeyColumnsSet := [0], IsProbeIndirected := true,
    Objects :=
      { BuildConverter := keyConverter, ProbeConverter := indexedConverter,
        BuildPayloadStorage := none,
        ProbePayloadStorage := some (TExternalPayloadStorage.construct [1] false) },
    JoinState :=
      { TJoinState.construct 4 8 [0] [0, 1] false with BuildPackedInput := packedKeys [7, 7] },
    Table := scanTable keyConverter.Layout (packedKeys [7, 7]),
    IsFinished := true }

/-! # Properties -/

theorem emitPairs_append (b p : Nat) (xs ys : List (Nat × Nat)) (js : TJoinState) :
    emitPairs b p (xs ++ ys) js = emitPairs b p ys (emitPairs b p xs js) := by
  simp [emitPairs, List.foldl_append]

theorem emitPairs_inputs (b p : Nat) (xs : List (Nat × Nat)) (js : TJoinState) :
    (emitPairs b p xs js).BuildPackedInput = js.BuildPackedInput ∧
    (emitPairs b p xs js).ProbePackedInput = js.ProbePackedInput ∧
    (emitPairs b p xs js).MaxLength = js.MaxLength ∧
    (emitPairs b p xs js).WasSwapped = js.WasSwapped ∧
    (emitPairs b p xs js).Count = js.Count ∧
    (emitPairs b p xs js).Values = js.Values := by
  induction xs generalizing js with
  | nil => simp [emitPairs]
  | cons x xs ih =>
    have h := ih (appendMatch b p x.1 x.2 js)
    simpa [emitPairs, appendMatch] using h

theorem emitPairs_build (b p : Nat) (xs : List (Nat × Nat)) (js : TJoinState) :
    (emitPairs b p xs js).BuildPackedOutput =
      js.BuildPackedOutput ++
        (xs.map fun q => tupleAt js.BuildPackedInput.PackedTuples b q.1).flatten := by
  induction xs generalizing js with
  | nil => simp [emitPairs]
  | cons x xs ih =>
    have h := ih (appendMatch b p x.1 x.2 js)
    simp only [emitPairs, List.foldl_cons] at h ⊢
    rw [h]
    simp [appendMatch, List.append_assoc]

theorem emitPairs_probe (b p : Nat) (xs : List (Nat × Nat)) (js : TJoinState) :
    (emitPairs b p xs js).ProbePackedOutput =
      js.ProbePackedOutput ++
        (xs.map fun q => tupleAt js.ProbePackedInput.PackedTuples p q.2).flatten := by
  induction xs generalizing js with
  | nil => simp [emitPairs]
  | cons x xs ih =>
    have h := ih (appendMatch b p x.1 x.2 js)
    simp only [emitPairs, List.foldl_cons] at h ⊢
    rw [h]
    simp [appendMatch, List.append_assoc]

theorem emitPairs_rows (b p : Nat) (xs : List (Nat × Nat)) (js : TJoinState)
    (h : js.OutputRows < UI32) :
    (emitPairs b p xs js).OutputRows = (js.OutputRows + xs.length) % UI32 := by
  induction xs generalizing js with
  | nil => simp [emitPairs, Nat.mod_eq_of_lt h]
  | cons x xs ih =>
    have hlt : (appendMatch b p x.1 x.2 js).OutputRows < UI32 := by
      simp only [appendMatch]
      exact Nat.mod_lt _ (by decide)
    have h2 := ih (appendMatch b p x.1 x.2 js) hlt
    simp only [emitPairs, List.foldl_cons] at h2 ⊢
    rw [h2]
    simp only [appendMatch, List.length_cons]
    rw [Nat.mod_add_mod]
    congr 1
    omega

theorem nextMatchLoop_eq (b p inTuple : Nat) (it : TIterator) (js : TJoinState) :
    nextMatchLoop b p inTuple it js = emitPairs b p (it.map fun j => (j, inTuple)) js := by
  induction it generalizing js with
  | nil => simp [nextMatchLoop, emitPairs]
  | cons j it ih => simp [nextMatchLoop, ih, emitPairs]

theorem drainBatch_eq (b p : Nat) (its : List (TIterator × Nat)) (js : TJoinState) :
    drainBatch b p its js =
      emitPairs b p (its.flatMap fun x => x.1.map fun j => (j, x.2)) js := by
  induction its generalizing js with
  | nil => simp [drainBatch, emitPairs]
  | cons x its ih =>
    have h := ih (nextMatchLoop b p x.2 x.1 js)
    simp only [drainBatch, List.foldl_cons] at h ⊢
    rw [h, nextMatchLoop_eq, List.flatMap_cons, emitPairs_append]

theorem lookupBatch_eq (table : TTable) (bl pl : TTupleLayout) (i r : Nat) (js : TJoinState) :
    lookupBatch table bl pl i r js =
      emitPairs bl.TotalRowSize pl.TotalRowSize
        (foundPairs table pl.TotalRowSize js.ProbePackedInput (List.range' i r)) js := by
  simp only [lookupBatch, drainBatch_eq, findBatch, foundPairs, List.range'_eq_map_range,
    List.flatMap_map]

theorem foundPairs_append (table : TTable) (p : Nat) (probe : PackResult) (xs ys : List Nat) :
    foundPairs table p probe (xs ++ ys) =
      foundPairs table p probe xs ++ foundPairs table p probe ys := by
  simp [foundPairs, List.flatMap_append]

theorem lookupFrom_eq (table : TTable) (bl pl : TTupleLayout) (n : Nat) :
    ∀ (fuel i : Nat) (js : TJoinState), n - i ≤ fuel →
      THashJoin.lookupFrom table bl pl n fuel i js =
        emitPairs bl.TotalRowSize pl.TotalRowSize
          (foundPairs table pl.TotalRowSize js.ProbePackedInput (List.range' i (n - i))) js := by
  intro fuel
  induction fuel with
  | zero =>
    intro i js h
    have h0 : n - i = 0 := by omega
    simp [THashJoin.lookupFrom, h0, foundPairs, emitPairs]
  | succ fuel ih =>
    intro i js h
    by_cases hi : i < n
    · have hstep : n - (i + batchSize) ≤ fuel := by
        simp only [batchSize]; omega
      simp only [THashJoin.lookupFrom, hi, if_true]
      rw [ih (i + batchSize) _ hstep, lookupBatch_eq]
      rw [(emitPairs_inputs _ _ _ js).2.1, ← emitPairs_append, ← foundPairs_append]
      congr 2
      have hm : i + 1 * min batchSize (n - i) = i + batchSize ∨
          n - (i + batchSize) = 0 ∧ min batchSize (n - i) = n - i := by
        simp only [batchSize]; omega
      rcases hm with hm | ⟨hz, hm⟩
      · have := List.range'_append i (min batchSize (n - i)) (n - (i + batchSize)) 1
        rw [hm] at this
        rw [this]
        congr 1
        simp only [batchSize] at hm ⊢; omega
      · rw [hz, hm]; simp
    · have h0 : n - i = 0 := by omega
      simp [THashJoin.lookupFrom, hi, h0, foundPairs, emitPairs]

theorem DoBatchLookup_eq (table : TTable) (bl pl : TTupleLayout) (js : TJoinState) :
    THashJoin.DoBatchLookup table bl pl js =
      emitPairs bl.TotalRowSize pl.TotalRowSize
        (foundPairs table pl.TotalRowSize js.ProbePackedInput js.ProbePackedInput.rows) js := by
  rw [THashJoin.DoBatchLookup, lookupFrom_eq _ _ _ _ _ _ _ (by omega)]
  simp [PackResult.rows, List.range_eq_range']

/-- C1. `THashJoin::DoBatchLookup` is an inner join of the packed probe block
against the build table.  Assume the table enumerates, for every probe tuple,
exactly the build rows with an equal key, each once (`hfind`; `keyEq` is false on
null keys).  Then the call appends one sequence of (build tuple, probe tuple)
pairs to `BuildPackedOutput` / `ProbePackedOutput` which is a permutation of all
pairs with equal keys, and the 32-bit counter `OutputRows` is increased by the
number of those pairs: in `ui32` arithmetic always, and as a plain sum whenever
that sum fits in 32 bits. -/
theorem THashJoin.DoBatchLookup_inner_join
    (keyEq : List Nat → List Nat → Bool) (table : TTable) (bl pl : TTupleLayout)
    (js : TJoinState) (hrows : js.OutputRows < UI32)
    (hfind : ∀ p ∈ js.ProbePackedInput.rows,
      (table.Find (tupleAt js.ProbePackedInput.PackedTuples pl.TotalRowSize p)
        js.ProbePackedInput.Overflow).Perm (matchingBuildRows keyEq bl pl js p)) :
    ∃ pairs : List (Nat × Nat),
      pairs.Perm (joinPairs keyEq bl pl js) ∧
      (THashJoin.DoBatchLookup table bl pl js).BuildPackedOutput =
        js.BuildPackedOutput ++
          (pairs.map fun q =>
            tupleAt js.BuildPackedInput.PackedTuples bl.TotalRowSize q.1).flatten ∧
      (THashJoin.DoBatchLookup table bl pl js).ProbePackedOutput =
        js.ProbePackedOutput ++
          (pairs.map fun q =>
            tupleAt js.ProbePackedInput.PackedTuples pl.TotalRowSize q.2).flatten ∧
      (THashJoin.DoBatchLookup table bl pl js).OutputRows =
        (js.OutputRows + (joinPairs keyEq bl pl js).length) % UI32 ∧
      (js.OutputRows + (joinPairs keyEq bl pl js).length < UI32 →
        (THashJoin.DoBatchLookup table bl pl js).OutputRows =
          js.OutputRows + (joinPairs keyEq bl pl js).length) := by
  refine ⟨foundPairs table pl.TotalRowSize js.ProbePackedInput js.ProbePackedInput.rows,
    ?_, ?_, ?_, ?_, ?_⟩
  · unfold foundPairs joinPairs
    exact List.Perm.flatMap_left _ fun p hp => (hfind p hp).map _
  · rw [DoBatchLookup_eq, emitPairs_build]
  · rw [DoBatchLookup_eq, emitPairs_probe]
  · have hperm : (foundPairs table pl.TotalRowSize js.ProbePackedInput
        js.ProbePackedInput.rows).Perm (joinPairs keyEq bl pl js) := by
      unfold foundPairs joinPairs
      exact List.Perm.flatMap_left _ fun p hp => (hfind p hp).map _
    rw [DoBatchLookup_eq, emitPairs_rows _ _ _ _ hrows, hperm.length_eq]
  · intro hfit
    have hperm : (foundPairs table pl.TotalRowSize js.ProbePackedInput
        js.ProbePackedInput.rows).Perm (joinPairs keyEq bl pl js) := by
      unfold foundPairs joinPairs
      exact List.Perm.flatMap_left _ fun p hp => (hfind p hp).map _
    rw [DoBatchLookup_eq, emitPairs_rows _ _ _ _ hrows, hperm.length_eq]
    exact Nat.mod_eq_of_lt hfit

/-- The inner-join theorem at a build input with keys 1, 2, 2 and a probe block
with keys 2, 3. -/
theorem THashJoin.DoBatchLookup_inner_join_witness :
    (TJoinState.initial sampleBuild sampleProbe 8).OutputRows < UI32 ∧
    ∃ pairs : List (Nat × Nat),
      pairs.Perm [(1, 0), (2, 0)] ∧
      (THashJoin.DoBatchLookup sampleTable byteLayout byteLayout
        (TJoinState.initial sampleBuild sampleProbe 8)).BuildPackedOutput =
          (pairs.map fun q => tupleAt [1, 2, 2] 1 q.1).flatten ∧
      (THashJoin.DoBatchLookup sampleTable byteLayout byteLayout
        (TJoinState.initial sampleBuild sampleProbe 8)).OutputRows = 2 := by
  refine ⟨by decide, ?_⟩
  obtain ⟨pairs, hperm, hb, _, _, hfit⟩ :=
    THashJoin.DoBatchLookup_inner_join bytesEq sampleTable byteLayout byteLayout
      (TJoinState.initial sampleBuild sampleProbe 8) (by decide) (by decide)
  have hj : joinPairs bytesEq byteLayout byteLayout
      (TJoinState.initial sampleBuild sampleProbe 8) = [(1, 0), (2, 0)] := by decide
  rw [hj] at hperm hfit
  exact ⟨pairs, hperm, by simpa [TJoinState.initial, sampleBuild, byteLayout] using hb,
    hfit (by decide)⟩

theorem collectAll_map_some {α β : Type} (f : α → Option β) (g : α → β) (l : List α)
    (h : ∀ a ∈ l, f a = some (g a)) : collectAll (l.map f) = some (l.map g) := by
  induction l with
  | nil => rfl
  | cons a l ih =>
    simp [collectAll, h a (by simp), ih (fun b hb => h b (by simp [hb]))]

theorem indirectionIndex_eq (blockIndex i : Nat) (hb : blockIndex < UI32) (hi : i < UI32) :
    indirectionIndex blockIndex i = 2 ^ 32 * blockIndex + i := by
  unfold indirectionIndex UI64
  unfold UI32 at hb hi
  rw [Nat.shiftLeft_eq, Nat.mul_comm, ← Nat.mul_add_lt_is_or hi blockIndex]
  apply Nat.mod_eq_of_lt
  omega

theorem decodeBlockIndex_indirectionIndex (blockIndex i : Nat) (hb : blockIndex < UI32)
    (hi : i < UI32) : decodeBlockIndex (indirectionIndex blockIndex i) = blockIndex := by
  rw [indirectionIndex_eq _ _ hb hi]
  unfold decodeBlockIndex
  unfold UI32 at *
  rw [Nat.shiftRight_eq_div_pow]
  have : (2 ^ 32 * blockIndex + i) / 2 ^ 32 = blockIndex := by omega
  rw [this]
  exact Nat.mod_eq_of_lt hb

theorem decodeElemIndex_indirectionIndex (blockIndex i : Nat) (hb : blockIndex < UI32)
    (hi : i < UI32) : decodeElemIndex (indirectionIndex blockIndex i) = i := by
  rw [indirectionIndex_eq _ _ hb hi]
  unfold decodeElemIndex
  unfold UI32 at *
  have h : (0xFFFFFFFF : Nat) = 2 ^ 32 - 1 := by norm_num
  rw [h, Nat.and_pow_two_sub_one_eq_mod]
  omega

theorem map_getD_range {α : Type} (l : List α) (d : α) :
    (List.range l.length).map (fun i => l.getD i d) = l := by
  apply List.ext_getElem
  · simp
  · intro n h1 h2
    simp [List.getD_eq_getElem?_getD, List.getElem?_eq_getElem h2]

theorem mem_selectColumns {keep : Nat → Bool} {columns : List (List Nat)} {c : List Nat}
    (h : c ∈ selectColumns keep columns) : c ∈ columns := by
  unfold selectColumns at h
  simp only [List.mem_map, List.mem_filter] at h
  obtain ⟨ic, ⟨hmem, _⟩, rfl⟩ := h
  have h2 : columns[ic.1]? = some ic.2 := List.mk_mem_enum_iff_getElem?.1 hmem
  exact List.getElem?_mem h2

/-- C5. Indirection round trip.  For a block whose columns all have `Size` rows,
with fewer than `2 ^ 32` rows, and a storage holding fewer than `2 ^ 32` blocks
and built for the payload columns of the stream: after `SplitBlock` and
`AddBlock` of the returned payload block, the index column is the last column of
the key block, every written index decodes (`>> 32`, `& 0xFFFFFFFF`) to the
insertion ordinal of the payload block and the row number, the payload block
sits at that ordinal, and `RestorePayload(indices, Size)` returns the non-key
columns of the block in original order. -/
theorem SplitBlock_RestorePayload_roundtrip (block : TBlock) (st : TExternalPayloadStorage)
    (keyColumnsSet : List Nat)
    (hwf : ∀ c ∈ block.Columns, c.length = block.Size)
    (hsize : block.Size < UI32)
    (hblocks : st.PayloadColumnsStorage.length < UI32)
    (hcols : st.NumColumns =
      (selectColumns (fun i => !keyColumnsSet.contains i) block.Columns).length) :
    (TExternalPayloadStorage.SplitBlock block st keyColumnsSet).1.1.Columns.getLast? =
      some (TExternalPayloadStorage.SplitBlock block st keyColumnsSet).2.IndirectionIndexes ∧
    (∀ i, i < block.Size → ∃ raw,
      (TExternalPayloadStorage.SplitBlock block st keyColumnsSet).2.IndirectionIndexes[i]? =
        some raw ∧
      decodeBlockIndex raw = st.PayloadColumnsStorage.length ∧ decodeElemIndex raw = i) ∧
    (((TExternalPayloadStorage.SplitBlock block st keyColumnsSet).2.AddBlock
        (TExternalPayloadStorage.SplitBlock block st keyColumnsSet).1.2).PayloadColumnsStorage[
          st.PayloadColumnsStorage.length]? =
      some (TExternalPayloadStorage.SplitBlock block st keyColumnsSet).1.2) ∧
    ((TExternalPayloadStorage.SplitBlock block st keyColumnsSet).2.AddBlock
        (TExternalPayloadStorage.SplitBlock block st keyColumnsSet).1.2).RestorePayload
      (TExternalPayloadStorage.SplitBlock block st keyColumnsSet).2.IndirectionIndexes
      (block.Size % UI32) =
        some (selectColumns (fun i => !keyColumnsSet.contains i) block.Columns) := by
  have hB : st.Size = st.PayloadColumnsStorage.length := Nat.mod_eq_of_lt hblocks
  have hidx : ∀ j, j < block.Size →
      ((List.range block.Size).map fun i => indirectionIndex st.Size i)[j]? =
        some (indirectionIndex st.PayloadColumnsStorage.length j) := by
    intro j hj
    simp [List.getElem?_map, List.getElem?_range hj, hB]
  refine ⟨by simp [TExternalPayloadStorage.SplitBlock], ?_, ?_, ?_⟩
  · intro i hi
    refine ⟨indirectionIndex st.PayloadColumnsStorage.length i, ?_, ?_, ?_⟩
    · simpa [TExternalPayloadStorage.SplitBlock] using hidx i hi
    · exact decodeBlockIndex_indirectionIndex _ _ hblocks (by omega)
    · exact decodeElemIndex_indirectionIndex _ _ hblocks (by omega)
  · simp [TExternalPayloadStorage.SplitBlock, TExternalPayloadStorage.AddBlock]
  · simp only [TExternalPayloadStorage.RestorePayload, TExternalPayloadStorage.SplitBlock,
      TExternalPayloadStorage.AddBlock, Nat.mod_eq_of_lt hsize, hcols]
    have hwf2 : ∀ c ∈ selectColumns (fun i => !keyColumnsSet.contains i) block.Columns,
        c.length = block.Size := fun c hc => hwf c (mem_selectColumns hc)
    generalize selectColumns (fun i => !keyColumnsSet.contains i) block.Columns = payload
      at hwf2 ⊢
    rw [collectAll_map_some _ (fun i => payload.getD i [])]
    · rw [map_getD_range]
    · intro i hi
      have hi2 : i < payload.length := List.mem_range.1 hi
      have hlen : (payload[i]).length = block.Size := hwf2 _ (List.getElem_mem hi2)
      rw [collectAll_map_some _ (fun j => (payload[i]).getD j 0)]
      · rw [← hlen, map_getD_range]
        simp [List.getD_eq_getElem?_getD, List.getElem?_eq_getElem hi2]
      · intro j hj
        have hj2 : j < block.Size := List.mem_range.1 hj
        have hj3 : j < (payload[i]).length := hlen ▸ hj2
        simp only [TExternalPayloadStorage.restoreItem, hidx j hj2, Option.bind_eq_bind,
          Option.some_bind]
        rw [decodeBlockIndex_indirectionIndex _ _ hblocks (by omega),
          decodeElemIndex_indirectionIndex _ _ hblocks (by omega)]
        simp [List.getElem?_eq_getElem hi2, List.getD_eq_getElem?_getD,
          List.getElem?_eq_getElem hj3]

/-- The round trip at a two-row block with key column 1 and a storage that
already holds one block. -/
theorem SplitBlock_RestorePayload_roundtrip_witness :
    ((∀ c ∈ sampleBlock.Columns, c.length = sampleBlock.Size) ∧ sampleBlock.Size < UI32 ∧
      sampleStorage.PayloadColumnsStorage.length < UI32) ∧
    ((TExternalPayloadStorage.SplitBlock sampleBlock sampleStorage [1]).2.AddBlock
        (TExternalPayloadStorage.SplitBlock sampleBlock sampleStorage [1]).1.2).RestorePayload
      (TExternalPayloadStorage.SplitBlock sampleBlock sampleStorage [1]).2.IndirectionIndexes
      (sampleBlock.Size % UI32) = some [[1, 2], [7, 8]] :=
  ⟨⟨by decide, by decide, by decide⟩,
    (SplitBlock_RestorePayload_roundtrip sampleBlock sampleStorage [1] (by decide) (by decide)
      (by decide) (by decide)).2.2.2⟩

/-- C3. Column projection under payload indirection fails when a key column is
not in front: for the one-row block with columns `[10]`, `[20]` and key column
1, the column list `MakeBlocks` assembles (unpacked key column, then the restored
payload) is `[20]`, `[10]`, so position 0, which `LeftIOMap` maps to source
column 0, holds the values of source column 1. -/
theorem assembleColumns_indirected_key_last :
    assembleColumns (rowConverter 2 0)
      (some ((TExternalPayloadStorage.SplitBlock keyLastBlock emptyStorage [1]).2.AddBlock
        (TExternalPayloadStorage.SplitBlock keyLastBlock emptyStorage [1]).1.2))
      ((rowConverter 2 0).Pack
        (TExternalPayloadStorage.SplitBlock keyLastBlock emptyStorage [1]).1.1.Columns
        PackResult.empty) 1 = some [[20], [10]] ∧
    makeIOMap 3 [] = [0, 1] ∧
    keyLastBlock.Columns[0]? = some [10] := by
  decide

theorem writeSlots_length (columns : Option (List (List Nat))) (ioMap : List Nat) :
    ∀ (index : Nat) (values : List TValue),
      (writeSlots columns ioMap index values).length = values.length := by
  induction ioMap with
  | nil => intro index values; rfl
  | cons c rest ih => intro index values; simp [writeSlots, ih]

theorem writeSlots_outside (columns : Option (List (List Nat))) (ioMap : List Nat) :
    ∀ (index : Nat) (values : List TValue) (j : Nat),
      (j < index ∨ index + ioMap.length ≤ j) →
      (writeSlots columns ioMap index values)[j]? = values[j]? := by
  induction ioMap with
  | nil => intro index values j _; rfl
  | cons c rest ih =>
    intro index values j hj
    simp only [writeSlots]
    rw [ih (index + 1) _ j (by simp only [List.length_cons] at hj; omega)]
    rw [List.getElem?_set_ne]
    simp only [List.length_cons] at hj; omega

theorem writeSlots_inside (columns : Option (List (List Nat))) (ioMap : List Nat) :
    ∀ (index : Nat) (values : List TValue) (k : Nat) (hk : k < ioMap.length),
      index + ioMap.length ≤ values.length →
      (writeSlots columns ioMap index values)[index + k]? =
        some (slotValue columns ioMap[k]) := by
  induction ioMap with
  | nil => intro index values k hk; simp at hk
  | cons c rest ih =>
    intro index values k hk hlen
    simp only [List.length_cons] at hk hlen
    simp only [writeSlots]
    cases k with
    | zero =>
      rw [writeSlots_outside _ _ _ _ _ (Or.inl (by omega))]
      simp only [Nat.add_zero, List.getElem_cons_zero]
      rw [List.getElem?_set_eq (by omega)]
    | succ k =>
      have := ih (index + 1) (values.set index (slotValue columns c)) k (by omega)
        (by simp only [List.length_set]; omega)
      rw [show index + (k + 1) = index + 1 + k by omega, this]
      simp

theorem makeIOMap_eq (streamItems : Nat) (keyDrops : List Nat)
    (h : streamItems - 1 ≤ UI32) :
    makeIOMap streamItems keyDrops =
      (List.range (streamItems - 1)).filter fun i => !keyDrops.contains i := by
  unfold makeIOMap
  generalize streamItems - 1 = n at h
  have hmod : ∀ i ∈ List.range n, i % UI32 = i := fun i hi =>
    Nat.mod_eq_of_lt (lt_of_lt_of_le (List.mem_range.1 hi) h)
  generalize List.range n = l at hmod
  induction l with
  | nil => rfl
  | cons a l ih =>
    have ha := hmod a (by simp)
    have ih2 := ih (fun i hi => hmod i (by simp [hi]))
    by_cases hc : a ∈ keyDrops
    · simpa [List.filterMap_cons, List.filter_cons, ha, hc] using ih2
    · simpa [List.filterMap_cons, List.filter_cons, ha, hc] using ih2

theorem WrapBlockGraceJoinCore_ok (c : TCallable) (w : TBlockGraceJoinCoreWraper)
    (h : WrapBlockGraceJoinCore c = Except.ok w) :
    w.LeftIOMap = makeIOMap c.LeftComponents c.LeftKeyDrops ∧
    w.RightIOMap = makeIOMap c.RightComponents c.RightKeyDrops ∧
    w.LeftKeyColumns = c.LeftKeyColumns ∧ w.RightKeyColumns = c.RightKeyColumns ∧
    w.LeftItemTypes = c.LeftComponents ∧ w.RightItemTypes = c.RightComponents := by
  unfold WrapBlockGraceJoinCore MKQL_ENSURE at h
  simp only [bind, Except.bind] at h
  repeat' split at h
  all_goals first | (injection h with h; subst h; simp) | (exact absurd h (by simp))

/-- C7. Construction validation.  For a well-typed call, `WrapBlockGraceJoinCore`
fails if and only if the join kind is not `Inner`, or a left key-drop index is
not a left key column, or a right key-drop index is not a right key column, or
the numbers of left and right key columns differ. -/
theorem WrapBlockGraceJoinCore_fails_iff (c : TCallable) (h : c.WellTyped) :
    (∃ msg, WrapBlockGraceJoinCore c = Except.error msg) ↔
      (c.JoinKind ≠ some EJoinKind.Inner ∨
       (∃ d ∈ c.LeftKeyDrops, d ∉ c.LeftKeyColumns) ∨
       (∃ d ∈ c.RightKeyDrops, d ∉ c.RightKeyColumns) ∨
       c.LeftKeyColumns.length ≠ c.RightKeyColumns.length) := by
  obtain ⟨h1, h2, h3, h4, h5, h6, h7, h8, h9, h10⟩ := h
  unfold WrapBlockGraceJoinCore MKQL_ENSURE
  simp only [bind, Except.bind, h1, h2, h3, h4, h5, h6, h7, h8, h9, h10, beq_self_eq_true,
    if_true, gt_iff_lt, decide_True]
  by_cases hk : c.JoinKind = some EJoinKind.Inner
  · by_cases hl : ∀ x ∈ c.LeftKeyDrops, x ∈ c.LeftKeyColumns
    · have hl2 : ¬ ∃ d ∈ c.LeftKeyDrops, d ∉ c.LeftKeyColumns := by push_neg; exact hl
      by_cases hr : ∀ x ∈ c.RightKeyDrops, x ∈ c.RightKeyColumns
      · have hr2 : ¬ ∃ d ∈ c.RightKeyDrops, d ∉ c.RightKeyColumns := by push_neg; exact hr
        by_cases hn : c.LeftKeyColumns.length = c.RightKeyColumns.length
        · simp [hk, eq_true hl, hl2, eq_true hr, hr2, hn, pure, Except.pure]
        · simp [hk, eq_true hl, hl2, eq_true hr, hr2, hn]
      · have hr2 : ∃ d ∈ c.RightKeyDrops, d ∉ c.RightKeyColumns := by push_neg at hr; exact hr
        simp [hk, eq_true hl, hl2, eq_false hr, hr2]
    · have hl2 : ∃ d ∈ c.LeftKeyDrops, d ∉ c.LeftKeyColumns := by push_neg at hl; exact hl
      simp [hk, eq_false hl, hl2]
  · simp [hk]

/-- The validation theorem at a call with a drop index outside the key columns. -/
theorem WrapBlockGraceJoinCore_fails_iff_witness :
    badDropCallable.WellTyped ∧
    ∃ msg, WrapBlockGraceJoinCore badDropCallable =
      Except.error msg :=
  ⟨by decide,
    (WrapBlockGraceJoinCore_fails_iff badDropCallable
      (by decide)).2 (Or.inr (Or.inr (Or.inl ⟨1, by decide, by decide⟩)))⟩

theorem MakeBlocks_slots (js : TJoinState) (o : TJoinObjects)
    (hwidth : js.Values.length = js.LeftIOMap.length + js.RightIOMap.length + 1) :
    (∀ k (hk : k < js.LeftIOMap.length),
      (js.MakeBlocks o).Values[k]? = some (slotValue (js.leftColumns o) js.LeftIOMap[k])) ∧
    (∀ k (hk : k < js.RightIOMap.length),
      (js.MakeBlocks o).Values[js.LeftIOMap.length + k]? =
        some (slotValue (js.rightColumns o) js.RightIOMap[k])) ∧
    (js.MakeBlocks o).Values[js.LeftIOMap.length + js.RightIOMap.length]? =
      some (TValue.Scalar js.OutputRows) ∧
    (js.MakeBlocks o).Values.length = js.Values.length := by
  refine ⟨?_, ?_, ?_, ?_⟩
  · intro k hk
    simp only [TJoinState.MakeBlocks]
    rw [writeSlots_outside _ _ _ _ _ (Or.inl hk)]
    have := writeSlots_inside (js.leftColumns o) js.LeftIOMap 0
      (js.Values.set (js.Values.length - 1) (TValue.Scalar js.OutputRows)) k hk
      (by simp only [List.length_set]; omega)
    simpa using this
  · intro k hk
    simp only [TJoinState.MakeBlocks]
    exact writeSlots_inside _ _ _ _ k hk
      (by simp only [writeSlots_length, List.length_set]; omega)
  · simp only [TJoinState.MakeBlocks]
    rw [writeSlots_outside _ _ _ _ _ (Or.inr (le_refl _)),
      writeSlots_outside _ _ _ _ _ (Or.inr (by omega))]
    have h : js.Values.length - 1 = js.LeftIOMap.length + js.RightIOMap.length := by omega
    rw [h, List.getElem?_set_eq (by omega)]
  · simp [TJoinState.MakeBlocks, writeSlots_length]

theorem sorted_filter_range (n : Nat) (p : Nat → Bool) :
    ((List.range n).filter p).Sorted (· < ·) :=
  (List.sorted_lt_range n).filter p

/-- C4. Emitted column order without indirection.  For an accepted call (stream
widths within `ui32` range), `leftIOMap` / `rightIOMap` are the strictly
ascending lists of data-column indices (the trailing block-length element
excluded) outside the respective drop set.  For either value of the swap flag,
`MakeBlocks` on a join state constructed with these maps (converters handed over
as build/probe according to the flag, no payload storage) writes output slot `k`
from column `leftIOMap[k]` of the unpacked left output for `k < |leftIOMap|`,
slot `|leftIOMap| + k` from column `rightIOMap[k]` of the unpacked right output,
and the block length into the last slot. -/
theorem column_order_without_indirection (c : TCallable) (w : TBlockGraceJoinCoreWraper)
    (hw : WrapBlockGraceJoinCore c = Except.ok w)
    (hl : c.LeftComponents - 1 ≤ UI32) (hr : c.RightComponents - 1 ≤ UI32)
    (wasSwapped : Bool) (leftConverter rightConverter : IBlockLayoutConverter)
    (maxLength n : Nat) (bi pi : PackResult) (bo po : List Nat) :
    w.LeftIOMap =
      (List.range (c.LeftComponents - 1)).filter (fun i => !c.LeftKeyDrops.contains i) ∧
    w.RightIOMap =
      (List.range (c.RightComponents - 1)).filter (fun i => !c.RightKeyDrops.contains i) ∧
    w.LeftIOMap.Sorted (· < ·) ∧ w.RightIOMap.Sorted (· < ·) ∧
    (∀ k (hk : k < w.LeftIOMap.length),
      (TJoinState.MakeBlocks
        { TJoinState.construct (w.LeftIOMap.length + w.RightIOMap.length + 1) maxLength
            w.LeftIOMap w.RightIOMap wasSwapped with
          BuildPackedInput := bi, ProbePackedInput := pi, BuildPackedOutput := bo,
          ProbePackedOutput := po, OutputRows := n }
        { BuildConverter := if wasSwapped then rightConverter else leftConverter,
          ProbeConverter := if wasSwapped then leftConverter else rightConverter,
          BuildPayloadStorage := none, ProbePayloadStorage := none }).Values[k]? =
        some (slotValue (some (leftConverter.Unpack
          { PackedTuples := if wasSwapped then po else bo,
            Overflow := if wasSwapped then pi.Overflow else bi.Overflow,
            NTuples := n,
            OverflowCapacity :=
              if wasSwapped then pi.OverflowCapacity else bi.OverflowCapacity }))
          w.LeftIOMap[k])) ∧
    (∀ k (hk : k < w.RightIOMap.length),
      (TJoinState.MakeBlocks
        { TJoinState.construct (w.LeftIOMap.length + w.RightIOMap.length + 1) maxLength
            w.LeftIOMap w.RightIOMap wasSwapped with
          BuildPackedInput := bi, ProbePackedInput := pi, BuildPackedOutput := bo,
          ProbePackedOutput := po, OutputRows := n }
        { BuildConverter := if wasSwapped then rightConverter else leftConverter,
          ProbeConverter := if wasSwapped then leftConverter else rightConverter,
          BuildPayloadStorage := none, ProbePayloadStorage := none }).Values[
            w.LeftIOMap.length + k]? =
        some (slotValue (some (rightConverter.Unpack
          { PackedTuples := if wasSwapped then bo else po,
            Overflow := if wasSwapped then bi.Overflow else pi.Overflow,
            NTuples := n,
            OverflowCapacity :=
              if wasSwapped then bi.OverflowCapacity else pi.OverflowCapacity }))
          w.RightIOMap[k])) ∧
    (TJoinState.MakeBlocks
        { TJoinState.construct (w.LeftIOMap.length + w.RightIOMap.length + 1) maxLength
            w.LeftIOMap w.RightIOMap wasSwapped with
          BuildPackedInput := bi, ProbePackedInput := pi, BuildPackedOutput := bo,
          ProbePackedOutput := po, OutputRows := n }
        { BuildConverter := if wasSwapped then rightConverter else leftConverter,
          ProbeConverter := if wasSwapped then leftConverter else rightConverter,
          BuildPayloadStorage := none, ProbePayloadStorage := none }).Values[
            w.LeftIOMap.length + w.RightIOMap.length]? = some (TValue.Scalar n) := by
  obtain ⟨hL, hR, -⟩ := WrapBlockGraceJoinCore_ok c w hw
  have hL2 := makeIOMap_eq c.LeftComponents c.LeftKeyDrops hl
  have hR2 := makeIOMap_eq c.RightComponents c.RightKeyDrops hr
  refine ⟨hL.trans hL2, hR.trans hR2, ?_, ?_, ?_, ?_, ?_⟩
  · rw [hL, hL2]; exact sorted_filter_range _ _
  · rw [hR, hR2]; exact sorted_filter_range _ _
  · intro k hk
    have h := (MakeBlocks_slots
      { TJoinState.construct (w.LeftIOMap.length + w.RightIOMap.length + 1) maxLength
            w.LeftIOMap w.RightIOMap wasSwapped with
          BuildPackedInput := bi, ProbePackedInput := pi, BuildPackedOutput := bo,
          ProbePackedOutput := po, OutputRows := n }
      { BuildConverter := if wasSwapped then rightConverter else leftConverter,
        ProbeConverter := if wasSwapped then leftConverter else rightConverter,
        BuildPayloadStorage := none, ProbePayloadStorage := none }
      (by simp [TJoinState.construct])).1 k (by simpa [TJoinState.construct] using hk)
    rw [h]
    cases wasSwapped <;>
      simp [TJoinState.construct, TJoinState.leftColumns, assembleColumns, TJoinObjects.converter,
        TJoinObjects.storage, TJoinState.packResultOf, TJoinState.packedOutput,
        TJoinState.overflowOf, TJoinState.overflowCapacityOf]
  · intro k hk
    have h := (MakeBlocks_slots
      { TJoinState.construct (w.LeftIOMap.length + w.RightIOMap.length + 1) maxLength
            w.LeftIOMap w.RightIOMap wasSwapped with
          BuildPackedInput := bi, ProbePackedInput := pi, BuildPackedOutput := bo,
          ProbePackedOutput := po, OutputRows := n }
      { BuildConverter := if wasSwapped then rightConverter else leftConverter,
        ProbeConverter := if wasSwapped then leftConverter else rightConverter,
        BuildPayloadStorage := none, ProbePayloadStorage := none }
      (by simp [TJoinState.construct])).2.1 k (by simpa [TJoinState.construct] using hk)
    refine h.trans ?_
    cases wasSwapped <;>
      simp [TJoinState.construct, TJoinState.rightColumns, assembleColumns, TJoinObjects.converter,
        TJoinObjects.storage, TJoinState.packResultOf, TJoinState.packedOutput,
        TJoinState.overflowOf, TJoinState.overflowCapacityOf]
  · have h := (MakeBlocks_slots
      { TJoinState.construct (w.LeftIOMap.length + w.RightIOMap.length + 1) maxLength
            w.LeftIOMap w.RightIOMap wasSwapped with
          BuildPackedInput := bi, ProbePackedInput := pi, BuildPackedOutput := bo,
          ProbePackedOutput := po, OutputRows := n }
      { BuildConverter := if wasSwapped then rightConverter else leftConverter,
        ProbeConverter := if wasSwapped then leftConverter else rightConverter,
        BuildPayloadStorage := none, ProbePayloadStorage := none }
      (by simp [TJoinState.construct])).2.2.1
    simpa [TJoinState.construct] using h

/-- The column-order theorem at the sample call, not swapped, with two output
rows packed by the two-column row converter. -/
theorem column_order_without_indirection_witness :
    (WrapBlockGraceJoinCore sampleCallable = Except.ok sampleWrapper ∧
      sampleCallable.LeftComponents - 1 ≤ UI32 ∧ sampleCallable.RightComponents - 1 ≤ UI32) ∧
    sampleWrapper.LeftIOMap = [0, 1] ∧ sampleWrapper.RightIOMap = [1] ∧
    (TJoinState.MakeBlocks
        { TJoinState.construct 4 8 [0, 1] [1] false with
          BuildPackedOutput := [2, 5, 3, 6], ProbePackedOutput := [2, 7, 3, 8], OutputRows := 2 }
        { BuildConverter := rowConverter 2 0, ProbeConverter := rowConverter 2 0,
          BuildPayloadStorage := none, ProbePayloadStorage := none }).Values =
      [TValue.Array [2, 3], TValue.Array [5, 6], TValue.Array [7, 8], TValue.Scalar 2] := by
  have h := column_order_without_indirection sampleCallable sampleWrapper rfl (by decide)
    (by decide) false (rowConverter 2 0) (rowConverter 2 0) 8 2 PackResult.empty
    PackResult.empty [2, 5, 3, 6] [2, 7, 3, 8]
  exact ⟨⟨rfl, by decide, by decide⟩, h.1.trans (by decide), h.2.1.trans (by decide), by decide⟩

theorem stuckStorage_fixed :
    stuckStorage.FetchStreams sampleContext = Except.ok (EFetchStatus.Finish, stuckStorage) ∧
    stuckStorage.GetStatus = EStatus.Unknown := ⟨rfl, rfl⟩

theorem bootstrapLoop_stuck (fuel : Nat) :
    TStreamValue.bootstrapLoop sampleContext fuel stuckStorage =
      Except.error TFailure.OutOfFuel := by
  induction fuel with
  | zero => rfl
  | succ fuel ih =>
    simp only [TStreamValue.bootstrapLoop, stuckStorage_fixed.1, stuckStorage_fixed.2]
    simpa using ih

theorem WideFetch_stuck (sv : TStreamValue) (tempStorage : TTempJoinStorage)
    (hmode : sv.Mode = EMode.Start) (hts : sv.TempStorage = some tempStorage)
    (hfetch : tempStorage.FetchStreams sampleContext =
      Except.ok (EFetchStatus.Finish, stuckStorage)) (fuel : Nat) :
    TStreamValue.WideFetch sampleContext fuel sv = Except.error TFailure.OutOfFuel := by
  cases fuel with
  | zero => simp [TStreamValue.WideFetch, hmode, TStreamValue.start, hts,
      TStreamValue.bootstrapLoop, throw, throwThe, MonadExceptOf.throw]
  | succ fuel =>
    simp [TStreamValue.WideFetch, hmode, TStreamValue.start, hts, TStreamValue.bootstrapLoop,
      hfetch, stuckStorage_fixed.2, bootstrapLoop_stuck fuel, throw, throwThe,
      MonadExceptOf.throw]

/-- C8. Empty left stream, failing input.  The left stream ends without a
block; the right stream delivers one block whose estimated packed size equals
the bootstrap limit, and then ends.  After the first `FetchStreams` the storage
is `stuckStorage`, on which `FetchStreams` pulls nothing and changes nothing
while `GetStatus` stays `Unknown`: the bootstrap loop of `WideFetch` does not
end, for every bound on its iterations. -/
theorem WideFetch_empty_left_never_returns :
    ∃ sv tempStorage, emptyLeftOperator = Except.ok sv ∧
      sv.Mode = EMode.Start ∧ sv.TempStorage = some tempStorage ∧
      tempStorage.FetchStreams sampleContext = Except.ok (EFetchStatus.Finish, stuckStorage) ∧
      stuckStorage.FetchStreams sampleContext = Except.ok (EFetchStatus.Finish, stuckStorage) ∧
      stuckStorage.GetStatus = EStatus.Unknown ∧
      ∀ fuel, TStreamValue.WideFetch sampleContext fuel sv =
        Except.error TFailure.OutOfFuel := by
  refine ⟨_, _, rfl, rfl, rfl, rfl, rfl, rfl, ?_⟩
  intro fuel
  exact WideFetch_stuck _ _ (by rfl) (by rfl) (by rfl) fuel

/-- C9. `THashJoin::DoProbe` returns `Finish` while a buffered probe block is
left.  In `twoBlockJoin` the probe queue holds the blocks (1, 2) and (7) and the
probe stream has ended.  Packing the first block fills the probe overflow buffer
to 20 of its 25 reserved bytes and finds no match, so `HasEnoughMemory` ends the
loop with `OutputRows == 0` and status `Finish`: `DoProbe` returns `Finish` with
the block (7), whose row matches the build row, still in `ProbeData_`. -/
theorem THashJoin.DoProbe_finish_with_buffered_block :
    ∃ hj hj1, twoBlockJoin = Except.ok hj ∧
      hj.ProbeData = [{ Size := 2, Columns := [[1, 2]] }, { Size := 1, Columns := [[7]] }] ∧
      hj.JoinState.BuildPackedInput.PackedTuples = [7] ∧
      hj.DoProbe = Except.ok (EFetchStatus.Finish, hj1) ∧
      hj1.ProbeData = [{ Size := 1, Columns := [[7]] }] :=
  ⟨_, _, rfl, rfl, rfl, rfl, rfl⟩

/-- C10, counterexample.  In `duplicateKeyJoin` (`MaxLength_ = 1`) the loop of
`DoProbe` is entered with `OutputRows = 0`, looks up the one probe block and is
left with `OutputRows = 4`: `MakeBlocks` is called with four rows. -/
theorem THashJoin.probeLoop_exceeds_MaxLength :
    ∃ hj status hj1, duplicateKeyJoin = Except.ok hj ∧
      hj.JoinState.MaxLength = 1 ∧ hj.JoinState.IsNotFull = true ∧
      THashJoin.probeLoop (hj.ProbeStream.length + hj.ProbeData.length + 2)
        EFetchStatus.Finish hj = Except.ok (TProbeLoopEnd.Left status hj1) ∧
      hj1.JoinState.OutputRows = 4 ∧
      ¬ hj1.JoinState.OutputRows ≤ hj1.JoinState.MaxLength ∧
      (THashJoin.finishProbe status hj1).map (fun r => (r.1, r.2.JoinState.Values)) =
        Except.ok (EFetchStatus.Ok,
          [TValue.Array [7, 7, 7, 7], TValue.Array [7, 7, 7, 7], TValue.Scalar 4]) :=
  ⟨_, _, _, rfl, rfl, rfl, rfl, rfl, by decide, rfl⟩

theorem tupleAt_length (buf : List Nat) (rowSize n row : Nat)
    (hbuf : buf.length = n * rowSize) (hrow : row < n) :
    (tupleAt buf rowSize row).length = rowSize := by
  unfold tupleAt
  rw [List.length_take, List.length_drop, hbuf]
  have h : (row + 1) * rowSize ≤ n * rowSize := Nat.mul_le_mul_right _ hrow
  have h2 : (row + 1) * rowSize = row * rowSize + rowSize := by ring
  omega

theorem length_flatten_const {α β : Type} (f : α → List β) (c : Nat) (l : List α)
    (h : ∀ a ∈ l, (f a).length = c) : (l.map f).flatten.length = l.length * c := by
  induction l with
  | nil => simp
  | cons a l ih =>
    simp only [List.map_cons, List.flatten_cons, List.length_append, List.length_cons]
    rw [ih (fun b hb => h b (by simp [hb])), h a (by simp)]
    ring

theorem emitPairs_holdsRows (b p n : Nat) (pairs : List (Nat × Nat)) (js : TJoinState)
    (hjs : js.HoldsRows b p n)
    (hbuild : js.BuildPackedInput.WellFormed b) (hprobe : js.ProbePackedInput.WellFormed p)
    (hpairs : ∀ q ∈ pairs, q.1 < js.BuildPackedInput.NTuples ∧ q.2 < js.ProbePackedInput.NTuples) :
    (emitPairs b p pairs js).HoldsRows b p (n + pairs.length) := by
  obtain ⟨h1, h2, h3⟩ := hjs
  refine ⟨?_, ?_, ?_⟩
  · rw [emitPairs_build, List.length_append, h1,
      length_flatten_const _ b _ (fun q hq => tupleAt_length _ _ _ _ hbuild (hpairs q hq).1)]
    ring
  · rw [emitPairs_probe, List.length_append, h2,
      length_flatten_const _ p _ (fun q hq => tupleAt_length _ _ _ _ hprobe (hpairs q hq).2)]
    ring
  · rw [emitPairs_rows _ _ _ _ (h3 ▸ Nat.mod_lt _ (by decide)), h3, Nat.mod_add_mod]

theorem foundPairs_valid (table : TTable) (p buildN : Nat) (probe : PackResult) (rows : List Nat)
    (htable : table.Valid buildN) (hrows : ∀ r ∈ rows, r < probe.NTuples) :
    ∀ q ∈ foundPairs table p probe rows, q.1 < buildN ∧ q.2 < probe.NTuples := by
  intro q hq
  simp only [foundPairs, List.mem_flatMap, List.mem_map] at hq
  obtain ⟨r, hr, j, hj, rfl⟩ := hq
  exact ⟨(htable _ _).2 j hj, hrows r hr⟩

theorem DoBatchLookup_holdsRows (table : TTable) (bl pl : TTupleLayout) (n : Nat)
    (js : TJoinState) (hjs : js.HoldsRows bl.TotalRowSize pl.TotalRowSize n)
    (hbuild : js.BuildPackedInput.WellFormed bl.TotalRowSize)
    (hprobe : js.ProbePackedInput.WellFormed pl.TotalRowSize)
    (htable : table.Valid js.BuildPackedInput.NTuples) :
    ∃ m, (THashJoin.DoBatchLookup table bl pl js).HoldsRows bl.TotalRowSize pl.TotalRowSize m := by
  rw [DoBatchLookup_eq]
  exact ⟨_, emitPairs_holdsRows _ _ _ _ _ hjs hbuild hprobe
    (foundPairs_valid _ _ _ _ _ htable (fun r hr => List.mem_range.1 hr))⟩

theorem PackNextProbeBlock_ok (hj hj4 : THashJoin) (h : hj.PackNextProbeBlock = Except.ok hj4) :
    hj4.Table = hj.Table ∧
    hj4.Objects.BuildConverter = hj.Objects.BuildConverter ∧
    hj4.Objects.ProbeConverter = hj.Objects.ProbeConverter ∧
    hj4.IsFinished = hj.IsFinished ∧ hj4.ProbeStream = hj.ProbeStream ∧
    (∃ block, hj.ProbeData = block :: hj4.ProbeData) ∧
    ∃ columns, hj4.JoinState =
      { hj.JoinState with
        ProbePackedInput := hj.Objects.ProbeConverter.Pack columns hj.JoinState.ProbePackedInput } := by
  unfold THashJoin.PackNextProbeBlock at h
  split at h
  · exact absurd h (by simp [throw, throwThe, MonadExceptOf.throw])
  · rename_i block rest hdata
    split at h
    · split at h
      · exact absurd h (by simp [throw, throwThe, MonadExceptOf.throw])
      · simp only [pure, Except.pure, Except.ok.injEq] at h
        subst h
        exact ⟨rfl, rfl, rfl, rfl, rfl, ⟨block, hdata⟩, ⟨_, rfl⟩⟩
    · simp only [pure, Except.pure, Except.ok.injEq] at h
      subst h
      exact ⟨rfl, rfl, rfl, rfl, rfl, ⟨block, hdata⟩, ⟨_, rfl⟩⟩

theorem Sound_after_lookup (hj4 : THashJoin) (h : hj4.Sound) : hj4.lookupAndClear.Sound := by
  obtain ⟨⟨n, hn⟩, hb, hp, ht, hc⟩ := h
  obtain ⟨m, hm⟩ := DoBatchLookup_holdsRows hj4.Table _ _ n hj4.JoinState hn hb hp ht
  have hin := emitPairs_inputs hj4.Objects.BuildConverter.Layout.TotalRowSize
    hj4.Objects.ProbeConverter.Layout.TotalRowSize
    (foundPairs hj4.Table hj4.Objects.ProbeConverter.Layout.TotalRowSize
      hj4.JoinState.ProbePackedInput hj4.JoinState.ProbePackedInput.rows) hj4.JoinState
  rw [← DoBatchLookup_eq] at hin
  refine ⟨⟨m, ?_⟩, ?_, ?_, ?_, hc⟩
  · exact hm
  · simpa [THashJoin.lookupAndClear, hin.1] using hb
  · simp [THashJoin.lookupAndClear, PackResult.WellFormed]
  · simpa [THashJoin.lookupAndClear, hin.1] using ht

theorem Sound_congr (hj hj1 : THashJoin) (h : hj.Sound)
    (hjs : hj1.JoinState = hj.JoinState) (hb : hj1.Objects.BuildConverter = hj.Objects.BuildConverter)
    (hp : hj1.Objects.ProbeConverter = hj.Objects.ProbeConverter) (ht : hj1.Table = hj.Table) :
    hj1.Sound := by
  unfold THashJoin.Sound at *
  rw [hjs, hb, hp, ht]
  exact h

theorem Sound_after_pack (hj hj4 : THashJoin) (h : hj.Sound)
    (hpack : hj.PackNextProbeBlock = Except.ok hj4) : hj4.Sound := by
  obtain ⟨ht, hb, hp, -, -, -, columns, hjs⟩ := PackNextProbeBlock_ok hj hj4 hpack
  obtain ⟨hn, hbi, hpi, htv, hc⟩ := h
  unfold THashJoin.Sound
  rw [ht, hb, hp, hjs]
  exact ⟨hn, hbi, hc _ _ hpi, htv, hc⟩

theorem fetchProbe_same (status : EFetchStatus) (hj : THashJoin) :
    (hj.fetchProbe status).2.2.JoinState = hj.JoinState ∧
    (hj.fetchProbe status).2.2.Objects = hj.Objects ∧
    (hj.fetchProbe status).2.2.Table = hj.Table ∧
    (hj.fetchProbe status).2.2.ProbeData = hj.ProbeData ∧
    (hj.fetchProbe status).2.2.IsFinished = hj.IsFinished := by
  unfold THashJoin.fetchProbe
  split
  · exact ⟨rfl, rfl, rfl, rfl, rfl⟩
  · split <;> exact ⟨rfl, rfl, rfl, rfl, rfl⟩

theorem markFinished_same (status : EFetchStatus) (hj : THashJoin) :
    (hj.markFinished status).JoinState = hj.JoinState ∧
    (hj.markFinished status).Objects = hj.Objects ∧
    (hj.markFinished status).Table = hj.Table ∧
    (hj.markFinished status).ProbeData = hj.ProbeData ∧
    (hj.markFinished status).ProbeStream = hj.ProbeStream := by
  unfold THashJoin.markFinished
  split <;> exact ⟨rfl, rfl, rfl, rfl, rfl⟩

theorem cacheFetched_same (status : EFetchStatus) (fetched : Option TBlock) (hj : THashJoin) :
    (hj.cacheFetched status fetched).JoinState = hj.JoinState ∧
    (hj.cacheFetched status fetched).Objects = hj.Objects ∧
    (hj.cacheFetched status fetched).Table = hj.Table ∧
    (hj.cacheFetched status fetched).IsFinished = hj.IsFinished ∧
    (hj.cacheFetched status fetched).ProbeStream = hj.ProbeStream := by
  unfold THashJoin.cacheFetched
  split
  · split <;> exact ⟨rfl, rfl, rfl, rfl, rfl⟩
  · exact ⟨rfl, rfl, rfl, rfl, rfl⟩

theorem afterFetch_sound (status : EFetchStatus) (fetched : Option TBlock) (hj : THashJoin)
    (hs : hj.Sound) (r : TProbeStep) (h : hj.afterFetch status fetched = Except.ok r) :
    r.join.Sound := by
  have hm : (hj.markFinished status).Sound := by
    obtain ⟨h1, h2, h3, -, -⟩ := markFinished_same status hj
    exact Sound_congr _ _ hs h1 (by rw [h2]) (by rw [h2]) h3
  have hc : ((hj.markFinished status).cacheFetched status fetched).Sound := by
    obtain ⟨h1, h2, h3, -, -⟩ := cacheFetched_same status fetched (hj.markFinished status)
    exact Sound_congr _ _ hm h1 (by rw [h2]) (by rw [h2]) h3
  unfold THashJoin.afterFetch at h
  split at h
  · simp only [pure, Except.pure, Except.ok.injEq] at h
    subst h
    exact hs
  · split at h
    · simp only [pure, Except.pure, Except.ok.injEq] at h
      subst h
      exact hm
    · split at h
      · exact absurd h (by simp [throw, throwThe, MonadExceptOf.throw])
      · rename_i packed hpack
        simp only [pure, Except.pure, Except.ok.injEq] at h
        subst h
        exact Sound_after_lookup packed (Sound_after_pack _ packed hc hpack)

theorem probeStep_sound (status : EFetchStatus) (hj : THashJoin) (hs : hj.Sound)
    (r : TProbeStep) (h : hj.probeStep status = Except.ok r) : r.join.Sound := by
  obtain ⟨h1, h2, h3, -, -⟩ := fetchProbe_same status hj
  exact afterFetch_sound _ _ _ (Sound_congr _ _ hs h1 (by rw [h2]) (by rw [h2]) h3) r h

theorem probeLoop_sound : ∀ (fuel : Nat) (status : EFetchStatus) (hj : THashJoin), hj.Sound →
    ∀ r, THashJoin.probeLoop fuel status hj = Except.ok r → r.join.Sound := by
  intro fuel
  induction fuel with
  | zero =>
    intro status hj _ r h
    exact absurd h (by simp [THashJoin.probeLoop, throw, throwThe, MonadExceptOf.throw])
  | succ fuel ih =>
    intro status hj hs r h
    simp only [THashJoin.probeLoop] at h
    split at h
    · have hstep := probeStep_sound status hj hs
      split at h
      · exact absurd h (by simp [throw, throwThe, MonadExceptOf.throw])
      · rename_i hj1 heq
        simp only [pure, Except.pure, Except.ok.injEq] at h
        subst h
        exact hstep _ heq
      · rename_i status1 hj1 heq
        simp only [pure, Except.pure, Except.ok.injEq] at h
        subst h
        exact hstep _ heq
      · rename_i status1 hj1 heq
        exact ih _ _ (hstep _ heq) r h
    · simp only [pure, Except.pure, Except.ok.injEq] at h
      subst h
      exact hs

theorem grace_lookupLoop_spec (table : TTable) (bl pl : TTupleLayout) (n : Nat)
    (hn : n + batchSize ≤ UI32) :
    ∀ (fuel cur row : Nat) (js : TJoinState), (cur < n → row = cur) → n - cur < fuel →
      ∃ cur2 js2,
        TInMemoryGraceJoin.lookupLoop table bl pl n fuel cur row js = Except.ok (cur2, js2) ∧
        cur ≤ cur2 ∧
        js2 = emitPairs bl.TotalRowSize pl.TotalRowSize
          (foundPairs table pl.TotalRowSize js.ProbePackedInput
            (List.range' cur (min cur2 n - cur))) js ∧
        (n ≤ cur2 ∨ js2.IsNotFull = false) ∧
        ((cur2 = cur ∧ js2 = js) ∨
          ∃ jb c r, jb.IsNotFull = true ∧ r ≤ batchSize ∧ js2 = lookupBatch table bl pl c r jb) := by
  intro fuel
  induction fuel with
  | zero => intro cur row js _ h; omega
  | succ fuel ih =>
    intro cur row js hrow hfuel
    simp only [TInMemoryGraceJoin.lookupLoop]
    by_cases hc : cur < n ∧ js.IsNotFull = true
    · rw [if_pos hc]
      have hr : row = cur := hrow hc.1
      subst hr
      have hmod : (row + batchSize) % UI32 = row + batchSize :=
        Nat.mod_eq_of_lt (by omega)
      rw [hmod]
      obtain ⟨cur2, js2, hloop, hle, hjs, hexit, hlast⟩ :=
        ih (row + batchSize) (row + min batchSize (n - row))
          (lookupBatch table bl pl row (min batchSize (n - row)) js)
          (by intro h; simp only [batchSize] at h ⊢; omega)
          (by simp only [batchSize]; omega)
      refine ⟨cur2, js2, hloop, le_trans (Nat.le_add_right _ _) hle, ?_, hexit, ?_⟩
      · rw [hjs, lookupBatch_eq, (emitPairs_inputs _ _ _ js).2.1, ← emitPairs_append,
          ← foundPairs_append]
        congr 2
        by_cases hfull : batchSize ≤ n - row
        · have hmin : row + batchSize ≤ min cur2 n := le_min hle (by omega)
          rw [Nat.min_eq_left hfull]
          generalize min cur2 n = m at hmin ⊢
          have h1 := List.range'_append row batchSize (m - (row + batchSize)) 1
          rw [Nat.one_mul] at h1
          rw [h1]
          congr 1
          omega
        · have h2 : n - (row + batchSize) = 0 := by omega
          have h3 : n ≤ cur2 := by omega
          have h4 : n - row ≤ batchSize := by omega
          rw [Nat.min_eq_right h3, Nat.min_eq_right h4, h2]
          simp
      · rcases hlast with ⟨-, hsame⟩ | hex
        · exact Or.inr ⟨js, row, min batchSize (n - row), hc.2, Nat.min_le_left _ _, hsame⟩
        · exact Or.inr hex
    · rw [if_neg hc]
      refine ⟨cur, js, rfl, le_refl _, ?_, ?_, Or.inl ⟨rfl, rfl⟩⟩
      · have : min cur n - cur = 0 := by omega
        simp [this, foundPairs, emitPairs]
      · by_cases h1 : cur < n
        · right
          cases h : js.IsNotFull
          · rfl
          · exact absurd ⟨h1, h⟩ hc
        · left; omega

theorem lookupAndClear_rows (hj : THashJoin) :
    hj.lookupAndClear.JoinState.OutputRows =
      (THashJoin.DoBatchLookup hj.Table hj.Objects.BuildConverter.Layout
        hj.Objects.ProbeConverter.Layout hj.JoinState).OutputRows ∧
    hj.lookupAndClear.JoinState.MaxLength = hj.JoinState.MaxLength ∧
    hj.lookupAndClear.Table = hj.Table ∧
    hj.lookupAndClear.Objects = hj.Objects := by
  refine ⟨rfl, ?_, rfl, rfl⟩
  simp only [THashJoin.lookupAndClear, DoBatchLookup_eq]
  exact (emitPairs_inputs _ _ _ _).2.2.1

theorem IsNotFull_congr (js js1 : TJoinState) (h1 : js1.OutputRows = js.OutputRows)
    (h2 : js1.MaxLength = js.MaxLength) : js1.IsNotFull = js.IsNotFull := by
  simp [TJoinState.IsNotFull, h1, h2]

theorem afterFetch_last_lookup (status : EFetchStatus) (fetched : Option TBlock)
    (hj : THashJoin) (r : TProbeStep) (h : hj.afterFetch status fetched = Except.ok r) :
    (r.join.JoinState = hj.JoinState ∧ r.join.Table = hj.Table ∧
      r.join.Objects.BuildConverter = hj.Objects.BuildConverter ∧
      r.join.Objects.ProbeConverter = hj.Objects.ProbeConverter) ∨
    ∃ packed : THashJoin, r = TProbeStep.Next status packed.lookupAndClear ∧
      packed.JoinState.OutputRows = hj.JoinState.OutputRows ∧
      packed.JoinState.MaxLength = hj.JoinState.MaxLength ∧
      packed.Table = hj.Table ∧
      packed.Objects.BuildConverter = hj.Objects.BuildConverter ∧
      packed.Objects.ProbeConverter = hj.Objects.ProbeConverter := by
  unfold THashJoin.afterFetch at h
  split at h
  · simp only [pure, Except.pure, Except.ok.injEq] at h
    subst h
    exact Or.inl ⟨rfl, rfl, rfl, rfl⟩
  · split at h
    · simp only [pure, Except.pure, Except.ok.injEq] at h
      subst h
      obtain ⟨h1, h2, h3, -, -⟩ := markFinished_same status hj
      exact Or.inl ⟨h1, h3, congrArg TJoinObjects.BuildConverter h2,
        congrArg TJoinObjects.ProbeConverter h2⟩
    · split at h
      · exact absurd h (by simp [throw, throwThe, MonadExceptOf.throw])
      · rename_i packed hpack
        simp only [pure, Except.pure, Except.ok.injEq] at h
        subst h
        obtain ⟨ht, hb, hp, -, -, -, columns, hjs⟩ := PackNextProbeBlock_ok _ packed hpack
        obtain ⟨h1, h2, h3, -, -⟩ := markFinished_same status hj
        obtain ⟨c1, c2, c3, -, -⟩ := cacheFetched_same status fetched (hj.markFinished status)
        refine Or.inr ⟨packed, rfl, ?_, ?_, ?_, ?_, ?_⟩
        · rw [hjs]; simp only; rw [c1, h1]
        · rw [hjs]; simp only; rw [c1, h1]
        · rw [ht, c3, h3]
        · rw [hb, c2, h2]
        · rw [hp, c2, h2]

theorem probeLoop_last_lookup : ∀ (fuel : Nat) (status : EFetchStatus) (hj : THashJoin)
    (r : TProbeLoopEnd), THashJoin.probeLoop fuel status hj = Except.ok r →
    (r.join.Table = hj.Table ∧
      r.join.Objects.BuildConverter = hj.Objects.BuildConverter ∧
      r.join.Objects.ProbeConverter = hj.Objects.ProbeConverter ∧
      r.join.JoinState.MaxLength = hj.JoinState.MaxLength) ∧
    (r.join.JoinState = hj.JoinState ∨
      ∃ packed : THashJoin, packed.JoinState.IsNotFull = true ∧
        packed.JoinState.MaxLength = hj.JoinState.MaxLength ∧
        packed.Table = hj.Table ∧
        packed.Objects.BuildConverter = hj.Objects.BuildConverter ∧
        packed.Objects.ProbeConverter = hj.Objects.ProbeConverter ∧
        r.join.JoinState = packed.lookupAndClear.JoinState) := by
  intro fuel
  induction fuel with
  | zero =>
    intro status hj r h
    exact absurd h (by simp [THashJoin.probeLoop, throw, throwThe, MonadExceptOf.throw])
  | succ fuel ih =>
    intro status hj r h
    simp only [THashJoin.probeLoop] at h
    split at h
    · rename_i hcond
      have hfull : hj.JoinState.IsNotFull = true := by
        simp only [Bool.and_eq_true] at hcond
        exact hcond.1
      obtain ⟨f1, f2, f3, -, -⟩ := fetchProbe_same status hj
      have hstep := afterFetch_last_lookup (hj.fetchProbe status).1 (hj.fetchProbe status).2.1
        (hj.fetchProbe status).2.2
      rw [f1, f2, f3] at hstep
      split at h
      · exact absurd h (by simp [throw, throwThe, MonadExceptOf.throw])
      · rename_i hj1 heq
        simp only [pure, Except.pure, Except.ok.injEq] at h
        subst h
        rcases hstep _ heq with ⟨a, b, c, d⟩ | ⟨packed, hr, -⟩
        · exact ⟨⟨b, c, d, congrArg TJoinState.MaxLength a⟩, Or.inl a⟩
        · exact absurd hr (by simp)
      · rename_i status1 hj1 heq
        simp only [pure, Except.pure, Except.ok.injEq] at h
        subst h
        rcases hstep _ heq with ⟨a, b, c, d⟩ | ⟨packed, hr, -⟩
        · exact ⟨⟨b, c, d, congrArg TJoinState.MaxLength a⟩, Or.inl a⟩
        · exact absurd hr (by simp)
      · rename_i status1 hj1 heq
        obtain ⟨⟨i1, i2, i3, i4⟩, ilast⟩ := ih status1 hj1 r h
        rcases hstep _ heq with ⟨a, b, c, d⟩ | ⟨packed, hr, p1, p2, p3, p4, p5⟩
        · simp only [TProbeStep.join] at a b c d
          refine ⟨⟨i1.trans b, i2.trans c, i3.trans d, i4.trans (congrArg _ a)⟩, ?_⟩
          rcases ilast with same | ⟨packed, q1, q2, q3, q4, q5, q6⟩
          · exact Or.inl (same.trans a)
          · exact Or.inr ⟨packed, q1, q2.trans (congrArg _ a), q3.trans b, q4.trans c,
              q5.trans d, q6⟩
        · simp only [TProbeStep.Next.injEq] at hr
          obtain ⟨-, hr⟩ := hr
          subst hr
          obtain ⟨-, l2, l3, l4⟩ := lookupAndClear_rows packed
          have hpfull : packed.JoinState.IsNotFull = true :=
            (IsNotFull_congr _ _ p1 p2).trans hfull
          refine ⟨⟨i1.trans (l3.trans p3), i2.trans ((congrArg _ l4).trans p4),
            i3.trans ((congrArg _ l4).trans p5), i4.trans (l2.trans p2)⟩, ?_⟩
          rcases ilast with same | ⟨packed2, q1, q2, q3, q4, q5, q6⟩
          · exact Or.inr ⟨packed, hpfull, p2, p3, p4, p5, same⟩
          · exact Or.inr ⟨packed2, q1, q2.trans (l2.trans p2), q3.trans (l3.trans p3),
              q4.trans ((congrArg _ l4).trans p4), q5.trans ((congrArg _ l4).trans p5), q6⟩
    · simp only [pure, Except.pure, Except.ok.injEq] at h
      subst h
      exact ⟨⟨rfl, rfl, rfl, rfl⟩, Or.inl rfl⟩

theorem grace_lookupLoop_last_batch (table : TTable) (bl pl : TTupleLayout) (n : Nat) :
    ∀ (fuel cur row : Nat) (js : TJoinState) (cur2 : Nat) (js2 : TJoinState),
      TInMemoryGraceJoin.lookupLoop table bl pl n fuel cur row js = Except.ok (cur2, js2) →
      js2 = js ∨
        ∃ jb c r, jb.IsNotFull = true ∧ r ≤ batchSize ∧ js2 = lookupBatch table bl pl c r jb := by
  intro fuel
  induction fuel with
  | zero =>
    intro cur row js cur2 js2 h
    exact absurd h (by simp [TInMemoryGraceJoin.lookupLoop, throw, throwThe, MonadExceptOf.throw])
  | succ fuel ih =>
    intro cur row js cur2 js2 h
    simp only [TInMemoryGraceJoin.lookupLoop] at h
    split at h
    · rename_i hc
      rcases ih _ _ _ _ _ h with same | hex
      · exact Or.inr ⟨js, row, min batchSize (n - cur), hc.2, Nat.min_le_left _ _, same⟩
      · exact Or.inr hex
    · simp only [pure, Except.pure, Except.ok.injEq, Prod.mk.injEq] at h
      exact Or.inl h.2.symm

/-- C10 (amended). A lookup pass starts only while `IsNotFull` holds, and its
rows are then added without a further check.  In `THashJoin::DoProbe`, when the
loop ends either no block was looked up, or the last whole-block lookup started
from a join state `js` with `OutputRows * 5 < MaxLength * 4` (in `ui32`
arithmetic) and `OutputRows` is what that lookup left.  In
`TInMemoryGraceJoin::DoBatchLookup`, either no batch was looked up or the last
batch of at most 64 probe tuples started from such a state. -/
theorem lookups_start_while_not_full :
    (∀ (fuel : Nat) (status : EFetchStatus) (hj : THashJoin) (r : TProbeLoopEnd),
      THashJoin.probeLoop fuel status hj = Except.ok r →
      r.join.JoinState = hj.JoinState ∨
        ∃ js : TJoinState,
          (js.OutputRows * 5) % UI32 < (js.MaxLength * 4) % UI32 ∧
          js.MaxLength = hj.JoinState.MaxLength ∧
          r.join.JoinState.OutputRows =
            (THashJoin.DoBatchLookup hj.Table hj.Objects.BuildConverter.Layout
              hj.Objects.ProbeConverter.Layout js).OutputRows) ∧
    (∀ (g g2 : TInMemoryGraceJoin), g.DoBatchLookup = Except.ok g2 →
      g2.JoinState = g.JoinState ∨
        ∃ (jb : TJoinState) (c r : Nat),
          (jb.OutputRows * 5) % UI32 < (jb.MaxLength * 4) % UI32 ∧ r ≤ batchSize ∧
          g2.JoinState = lookupBatch g.Table g.buildLayout g.probeLayout c r jb) := by
  constructor
  · intro fuel status hj r h
    obtain ⟨-, hlast⟩ := probeLoop_last_lookup fuel status hj r h
    rcases hlast with same | ⟨packed, q1, q2, q3, q4, q5, q6⟩
    · exact Or.inl same
    · refine Or.inr ⟨packed.JoinState, ?_, q2, ?_⟩
      · simpa [TJoinState.IsNotFull] using q1
      · rw [q6, (lookupAndClear_rows packed).1, q3, q4, q5]
  · intro g g2 h
    unfold TInMemoryGraceJoin.DoBatchLookup at h
    split at h
    · exact absurd h (by simp [throw, throwThe, MonadExceptOf.throw])
    · rename_i currProbeRow js heq
      simp only [pure, Except.pure, Except.ok.injEq] at h
      subst h
      have hjs : (g.afterLookup currProbeRow js).JoinState = js := by
        unfold TInMemoryGraceJoin.afterLookup
        split <;> rfl
      rw [hjs]
      rcases grace_lookupLoop_last_batch _ _ _ _ _ _ _ _ _ _ heq with same | ⟨jb, c, r, h1, h2, h3⟩
      · exact Or.inl same
      · exact Or.inr ⟨jb, c, r, by simpa [TJoinState.IsNotFull] using h1, h2, h3⟩

/-- The amended claim at `duplicateKeyJoin`: the one lookup starts from a state
with `OutputRows = 0` and `MaxLength = 1` and leaves four rows. -/
theorem lookups_start_while_not_full_witness :
    ∃ hj status hj1, duplicateKeyJoin = Except.ok hj ∧
      THashJoin.probeLoop 3 EFetchStatus.Finish hj =
        Except.ok (TProbeLoopEnd.Left status hj1) ∧
      (hj1.JoinState = hj.JoinState ∨
        ∃ js : TJoinState,
          (js.OutputRows * 5) % UI32 < (js.MaxLength * 4) % UI32 ∧
          js.MaxLength = hj.JoinState.MaxLength ∧
          hj1.JoinState.OutputRows =
            (THashJoin.DoBatchLookup hj.Table hj.Objects.BuildConverter.Layout
              hj.Objects.ProbeConverter.Layout js).OutputRows) :=
  ⟨_, _, _, rfl, rfl,
    (by
      exact lookups_start_while_not_full.1 3 EFetchStatus.Finish _ (TProbeLoopEnd.Left _ _)
        (by rfl))⟩
theorem valid_find_length (table : TTable) (n : Nat) (h : table.Valid n)
    (tuple overflow : List Nat) : (table.Find tuple overflow).length ≤ n := by
  have h1 := h tuple overflow
  have h2 : (table.Find tuple overflow) ⊆ List.range n := by
    intro j hj
    exact List.mem_range.2 (h1.2 j hj)
  have h3 := (List.subperm_of_subset h1.1 h2).length_le
  simpa using h3

theorem foundPairs_length_le (table : TTable) (p n : Nat) (probe : PackResult)
    (h : table.Valid n) (rows : List Nat) :
    (foundPairs table p probe rows).length ≤ rows.length * n := by
  induction rows with
  | nil => simp [foundPairs]
  | cons r rest ih =>
    have h1 := valid_find_length table n h (tupleAt probe.PackedTuples p r) probe.Overflow
    simp only [foundPairs, List.flatMap_cons, List.length_append, List.length_map,
      List.length_cons] at ih ⊢
    rw [Nat.add_mul, Nat.one_mul]
    omega

theorem SetSwapped_spec (js : TJoinState) (w : Bool) (h : js.SlotsAgree) :
    (js.SetSwapped w).WasSwapped = w ∧ (js.SetSwapped w).SlotsAgree ∧
    (js.SetSwapped w).OutputRows = js.OutputRows ∧
    (js.SetSwapped w).BuildPackedOutput = js.BuildPackedOutput ∧
    (js.SetSwapped w).ProbePackedOutput = js.ProbePackedOutput ∧
    (js.SetSwapped w).Count = js.Count ∧
    (js.SetSwapped w).MaxLength = js.MaxLength := by
  obtain ⟨h1, h2⟩ := h
  unfold TJoinState.SetSwapped TJoinState.SlotsAgree
  cases w <;> cases hs : js.WasSwapped <;> simp [hs] at h1 h2 ⊢ <;> simp [h1, h2, hs]

theorem pendingBuckets_congr (ctx : TComputationContext) (g g1 : TInMemoryGraceJoin) (first : Nat)
    (hlog : g1.BucketsLogNum = g.BucketsLogNum) (hobj : g1.Objects.BuildConverter = g.Objects.BuildConverter)
    (hobj2 : g1.Objects.ProbeConverter = g.Objects.ProbeConverter)
    (hl : ∀ b, first ≤ b → g1.LeftBuckets.getD b PackResult.empty = g.LeftBuckets.getD b PackResult.empty)
    (hr : ∀ b, first ≤ b → g1.RightBuckets.getD b PackResult.empty = g.RightBuckets.getD b PackResult.empty) :
    g1.pendingBuckets ctx first = g.pendingBuckets ctx first := by
  unfold TInMemoryGraceJoin.pendingBuckets
  rw [hlog, hobj, hobj2]
  apply List.flatMap_congr
  intro b hb
  have hb1 : first ≤ b := (List.mem_range'_1.1 hb).1
  rw [hl b hb1, hr b hb1]

theorem pendingBuckets_cons (ctx : TComputationContext) (g : TInMemoryGraceJoin) (first : Nat)
    (h : first < 2 ^ g.BucketsLogNum) :
    g.pendingBuckets ctx first =
      bucketPending ctx g.Objects.BuildConverter.Layout g.Objects.ProbeConverter.Layout first
        (g.LeftBuckets.getD first PackResult.empty) (g.RightBuckets.getD first PackResult.empty) ++
      g.pendingBuckets ctx (first + 1) := by
  unfold TInMemoryGraceJoin.pendingBuckets
  have h1 : 2 ^ g.BucketsLogNum - first = (2 ^ g.BucketsLogNum - (first + 1)) + 1 := by omega
  rw [h1, List.range'_succ, List.flatMap_cons]

theorem getD_set_ne {α : Type} (l : List α) (i j : Nat) (x d : α) (h : i ≠ j) :
    (l.set i x).getD j d = l.getD j d := by
  simp [List.getD_eq_getElem?_getD, List.getElem?_set_ne h]

theorem loadBucket_spec (ctx : TComputationContext) (g : TInMemoryGraceJoin) (h : g.Ready ctx)
    (hneed : g.NeedNextBucket = true) (hcb : g.CurrBucket < 2 ^ g.BucketsLogNum) :
    ∃ g1, g.loadBucket ctx = Except.ok g1 ∧ g1.Ready ctx ∧ g1.NeedNextBucket = false ∧
      g1.CurrProbeRow = 0 ∧ g1.CurrBucket = g.CurrBucket ∧
      g1.BucketsLogNum = g.BucketsLogNum ∧ g1.pending ctx = g.pending ctx := by
  have hll : g.CurrBucket < g.LeftBuckets.length := by rw [h.leftLength]; exact hcb
  have hrl : g.CurrBucket < g.RightBuckets.length := by rw [h.rightLength]; exact hcb
  have hl : g.LeftBuckets[g.CurrBucket]? = some g.LeftBuckets[g.CurrBucket] :=
    List.getElem?_eq_getElem hll
  have hr : g.RightBuckets[g.CurrBucket]? = some g.RightBuckets[g.CurrBucket] :=
    List.getElem?_eq_getElem hrl
  generalize g.LeftBuckets[g.CurrBucket] = l at hl
  generalize g.RightBuckets[g.CurrBucket] = r at hr
  have hnb : g.nextBucket = g.CurrBucket := by simp [TInMemoryGraceJoin.nextBucket, hneed]
  have hfit := h.buckets g.CurrBucket l r (by rw [hnb]) hl hr
  obtain ⟨hwl, hwr, hprod, hlb, hrb⟩ := hfit
  have hsw := fun w => SetSwapped_spec g.JoinState w h.slots
  have hidle := h.idle hneed
  unfold TInMemoryGraceJoin.loadBucket TInMemoryGraceJoin.BuildIndex
  simp only [hneed, if_true, hl, hr]
  by_cases hlt : l.NTuples < r.NTuples
  · simp only [hlt, if_true]
    refine ⟨_, rfl, ?_, rfl, hidle, rfl, rfl, ?_⟩
    · have hs := hsw false
      refine { tables := h.tables, logNum := h.logNum, leftLength := ?_, rightLength := ?_,
               bucketRange := ?_, buckets := ?_, loaded := ?_, idle := ?_, slots := ?_,
               outputRows := ?_, buildOutput := ?_, probeOutput := ?_, count := ?_,
               maxLength := ?_ }
      · simp [h.leftLength]
      · simp [h.rightLength]
      · simp only [TInMemoryGraceJoin.nextBucket]
        simp
        omega
      · intro b l1 r1 hb h1 h2
        simp only [TInMemoryGraceJoin.nextBucket] at hb
        simp at hb
        have hne : g.CurrBucket ≠ b := by omega
        simp only [List.getElem?_set_ne hne] at h1 h2
        exact h.buckets b l1 r1 (by rw [hnb]; omega) h1 h2
      · intro _
        simp only [TInMemoryGraceJoin.buildLayout, TInMemoryGraceJoin.probeLayout,
          TJoinState.GetSwapped, hs.1]
        exact ⟨hwl, hwr, (h.tables l).1, hprod, hrb⟩
      · intro hc
        simp at hc
      · simpa [TJoinState.SlotsAgree] using hs.2.1
      · simpa using hs.2.2.1.trans h.outputRows
      · simpa using hs.2.2.2.1.trans h.buildOutput
      · simpa using hs.2.2.2.2.1.trans h.probeOutput
      · simpa using hs.2.2.2.2.2.1.trans h.count
      · have := h.maxLength
        simpa [hs.2.2.2.2.2.2] using this
    · have hs := hsw false
      unfold TInMemoryGraceJoin.pending
      rw [hnb, pendingBuckets_cons ctx g g.CurrBucket hcb]
      simp only [hneed, if_true, List.nil_append, Bool.false_eq_true, if_false,
        TInMemoryGraceJoin.nextBucket]
      congr 1
      · simp only [TInMemoryGraceJoin.pendingLoaded, bucketPending, hlt, if_true,
          TInMemoryGraceJoin.buildLayout, TInMemoryGraceJoin.probeLayout,
          TJoinState.GetSwapped, hs.1, hidle, PackResult.rows, List.range_eq_range',
          Nat.sub_zero, List.getD_eq_getElem?_getD, hl, hr, Option.getD_some]
        apply List.map_congr_left
        intro q _
        simp [TInMemoryGraceJoin.pairOf, hs.1, TInMemoryGraceJoin.buildLayout,
          TInMemoryGraceJoin.probeLayout, TJoinState.GetSwapped]
      · apply pendingBuckets_congr ctx g
        · rfl
        · rfl
        · rfl
        · intro b hb
          exact getD_set_ne _ _ _ _ _ (by omega)
        · intro b hb
          exact getD_set_ne _ _ _ _ _ (by omega)
  · simp only [hlt, if_false]
    have hprod2 : r.NTuples * l.NTuples < UI32 := by rw [Nat.mul_comm]; exact hprod
    refine ⟨_, rfl, ?_, rfl, hidle, rfl, rfl, ?_⟩
    · have hs := hsw true
      refine { tables := h.tables, logNum := h.logNum, leftLength := ?_, rightLength := ?_,
               bucketRange := ?_, buckets := ?_, loaded := ?_, idle := ?_, slots := ?_,
               outputRows := ?_, buildOutput := ?_, probeOutput := ?_, count := ?_,
               maxLength := ?_ }
      · simp [h.leftLength]
      · simp [h.rightLength]
      · simp only [TInMemoryGraceJoin.nextBucket]
        simp
        omega
      · intro b l1 r1 hb h1 h2
        simp only [TInMemoryGraceJoin.nextBucket] at hb
        simp at hb
        have hne : g.CurrBucket ≠ b := by omega
        simp only [List.getElem?_set_ne hne] at h1 h2
        exact h.buckets b l1 r1 (by rw [hnb]; omega) h1 h2
      · intro _
        simp only [TInMemoryGraceJoin.buildLayout, TInMemoryGraceJoin.probeLayout,
          TJoinState.GetSwapped, hs.1]
        exact ⟨hwr, hwl, (h.tables r).2, hprod2, hlb⟩
      · intro hc
        simp at hc
      · simpa [TJoinState.SlotsAgree] using hs.2.1
      · simpa using hs.2.2.1.trans h.outputRows
      · simpa using hs.2.2.2.1.trans h.buildOutput
      · simpa using hs.2.2.2.2.1.trans h.probeOutput
      · simpa using hs.2.2.2.2.2.1.trans h.count
      · have := h.maxLength
        simpa [hs.2.2.2.2.2.2] using this
    · have hs := hsw true
      unfold TInMemoryGraceJoin.pending
      rw [hnb, pendingBuckets_cons ctx g g.CurrBucket hcb]
      simp only [hneed, if_true, List.nil_append, Bool.false_eq_true, if_false,
        TInMemoryGraceJoin.nextBucket]
      congr 1
      · simp only [TInMemoryGraceJoin.pendingLoaded, bucketPending, hlt, if_false,
          TInMemoryGraceJoin.buildLayout, TInMemoryGraceJoin.probeLayout,
          TJoinState.GetSwapped, hs.1, hidle, PackResult.rows, List.range_eq_range',
          Nat.sub_zero, List.getD_eq_getElem?_getD, hl, hr, Option.getD_some, if_true]
        apply List.map_congr_left
        intro q _
        simp [TInMemoryGraceJoin.pairOf, hs.1, TInMemoryGraceJoin.buildLayout,
          TInMemoryGraceJoin.probeLayout, TJoinState.GetSwapped]
      · apply pendingBuckets_congr ctx g
        · rfl
        · rfl
        · rfl
        · intro b hb
          exact getD_set_ne _ _ _ _ _ (by omega)
        · intro b hb
          exact getD_set_ne _ _ _ _ _ (by omega)

theorem emitPairs_slots (b p : Nat) (xs : List (Nat × Nat)) (js : TJoinState) :
    (emitPairs b p xs js).LeftPackedTuple = js.LeftPackedTuple ∧
    (emitPairs b p xs js).RightPackedTuple = js.RightPackedTuple := by
  induction xs generalizing js with
  | nil => simp [emitPairs]
  | cons x xs ih =>
    have h := ih (appendMatch b p x.1 x.2 js)
    simpa [emitPairs, appendMatch] using h

theorem emitBlock_fields (g : TInMemoryGraceJoin) :
    g.emitBlock.2.FillOutput.2.BucketsLogNum = g.BucketsLogNum ∧
    g.emitBlock.2.FillOutput.2.LeftBuckets = g.LeftBuckets ∧
    g.emitBlock.2.FillOutput.2.RightBuckets = g.RightBuckets ∧
    g.emitBlock.2.FillOutput.2.Table = g.Table ∧
    g.emitBlock.2.FillOutput.2.CurrBucket = g.CurrBucket ∧
    g.emitBlock.2.FillOutput.2.CurrProbeRow = g.CurrProbeRow ∧
    g.emitBlock.2.FillOutput.2.NeedNextBucket = g.NeedNextBucket ∧
    g.emitBlock.2.FillOutput.2.Objects.BuildConverter = g.Objects.BuildConverter ∧
    g.emitBlock.2.FillOutput.2.Objects.ProbeConverter = g.Objects.ProbeConverter ∧
    g.emitBlock.2.FillOutput.2.JoinState.WasSwapped = g.JoinState.WasSwapped ∧
    g.emitBlock.2.FillOutput.2.JoinState.LeftPackedTuple = g.JoinState.LeftPackedTuple ∧
    g.emitBlock.2.FillOutput.2.JoinState.RightPackedTuple = g.JoinState.RightPackedTuple ∧
    g.emitBlock.2.FillOutput.2.JoinState.MaxLength = g.JoinState.MaxLength ∧
    g.emitBlock.2.FillOutput.2.JoinState.OutputRows = 0 ∧
    g.emitBlock.2.FillOutput.2.JoinState.BuildPackedOutput = [] ∧
    g.emitBlock.2.FillOutput.2.JoinState.ProbePackedOutput = [] ∧
    g.emitBlock.2.FillOutput.2.JoinState.Count = 0 ∧
    g.emitBlock.2.FillOutput.2.JoinState.BuildPackedInput = g.JoinState.BuildPackedInput ∧
    (g.NeedNextBucket = false →
      g.emitBlock.2.FillOutput.2.JoinState.ProbePackedInput = g.JoinState.ProbePackedInput) := by
  unfold TInMemoryGraceJoin.emitBlock TInMemoryGraceJoin.FillOutput
  cases hn : g.NeedNextBucket <;>
    simp [TJoinState.MakeBlocks, TJoinState.ResetInput, TJoinState.ResetOutput]

theorem Ready_transfer (ctx : TComputationContext) (g g3 : TInMemoryGraceJoin) (h : g.Ready ctx)
    (hconvB : g3.Objects.BuildConverter = g.Objects.BuildConverter)
    (hconvP : g3.Objects.ProbeConverter = g.Objects.ProbeConverter)
    (hlog : g3.BucketsLogNum = g.BucketsLogNum)
    (hL : g3.LeftBuckets = g.LeftBuckets) (hR : g3.RightBuckets = g.RightBuckets)
    (hnext : g3.nextBucket = g.nextBucket)
    (hloaded : g3.NeedNextBucket = false → g.NeedNextBucket = false ∧ g3.Table = g.Table ∧
      g3.JoinState.BuildPackedInput = g.JoinState.BuildPackedInput ∧
      g3.JoinState.ProbePackedInput = g.JoinState.ProbePackedInput ∧
      g3.JoinState.WasSwapped = g.JoinState.WasSwapped)
    (hidle : g3.NeedNextBucket = true → g3.CurrProbeRow = 0)
    (hslots : g3.JoinState.SlotsAgree) (hrows : g3.JoinState.OutputRows = 0)
    (hbo : g3.JoinState.BuildPackedOutput = []) (hpo : g3.JoinState.ProbePackedOutput = [])
    (hcount : g3.JoinState.Count = 0)
    (hml : g3.JoinState.MaxLength = g.JoinState.MaxLength) : g3.Ready ctx := by
  refine { tables := ?_, logNum := ?_, leftLength := ?_, rightLength := ?_,
           bucketRange := ?_, buckets := ?_, loaded := ?_, idle := hidle, slots := hslots,
           outputRows := hrows, buildOutput := hbo, probeOutput := hpo, count := hcount,
           maxLength := ?_ }
  · rw [hconvB, hconvP]; exact h.tables
  · rw [hlog]; exact h.logNum
  · rw [hL, hlog]; exact h.leftLength
  · rw [hR, hlog]; exact h.rightLength
  · rw [hnext, hlog]; exact h.bucketRange
  · rw [hnext, hL, hR, hconvB, hconvP]; exact h.buckets
  · intro hn
    obtain ⟨h1, h2, h3, h4, h5⟩ := hloaded hn
    have h6 := h.loaded h1
    simp only [TInMemoryGraceJoin.buildLayout, TInMemoryGraceJoin.probeLayout,
      TJoinState.GetSwapped] at h6 ⊢
    simp only [h2, h3, h4, h5, hconvB, hconvP]
    exact h6
  · rw [hml]; exact h.maxLength

theorem grace_lookup_state (ctx : TComputationContext) (g : TInMemoryGraceJoin) (h : g.Ready ctx)
    (hneed : g.NeedNextBucket = false) (m : Nat)
    (hm : m ≤ g.JoinState.ProbePackedInput.NTuples) (P : List (Nat × Nat))
    (hP : P = foundPairs g.Table g.probeLayout.TotalRowSize g.JoinState.ProbePackedInput
      (List.range' g.CurrProbeRow (m - g.CurrProbeRow)))
    (js2 : TJoinState)
    (hjs2 : js2 = emitPairs g.buildLayout.TotalRowSize g.probeLayout.TotalRowSize P g.JoinState) :
    js2.HoldsRows g.buildLayout.TotalRowSize g.probeLayout.TotalRowSize (P.map g.pairOf).length ∧
    js2.OutputRows = (P.map g.pairOf).length ∧
    js2.leftOutput = ((P.map g.pairOf).map TPair.Left).flatten ∧
    js2.rightOutput = ((P.map g.pairOf).map TPair.Right).flatten ∧
    js2.SlotsAgree ∧ js2.WasSwapped = g.JoinState.WasSwapped ∧
    js2.MaxLength = g.JoinState.MaxLength ∧
    js2.BuildPackedInput = g.JoinState.BuildPackedInput ∧
    js2.ProbePackedInput = g.JoinState.ProbePackedInput ∧
    js2.Count = 0 ∧ (P = [] → js2 = g.JoinState) := by
  obtain ⟨hwb, hwp, hvalid, hprod, hnb⟩ := h.loaded hneed
  have hin := emitPairs_inputs g.buildLayout.TotalRowSize g.probeLayout.TotalRowSize P g.JoinState
  have hsl := emitPairs_slots g.buildLayout.TotalRowSize g.probeLayout.TotalRowSize P g.JoinState
  have hbo := emitPairs_build g.buildLayout.TotalRowSize g.probeLayout.TotalRowSize P g.JoinState
  have hpo := emitPairs_probe g.buildLayout.TotalRowSize g.probeLayout.TotalRowSize P g.JoinState
  have hro := emitPairs_rows g.buildLayout.TotalRowSize g.probeLayout.TotalRowSize P g.JoinState
    (by rw [h.outputRows]; decide)
  rw [← hjs2] at hin hsl hbo hpo hro
  rw [h.buildOutput, List.nil_append] at hbo
  rw [h.probeOutput, List.nil_append] at hpo
  rw [h.outputRows, Nat.zero_add] at hro
  have hrows : ∀ r ∈ List.range' g.CurrProbeRow (m - g.CurrProbeRow),
      r < g.JoinState.ProbePackedInput.NTuples := by
    intro r hr
    have := List.mem_range'_1.1 hr
    omega
  have hPvalid : ∀ q ∈ P, q.1 < g.JoinState.BuildPackedInput.NTuples ∧
      q.2 < g.JoinState.ProbePackedInput.NTuples := by
    rw [hP]
    exact foundPairs_valid _ _ _ _ _ hvalid hrows
  have hPlen : P.length < UI32 := by
    have h1 := foundPairs_length_le g.Table g.probeLayout.TotalRowSize
      g.JoinState.BuildPackedInput.NTuples g.JoinState.ProbePackedInput hvalid
      (List.range' g.CurrProbeRow (m - g.CurrProbeRow))
    rw [← hP, List.length_range'] at h1
    have h2 : (m - g.CurrProbeRow) * g.JoinState.BuildPackedInput.NTuples ≤
        g.JoinState.ProbePackedInput.NTuples * g.JoinState.BuildPackedInput.NTuples :=
      Nat.mul_le_mul_right _ (by omega)
    rw [Nat.mul_comm g.JoinState.ProbePackedInput.NTuples] at h2
    omega
  have hhold := emitPairs_holdsRows g.buildLayout.TotalRowSize g.probeLayout.TotalRowSize 0 P
    g.JoinState (by simp [TJoinState.HoldsRows, h.buildOutput, h.probeOutput, h.outputRows])
    hwb hwp hPvalid
  rw [← hjs2, Nat.zero_add] at hhold
  rw [Nat.mod_eq_of_lt hPlen] at hro
  have hslots : js2.SlotsAgree := by
    have := h.slots
    unfold TJoinState.SlotsAgree at this ⊢
    rw [hsl.1, hsl.2, hin.2.2.2.1]
    exact this
  refine ⟨by simpa using hhold, by simpa using hro, ?_, ?_, hslots, hin.2.2.2.1, hin.2.2.1,
    hin.1, hin.2.1, by rw [hin.2.2.2.2.1, h.count], ?_⟩
  · unfold TJoinState.leftOutput
    rw [hslots.1, hin.2.2.2.1]
    cases hs : g.JoinState.WasSwapped
    · simp [TJoinState.packedOutput, hbo, TInMemoryGraceJoin.pairOf, hs, Function.comp_def]
    · simp [TJoinState.packedOutput, hpo, TInMemoryGraceJoin.pairOf, hs, Function.comp_def]
  · unfold TJoinState.rightOutput
    rw [hslots.2, hin.2.2.2.1]
    cases hs : g.JoinState.WasSwapped
    · simp [TJoinState.packedOutput, hpo, TInMemoryGraceJoin.pairOf, hs, Function.comp_def]
    · simp [TJoinState.packedOutput, hbo, TInMemoryGraceJoin.pairOf, hs, Function.comp_def]
  · intro hnil
    rw [hjs2, hnil]
    rfl

theorem afterLookup_fields (g : TInMemoryGraceJoin) (cur2 : Nat) (js : TJoinState) :
    (g.afterLookup cur2 js).JoinState = js ∧
    (g.afterLookup cur2 js).Objects = g.Objects ∧
    (g.afterLookup cur2 js).BucketsLogNum = g.BucketsLogNum ∧
    (g.afterLookup cur2 js).LeftBuckets = g.LeftBuckets ∧
    (g.afterLookup cur2 js).RightBuckets = g.RightBuckets ∧
    (g.afterLookup cur2 js).Table = g.Table ∧
    (g.JoinState.ProbePackedInput.NTuples ≤ cur2 →
      (g.afterLookup cur2 js).NeedNextBucket = true ∧
      (g.afterLookup cur2 js).CurrBucket = (g.CurrBucket + 1) % UI32 ∧
      (g.afterLookup cur2 js).CurrProbeRow = 0) ∧
    (cur2 < g.JoinState.ProbePackedInput.NTuples →
      (g.afterLookup cur2 js).NeedNextBucket = g.NeedNextBucket ∧
      (g.afterLookup cur2 js).CurrBucket = g.CurrBucket ∧
      (g.afterLookup cur2 js).CurrProbeRow = cur2) := by
  unfold TInMemoryGraceJoin.afterLookup
  by_cases hc : cur2 ≥ g.JoinState.ProbePackedInput.NTuples
  · rw [if_pos hc]
    refine ⟨rfl, rfl, rfl, rfl, rfl, rfl, fun _ => ⟨rfl, rfl, rfl⟩, fun h => ?_⟩
    omega
  · rw [if_neg hc]
    refine ⟨rfl, rfl, rfl, rfl, rfl, rfl, fun h => ?_, fun _ => ⟨rfl, rfl, rfl⟩⟩
    omega

theorem pairOf_congr (g g3 : TInMemoryGraceJoin)
    (hconvB : g3.Objects.BuildConverter = g.Objects.BuildConverter)
    (hconvP : g3.Objects.ProbeConverter = g.Objects.ProbeConverter)
    (hcb : g3.CurrBucket = g.CurrBucket)
    (hsw : g3.JoinState.WasSwapped = g.JoinState.WasSwapped)
    (hbi : g3.JoinState.BuildPackedInput = g.JoinState.BuildPackedInput)
    (hpi : g3.JoinState.ProbePackedInput = g.JoinState.ProbePackedInput) :
    g3.pairOf = g.pairOf := by
  funext q
  simp only [TInMemoryGraceJoin.pairOf, TInMemoryGraceJoin.buildLayout,
    TInMemoryGraceJoin.probeLayout, TJoinState.GetSwapped, hconvB, hconvP, hcb, hsw, hbi, hpi]

theorem pendingLoaded_congr (g g3 : TInMemoryGraceJoin)
    (hconvB : g3.Objects.BuildConverter = g.Objects.BuildConverter)
    (hconvP : g3.Objects.ProbeConverter = g.Objects.ProbeConverter)
    (hcb : g3.CurrBucket = g.CurrBucket) (htable : g3.Table = g.Table)
    (hsw : g3.JoinState.WasSwapped = g.JoinState.WasSwapped)
    (hbi : g3.JoinState.BuildPackedInput = g.JoinState.BuildPackedInput)
    (hpi : g3.JoinState.ProbePackedInput = g.JoinState.ProbePackedInput) :
    g3.pendingLoaded =
      (foundPairs g.Table g.probeLayout.TotalRowSize g.JoinState.ProbePackedInput
        (List.range' g3.CurrProbeRow
          (g.JoinState.ProbePackedInput.NTuples - g3.CurrProbeRow))).map g.pairOf := by
  unfold TInMemoryGraceJoin.pendingLoaded
  rw [pairOf_congr g g3 hconvB hconvP hcb hsw hbi hpi]
  simp only [TInMemoryGraceJoin.probeLayout, TJoinState.GetSwapped, hconvB, hconvP, htable, hsw,
    hpi]

theorem IsNotFull_of_empty (js : TJoinState) (h0 : js.OutputRows = 0)
    (hml : 1 ≤ js.MaxLength ∧ js.MaxLength < 2 ^ 30) : js.IsNotFull = true := by
  unfold TJoinState.IsNotFull
  rw [h0]
  have h1 : (js.MaxLength * 4) % UI32 = js.MaxLength * 4 :=
    Nat.mod_eq_of_lt (by unfold UI32; omega)
  rw [h1]
  simp
  omega

theorem grace_lookup_spec (ctx : TComputationContext) (g : TInMemoryGraceJoin) (h : g.Ready ctx)
    (hneed : g.NeedNextBucket = false) :
    ∃ g2 E, g.DoBatchLookup = Except.ok g2 ∧
      g2.JoinState.HoldsRows g2.buildLayout.TotalRowSize g2.probeLayout.TotalRowSize E.length ∧
      g2.JoinState.OutputRows = E.length ∧
      g2.JoinState.leftOutput = (E.map TPair.Left).flatten ∧
      g2.JoinState.rightOutput = (E.map TPair.Right).flatten ∧
      g2.BucketsLogNum = g.BucketsLogNum ∧
      (E = [] → g2.Ready ctx ∧ g2.pending ctx = g.pending ctx ∧
        g2.CurrBucket = g.CurrBucket + 1 ∧ g2.NeedNextBucket = true) ∧
      (E ≠ [] → g2.emitBlock.2.FillOutput.2.Ready ctx ∧
        g.pending ctx = E ++ g2.emitBlock.2.FillOutput.2.pending ctx) := by
  obtain ⟨hwb, hwp, hvalid, hprod, hnb⟩ := h.loaded hneed
  obtain ⟨cur2, js2, hrun, hle, hjs2, hexit, _⟩ :=
    grace_lookupLoop_spec g.Table g.buildLayout g.probeLayout
      g.JoinState.ProbePackedInput.NTuples hnb
      (g.JoinState.ProbePackedInput.NTuples + 1) g.CurrProbeRow g.CurrProbeRow g.JoinState
      (fun _ => rfl) (by omega)
  obtain ⟨P, hP⟩ : ∃ P, P = foundPairs g.Table g.probeLayout.TotalRowSize
      g.JoinState.ProbePackedInput (List.range' g.CurrProbeRow
        (min cur2 g.JoinState.ProbePackedInput.NTuples - g.CurrProbeRow)) := ⟨_, rfl⟩
  rw [← hP] at hjs2
  obtain ⟨hhold, hrows, hleft, hright, hslots, hsw, hml, hbi, hpi, hcount, hnil⟩ :=
    grace_lookup_state ctx g h hneed (min cur2 g.JoinState.ProbePackedInput.NTuples)
      (Nat.min_le_right _ _) P hP js2 hjs2
  obtain ⟨fjs, fobj, flog, fL, fR, ftab, fdone, fmore⟩ := afterLookup_fields g cur2 js2
  have hdo : g.DoBatchLookup = Except.ok (g.afterLookup cur2 js2) := by
    unfold TInMemoryGraceJoin.DoBatchLookup
    rw [hrun]
    rfl
  have hnext : g.nextBucket = g.CurrBucket + 1 := by simp [TInMemoryGraceJoin.nextBucket, hneed]
  have hcb : g.CurrBucket + 1 ≤ 2 ^ g.BucketsLogNum := by
    have := h.bucketRange
    rwa [hnext] at this
  have hpow : 2 ^ g.BucketsLogNum < UI32 := Nat.pow_lt_pow_right (by decide) h.logNum
  have hmod : (g.CurrBucket + 1) % UI32 = g.CurrBucket + 1 := Nat.mod_eq_of_lt (by omega)
  have hlay : (g.afterLookup cur2 js2).buildLayout = g.buildLayout ∧
      (g.afterLookup cur2 js2).probeLayout = g.probeLayout := by
    simp [TInMemoryGraceJoin.buildLayout, TInMemoryGraceJoin.probeLayout,
      TJoinState.GetSwapped, fjs, fobj, hsw]
  generalize g.afterLookup cur2 js2 = g2 at fjs fobj flog fL fR ftab fdone fmore hdo hlay
  have hloadedAll : g.pendingLoaded =
      (foundPairs g.Table g.probeLayout.TotalRowSize g.JoinState.ProbePackedInput
        (List.range' g.CurrProbeRow
          (g.JoinState.ProbePackedInput.NTuples - g.CurrProbeRow))).map g.pairOf := rfl
  have hpend : g.pending ctx = g.pendingLoaded ++ g.pendingBuckets ctx (g.CurrBucket + 1) := by
    simp [TInMemoryGraceJoin.pending, hneed, hnext]
  refine ⟨g2, P.map g.pairOf, hdo, ?_, ?_, ?_, ?_, flog, ?_, ?_⟩
  · rw [fjs, hlay.1, hlay.2]; exact hhold
  · rw [fjs]; exact hrows
  · rw [fjs]; exact hleft
  · rw [fjs]; exact hright
  · intro hE
    have hPnil : P = [] := List.map_eq_nil_iff.1 hE
    have hjs := hnil hPnil
    have hge : g.JoinState.ProbePackedInput.NTuples ≤ cur2 := by
      rcases hexit with hx | hx
      · exact hx
      · rw [hjs, IsNotFull_of_empty g.JoinState h.outputRows h.maxLength] at hx
        cases hx
    obtain ⟨fn, fc, fr⟩ := fdone hge
    have hnext2 : g2.nextBucket = g.nextBucket := by
      simp [TInMemoryGraceJoin.nextBucket, fn, fc, hmod, hneed]
    refine ⟨?_, ?_, by rw [fc, hmod], fn⟩
    · refine Ready_transfer ctx g g2 h (by rw [fobj]) (by rw [fobj]) flog fL fR hnext2
        (by intro hc; rw [fn] at hc; cases hc) (fun _ => fr) (by rw [fjs]; exact hslots)
        (by rw [fjs, hjs]; exact h.outputRows) (by rw [fjs, hjs]; exact h.buildOutput)
        (by rw [fjs, hjs]; exact h.probeOutput) (by rw [fjs]; exact hcount)
        (by rw [fjs]; exact hml)
    · rw [hpend, hloadedAll]
      have hmin : min cur2 g.JoinState.ProbePackedInput.NTuples =
          g.JoinState.ProbePackedInput.NTuples := Nat.min_eq_right hge
      rw [hmin] at hP
      rw [← hP, hPnil]
      simp only [TInMemoryGraceJoin.pending, fn, if_true, List.map_nil, List.nil_append]
      rw [hnext2, hnext]
      exact pendingBuckets_congr ctx g g2 _ flog (by rw [fobj]) (by rw [fobj])
        (fun b _ => by rw [fL]) (fun b _ => by rw [fR])
  · intro hE
    obtain ⟨e1, e2, e3, e4, e5, e6, e7, e8, e9, e10, e11, e12, e13, e14, e15, e16, e17, e18, e19⟩ :=
      emitBlock_fields g2
    generalize g2.emitBlock.2.FillOutput.2 = g3 at *
    have hslots3 : g3.JoinState.SlotsAgree := by
      unfold TJoinState.SlotsAgree
      rw [e11, e12, e10, fjs]
      exact hslots
    by_cases hge : g.JoinState.ProbePackedInput.NTuples ≤ cur2
    · obtain ⟨fn, fc, fr⟩ := fdone hge
      have hnext3 : g3.nextBucket = g.nextBucket := by
        simp [TInMemoryGraceJoin.nextBucket, e7, e5, fn, fc, hmod, hneed]
      refine ⟨?_, ?_⟩
      · refine Ready_transfer ctx g g3 h (by rw [e8, fobj]) (by rw [e9, fobj]) (by rw [e1, flog])
          (by rw [e2, fL]) (by rw [e3, fR]) hnext3
          (by intro hc; rw [e7, fn] at hc; cases hc) (fun _ => by rw [e6, fr]) hslots3
          e14 e15 e16 e17 (by rw [e13, fjs]; exact hml)
      · rw [hpend, hloadedAll]
        have hmin : min cur2 g.JoinState.ProbePackedInput.NTuples =
            g.JoinState.ProbePackedInput.NTuples := Nat.min_eq_right hge
        rw [hmin] at hP
        rw [← hP]
        congr 1
        simp only [TInMemoryGraceJoin.pending, e7, fn, if_true, List.nil_append]
        rw [hnext3, hnext]
        exact (pendingBuckets_congr ctx g g3 _ (by rw [e1, flog]) (by rw [e8, fobj])
          (by rw [e9, fobj]) (fun b _ => by rw [e2, fL]) (fun b _ => by rw [e3, fR])).symm
    · have hlt : cur2 < g.JoinState.ProbePackedInput.NTuples := by omega
      obtain ⟨fn, fc, fr⟩ := fmore hlt
      have hn3 : g3.NeedNextBucket = false := by rw [e7, fn, hneed]
      have hnext3 : g3.nextBucket = g.nextBucket := by
        simp [TInMemoryGraceJoin.nextBucket, hn3, e5, fc, hneed]
      have hpi3 : g3.JoinState.ProbePackedInput = g.JoinState.ProbePackedInput := by
        rw [e19 (by rw [fn, hneed]), fjs, hpi]
      have hbi3 : g3.JoinState.BuildPackedInput = g.JoinState.BuildPackedInput := by
        rw [e18, fjs, hbi]
      have hsw3 : g3.JoinState.WasSwapped = g.JoinState.WasSwapped := by rw [e10, fjs, hsw]
      refine ⟨?_, ?_⟩
      · refine Ready_transfer ctx g g3 h (by rw [e8, fobj]) (by rw [e9, fobj]) (by rw [e1, flog])
          (by rw [e2, fL]) (by rw [e3, fR]) hnext3
          (fun _ => ⟨hneed, by rw [e4, ftab], hbi3, hpi3, hsw3⟩)
          (by intro hc; rw [hn3] at hc; cases hc) hslots3
          e14 e15 e16 e17 (by rw [e13, fjs]; exact hml)
      · rw [hpend, hloadedAll]
        have hmin : min cur2 g.JoinState.ProbePackedInput.NTuples = cur2 :=
          Nat.min_eq_left (by omega)
        rw [hmin] at hP
        have hsplit : List.range' g.CurrProbeRow
            (g.JoinState.ProbePackedInput.NTuples - g.CurrProbeRow) =
            List.range' g.CurrProbeRow (cur2 - g.CurrProbeRow) ++
              List.range' cur2 (g.JoinState.ProbePackedInput.NTuples - cur2) := by
          have h1 : g.JoinState.ProbePackedInput.NTuples - g.CurrProbeRow =
              (g.JoinState.ProbePackedInput.NTuples - cur2) + (cur2 - g.CurrProbeRow) := by omega
          have h2 : g.CurrProbeRow + 1 * (cur2 - g.CurrProbeRow) = cur2 := by omega
          have h3 := List.range'_append g.CurrProbeRow (cur2 - g.CurrProbeRow)
            (g.JoinState.ProbePackedInput.NTuples - cur2) 1
          rw [h2] at h3
          rw [h1, h3]
        rw [hsplit, foundPairs_append, List.map_append, ← hP, List.append_assoc]
        congr 1
        have hl3 := pendingLoaded_congr g g3 (by rw [e8, fobj]) (by rw [e9, fobj])
          (by rw [e5, fc]) (by rw [e4, ftab]) hsw3 hbi3 hpi3
        rw [e6, fr] at hl3
        simp only [TInMemoryGraceJoin.pending, hn3, Bool.false_eq_true, if_false]
        rw [hl3, hnext3, hnext]
        congr 1
        exact (pendingBuckets_congr ctx g g3 _ (by rw [e1, flog]) (by rw [e8, fobj])
          (by rw [e9, fobj]) (fun b _ => by rw [e2, fL]) (fun b _ => by rw [e3, fR])).symm

theorem grace_lookupStep_spec (ctx : TComputationContext) (g : TInMemoryGraceJoin)
    (h : g.Ready ctx) (hcb : g.CurrBucket < 2 ^ g.BucketsLogNum) :
    ∃ g2 E, g.lookupStep ctx = Except.ok g2 ∧
      g2.JoinState.HoldsRows g2.buildLayout.TotalRowSize g2.probeLayout.TotalRowSize E.length ∧
      g2.JoinState.OutputRows = E.length ∧
      g2.JoinState.leftOutput = (E.map TPair.Left).flatten ∧
      g2.JoinState.rightOutput = (E.map TPair.Right).flatten ∧
      g2.BucketsLogNum = g.BucketsLogNum ∧
      (E = [] → g2.Ready ctx ∧ g2.pending ctx = g.pending ctx ∧
        g2.CurrBucket = g.CurrBucket + 1 ∧ g2.NeedNextBucket = true) ∧
      (E ≠ [] → g2.emitBlock.2.FillOutput.2.Ready ctx ∧
        g.pending ctx = E ++ g2.emitBlock.2.FillOutput.2.pending ctx) := by
  cases hneed : g.NeedNextBucket
  · have hload : g.loadBucket ctx = Except.ok g := by
      simp [TInMemoryGraceJoin.loadBucket, hneed, pure, Except.pure]
    unfold TInMemoryGraceJoin.lookupStep
    rw [hload]
    exact grace_lookup_spec ctx g h hneed
  · obtain ⟨g1, hload, hready1, hneed1, _, hcb1, hlog1, hpend1⟩ :=
      loadBucket_spec ctx g h hneed hcb
    obtain ⟨g2, E, hdo, h1, h2, h3, h4, h5, h6, h7⟩ := grace_lookup_spec ctx g1 hready1 hneed1
    unfold TInMemoryGraceJoin.lookupStep
    rw [hload]
    refine ⟨g2, E, hdo, h1, h2, h3, h4, h5.trans hlog1, ?_, ?_⟩
    · intro hE
      obtain ⟨a, b, c, d⟩ := h6 hE
      exact ⟨a, b.trans hpend1, by rw [c, hcb1], d⟩
    · intro hE
      obtain ⟨a, b⟩ := h7 hE
      exact ⟨a, by rw [← hpend1]; exact b⟩

theorem shiftRight_ne_zero_iff (c n : Nat) : c >>> n ≠ 0 ↔ 2 ^ n ≤ c := by
  rw [Nat.shiftRight_eq_div_pow]
  constructor
  · intro h
    by_contra hlt
    exact h (Nat.div_eq_of_lt (by omega))
  · intro h hz
    have := (Nat.div_eq_zero_iff (Nat.pos_pow_of_pos n (by decide))).1 hz
    omega

theorem pending_of_finished (ctx : TComputationContext) (g : TInMemoryGraceJoin)
    (h : g.Ready ctx) (hge : 2 ^ g.BucketsLogNum ≤ g.CurrBucket) : g.pending ctx = [] := by
  have hr := h.bucketRange
  cases hneed : g.NeedNextBucket
  · simp [TInMemoryGraceJoin.nextBucket, hneed] at hr
    omega
  · simp only [TInMemoryGraceJoin.nextBucket, hneed, if_true] at hr
    have : 2 ^ g.BucketsLogNum - g.CurrBucket = 0 := by omega
    simp [TInMemoryGraceJoin.pending, hneed, TInMemoryGraceJoin.pendingBuckets,
      TInMemoryGraceJoin.nextBucket, this]

theorem grace_probeCore_spec (ctx : TComputationContext) :
    ∀ (k fuel : Nat) (g : TInMemoryGraceJoin), g.Ready ctx →
      2 ^ g.BucketsLogNum - g.CurrBucket ≤ k → k < fuel →
      (∃ g1, TInMemoryGraceJoin.probeCore ctx fuel g = Except.ok (TGraceProbeEnd.Finished g1) ∧
        g.pending ctx = []) ∨
      (∃ g2 E, TInMemoryGraceJoin.probeCore ctx fuel g = Except.ok (TGraceProbeEnd.Emits g2) ∧
        E ≠ [] ∧
        g2.JoinState.HoldsRows g2.buildLayout.TotalRowSize g2.probeLayout.TotalRowSize
          E.length ∧
        g2.JoinState.OutputRows = E.length ∧
        g2.JoinState.leftOutput = (E.map TPair.Left).flatten ∧
        g2.JoinState.rightOutput = (E.map TPair.Right).flatten ∧
        g2.BucketsLogNum = g.BucketsLogNum ∧
        g2.emitBlock.2.FillOutput.2.Ready ctx ∧
        g.pending ctx = E ++ g2.emitBlock.2.FillOutput.2.pending ctx) := by
  intro k
  induction k with
  | zero =>
    intro fuel g h hk hfuel
    obtain ⟨f, rfl⟩ : ∃ f, fuel = f + 1 := ⟨fuel - 1, by omega⟩
    have hge : 2 ^ g.BucketsLogNum ≤ g.CurrBucket := by omega
    left
    refine ⟨g, ?_, pending_of_finished ctx g h hge⟩
    unfold TInMemoryGraceJoin.probeCore
    rw [if_pos ((shiftRight_ne_zero_iff _ _).2 hge)]
    rfl
  | succ k ih =>
    intro fuel g h hk hfuel
    obtain ⟨f, rfl⟩ : ∃ f, fuel = f + 1 := ⟨fuel - 1, by omega⟩
    by_cases hge : 2 ^ g.BucketsLogNum ≤ g.CurrBucket
    · left
      refine ⟨g, ?_, pending_of_finished ctx g h hge⟩
      unfold TInMemoryGraceJoin.probeCore
      rw [if_pos ((shiftRight_ne_zero_iff _ _).2 hge)]
      rfl
    · have hcb : g.CurrBucket < 2 ^ g.BucketsLogNum := by omega
      obtain ⟨g2, E, hstep, h1, h2, h3, h4, h5, h6, h7⟩ := grace_lookupStep_spec ctx g h hcb
      have hblocks : g.JoinState.HasBlocks = false := by
        simp [TJoinState.HasBlocks, h.count]
      unfold TInMemoryGraceJoin.probeCore
      rw [if_neg (fun hc => hge ((shiftRight_ne_zero_iff _ _).1 hc)), hblocks, hstep]
      simp only [Bool.false_eq_true, if_false]
      by_cases hE : E = []
      · obtain ⟨a, b, c, d⟩ := h6 hE
        have h0 : g2.JoinState.OutputRows = 0 := by rw [h2, hE]; rfl
        rw [if_pos h0]
        have hrec := ih f g2 a (by rw [h5, c]; omega) (by omega)
        rw [b, h5] at hrec
        rcases hrec with ⟨g1, hr1, hr2⟩ | ⟨g4, E4, hr⟩
        · left
          exact ⟨g1, hr1, hr2⟩
        · right
          obtain ⟨r1, r2, r3, r4, r5, r6, r7, r8, r9⟩ := hr
          exact ⟨g4, E4, r1, r2, r3, r4, r5, r6, r7, r8, r9⟩
      · have h0 : g2.JoinState.OutputRows ≠ 0 := by
          rw [h2]
          intro hc
          exact hE (List.length_eq_zero.1 hc)
        rw [if_neg h0]
        right
        obtain ⟨a, b⟩ := h7 hE
        exact ⟨g2, E, rfl, hE, h1, h2, h3, h4, h5, a, b⟩

theorem grace_run_spec (ctx : TComputationContext) :
    ∀ (k : Nat) (g : TInMemoryGraceJoin), g.Ready ctx → (g.pending ctx).length ≤ k →
      ∃ blocks, (∀ fuel, k < fuel → TInMemoryGraceJoin.run ctx fuel g = Except.ok blocks) ∧
        (blocks.map TJoinState.leftOutput).flatten = ((g.pending ctx).map TPair.Left).flatten ∧
        (blocks.map TJoinState.rightOutput).flatten =
          ((g.pending ctx).map TPair.Right).flatten ∧
        (blocks.map TJoinState.OutputRows).sum = (g.pending ctx).length ∧
        ∀ js ∈ blocks, js.OutputRows ≠ 0 := by
  intro k
  induction k with
  | zero =>
    intro g h hk
    have hp := grace_probeCore_spec ctx (2 ^ g.BucketsLogNum - g.CurrBucket)
      (2 ^ g.BucketsLogNum + 2) g h (Nat.le_refl _)
      (Nat.lt_of_le_of_lt (Nat.sub_le _ _) (by omega))
    rcases hp with ⟨g1, hr1, hr2⟩ | ⟨g2, E, r1, r2, r3, r4, r5, r6, r7, r8, r9⟩
    · refine ⟨[], ?_, ?_⟩
      · intro fuel hfuel
        obtain ⟨f, rfl⟩ : ∃ f, fuel = f + 1 := ⟨fuel - 1, by omega⟩
        unfold TInMemoryGraceJoin.run
        rw [hr1]
        rfl
      · simp [hr2]
    · exfalso
      rw [r9, List.length_append] at hk
      have : E.length ≠ 0 := fun hc => r2 (List.length_eq_zero.1 hc)
      omega
  | succ k ih =>
    intro g h hk
    have hp := grace_probeCore_spec ctx (2 ^ g.BucketsLogNum - g.CurrBucket)
      (2 ^ g.BucketsLogNum + 2) g h (Nat.le_refl _)
      (Nat.lt_of_le_of_lt (Nat.sub_le _ _) (by omega))
    rcases hp with ⟨g1, hr1, hr2⟩ | ⟨g2, E, r1, r2, r3, r4, r5, r6, r7, r8, r9⟩
    · refine ⟨[], ?_, ?_⟩
      · intro fuel hfuel
        obtain ⟨f, rfl⟩ : ∃ f, fuel = f + 1 := ⟨fuel - 1, by omega⟩
        unfold TInMemoryGraceJoin.run
        rw [hr1]
        rfl
      · simp [hr2]
    · have hlen : E.length ≠ 0 := fun hc => r2 (List.length_eq_zero.1 hc)
      have hk2 : (g2.emitBlock.2.FillOutput.2.pending ctx).length ≤ k := by
        rw [r9, List.length_append] at hk
        omega
      obtain ⟨blocks, b1, b2, b3, b4, b5⟩ := ih g2.emitBlock.2.FillOutput.2 r8 hk2
      refine ⟨g2.JoinState :: blocks, ?_, ?_, ?_, ?_, ?_⟩
      · intro fuel hfuel
        obtain ⟨f, rfl⟩ : ∃ f, fuel = f + 1 := ⟨fuel - 1, by omega⟩
        unfold TInMemoryGraceJoin.run
        rw [r1]
        simp only
        rw [b1 f (by omega)]
        rfl
      · rw [r9, List.map_cons, List.flatten_cons, b2, r5, List.map_append, List.flatten_append]
      · rw [r9, List.map_cons, List.flatten_cons, b3, r6, List.map_append, List.flatten_append]
      · rw [r9, List.map_cons, List.sum_cons, b4, r4, List.length_append]
      · intro js hjs
        rcases List.mem_cons.1 hjs with rfl | hmem
        · rw [r4]; exact hlen
        · exact b5 js hmem

theorem grace_probeCore_emits (ctx : TComputationContext) :
    ∀ (fuel : Nat) (g g2 : TInMemoryGraceJoin), g.Ready ctx →
      TInMemoryGraceJoin.probeCore ctx fuel g = Except.ok (TGraceProbeEnd.Emits g2) →
      ∃ n, n < UI32 ∧ n ≠ 0 ∧
        g2.JoinState.HoldsRows g2.buildLayout.TotalRowSize g2.probeLayout.TotalRowSize n ∧
        g2.JoinState.OutputRows = n := by
  intro fuel
  induction fuel with
  | zero =>
    intro g g2 _ hrun
    simp [TInMemoryGraceJoin.probeCore, throw, throwThe, MonadExceptOf.throw] at hrun
  | succ f ih =>
    intro g g2 h hrun
    unfold TInMemoryGraceJoin.probeCore at hrun
    by_cases hsh : g.CurrBucket >>> g.BucketsLogNum ≠ 0
    · rw [if_pos hsh] at hrun
      simp [pure, Except.pure] at hrun
    · rw [if_neg hsh] at hrun
      have hcb : g.CurrBucket < 2 ^ g.BucketsLogNum := by
        by_contra hc
        exact hsh ((shiftRight_ne_zero_iff _ _).2 (by omega))
      have hblocks : g.JoinState.HasBlocks = false := by
        simp [TJoinState.HasBlocks, h.count]
      obtain ⟨g3, E, hstep, h1, h2, h3, h4, h5, h6, h7⟩ := grace_lookupStep_spec ctx g h hcb
      rw [hblocks, hstep] at hrun
      simp only [Bool.false_eq_true, if_false] at hrun
      by_cases hE : E = []
      · have h0 : g3.JoinState.OutputRows = 0 := by rw [h2, hE]; rfl
        rw [if_pos h0] at hrun
        exact ih g3 g2 (h6 hE).1 hrun
      · have h0 : g3.JoinState.OutputRows ≠ 0 := by
          rw [h2]
          intro hc
          exact hE (List.length_eq_zero.1 hc)
        rw [if_neg h0] at hrun
        simp only [pure, Except.pure, Except.ok.injEq, TGraceProbeEnd.Emits.injEq] at hrun
        subst hrun
        refine ⟨E.length, ?_, ?_, h1, h2⟩
        · have := h1.2.2
          rw [h2] at this
          have hlt : E.length % UI32 < UI32 := Nat.mod_lt _ (by decide)
          omega
        · intro hc
          exact hE (List.length_eq_zero.1 hc)

theorem flatMap_ite_singleton {α γ : Type} (ys : List α) (p : α → Bool) (f : α → γ) :
    (ys.flatMap fun y => if p y = true then [f y] else []) = (ys.filter p).map f := by
  induction ys with
  | nil => rfl
  | cons y ys ih =>
    rw [List.flatMap_cons, ih]
    cases hp : p y <;> simp [List.filter_cons, hp]

theorem flatMap_filter_comm {α β γ : Type} (xs : List α) (ys : List β) (p : α → β → Bool)
    (f : α → β → γ) :
    (ys.flatMap fun y => (xs.filter fun x => p x y).map fun x => f x y).Perm
      (xs.flatMap fun x => (ys.filter fun y => p x y).map fun y => f x y) := by
  induction xs with
  | nil => simp
  | cons x xs ih =>
    rw [List.flatMap_cons]
    have h1 : (ys.flatMap fun y => ((x :: xs).filter fun x => p x y).map fun x => f x y) =
        ys.flatMap fun y => (if p x y = true then [f x y] else []) ++
          ((xs.filter fun x => p x y).map fun x => f x y) := by
      apply List.flatMap_congr
      intro y _
      cases hp : p x y <;> simp [List.filter_cons, hp]
    rw [h1]
    refine (List.flatMap_append_perm ys _ _).symm.trans ?_
    rw [flatMap_ite_singleton ys (fun y => p x y) (fun y => f x y)]
    exact List.Perm.append_left _ ih

theorem bucketPending_perm {κ : Type} [DecidableEq κ] (keys : TKeys κ)
    (ctx : TComputationContext) (leftLayout rightLayout : TTupleLayout)
    (hleft : ∀ packed tuple overflow,
      ((ctx.BuildTable leftLayout packed).Find tuple overflow).Perm
        (packed.rows.filter fun i =>
          keys.keyEq (tupleAt packed.PackedTuples leftLayout.TotalRowSize i) tuple))
    (hright : ∀ packed tuple overflow,
      ((ctx.BuildTable rightLayout packed).Find tuple overflow).Perm
        (packed.rows.filter fun j =>
          keys.keyEq tuple (tupleAt packed.PackedTuples rightLayout.TotalRowSize j)))
    (b : Nat) (l r : PackResult) :
    (bucketPending ctx leftLayout rightLayout b l r).Perm
      (bucketMatches keys leftLayout rightLayout b l r) := by
  unfold bucketPending bucketMatches foundPairs
  by_cases hlt : l.NTuples < r.NTuples
  · rw [if_pos hlt, List.map_flatMap]
    simp only [List.map_map, Function.comp_def]
    refine List.Perm.trans (List.Perm.flatMap_left _ (fun p _ =>
      (hleft l (tupleAt r.PackedTuples rightLayout.TotalRowSize p) r.Overflow).map _)) ?_
    exact flatMap_filter_comm l.rows r.rows
      (fun i j => keys.keyEq (tupleAt l.PackedTuples leftLayout.TotalRowSize i)
        (tupleAt r.PackedTuples rightLayout.TotalRowSize j))
      (fun i j => TPair.mk b i j (tupleAt l.PackedTuples leftLayout.TotalRowSize i)
        (tupleAt r.PackedTuples rightLayout.TotalRowSize j))
  · rw [if_neg hlt, List.map_flatMap]
    simp only [List.map_map, Function.comp_def]
    exact List.Perm.flatMap_left _ (fun i _ =>
      (hright r (tupleAt l.PackedTuples leftLayout.TotalRowSize i) l.Overflow).map _)

theorem pending_perm_allMatches {κ : Type} [DecidableEq κ] (keys : TKeys κ)
    (ctx : TComputationContext) (g : TInMemoryGraceJoin)
    (htables : g.TablesJoinOn keys ctx) (hneed : g.NeedNextBucket = true)
    (hcb : g.CurrBucket = 0) : (g.pending ctx).Perm (g.allMatches keys) := by
  unfold TInMemoryGraceJoin.pending TInMemoryGraceJoin.allMatches
    TInMemoryGraceJoin.pendingBuckets TInMemoryGraceJoin.nextBucket
  simp only [hneed, if_true, List.nil_append, hcb, Nat.sub_zero, ← List.range_eq_range']
  exact List.Perm.flatMap_left _ (fun b _ =>
    bucketPending_perm keys ctx _ _ htables.1 htables.2 b _ _)

theorem keyEq_iff {κ : Type} [DecidableEq κ] (keys : TKeys κ) (l r : List Nat) :
    keys.keyEq l r = true ↔ ∃ k, keys.leftKey l = some k ∧ keys.rightKey r = some k := by
  unfold TKeys.keyEq
  cases h1 : keys.leftKey l <;> cases h2 : keys.rightKey r <;> simp [eq_comm]

theorem length_filter_keyEq {κ : Type} [DecidableEq κ] (keys : TKeys κ) (lt : List Nat)
    (rs : List (List Nat)) :
    (rs.filter fun rt => keys.keyEq lt rt).length =
      match keys.leftKey lt with
      | none => 0
      | some k => (rs.filterMap keys.rightKey).count k := by
  induction rs with
  | nil => cases keys.leftKey lt <;> rfl
  | cons rt rs ih =>
    cases h1 : keys.leftKey lt with
    | none =>
      have : ∀ x, keys.keyEq lt x = false := by
        intro x
        simp [TKeys.keyEq, h1]
      simp [this]
    | some k =>
      rw [h1] at ih
      simp only at ih ⊢
      cases h2 : keys.rightKey rt with
      | none =>
        have hk : keys.keyEq lt rt = false := by simp [TKeys.keyEq, h1, h2]
        rw [List.filter_cons, hk, List.filterMap_cons, h2]
        simpa using ih
      | some k2 =>
        rw [List.filter_cons, List.filterMap_cons, h2]
        by_cases hkk : k = k2
        · have hk : keys.keyEq lt rt = true := by simp [TKeys.keyEq, h1, h2, hkk]
          simp only [hk, if_true, List.length_cons, ih]
          rw [hkk, List.count_cons_self]
        · have hk : keys.keyEq lt rt = false := by simp [TKeys.keyEq, h1, h2, hkk]
          simp only [hk, Bool.false_eq_true, if_false, ih]
          rw [List.count_cons_of_ne (fun hc => hkk hc)]

theorem sum_keyed {κ : Type} (ls : List (List Nat)) (leftKey : List Nat → Option κ)
    (c : κ → Nat) :
    (ls.map fun lt => match leftKey lt with
      | none => 0
      | some k => c k).sum = ((ls.filterMap leftKey).map c).sum := by
  induction ls with
  | nil => rfl
  | cons lt ls ih =>
    rw [List.map_cons, List.sum_cons, ih, List.filterMap_cons]
    cases leftKey lt <;> simp

theorem sum_matches_by_key {κ : Type} [DecidableEq κ] (keys : TKeys κ)
    (ls rs : List (List Nat)) :
    (ls.map fun lt => (rs.filter fun rt => keys.keyEq lt rt).length).sum =
      ∑ k ∈ (ls.filterMap keys.leftKey).toFinset,
        (ls.filterMap keys.leftKey).count k * (rs.filterMap keys.rightKey).count k := by
  have h1 : (ls.map fun lt => (rs.filter fun rt => keys.keyEq lt rt).length) =
      ls.map fun lt => match keys.leftKey lt with
        | none => 0
        | some k => (rs.filterMap keys.rightKey).count k := by
    apply List.map_congr_left
    intro lt _
    exact length_filter_keyEq keys lt rs
  rw [h1, sum_keyed, Finset.sum_list_map_count]
  simp

theorem sum_range_single (n b : Nat) (f : Nat → Nat) (hb : b < n)
    (h0 : ∀ c, c < n → c ≠ b → f c = 0) : ((List.range n).map f).sum = f b := by
  induction n with
  | zero => omega
  | succ n ih =>
    rw [List.range_succ, List.map_append, List.sum_append]
    by_cases hbn : b = n
    · have hz : ((List.range n).map f).sum = 0 := by
        apply List.sum_eq_zero
        intro x hx
        obtain ⟨c, hc, rfl⟩ := List.mem_map.1 hx
        have := List.mem_range.1 hc
        exact h0 c (by omega) (by omega)
      simp [hz, hbn]
    · rw [ih (by omega) (fun c hc hne => h0 c (by omega) hne)]
      have := h0 n (by omega) (fun hc => hbn hc.symm)
      simp [this]

theorem sum_map_flatMap {α β : Type} (l : List α) (f : α → List β) (F : β → Nat) :
    ((l.flatMap f).map F).sum = (l.map fun a => ((f a).map F).sum).sum := by
  induction l with
  | nil => rfl
  | cons a l ih => simp [List.flatMap_cons, ih]

theorem length_flatMap_sum {α β : Type} (l : List α) (f : α → List β) :
    (l.flatMap f).length = (l.map fun a => (f a).length).sum := by
  induction l with
  | nil => rfl
  | cons a l ih => simp [List.flatMap_cons, ih]

theorem bucketMatches_length {κ : Type} [DecidableEq κ] (keys : TKeys κ)
    (leftLayout rightLayout : TTupleLayout) (b : Nat) (l r : PackResult) :
    (bucketMatches keys leftLayout rightLayout b l r).length =
      ((l.tuples leftLayout.TotalRowSize).map fun lt =>
        ((r.tuples rightLayout.TotalRowSize).filter fun rt => keys.keyEq lt rt).length).sum := by
  unfold bucketMatches PackResult.tuples
  rw [length_flatMap_sum, List.map_map]
  congr 1
  apply List.map_congr_left
  intro i _
  simp only [Function.comp_def, List.length_map, List.filter_map]

theorem allMatches_length {κ : Type} [DecidableEq κ] (keys : TKeys κ) (g : TInMemoryGraceJoin)
    (hrouted : g.Routed keys) :
    (g.allMatches keys).length =
      ∑ k ∈ (g.leftKeys keys).toFinset,
        (g.leftKeys keys).count k * (g.rightKeys keys).count k := by
  unfold TInMemoryGraceJoin.leftKeys TInMemoryGraceJoin.rightKeys
  rw [← sum_matches_by_key, sum_map_flatMap]
  unfold TInMemoryGraceJoin.allMatches
  rw [length_flatMap_sum]
  congr 1
  apply List.map_congr_left
  intro b hb
  have hb1 : b < 2 ^ g.BucketsLogNum := List.mem_range.1 hb
  rw [bucketMatches_length]
  congr 1
  apply List.map_congr_left
  intro lt hlt
  rw [List.filter_flatMap, length_flatMap_sum]
  symm
  apply sum_range_single _ b _ hb1
  intro c hc hne
  rw [List.length_eq_zero, List.filter_eq_nil_iff]
  intro rt hrt hkey
  obtain ⟨k, hk1, hk2⟩ := (keyEq_iff keys lt rt).1 hkey
  have := hrouted b c k hb1 hc (List.mem_map.2 ⟨lt, hlt, hk1⟩) (List.mem_map.2 ⟨rt, hrt, hk2⟩)
  exact hne this.symm

theorem getLast?_of_getElem? {α : Type} (l : List α) (n : Nat) (x : α)
    (hlen : l.length = n + 1) (h : l[n]? = some x) : l.getLast? = some x := by
  rw [List.getLast?_eq_getElem?, hlen]
  simpa using h

theorem MakeBlocks_last (js : TJoinState) (o : TJoinObjects)
    (hwidth : js.Values.length = js.LeftIOMap.length + js.RightIOMap.length + 1) :
    (js.MakeBlocks o).Values.getLast? = some (TValue.Scalar js.OutputRows) := by
  obtain ⟨-, -, h3, h4⟩ := MakeBlocks_slots js o hwidth
  exact getLast?_of_getElem? _ _ _ (h4.trans hwidth) h3

/-- C6. Block-length scalar.  Whenever `MakeBlocks` runs, the last output slot
is the scalar `OutputRows` and both packed output buffers hold exactly
`OutputRows` tuples.  In the hash join `MakeBlocks` runs on the join state that
leaves the loop of `DoProbe`; `OutputRows` is a `ui32`, so the build buffer is
taken to hold fewer than `2 ^ 32` tuples.  In the in-memory grace join
`MakeBlocks` runs on the join state `DoProbe` reaches with `OutputRows ≠ 0`,
started from a state between two `DoProbe` calls (`Ready`: bucket pairs of fewer
than `2 ^ 32` row pairs). -/
theorem MakeBlocks_block_length (ctx : TComputationContext) :
    (∀ (fuel : Nat) (status0 status : EFetchStatus) (hj hj1 : THashJoin),
      hj.Sound →
      THashJoin.probeLoop fuel status0 hj = Except.ok (TProbeLoopEnd.Left status hj1) →
      hj1.JoinState.Values.length =
        hj1.JoinState.LeftIOMap.length + hj1.JoinState.RightIOMap.length + 1 →
      hj1.JoinState.BuildPackedOutput.length <
        UI32 * hj1.Objects.BuildConverter.Layout.TotalRowSize →
      (hj1.JoinState.MakeBlocks hj1.Objects).Values.getLast? =
        some (TValue.Scalar hj1.JoinState.OutputRows) ∧
      hj1.JoinState.BuildPackedOutput.length =
        hj1.JoinState.OutputRows * hj1.Objects.BuildConverter.Layout.TotalRowSize ∧
      hj1.JoinState.ProbePackedOutput.length =
        hj1.JoinState.OutputRows * hj1.Objects.ProbeConverter.Layout.TotalRowSize) ∧
    (∀ (fuel : Nat) (g g2 : TInMemoryGraceJoin),
      g.Ready ctx →
      TInMemoryGraceJoin.probeCore ctx fuel g = Except.ok (TGraceProbeEnd.Emits g2) →
      g2.JoinState.Values.length =
        g2.JoinState.LeftIOMap.length + g2.JoinState.RightIOMap.length + 1 →
      (g2.JoinState.MakeBlocks g2.Objects).Values.getLast? =
        some (TValue.Scalar g2.JoinState.OutputRows) ∧
      g2.JoinState.BuildPackedOutput.length =
        g2.JoinState.OutputRows * g2.buildLayout.TotalRowSize ∧
      g2.JoinState.ProbePackedOutput.length =
        g2.JoinState.OutputRows * g2.probeLayout.TotalRowSize) := by
  constructor
  · intro fuel status0 status hj hj1 hsound hloop hwidth hfit
    have hs := probeLoop_sound fuel status0 hj hsound _ hloop
    obtain ⟨⟨n, h1, h2, h3⟩, -⟩ := hs
    simp only [TProbeLoopEnd.join] at h1 h2 h3
    have hn : n < UI32 := by
      rw [h1] at hfit
      exact Nat.lt_of_mul_lt_mul_right hfit
    rw [Nat.mod_eq_of_lt hn] at h3
    exact ⟨MakeBlocks_last _ _ hwidth, by rw [h1, h3], by rw [h2, h3]⟩
  · intro fuel g g2 hready hcore hwidth
    obtain ⟨n, -, -, ⟨h1, h2, -⟩, h4⟩ := grace_probeCore_emits ctx fuel g g2 hready hcore
    exact ⟨MakeBlocks_last _ _ hwidth, by rw [h1, h4], by rw [h2, h4]⟩

/-- C2. An in-memory grace join over `2 ^ BucketsLogNum_` bucket pairs whose
rows were routed so that equal keys share a bucket index, with tables that find
exactly the build rows of equal key: the `DoProbe` calls up to the first
`Finish` emit the blocks `blocks` (for every sufficient fuel), whose rows are,
in order, the left and right tuples of a permutation `pairs` of the matching
row pairs of all bucket pairs (so no pair is emitted twice and none is lost),
and whose row counts add up to the sum over the keys of the number of left rows
times the number of right rows with that key. -/
theorem TInMemoryGraceJoin.run_emits_inner_join {κ : Type} [DecidableEq κ] (keys : TKeys κ)
    (ctx : TComputationContext) (g : TInMemoryGraceJoin)
    (hready : g.Ready ctx) (hneed : g.NeedNextBucket = true) (hfirst : g.CurrBucket = 0)
    (htables : g.TablesJoinOn keys ctx) (hrouted : g.Routed keys) :
    ∃ (blocks : List TJoinState) (pairs : List TPair),
      (∀ fuel, (g.allMatches keys).length < fuel →
        TInMemoryGraceJoin.run ctx fuel g = Except.ok blocks) ∧
      pairs.Perm (g.allMatches keys) ∧
      (blocks.map TJoinState.leftOutput).flatten = (pairs.map TPair.Left).flatten ∧
      (blocks.map TJoinState.rightOutput).flatten = (pairs.map TPair.Right).flatten ∧
      (∀ js ∈ blocks, js.OutputRows ≠ 0) ∧
      (blocks.map TJoinState.OutputRows).sum =
        ∑ k ∈ (g.leftKeys keys).toFinset,
          (g.leftKeys keys).count k * (g.rightKeys keys).count k := by
  have hperm := pending_perm_allMatches keys ctx g htables hneed hfirst
  obtain ⟨blocks, b1, b2, b3, b4, b5⟩ :=
    grace_run_spec ctx (g.pending ctx).length g hready (Nat.le_refl _)
  refine ⟨blocks, g.pending ctx, ?_, hperm, b2, b3, b5, ?_⟩
  · intro fuel hfuel
    exact b1 fuel (by rw [hperm.length_eq]; exact hfuel)
  · rw [b4, hperm.length_eq]
    exact allMatches_length keys g hrouted

theorem scanTable_valid (layout : TTupleLayout) (packed : PackResult) :
    (scanTable layout packed).Valid packed.NTuples := by
  intro tuple overflow
  refine ⟨List.Nodup.filter _ (List.nodup_range _), ?_⟩
  intro j hj
  exact List.mem_range.1 (List.mem_of_mem_filter hj)

theorem keyConverter_pack (columns : List (List Nat)) (out : PackResult)
    (h : out.WellFormed keyConverter.Layout.TotalRowSize) :
    (keyConverter.Pack columns out).WellFormed keyConverter.Layout.TotalRowSize := by
  unfold PackResult.WellFormed at *
  simp only [keyConverter, List.length_append, Nat.mul_one] at h ⊢
  omega

theorem sampleHashJoin_sound : sampleHashJoin.Sound :=
  ⟨⟨0, rfl, rfl, rfl⟩, rfl, rfl, scanTable_valid _ _, keyConverter_pack⟩

theorem sampleGraceJoin_ready : sampleGraceJoin.Ready sampleContext := by
  refine { tables := fun packed => ⟨scanTable_valid _ _, scanTable_valid _ _⟩,
           logNum := by decide, leftLength := rfl, rightLength := rfl,
           bucketRange := by decide, buckets := ?_, loaded := ?_, idle := fun _ => rfl,
           slots := ⟨rfl, rfl⟩, outputRows := rfl, buildOutput := rfl, probeOutput := rfl,
           count := rfl, maxLength := by decide }
  · intro b l r _ hl hr
    match b with
    | 0 =>
      simp only [sampleGraceJoin, List.getElem?_cons_zero, Option.some.injEq] at hl hr
      subst hl hr
      exact ⟨rfl, rfl, by decide, by decide, by decide⟩
    | 1 =>
      simp only [sampleGraceJoin, List.getElem?_cons_succ, List.getElem?_cons_zero,
        Option.some.injEq] at hl hr
      subst hl hr
      exact ⟨rfl, rfl, by decide, by decide, by decide⟩
    | b + 2 =>
      simp [sampleGraceJoin] at hl
  · intro hc
    cases hc

theorem sampleGraceJoin_tables : sampleGraceJoin.TablesJoinOn headKeys sampleContext := by
  constructor
  · intro packed tuple overflow
    apply List.Perm.of_eq
    simp only [sampleContext, scanTable, PackResult.rows]
    apply List.filter_congr
    intro j _
    simp only [TKeys.keyEq, headKeys]
    rw [beq_eq_decide]
    exact decide_eq_decide.2 Iff.rfl
  · intro packed tuple overflow
    apply List.Perm.of_eq
    simp only [sampleContext, scanTable, PackResult.rows]
    apply List.filter_congr
    intro j _
    simp only [TKeys.keyEq, headKeys]
    rw [beq_eq_decide]
    exact decide_eq_decide.2 eq_comm

theorem sampleGraceJoin_routed : sampleGraceJoin.Routed headKeys := by
  intro b c k hb hc hl hr
  have hb2 : b < 2 := hb
  have hc2 : c < 2 := hc
  have e0 : ((sampleGraceJoin.LeftBuckets.getD 0 PackResult.empty).tuples
      sampleGraceJoin.Objects.BuildConverter.Layout.TotalRowSize).map headKeys.leftKey =
      [some (some 2), some (some 2)] := rfl
  have e1 : ((sampleGraceJoin.LeftBuckets.getD 1 PackResult.empty).tuples
      sampleGraceJoin.Objects.BuildConverter.Layout.TotalRowSize).map headKeys.leftKey =
      [some (some 1)] := rfl
  have f0 : ((sampleGraceJoin.RightBuckets.getD 0 PackResult.empty).tuples
      sampleGraceJoin.Objects.ProbeConverter.Layout.TotalRowSize).map headKeys.rightKey =
      [some (some 2)] := rfl
  have f1 : ((sampleGraceJoin.RightBuckets.getD 1 PackResult.empty).tuples
      sampleGraceJoin.Objects.ProbeConverter.Layout.TotalRowSize).map headKeys.rightKey =
      [some (some 1), some (some 3), some (some 1)] := rfl
  interval_cases b <;> interval_cases c
  · rfl
  · rw [e0] at hl
    rw [f1] at hr
    simp at hl hr
    subst hl
    simp at hr
  · rw [e1] at hl
    rw [f0] at hr
    simp at hl hr
    subst hl
    simp at hr
  · rfl

/-- C6 at `sampleHashJoin` (one lookup leaves four rows) and at
`sampleGraceJoin` (the first bucket pair leaves two rows). -/
theorem MakeBlocks_block_length_witness :
    ∃ hj1 g2,
      sampleHashJoin.Sound ∧
      THashJoin.probeLoop 3 EFetchStatus.Finish sampleHashJoin =
        Except.ok (TProbeLoopEnd.Left EFetchStatus.Finish hj1) ∧
      sampleGraceJoin.Ready sampleContext ∧
      TInMemoryGraceJoin.probeCore sampleContext 3 sampleGraceJoin =
        Except.ok (TGraceProbeEnd.Emits g2) ∧
      ((hj1.JoinState.MakeBlocks hj1.Objects).Values.getLast? =
          some (TValue.Scalar hj1.JoinState.OutputRows) ∧
        hj1.JoinState.BuildPackedOutput.length =
          hj1.JoinState.OutputRows * hj1.Objects.BuildConverter.Layout.TotalRowSize ∧
        hj1.JoinState.ProbePackedOutput.length =
          hj1.JoinState.OutputRows * hj1.Objects.ProbeConverter.Layout.TotalRowSize) ∧
      ((g2.JoinState.MakeBlocks g2.Objects).Values.getLast? =
          some (TValue.Scalar g2.JoinState.OutputRows) ∧
        g2.JoinState.BuildPackedOutput.length =
          g2.JoinState.OutputRows * g2.buildLayout.TotalRowSize ∧
        g2.JoinState.ProbePackedOutput.length =
          g2.JoinState.OutputRows * g2.probeLayout.TotalRowSize) :=
  ⟨_, _, sampleHashJoin_sound, rfl, sampleGraceJoin_ready, rfl,
    (by
      exact (MakeBlocks_block_length sampleContext).1 3 EFetchStatus.Finish EFetchStatus.Finish
        sampleHashJoin _ sampleHashJoin_sound (by rfl) (by rfl) (by decide)),
    (by
      exact (MakeBlocks_block_length sampleContext).2 3 sampleGraceJoin _
        sampleGraceJoin_ready (by rfl) (by rfl))⟩

/-- C2 at `sampleGraceJoin`: two bucket pairs, keys 2 (two left rows, one right
row), 1 (one left row, two right rows) and 3 (no left row). -/
theorem TInMemoryGraceJoin.run_emits_inner_join_witness :
    sampleGraceJoin.Ready sampleContext ∧ sampleGraceJoin.NeedNextBucket = true ∧
    sampleGraceJoin.CurrBucket = 0 ∧ sampleGraceJoin.TablesJoinOn headKeys sampleContext ∧
    sampleGraceJoin.Routed headKeys ∧
    ∃ (blocks : List TJoinState) (pairs : List TPair),
      (∀ fuel, (sampleGraceJoin.allMatches headKeys).length < fuel →
        TInMemoryGraceJoin.run sampleContext fuel sampleGraceJoin = Except.ok blocks) ∧
      pairs.Perm (sampleGraceJoin.allMatches headKeys) ∧
      (blocks.map TJoinState.leftOutput).flatten = (pairs.map TPair.Left).flatten ∧
      (blocks.map TJoinState.rightOutput).flatten = (pairs.map TPair.Right).flatten ∧
      (∀ js ∈ blocks, js.OutputRows ≠ 0) ∧
      (blocks.map TJoinState.OutputRows).sum =
        ∑ k ∈ (sampleGraceJoin.leftKeys headKeys).toFinset,
          (sampleGraceJoin.leftKeys headKeys).count k *
            (sampleGraceJoin.rightKeys headKeys).count k :=
  ⟨sampleGraceJoin_ready, rfl, rfl, sampleGraceJoin_tables, sampleGraceJoin_routed,
    TInMemoryGraceJoin.run_emits_inner_join headKeys sampleContext sampleGraceJoin
      sampleGraceJoin_ready rfl rfl sampleGraceJoin_tables sampleGraceJoin_routed⟩

theorem CalculateTupleHash_loop_eq (combine : Nat → Nat → Nat) (hashes : List Nat) :
    ∀ hash, CalculateTupleHash.loop combine hash hashes =
      if 0 ∈ hashes then 0 else hashes.foldl combine hash := by
  induction hashes with
  | nil => intro hash; simp [CalculateTupleHash.loop]
  | cons h rest ih =>
    intro hash
    unfold CalculateTupleHash.loop
    by_cases hz : h = 0
    · simp [hz]
    · rw [if_neg hz, ih]
      have hne : ¬ 0 = h := fun hc => hz hc.symm
      simp [List.mem_cons, hne]

/-- C20. `CalculateTupleHash` returns 0 if any of the item hashes is 0, and
otherwise the left fold of `CombineHashes` over the hashes starting from 0. -/
theorem CalculateTupleHash_spec (combine : Nat → Nat → Nat) (hashes : List Nat) :
    CalculateTupleHash combine hashes =
      if 0 ∈ hashes then 0 else hashes.foldl combine 0 :=
  CalculateTupleHash_loop_eq combine hashes 0

theorem SetSwapped_slots (js : TJoinState) (w : Bool)
    (h : js.LeftPackedTuple = (if js.WasSwapped then ESide.Probe else ESide.Build) ∧
      js.LeftOverflow = (if js.WasSwapped then ESide.Probe else ESide.Build) ∧
      js.RightPackedTuple = (if js.WasSwapped then ESide.Build else ESide.Probe) ∧
      js.RightOverflow = (if js.WasSwapped then ESide.Build else ESide.Probe)) :
    (js.SetSwapped w).WasSwapped = w ∧
    (js.SetSwapped w).LeftPackedTuple = (if w then ESide.Probe else ESide.Build) ∧
    (js.SetSwapped w).LeftOverflow = (if w then ESide.Probe else ESide.Build) ∧
    (js.SetSwapped w).RightPackedTuple = (if w then ESide.Build else ESide.Probe) ∧
    (js.SetSwapped w).RightOverflow = (if w then ESide.Build else ESide.Probe) := by
  obtain ⟨h1, h2, h3, h4⟩ := h
  unfold TJoinState.SetSwapped
  cases w <;> cases hs : js.WasSwapped <;> simp [hs] at h1 h2 h3 h4 ⊢ <;>
    simp [h1, h2, h3, h4, hs]

theorem SetSwapped_sequence (ws : List Bool) :
    ∀ (js : TJoinState),
      (js.LeftPackedTuple = (if js.WasSwapped then ESide.Probe else ESide.Build) ∧
        js.LeftOverflow = (if js.WasSwapped then ESide.Probe else ESide.Build) ∧
        js.RightPackedTuple = (if js.WasSwapped then ESide.Build else ESide.Probe) ∧
        js.RightOverflow = (if js.WasSwapped then ESide.Build else ESide.Probe)) →
      (ws.foldl TJoinState.SetSwapped js).WasSwapped = ws.getLast?.getD js.WasSwapped ∧
      ((ws.foldl TJoinState.SetSwapped js).LeftPackedTuple =
          (if (ws.foldl TJoinState.SetSwapped js).WasSwapped then ESide.Probe
            else ESide.Build) ∧
        (ws.foldl TJoinState.SetSwapped js).LeftOverflow =
          (if (ws.foldl TJoinState.SetSwapped js).WasSwapped then ESide.Probe
            else ESide.Build) ∧
        (ws.foldl TJoinState.SetSwapped js).RightPackedTuple =
          (if (ws.foldl TJoinState.SetSwapped js).WasSwapped then ESide.Build
            else ESide.Probe) ∧
        (ws.foldl TJoinState.SetSwapped js).RightOverflow =
          (if (ws.foldl TJoinState.SetSwapped js).WasSwapped then ESide.Build
            else ESide.Probe)) := by
  induction ws with
  | nil => intro js h; exact ⟨rfl, h⟩
  | cons w rest ih =>
    intro js h
    obtain ⟨s1, s2, s3, s4, s5⟩ := SetSwapped_slots js w h
    have hnext := ih (js.SetSwapped w) (by rw [s1]; exact ⟨s2, s3, s4, s5⟩)
    rw [List.foldl_cons]
    refine ⟨?_, hnext.2⟩
    rw [hnext.1, s1]
    cases rest with
    | nil => rfl
    | cons w2 rest2 =>
      rw [List.getLast?_cons_cons,
        List.getLast?_eq_getLast (w2 :: rest2) (List.cons_ne_nil _ _)]
      rfl

/-- C19. The swap flag is the single source of truth.  For a join state
constructed with any `wasSwapped` and after any sequence `ws` of `SetSwapped`
calls: `GetSwapped` returns the last value set (the constructor's when there was
no call); the left packed-output and overflow slots designate
`BuildPackedOutput` and `BuildPackedInput.Overflow` when the flag is false and
the probe buffers when it is true, the right slots the opposite; and
`SetSwapped` with the current value changes nothing. -/
theorem TJoinState.swap_flag_single_source (width maxLength : Nat)
    (leftIOMap rightIOMap : List Nat) (wasSwapped : Bool) (ws : List Bool) :
    (TJoinState.afterSwaps width maxLength leftIOMap rightIOMap wasSwapped ws).GetSwapped =
      ws.getLast?.getD wasSwapped ∧
    (TJoinState.afterSwaps width maxLength leftIOMap rightIOMap wasSwapped ws).packedOutput
        (TJoinState.afterSwaps width maxLength leftIOMap rightIOMap wasSwapped
          ws).LeftPackedTuple =
      (if (TJoinState.afterSwaps width maxLength leftIOMap rightIOMap wasSwapped ws).GetSwapped
        then (TJoinState.afterSwaps width maxLength leftIOMap rightIOMap wasSwapped
          ws).ProbePackedOutput
        else (TJoinState.afterSwaps width maxLength leftIOMap rightIOMap wasSwapped
          ws).BuildPackedOutput) ∧
    (TJoinState.afterSwaps width maxLength leftIOMap rightIOMap wasSwapped ws).overflowOf
        (TJoinState.afterSwaps width maxLength leftIOMap rightIOMap wasSwapped
          ws).LeftOverflow =
      (if (TJoinState.afterSwaps width maxLength leftIOMap rightIOMap wasSwapped ws).GetSwapped
        then (TJoinState.afterSwaps width maxLength leftIOMap rightIOMap wasSwapped
          ws).ProbePackedInput.Overflow
        else (TJoinState.afterSwaps width maxLength leftIOMap rightIOMap wasSwapped
          ws).BuildPackedInput.Overflow) ∧
    (TJoinState.afterSwaps width maxLength leftIOMap rightIOMap wasSwapped ws).packedOutput
        (TJoinState.afterSwaps width maxLength leftIOMap rightIOMap wasSwapped
          ws).RightPackedTuple =
      (if (TJoinState.afterSwaps width maxLength leftIOMap rightIOMap wasSwapped ws).GetSwapped
        then (TJoinState.afterSwaps width maxLength leftIOMap rightIOMap wasSwapped
          ws).BuildPackedOutput
        else (TJoinState.afterSwaps width maxLength leftIOMap rightIOMap wasSwapped
          ws).ProbePackedOutput) ∧
    (TJoinState.afterSwaps width maxLength leftIOMap rightIOMap wasSwapped ws).overflowOf
        (TJoinState.afterSwaps width maxLength leftIOMap rightIOMap wasSwapped
          ws).RightOverflow =
      (if (TJoinState.afterSwaps width maxLength leftIOMap rightIOMap wasSwapped ws).GetSwapped
        then (TJoinState.afterSwaps width maxLength leftIOMap rightIOMap wasSwapped
          ws).BuildPackedInput.Overflow
        else (TJoinState.afterSwaps width maxLength leftIOMap rightIOMap wasSwapped
          ws).ProbePackedInput.Overflow) ∧
    (TJoinState.afterSwaps width maxLength leftIOMap rightIOMap wasSwapped ws).SetSwapped
        (TJoinState.afterSwaps width maxLength leftIOMap rightIOMap wasSwapped ws).GetSwapped =
      TJoinState.afterSwaps width maxLength leftIOMap rightIOMap wasSwapped ws := by
  have h0 : ∀ w : Bool,
      (TJoinState.construct width maxLength leftIOMap rightIOMap w).LeftPackedTuple =
        (if (TJoinState.construct width maxLength leftIOMap rightIOMap w).WasSwapped
          then ESide.Probe else ESide.Build) ∧
      (TJoinState.construct width maxLength leftIOMap rightIOMap w).LeftOverflow =
        (if (TJoinState.construct width maxLength leftIOMap rightIOMap w).WasSwapped
          then ESide.Probe else ESide.Build) ∧
      (TJoinState.construct width maxLength leftIOMap rightIOMap w).RightPackedTuple =
        (if (TJoinState.construct width maxLength leftIOMap rightIOMap w).WasSwapped
          then ESide.Build else ESide.Probe) ∧
      (TJoinState.construct width maxLength leftIOMap rightIOMap w).RightOverflow =
        (if (TJoinState.construct width maxLength leftIOMap rightIOMap w).WasSwapped
          then ESide.Build else ESide.Probe) := by
    intro w
    cases w <;> simp [TJoinState.construct]
  obtain ⟨hlast, h1, h2, h3, h4⟩ := SetSwapped_sequence ws _ (h0 wasSwapped)
  unfold TJoinState.afterSwaps
  generalize ws.foldl TJoinState.SetSwapped
    (TJoinState.construct width maxLength leftIOMap rightIOMap wasSwapped) = js at *
  unfold TJoinState.GetSwapped
  refine ⟨hlast, ?_, ?_, ?_, ?_, ?_⟩
  · rw [h1]; cases js.WasSwapped <;> rfl
  · rw [h2]; cases js.WasSwapped <;> rfl
  · rw [h3]; cases js.WasSwapped <;> rfl
  · rw [h4]; cases js.WasSwapped <;> rfl
  · simp [TJoinState.SetSwapped]

/-- C12. `GetStatus` classifies every bootstrap state: `BothStreamsFinished`
exactly when both sides are finished; else `OneStreamFinished` exactly when one
side is finished and the estimated size of the other exceeds the limit; else
`MemoryLimitExceeded` exactly when both estimated sizes exceed the limit; else
`Unknown`. -/
theorem TTempJoinStorage.GetStatus_classifies (ts : TTempJoinStorage) :
    (ts.GetStatus = EStatus.BothStreamsFinished ↔
      ts.LeftIsFinished = true ∧ ts.RightIsFinished = true) ∧
    (ts.GetStatus = EStatus.OneStreamFinished ↔
      ¬ (ts.LeftIsFinished = true ∧ ts.RightIsFinished = true) ∧
      ((ts.LeftIsFinished = true ∧
          ts.RightEstimatedSize > ts.Policy.GetMaximumInitiallyFetchedData) ∨
        (ts.LeftEstimatedSize > ts.Policy.GetMaximumInitiallyFetchedData ∧
          ts.RightIsFinished = true))) ∧
    (ts.GetStatus = EStatus.MemoryLimitExceeded ↔
      ts.LeftIsFinished = false ∧ ts.RightIsFinished = false ∧
      ts.LeftEstimatedSize > ts.Policy.GetMaximumInitiallyFetchedData ∧
      ts.RightEstimatedSize > ts.Policy.GetMaximumInitiallyFetchedData) ∧
    (ts.GetStatus = EStatus.Unknown ↔
      ¬ (ts.LeftIsFinished = true ∧ ts.RightIsFinished = true) ∧
      ¬ (ts.LeftIsFinished = true ∧
          ts.RightEstimatedSize > ts.Policy.GetMaximumInitiallyFetchedData) ∧
      ¬ (ts.LeftEstimatedSize > ts.Policy.GetMaximumInitiallyFetchedData ∧
          ts.RightIsFinished = true) ∧
      ¬ (ts.LeftEstimatedSize > ts.Policy.GetMaximumInitiallyFetchedData ∧
          ts.RightEstimatedSize > ts.Policy.GetMaximumInitiallyFetchedData)) := by
  unfold TTempJoinStorage.GetStatus
  cases hl : ts.LeftIsFinished <;> cases hr : ts.RightIsFinished <;>
    by_cases h1 : ts.LeftEstimatedSize > ts.Policy.GetMaximumInitiallyFetchedData <;>
    by_cases h2 : ts.RightEstimatedSize > ts.Policy.GetMaximumInitiallyFetchedData <;>
    simp [h1, h2]

theorem THashJoin.construct_fields (ctx : TComputationContext) (resultItemTypes : List TType)
    (leftItemTypesArg : List TType) (leftKeyColumns leftIOMap : List Nat)
    (rightItemTypesArg : List TType) (rightKeyColumns rightIOMap : List Nat)
    (policy : IBlockGraceJoinPolicy) (ts : TTempJoinStorage) (hj : THashJoin)
    (h : THashJoin.construct ctx resultItemTypes leftItemTypesArg leftKeyColumns leftIOMap
      rightItemTypesArg rightKeyColumns rightIOMap policy ts = Except.ok hj) :
    hj.JoinState.WasSwapped = THashJoin.wasSwapped ts ∧
    hj.BuildData = (if THashJoin.wasSwapped ts then ts.RightData else ts.LeftData) ∧
    hj.ProbeData = (if THashJoin.wasSwapped ts then ts.LeftData else ts.RightData) ∧
    hj.ProbeStream = (if THashJoin.wasSwapped ts then ts.LeftStream else ts.RightStream) ∧
    hj.BuildKeyColumns =
      (if THashJoin.wasSwapped ts then rightKeyColumns else leftKeyColumns) ∧
    hj.ProbeKeyColumns =
      (if THashJoin.wasSwapped ts then leftKeyColumns else rightKeyColumns) := by
  unfold THashJoin.construct at h
  simp only [bind, Except.bind, pure, Except.pure] at h
  split at h
  · cases h
  · split at h
    · split at h
      · injection h with h
        subst h
        cases hw : THashJoin.wasSwapped ts <;>
          simp [TJoinState.construct, TTempJoinStorage.DetachData]
      · cases h
    · cases h

/-- C11. Build-side selection of `THashJoin::THashJoin`.  The sides are swapped
exactly when only the right stream finished, or both finished and the left side
fetched strictly more tuples; the build data, probe data and probe stream are
those of the right, left and left side when swapped and of the left, right and
right side otherwise.  So when both streams finished the build side fetched no
more tuples than the probe side, and when exactly one finished the build side
is the finished one. -/
theorem THashJoin.construct_build_side (ctx : TComputationContext)
    (resultItemTypes : List TType)
    (leftItemTypesArg : List TType) (leftKeyColumns leftIOMap : List Nat)
    (rightItemTypesArg : List TType) (rightKeyColumns rightIOMap : List Nat)
    (policy : IBlockGraceJoinPolicy) (ts : TTempJoinStorage) (hj : THashJoin)
    (h : THashJoin.construct ctx resultItemTypes leftItemTypesArg leftKeyColumns leftIOMap
      rightItemTypesArg rightKeyColumns rightIOMap policy ts = Except.ok hj) :
    (hj.JoinState.GetSwapped = true ↔
      (ts.LeftIsFinished = false ∧ ts.RightIsFinished = true) ∨
      (ts.LeftIsFinished = true ∧ ts.RightIsFinished = true ∧
        ts.LeftFetchedTuples > ts.RightFetchedTuples)) ∧
    hj.BuildData = (if hj.JoinState.GetSwapped then ts.RightData else ts.LeftData) ∧
    hj.ProbeData = (if hj.JoinState.GetSwapped then ts.LeftData else ts.RightData) ∧
    hj.ProbeStream = (if hj.JoinState.GetSwapped then ts.LeftStream else ts.RightStream) ∧
    (ts.LeftIsFinished = true → ts.RightIsFinished = true →
      (if hj.JoinState.GetSwapped then ts.RightFetchedTuples else ts.LeftFetchedTuples) ≤
        (if hj.JoinState.GetSwapped then ts.LeftFetchedTuples else ts.RightFetchedTuples)) ∧
    (ts.LeftIsFinished ≠ ts.RightIsFinished →
      (if hj.JoinState.GetSwapped then ts.RightIsFinished else ts.LeftIsFinished) = true) := by
  obtain ⟨h1, h2, h3, h4, -, -⟩ := THashJoin.construct_fields ctx resultItemTypes
    leftItemTypesArg leftKeyColumns leftIOMap rightItemTypesArg rightKeyColumns rightIOMap
    policy ts hj h
  unfold TJoinState.GetSwapped
  rw [h1]
  refine ⟨?_, h2, h3, h4, ?_, ?_⟩
  · unfold THashJoin.wasSwapped
    cases ts.LeftIsFinished <;> cases ts.RightIsFinished <;> simp
  · intro hl hr
    unfold THashJoin.wasSwapped
    rw [hl, hr]
    by_cases hgt : ts.LeftFetchedTuples > ts.RightFetchedTuples
    · simp [hgt]
      omega
    · simp [hgt]
      omega
  · intro hne
    unfold THashJoin.wasSwapped
    cases hl : ts.LeftIsFinished <;> cases hr : ts.RightIsFinished <;> simp [hl, hr] at hne ⊢

/-- C11 at `bothFinishedStorage`: both streams finished, three left rows, one
right row; the right side becomes the build side. -/
theorem THashJoin.construct_build_side_witness :
    ∃ hj, THashJoin.construct sampleContext [1, 1, 1, 0] [1, 1, 0] [0] [0, 1] [1, 1, 0] [0] [1]
        (hashJoinPolicy 100) bothFinishedStorage = Except.ok hj ∧
      hj.JoinState.GetSwapped = true ∧
      hj.BuildData = bothFinishedStorage.RightData ∧
      ((hj.JoinState.GetSwapped = true ↔
        (bothFinishedStorage.LeftIsFinished = false ∧
          bothFinishedStorage.RightIsFinished = true) ∨
        (bothFinishedStorage.LeftIsFinished = true ∧
          bothFinishedStorage.RightIsFinished = true ∧
          bothFinishedStorage.LeftFetchedTuples > bothFinishedStorage.RightFetchedTuples)) ∧
      hj.BuildData =
        (if hj.JoinState.GetSwapped then bothFinishedStorage.RightData
          else bothFinishedStorage.LeftData) ∧
      hj.ProbeData =
        (if hj.JoinState.GetSwapped then bothFinishedStorage.LeftData
          else bothFinishedStorage.RightData) ∧
      hj.ProbeStream =
        (if hj.JoinState.GetSwapped then bothFinishedStorage.LeftStream
          else bothFinishedStorage.RightStream) ∧
      (bothFinishedStorage.LeftIsFinished = true → bothFinishedStorage.RightIsFinished = true →
        (if hj.JoinState.GetSwapped then bothFinishedStorage.RightFetchedTuples
          else bothFinishedStorage.LeftFetchedTuples) ≤
          (if hj.JoinState.GetSwapped then bothFinishedStorage.LeftFetchedTuples
            else bothFinishedStorage.RightFetchedTuples)) ∧
      (bothFinishedStorage.LeftIsFinished ≠ bothFinishedStorage.RightIsFinished →
        (if hj.JoinState.GetSwapped then bothFinishedStorage.RightIsFinished
          else bothFinishedStorage.LeftIsFinished) = true)) :=
  ⟨_, rfl, rfl, rfl,
    (by
      exact THashJoin.construct_build_side sampleContext [1, 1, 1, 0] [1, 1, 0] [0] [0, 1]
        [1, 1, 0] [0] [1] (hashJoinPolicy 100) bothFinishedStorage _ (by rfl))⟩

/-- C13, failing input.  In `atLimitStorage` the right side has not reported the
end of its stream and its estimated packed size equals the limit, so it has not
exceeded it, and the right stream still has a block; `FetchStreams` issues no
fetch: it returns `Finish` and leaves the state, right stream included, as it
was. -/
theorem TTempJoinStorage.FetchStreams_skips_side_at_limit :
    atLimitStorage.RightIsFinished = false ∧
    ¬ atLimitStorage.RightEstimatedSize >
      atLimitStorage.Policy.GetMaximumInitiallyFetchedData ∧
    atLimitStorage.RightStream =
      [TFetched.Ok { Size := 1, Columns := [[9], [9]] }, TFetched.Finish] ∧
    atLimitStorage.FetchStreams sampleContext =
      Except.ok (EFetchStatus.Finish, atLimitStorage) :=
  ⟨rfl, by decide, rfl, rfl⟩

theorem fetchLeft_spec (ctx : TComputationContext) (ts ts1 : TTempJoinStorage)
    (result : EFetchStatus) (h : ts.fetchLeft ctx = Except.ok (result, ts1)) :
    (result = EFetchStatus.Yield ↔
      (ts.LeftIsFinished = false ∧
          ts.LeftEstimatedSize < ts.Policy.GetMaximumInitiallyFetchedData) ∧
        ts.LeftStream.WideFetch.1 = TFetched.Yield) ∧
    (result = EFetchStatus.Yield → ts1.LeftIsFinished = false ∧
      ts1.LeftEstimatedSize < ts1.Policy.GetMaximumInitiallyFetchedData) ∧
    ts1.RightIsFinished = ts.RightIsFinished ∧
    ts1.RightEstimatedSize = ts.RightEstimatedSize ∧
    ts1.RightStream = ts.RightStream ∧ ts1.Policy = ts.Policy := by
  unfold TTempJoinStorage.fetchLeft at h
  by_cases hp : (!ts.LeftIsFinished &&
      decide (ts.LeftEstimatedSize < ts.Policy.GetMaximumInitiallyFetchedData)) = true
  · rw [if_pos hp] at h
    have hp2 : ts.LeftIsFinished = false ∧
        ts.LeftEstimatedSize < ts.Policy.GetMaximumInitiallyFetchedData := by
      simpa using hp
    split at h
    · rename_i leftBlock rest heq
      split at h
      · cases h
      · simp only [pure, Except.pure, Except.ok.injEq, Prod.mk.injEq] at h
        obtain ⟨h1, h2⟩ := h
        subst h1 h2
        simp [heq]
    · rename_i rest heq
      simp only [pure, Except.pure, Except.ok.injEq, Prod.mk.injEq] at h
      obtain ⟨h1, h2⟩ := h
      subst h1 h2
      simp [heq]
    · rename_i rest heq
      simp only [pure, Except.pure, Except.ok.injEq, Prod.mk.injEq] at h
      obtain ⟨h1, h2⟩ := h
      subst h1 h2
      simp [heq, hp2]
  · rw [if_neg hp] at h
    simp only [pure, Except.pure, Except.ok.injEq, Prod.mk.injEq] at h
    obtain ⟨h1, h2⟩ := h
    subst h1 h2
    have hp2 : ¬ (ts.LeftIsFinished = false ∧
        ts.LeftEstimatedSize < ts.Policy.GetMaximumInitiallyFetchedData) := by
      simpa using hp
    simp [hp2]

theorem fetchRight_spec (ctx : TComputationContext) (ts ts1 : TTempJoinStorage)
    (result : EFetchStatus) (h : ts.fetchRight ctx = Except.ok (result, ts1)) :
    (result = EFetchStatus.Yield ↔
      (ts.RightIsFinished = false ∧
          ts.RightEstimatedSize < ts.Policy.GetMaximumInitiallyFetchedData) ∧
        ts.RightStream.WideFetch.1 = TFetched.Yield) ∧
    (result = EFetchStatus.Yield → ts1.RightIsFinished = false ∧
      ts1.RightEstimatedSize < ts1.Policy.GetMaximumInitiallyFetchedData) ∧
    ts1.LeftIsFinished = ts.LeftIsFinished ∧
    ts1.LeftEstimatedSize = ts.LeftEstimatedSize ∧
    ts1.LeftStream = ts.LeftStream ∧ ts1.Policy = ts.Policy := by
  unfold TTempJoinStorage.fetchRight at h
  by_cases hp : (!ts.RightIsFinished &&
      decide (ts.RightEstimatedSize < ts.Policy.GetMaximumInitiallyFetchedData)) = true
  · rw [if_pos hp] at h
    have hp2 : ts.RightIsFinished = false ∧
        ts.RightEstimatedSize < ts.Policy.GetMaximumInitiallyFetchedData := by
      simpa using hp
    split at h
    · rename_i rightBlock rest heq
      split at h
      · cases h
      · simp only [pure, Except.pure, Except.ok.injEq, Prod.mk.injEq] at h
        obtain ⟨h1, h2⟩ := h
        subst h1 h2
        simp [heq]
    · rename_i rest heq
      simp only [pure, Except.pure, Except.ok.injEq, Prod.mk.injEq] at h
      obtain ⟨h1, h2⟩ := h
      subst h1 h2
      simp [heq]
    · rename_i rest heq
      simp only [pure, Except.pure, Except.ok.injEq, Prod.mk.injEq] at h
      obtain ⟨h1, h2⟩ := h
      subst h1 h2
      simp [heq, hp2]
  · rw [if_neg hp] at h
    simp only [pure, Except.pure, Except.ok.injEq, Prod.mk.injEq] at h
    obtain ⟨h1, h2⟩ := h
    subst h1 h2
    have hp2 : ¬ (ts.RightIsFinished = false ∧
        ts.RightEstimatedSize < ts.Policy.GetMaximumInitiallyFetchedData) := by
      simpa using hp
    simp [hp2]

theorem GetStatus_unknown_of_left (ts : TTempJoinStorage) (h1 : ts.LeftIsFinished = false)
    (h2 : ts.LeftEstimatedSize < ts.Policy.GetMaximumInitiallyFetchedData) :
    ts.GetStatus = EStatus.Unknown := by
  unfold TTempJoinStorage.GetStatus
  have h3 : ¬ ts.LeftEstimatedSize > ts.Policy.GetMaximumInitiallyFetchedData := by omega
  simp [h1, h3]

theorem GetStatus_unknown_of_right (ts : TTempJoinStorage) (h1 : ts.RightIsFinished = false)
    (h2 : ts.RightEstimatedSize < ts.Policy.GetMaximumInitiallyFetchedData) :
    ts.GetStatus = EStatus.Unknown := by
  unfold TTempJoinStorage.GetStatus
  have h3 : ¬ ts.RightEstimatedSize > ts.Policy.GetMaximumInitiallyFetchedData := by omega
  simp [h1, h3]

theorem FetchStreams_halves (ctx : TComputationContext) (ts ts2 : TTempJoinStorage)
    (status : EFetchStatus) (h : ts.FetchStreams ctx = Except.ok (status, ts2)) :
    ∃ resultLeft ts1 resultRight,
      ts.fetchLeft ctx = Except.ok (resultLeft, ts1) ∧
      ts1.fetchRight ctx = Except.ok (resultRight, ts2) ∧
      status = (if resultLeft = EFetchStatus.Yield ∨ resultRight = EFetchStatus.Yield then
        EFetchStatus.Yield else EFetchStatus.Finish) := by
  unfold TTempJoinStorage.FetchStreams at h
  split at h
  · cases h
  · rename_i resultLeft ts1 hleft
    split at h
    · cases h
    · rename_i resultRight ts3 hright
      refine ⟨resultLeft, ts1, resultRight, hleft, ?_, ?_⟩
      · split at h <;>
          simp only [pure, Except.pure, Except.ok.injEq, Prod.mk.injEq] at h <;>
          rw [← h.2] <;> exact hright
      · split at h <;>
          simp only [pure, Except.pure, Except.ok.injEq, Prod.mk.injEq] at h <;>
          rename_i hc
        · rw [if_pos hc]; exact h.1.symm
        · rw [if_neg hc]; exact h.1.symm

/-- C14. `FetchStreams` returns `Yield` exactly when one of the fetches it issued
in the call answered `Yield` (a side is fetched when it is not finished and its
estimated size is below the limit), and `Finish` otherwise, never `Ok`; and
whenever it returns `Yield`, `GetStatus` on the storage it leaves is `Unknown`. -/
theorem TTempJoinStorage.FetchStreams_status (ctx : TComputationContext)
    (ts ts2 : TTempJoinStorage) (status : EFetchStatus)
    (h : ts.FetchStreams ctx = Except.ok (status, ts2)) :
    (status = EFetchStatus.Yield ∨ status = EFetchStatus.Finish) ∧
    (status = EFetchStatus.Yield ↔
      ((ts.LeftIsFinished = false ∧
          ts.LeftEstimatedSize < ts.Policy.GetMaximumInitiallyFetchedData) ∧
        ts.LeftStream.WideFetch.1 = TFetched.Yield) ∨
      ((ts.RightIsFinished = false ∧
          ts.RightEstimatedSize < ts.Policy.GetMaximumInitiallyFetchedData) ∧
        ts.RightStream.WideFetch.1 = TFetched.Yield)) ∧
    (status = EFetchStatus.Yield → ts2.GetStatus = EStatus.Unknown) := by
  obtain ⟨rl, ts1, rr, hleft, hright, hstatus⟩ := FetchStreams_halves ctx ts ts2 status h
  obtain ⟨l1, l2, l3, l4, l5, l6⟩ := fetchLeft_spec ctx ts ts1 rl hleft
  obtain ⟨r1, r2, r3, r4, r5, r6⟩ := fetchRight_spec ctx ts1 ts2 rr hright
  rw [l3, l4, l5, l6] at r1
  have hy : status = EFetchStatus.Yield ↔ rl = EFetchStatus.Yield ∨ rr = EFetchStatus.Yield := by
    rw [hstatus]
    by_cases hc : rl = EFetchStatus.Yield ∨ rr = EFetchStatus.Yield
    · simp [hc]
    · simp [hc]
  refine ⟨?_, ?_, ?_⟩
  · rw [hstatus]
    by_cases hc : rl = EFetchStatus.Yield ∨ rr = EFetchStatus.Yield
    · left; simp [hc]
    · right; simp [hc]
  · rw [hy, l1, r1]
  · intro hs
    rcases hy.1 hs with hl | hr
    · obtain ⟨a, b⟩ := l2 hl
      exact GetStatus_unknown_of_left ts2 (by rw [r3, a]) (by rw [r4, r6]; exact b)
    · obtain ⟨a, b⟩ := r2 hr
      exact GetStatus_unknown_of_right ts2 a b

/-- C14 at `yieldingStorage`: the left fetch answers `Yield`, the right fetch
delivers a block; `FetchStreams` returns `Yield`. -/
theorem TTempJoinStorage.FetchStreams_status_witness :
    ∃ ts2, yieldingStorage.FetchStreams sampleContext = Except.ok (EFetchStatus.Yield, ts2) ∧
      ts2.RightData.length = 1 ∧
      ((EFetchStatus.Yield = EFetchStatus.Yield ∨ EFetchStatus.Yield = EFetchStatus.Finish) ∧
      (EFetchStatus.Yield = EFetchStatus.Yield ↔
        ((yieldingStorage.LeftIsFinished = false ∧
            yieldingStorage.LeftEstimatedSize <
              yieldingStorage.Policy.GetMaximumInitiallyFetchedData) ∧
          yieldingStorage.LeftStream.WideFetch.1 = TFetched.Yield) ∨
        ((yieldingStorage.RightIsFinished = false ∧
            yieldingStorage.RightEstimatedSize <
              yieldingStorage.Policy.GetMaximumInitiallyFetchedData) ∧
          yieldingStorage.RightStream.WideFetch.1 = TFetched.Yield)) ∧
      (EFetchStatus.Yield = EFetchStatus.Yield → ts2.GetStatus = EStatus.Unknown)) :=
  ⟨_, rfl, rfl,
    (by
      exact TTempJoinStorage.FetchStreams_status sampleContext yieldingStorage _
        EFetchStatus.Yield (by rfl))⟩

theorem startHashJoin_mode (ctx : TComputationContext) (sv sv1 : TStreamValue)
    (ts : TTempJoinStorage) (h : TStreamValue.startHashJoin ctx sv ts = Except.ok sv1) :
    sv1.Mode = EMode.HashJoin := by
  unfold TStreamValue.startHashJoin at h
  simp only [bind, Except.bind, pure, Except.pure] at h
  split at h
  · cases h
  · split at h
    · cases h
    · injection h with h
      rw [← h]

theorem startInMemoryGraceJoin_mode (ctx : TComputationContext) (sv sv1 : TStreamValue)
    (ts : TTempJoinStorage)
    (h : TStreamValue.startInMemoryGraceJoin ctx sv ts = Except.ok sv1) :
    sv1.Mode = EMode.InMemoryGraceJoin := by
  unfold TStreamValue.startInMemoryGraceJoin at h
  simp only [bind, Except.bind, pure, Except.pure] at h
  split at h
  · cases h
  · injection h with h
    rw [← h]

theorem probe_mode (ctx : TComputationContext) (sv sv1 : TStreamValue)
    (status : EFetchStatus) (out : List TValue)
    (h : TStreamValue.probe ctx sv = Except.ok (status, out, sv1)) : sv1.Mode = sv.Mode := by
  unfold TStreamValue.probe at h
  split at h
  · split at h
    · cases h
    · split at h <;>
        simp only [pure, Except.pure, Except.ok.injEq, Prod.mk.injEq] at h <;>
        rw [← h.2.2]
  · split at h
    · cases h
    · split at h <;>
        simp only [pure, Except.pure, Except.ok.injEq, Prod.mk.injEq] at h <;>
        rw [← h.2.2]
  · cases h
  · cases h

theorem bootstrapLoop_decided (ctx : TComputationContext) :
    ∀ (fuel : Nat) (ts0 ts : TTempJoinStorage) (status : EStatus),
      TStreamValue.bootstrapLoop ctx fuel ts0 = Except.ok (TBootstrapEnd.Decided status ts) →
      status = ts.GetStatus ∧ status ≠ EStatus.Unknown := by
  intro fuel
  induction fuel with
  | zero =>
    intro ts0 ts status h
    cases h
  | succ f ih =>
    intro ts0 ts status h
    unfold TStreamValue.bootstrapLoop at h
    split at h
    · cases h
    · rename_i fetchStatus ts1 hfetch
      split at h
      · cases h
      · split at h
        · exact ih ts1 ts status h
        · rename_i hne
          simp only [pure, Except.pure, Except.ok.injEq, TBootstrapEnd.Decided.injEq] at h
          obtain ⟨h1, h2⟩ := h
          subst h2
          exact ⟨h1.symm, by rw [← h1]; exact hne⟩

theorem WideFetch_of_start (ctx : TComputationContext) (fuel : Nat) (sv : TStreamValue)
    (hmode : sv.Mode = EMode.Start) :
    TStreamValue.WideFetch ctx fuel sv =
      match TStreamValue.start ctx fuel sv with
      | Except.error e => throw e
      | Except.ok (some status, sv1) => pure (status, [], sv1)
      | Except.ok (none, sv1) => TStreamValue.probe ctx sv1 := by
  unfold TStreamValue.WideFetch
  rw [hmode]

theorem WideFetch_of_probe (ctx : TComputationContext) (fuel : Nat) (sv : TStreamValue)
    (hmode : sv.Mode ≠ EMode.Start) :
    TStreamValue.WideFetch ctx fuel sv = TStreamValue.probe ctx sv := by
  unfold TStreamValue.WideFetch
  split
  · rename_i h
    exact absurd h hmode
  · rfl

theorem start_of_decided (ctx : TComputationContext) (fuel : Nat) (sv : TStreamValue)
    (ts0 ts : TTempJoinStorage) (status : EStatus) (hts : sv.TempStorage = some ts0)
    (hloop : TStreamValue.bootstrapLoop ctx fuel ts0 =
      Except.ok (TBootstrapEnd.Decided status ts)) :
    TStreamValue.start ctx fuel sv =
      (sv.switchMode ctx status ts).map fun sv1 => (none, sv1) := by
  unfold TStreamValue.start
  rw [hts]
  simp only [hloop]

theorem start_of_yielded (ctx : TComputationContext) (fuel : Nat) (sv : TStreamValue)
    (ts0 ts : TTempJoinStorage) (hts : sv.TempStorage = some ts0)
    (hloop : TStreamValue.bootstrapLoop ctx fuel ts0 = Except.ok (TBootstrapEnd.Yielded ts)) :
    TStreamValue.start ctx fuel sv =
      Except.ok (some EFetchStatus.Yield, { sv with TempStorage := some ts }) := by
  unfold TStreamValue.start
  rw [hts]
  simp only [hloop]
  rfl

theorem WideFetch_after_switch (ctx : TComputationContext) (fuel : Nat) (sv sv1 : TStreamValue)
    (ts0 ts : TTempJoinStorage) (decided : EStatus) (status : EFetchStatus)
    (out : List TValue) (hmode : sv.Mode = EMode.Start) (hts : sv.TempStorage = some ts0)
    (hloop : TStreamValue.bootstrapLoop ctx fuel ts0 =
      Except.ok (TBootstrapEnd.Decided decided ts))
    (h : TStreamValue.WideFetch ctx fuel sv = Except.ok (status, out, sv1)) :
    ∃ sv2, sv.switchMode ctx decided ts = Except.ok sv2 ∧
      TStreamValue.probe ctx sv2 = Except.ok (status, out, sv1) := by
  rw [WideFetch_of_start ctx fuel sv hmode, start_of_decided ctx fuel sv ts0 ts decided hts hloop]
    at h
  cases hsw : sv.switchMode ctx decided ts with
  | error e =>
    rw [hsw] at h
    cases h
  | ok sv2 =>
    rw [hsw] at h
    exact ⟨sv2, rfl, h⟩

/-- C15. The mode machine of the operator.  A constructed operator is in
`Start`.  A `WideFetch` whose bootstrap loop ends by `Yield` returns `Yield`
and leaves the mode at `Start`.  When the bootstrap ends with
`BothStreamsFinished`, a `WideFetch` that returns leaves the mode at `HashJoin`
if `PickAlgorithm(lTuples, rTuples)` is `HashJoin` and at `InMemoryGraceJoin`
otherwise.  From `HashJoin` or `InMemoryGraceJoin` no `WideFetch` that returns
changes the mode. -/
theorem TStreamValue.mode_machine (ctx : TComputationContext) :
    (∀ (resultItemTypes : List TType) (leftStream : TStream) (leftItemTypes : List TType)
        (leftKeyColumns leftIOMap : List Nat) (rightStream : TStream)
        (rightItemTypes : List TType) (rightKeyColumns rightIOMap : List Nat)
        (policy : IBlockGraceJoinPolicy) (sv : TStreamValue),
      TStreamValue.construct ctx resultItemTypes leftStream leftItemTypes leftKeyColumns
        leftIOMap rightStream rightItemTypes rightKeyColumns rightIOMap policy =
          Except.ok sv →
      sv.Mode = EMode.Start) ∧
    (∀ (fuel : Nat) (sv : TStreamValue) (ts0 ts : TTempJoinStorage),
      sv.Mode = EMode.Start → sv.TempStorage = some ts0 →
      TStreamValue.bootstrapLoop ctx fuel ts0 = Except.ok (TBootstrapEnd.Yielded ts) →
      ∃ sv1, TStreamValue.WideFetch ctx fuel sv = Except.ok (EFetchStatus.Yield, [], sv1) ∧
        sv1.Mode = EMode.Start) ∧
    (∀ (fuel : Nat) (sv sv1 : TStreamValue) (ts0 ts : TTempJoinStorage)
        (status : EFetchStatus) (out : List TValue),
      sv.Mode = EMode.Start → sv.TempStorage = some ts0 →
      TStreamValue.bootstrapLoop ctx fuel ts0 =
        Except.ok (TBootstrapEnd.Decided EStatus.BothStreamsFinished ts) →
      TStreamValue.WideFetch ctx fuel sv = Except.ok (status, out, sv1) →
      sv1.Mode =
        (if sv.Policy.PickAlgorithm ts.GetFetchedTuples.1 ts.GetFetchedTuples.2 =
            EJoinAlgo.HashJoin then EMode.HashJoin
          else EMode.InMemoryGraceJoin)) ∧
    (∀ (fuel : Nat) (sv sv1 : TStreamValue) (status : EFetchStatus) (out : List TValue),
      sv.Mode = EMode.HashJoin ∨ sv.Mode = EMode.InMemoryGraceJoin →
      TStreamValue.WideFetch ctx fuel sv = Except.ok (status, out, sv1) →
      sv1.Mode = sv.Mode) := by
  refine ⟨?_, ?_, ?_, ?_⟩
  · intro resultItemTypes leftStream leftItemTypes leftKeyColumns leftIOMap rightStream
      rightItemTypes rightKeyColumns rightIOMap policy sv h
    unfold TStreamValue.construct at h
    simp only [bind, Except.bind, pure, Except.pure] at h
    split at h
    · cases h
    · injection h with h
      rw [← h]
  · intro fuel sv ts0 ts hmode hts hloop
    refine ⟨{ sv with TempStorage := some ts }, ?_, hmode⟩
    rw [WideFetch_of_start ctx fuel sv hmode, start_of_yielded ctx fuel sv ts0 ts hts hloop]
    rfl
  · intro fuel sv sv1 ts0 ts status out hmode hts hloop h
    obtain ⟨sv2, hsw, hprobe⟩ :=
      WideFetch_after_switch ctx fuel sv sv1 ts0 ts _ status out hmode hts hloop h
    rw [probe_mode ctx sv2 sv1 status out hprobe]
    simp only [TStreamValue.switchMode] at hsw
    by_cases hp : sv.Policy.PickAlgorithm ts.GetFetchedTuples.1 ts.GetFetchedTuples.2 =
        EJoinAlgo.HashJoin
    · rw [if_pos hp] at hsw ⊢
      exact startHashJoin_mode ctx sv sv2 ts hsw
    · rw [if_neg hp] at hsw ⊢
      exact startInMemoryGraceJoin_mode ctx sv sv2 ts hsw
  · intro fuel sv sv1 status out hmode h
    have hne : sv.Mode ≠ EMode.Start := by
      rcases hmode with hm | hm <;> rw [hm] <;> decide
    rw [WideFetch_of_probe ctx fuel sv hne] at h
    exact probe_mode ctx sv sv1 status out h

/-- C15 at `yieldingOperator`: the first `WideFetch` yields in the bootstrap, the
second decides on `BothStreamsFinished` and switches to the hash join, the third
stays there. -/
theorem TStreamValue.mode_machine_witness :
    ∃ sv sv1 sv2 sv3 ts0 ts1 ts2 status out status3 out3,
      yieldingOperator = Except.ok sv ∧
      sv.TempStorage = some ts0 ∧
      TStreamValue.bootstrapLoop sampleContext 5 ts0 =
        Except.ok (TBootstrapEnd.Yielded ts1) ∧
      TStreamValue.WideFetch sampleContext 5 sv = Except.ok (EFetchStatus.Yield, [], sv1) ∧
      sv1.TempStorage = some ts1 ∧
      TStreamValue.bootstrapLoop sampleContext 5 ts1 =
        Except.ok (TBootstrapEnd.Decided EStatus.BothStreamsFinished ts2) ∧
      TStreamValue.WideFetch sampleContext 5 sv1 = Except.ok (status, out, sv2) ∧
      sv2.Mode = EMode.HashJoin ∧
      TStreamValue.WideFetch sampleContext 5 sv2 = Except.ok (status3, out3, sv3) ∧
      sv.Mode = EMode.Start ∧
      (∃ sv4, TStreamValue.WideFetch sampleContext 5 sv =
          Except.ok (EFetchStatus.Yield, [], sv4) ∧ sv4.Mode = EMode.Start) ∧
      sv2.Mode =
        (if sv1.Policy.PickAlgorithm ts2.GetFetchedTuples.1 ts2.GetFetchedTuples.2 =
            EJoinAlgo.HashJoin then EMode.HashJoin
          else EMode.InMemoryGraceJoin) ∧
      sv3.Mode = sv2.Mode := by
  refine ⟨_, _, _, _, _, _, _, _, _, _, _, rfl, rfl, rfl, rfl, rfl, rfl, rfl, rfl, rfl,
    ?_, ?_, ?_, ?_⟩
  · exact (TStreamValue.mode_machine sampleContext).1 [1, 1, 1, 0]
      [TFetched.Yield, TFetched.Ok { Size := 1, Columns := [[7], [1]] }] [1, 1, 0] [0] [0, 1]
      [TFetched.Ok { Size := 1, Columns := [[7], [2]] }] [1, 1, 0] [0] [1]
      (hashJoinPolicy 100) _ (by rfl)
  · exact (TStreamValue.mode_machine sampleContext).2.1 5 _ _ _ (by rfl) (by rfl) (by rfl)
  · exact (TStreamValue.mode_machine sampleContext).2.2.1 5 _ _ _ _ _ _ (by rfl) (by rfl)
      (by rfl) (by rfl)
  · exact (TStreamValue.mode_machine sampleContext).2.2.2 5 _ _ _ _ (Or.inl (by rfl)) (by rfl)

/-- C16. In every bootstrap state for which `GetStatus` returns
`OneStreamFinished` exactly one side is finished, and the `OneStreamFinished`
case of `WideFetch` decides by `PickAlgorithm` applied to the fetched tuple
count of the finished side and `STREAM_NOT_FETCHED` for the side that has not
finished. -/
theorem TStreamValue.oneStream_PickAlgorithm_arguments (ctx : TComputationContext)
    (sv : TStreamValue) (ts : TTempJoinStorage)
    (h : ts.GetStatus = EStatus.OneStreamFinished) :
    ((ts.LeftIsFinished = true ∧ ts.RightIsFinished = false) ∨
      (ts.LeftIsFinished = false ∧ ts.RightIsFinished = true)) ∧
    sv.oneStreamTuples ts =
      (if ts.LeftIsFinished then ts.LeftFetchedTuples else sv.Policy.STREAM_NOT_FETCHED,
       if ts.RightIsFinished then ts.RightFetchedTuples else sv.Policy.STREAM_NOT_FETCHED) ∧
    sv.switchMode ctx EStatus.OneStreamFinished ts =
      (if sv.Policy.PickAlgorithm
          (if ts.LeftIsFinished then ts.LeftFetchedTuples else sv.Policy.STREAM_NOT_FETCHED)
          (if ts.RightIsFinished then ts.RightFetchedTuples
            else sv.Policy.STREAM_NOT_FETCHED) = EJoinAlgo.HashJoin then
        TStreamValue.startHashJoin ctx sv ts
      else throw (TFailure.Exception "Grace hash join not implemented yet")) := by
  have hone : (ts.LeftIsFinished = true ∧ ts.RightIsFinished = false) ∨
      (ts.LeftIsFinished = false ∧ ts.RightIsFinished = true) := by
    unfold TTempJoinStorage.GetStatus at h
    cases hl : ts.LeftIsFinished <;> cases hr : ts.RightIsFinished <;> simp [hl, hr] at h ⊢
    split at h <;> cases h
  have htuples : sv.oneStreamTuples ts =
      (if ts.LeftIsFinished then ts.LeftFetchedTuples else sv.Policy.STREAM_NOT_FETCHED,
       if ts.RightIsFinished then ts.RightFetchedTuples
        else sv.Policy.STREAM_NOT_FETCHED) := by
    unfold TStreamValue.oneStreamTuples TTempJoinStorage.GetFetchedTuples
      TTempJoinStorage.IsFinished
    rcases hone with ⟨hl, hr⟩ | ⟨hl, hr⟩ <;> simp [hl, hr]
  refine ⟨hone, htuples, ?_⟩
  simp only [TStreamValue.switchMode]
  rw [htuples]

/-- C16 at `oneFinishedStorage`: the left stream is finished, the right side is
over the limit; `PickAlgorithm` gets the left count 0 and the sentinel. -/
theorem TStreamValue.oneStream_PickAlgorithm_arguments_witness :
    ∃ sv, emptyLeftOperator = Except.ok sv ∧
      oneFinishedStorage.GetStatus = EStatus.OneStreamFinished ∧
      sv.oneStreamTuples oneFinishedStorage = (0, 2 ^ 64 - 1) ∧
      (((oneFinishedStorage.LeftIsFinished = true ∧
            oneFinishedStorage.RightIsFinished = false) ∨
          (oneFinishedStorage.LeftIsFinished = false ∧
            oneFinishedStorage.RightIsFinished = true)) ∧
        sv.oneStreamTuples oneFinishedStorage =
          (if oneFinishedStorage.LeftIsFinished then oneFinishedStorage.LeftFetchedTuples
            else sv.Policy.STREAM_NOT_FETCHED,
           if oneFinishedStorage.RightIsFinished then oneFinishedStorage.RightFetchedTuples
            else sv.Policy.STREAM_NOT_FETCHED) ∧
        sv.switchMode sampleContext EStatus.OneStreamFinished oneFinishedStorage =
          (if sv.Policy.PickAlgorithm
              (if oneFinishedStorage.LeftIsFinished then oneFinishedStorage.LeftFetchedTuples
                else sv.Policy.STREAM_NOT_FETCHED)
              (if oneFinishedStorage.RightIsFinished then oneFinishedStorage.RightFetchedTuples
                else sv.Policy.STREAM_NOT_FETCHED) = EJoinAlgo.HashJoin then
            TStreamValue.startHashJoin sampleContext sv oneFinishedStorage
          else throw (TFailure.Exception "Grace hash join not implemented yet"))) :=
  ⟨_, rfl, rfl, rfl,
    TStreamValue.oneStream_PickAlgorithm_arguments sampleContext _ oneFinishedStorage rfl⟩

theorem bitLength_go_spec : ∀ (fuel x : Nat), x ≤ fuel →
    x < 2 ^ bitLength.go fuel x ∧ ∀ k, x < 2 ^ k → bitLength.go fuel x ≤ k := by
  intro fuel
  induction fuel with
  | zero =>
    intro x hx
    have h0 : x = 0 := by omega
    subst h0
    simp [bitLength.go]
  | succ f ih =>
    intro x hx
    unfold bitLength.go
    by_cases h0 : x = 0
    · subst h0
      simp
    · rw [if_neg h0]
      obtain ⟨h1, h2⟩ := ih (x / 2) (by omega)
      constructor
      · rw [Nat.pow_succ]
        omega
      · intro k hk
        cases k with
        | zero =>
          simp at hk
          omega
        | succ k =>
          have := h2 k (by rw [Nat.pow_succ] at hk; omega)
          omega

theorem bitLength_spec (x : Nat) :
    x < 2 ^ bitLength x ∧ ∀ k, x < 2 ^ k → bitLength x ≤ k :=
  bitLength_go_spec x x (Nat.le_refl x)

theorem bucketsLogNum_spec (leftBytes rightBytes : Nat) :
    min leftBytes rightBytes ≤ 2 ^ bucketsLogNum leftBytes rightBytes * (4 * L2_CACHE_SIZE) ∧
    ∀ k, min leftBytes rightBytes ≤ 2 ^ k * (4 * L2_CACHE_SIZE) →
      bucketsLogNum leftBytes rightBytes ≤ k := by
  unfold bucketsLogNum
  have hD : 0 < 4 * L2_CACHE_SIZE := by decide
  generalize min leftBytes rightBytes = m
  generalize 4 * L2_CACHE_SIZE = D at hD
  simp only
  by_cases hm : m = 0
  · subst hm
    simp
  · rw [if_pos hm]
    obtain ⟨h1, h2⟩ := bitLength_spec ((m - 1) / D)
    constructor
    · have := (Nat.div_lt_iff_lt_mul hD).1 h1
      omega
    · intro k hk
      apply h2
      apply (Nat.div_lt_iff_lt_mul hD).2
      omega

theorem packBuckets_length (isIndirected : Bool) (keyColumnsSet : List Nat)
    (converter : IBlockLayoutConverter) (logBuckets : Nat)
    (hpack : ∀ columns buckets log,
      (converter.BucketPack columns buckets log).length = buckets.length) :
    ∀ (blocks : List TBlock) (acc r : List PackResult × Option TExternalPayloadStorage),
      TInMemoryGraceJoin.packBuckets isIndirected keyColumnsSet converter logBuckets blocks acc =
        Except.ok r →
      r.1.length = acc.1.length := by
  intro blocks
  induction blocks with
  | nil =>
    intro acc r h
    simp only [TInMemoryGraceJoin.packBuckets, pure, Except.pure, Except.ok.injEq] at h
    rw [h]
  | cons block rest ih =>
    intro acc r h
    obtain ⟨buckets, storage⟩ := acc
    unfold TInMemoryGraceJoin.packBuckets at h
    split at h
    · split at h
      · cases h
      · have := ih _ r h
        rw [this]
        exact hpack _ _ _
    · have := ih _ r h
      rw [this]
      exact hpack _ _ _

theorem TInMemoryGraceJoin.construct_buckets (ctx : TComputationContext)
    (resultItemTypes : List TType)
    (leftItemTypesArg : List TType) (leftKeyColumns leftIOMap : List Nat)
    (rightItemTypesArg : List TType) (rightKeyColumns rightIOMap : List Nat)
    (policy : IBlockGraceJoinPolicy) (ts : TTempJoinStorage) (g : TInMemoryGraceJoin)
    (hpack : ∀ types roles columns buckets log,
      ((ctx.MakeBlockLayoutConverter types roles).BucketPack columns buckets log).length =
        buckets.length)
    (h : TInMemoryGraceJoin.construct ctx resultItemTypes leftItemTypesArg leftKeyColumns
      leftIOMap rightItemTypesArg rightKeyColumns rightIOMap policy ts = Except.ok g) :
    g.BucketsLogNum =
      bucketsLogNum
        ((ts.LeftData.map fun block => block.Size).sum *
          g.Objects.BuildConverter.Layout.TotalRowSize)
        ((ts.RightData.map fun block => block.Size).sum *
          g.Objects.ProbeConverter.Layout.TotalRowSize) ∧
    g.LeftBuckets.length = 2 ^ g.BucketsLogNum ∧
    g.RightBuckets.length = 2 ^ g.BucketsLogNum := by
  unfold TInMemoryGraceJoin.construct at h
  simp only [bind, Except.bind, pure, Except.pure] at h
  split at h <;> try cases h
  split at h <;> try cases h
  split at h <;> try cases h
  split at h <;> try cases h
  split at h <;> try cases h
  split at h <;> try cases h
  rename_i x1 v1 hl x2 v2 hr
  have h1 := packBuckets_length _ _ _ _ (hpack _ _) _ _ _ hl
  have h2 := packBuckets_length _ _ _ _ (hpack _ _) _ _ _ hr
  simp only [List.length_replicate] at h1 h2
  exact ⟨rfl, h1, h2⟩

/-- C17. Bucket-count choice.  For a constructed in-memory grace join, with
`leftBytes` and `rightBytes` the buffered row counts times the `TotalRowSize` of
the two converters: `BucketsLogNum_` is the least `k` with
`min(leftBytes, rightBytes) ≤ 2 ^ k * 4 * L2_CACHE_SIZE` (0 when the smaller
side fits), and both bucket arrays have `2 ^ BucketsLogNum_` entries
(`BucketPack` packs into the arrays in place).  The constructor returns only for
`BucketsLogNum_ < 32`, the width of `1u << BucketsLogNum_`. -/
theorem TInMemoryGraceJoin.construct_bucket_count (ctx : TComputationContext)
    (resultItemTypes : List TType)
    (leftItemTypesArg : List TType) (leftKeyColumns leftIOMap : List Nat)
    (rightItemTypesArg : List TType) (rightKeyColumns rightIOMap : List Nat)
    (policy : IBlockGraceJoinPolicy) (ts : TTempJoinStorage) (g : TInMemoryGraceJoin)
    (hpack : ∀ types roles columns buckets log,
      ((ctx.MakeBlockLayoutConverter types roles).BucketPack columns buckets log).length =
        buckets.length)
    (h : TInMemoryGraceJoin.construct ctx resultItemTypes leftItemTypesArg leftKeyColumns
      leftIOMap rightItemTypesArg rightKeyColumns rightIOMap policy ts = Except.ok g) :
    min ((ts.LeftData.map fun block => block.Size).sum *
          g.Objects.BuildConverter.Layout.TotalRowSize)
        ((ts.RightData.map fun block => block.Size).sum *
          g.Objects.ProbeConverter.Layout.TotalRowSize) ≤
      2 ^ g.BucketsLogNum * (4 * (256 * 1024)) ∧
    (∀ k,
      min ((ts.LeftData.map fun block => block.Size).sum *
            g.Objects.BuildConverter.Layout.TotalRowSize)
          ((ts.RightData.map fun block => block.Size).sum *
            g.Objects.ProbeConverter.Layout.TotalRowSize) ≤ 2 ^ k * (4 * (256 * 1024)) →
      g.BucketsLogNum ≤ k) ∧
    g.LeftBuckets.length = 2 ^ g.BucketsLogNum ∧
    g.RightBuckets.length = 2 ^ g.BucketsLogNum := by
  obtain ⟨h1, h2, h3⟩ := TInMemoryGraceJoin.construct_buckets ctx resultItemTypes
    leftItemTypesArg leftKeyColumns leftIOMap rightItemTypesArg rightKeyColumns rightIOMap
    policy ts g hpack h
  have hspec := bucketsLogNum_spec
    ((ts.LeftData.map fun block => block.Size).sum *
      g.Objects.BuildConverter.Layout.TotalRowSize)
    ((ts.RightData.map fun block => block.Size).sum *
      g.Objects.ProbeConverter.Layout.TotalRowSize)
  rw [← h1] at hspec
  exact ⟨hspec.1, hspec.2, h2, h3⟩

theorem foldl_length_invariant {α β : Type} (f : List α → β → List α)
    (hf : ∀ bs r, (f bs r).length = bs.length) :
    ∀ (rows : List β) (buckets : List α), (rows.foldl f buckets).length = buckets.length := by
  intro rows
  induction rows with
  | nil => intro buckets; rfl
  | cons r rest ih =>
    intro buckets
    rw [List.foldl_cons, ih, hf]

theorem rowConverter_bucketPack_length (numColumns keyColumn : Nat)
    (columns : List (List Nat)) (buckets : List PackResult) (log : Nat) :
    ((rowConverter numColumns keyColumn).BucketPack columns buckets log).length =
      buckets.length := by
  simp only [rowConverter]
  apply foldl_length_invariant
  intro bs r
  simp

/-- C17 at `bothFinishedStorage`: six left bytes and two right bytes fit one
bucket. -/
theorem TInMemoryGraceJoin.construct_bucket_count_witness :
    ∃ g, TInMemoryGraceJoin.construct sampleContext [1, 1, 1, 0] [1, 1, 0] [0] [0, 1]
        [1, 1, 0] [0] [1] (hashJoinPolicy 100) bothFinishedStorage = Except.ok g ∧
      g.BucketsLogNum = 0 ∧
      (min ((bothFinishedStorage.LeftData.map fun block => block.Size).sum *
            g.Objects.BuildConverter.Layout.TotalRowSize)
          ((bothFinishedStorage.RightData.map fun block => block.Size).sum *
            g.Objects.ProbeConverter.Layout.TotalRowSize) ≤
        2 ^ g.BucketsLogNum * (4 * (256 * 1024)) ∧
      (∀ k,
        min ((bothFinishedStorage.LeftData.map fun block => block.Size).sum *
              g.Objects.BuildConverter.Layout.TotalRowSize)
            ((bothFinishedStorage.RightData.map fun block => block.Size).sum *
              g.Objects.ProbeConverter.Layout.TotalRowSize) ≤ 2 ^ k * (4 * (256 * 1024)) →
        g.BucketsLogNum ≤ k) ∧
      g.LeftBuckets.length = 2 ^ g.BucketsLogNum ∧
      g.RightBuckets.length = 2 ^ g.BucketsLogNum) :=
  ⟨_, rfl, rfl,
    (by
      exact TInMemoryGraceJoin.construct_bucket_count sampleContext [1, 1, 1, 0] [1, 1, 0] [0]
        [0, 1] [1, 1, 0] [0] [1] (hashJoinPolicy 100) bothFinishedStorage _
        (fun _ _ columns buckets log => rowConverter_bucketPack_length _ _ columns buckets log)
        (by rfl))⟩

theorem DoBatchLookup_form (g g2 : TInMemoryGraceJoin) (h : g.DoBatchLookup = Except.ok g2) :
    ∃ cur2 js, g2 = g.afterLookup cur2 js := by
  unfold TInMemoryGraceJoin.DoBatchLookup at h
  split at h
  · cases h
  · rename_i cur2 js _
    simp only [pure, Except.pure, Except.ok.injEq] at h
    exact ⟨cur2, js, h.symm⟩

theorem lookupStep_next (ctx : TComputationContext) (g g2 : TInMemoryGraceJoin)
    (h : g.Ready ctx) (hcb : g.CurrBucket < 2 ^ g.BucketsLogNum)
    (hstep : g.lookupStep ctx = Except.ok g2) :
    g2.emitBlock.2.FillOutput.2.nextBucket = g.CurrBucket + 1 := by
  have hpow : 2 ^ g.BucketsLogNum < UI32 := Nat.pow_lt_pow_right (by decide) h.logNum
  have hmod : (g.CurrBucket + 1) % UI32 = g.CurrBucket + 1 := Nat.mod_eq_of_lt (by omega)
  have hload : ∃ g1, g.loadBucket ctx = Except.ok g1 ∧ g1.NeedNextBucket = false ∧
      g1.CurrBucket = g.CurrBucket := by
    cases hneed : g.NeedNextBucket
    · exact ⟨g, by simp [TInMemoryGraceJoin.loadBucket, hneed, pure, Except.pure], hneed, rfl⟩
    · obtain ⟨g1, a, _, b, _, c, _⟩ := loadBucket_spec ctx g h hneed hcb
      exact ⟨g1, a, b, c⟩
  obtain ⟨g1, hl, hn1, hc1⟩ := hload
  unfold TInMemoryGraceJoin.lookupStep at hstep
  rw [hl] at hstep
  obtain ⟨cur2, js, hform⟩ := DoBatchLookup_form g1 g2 hstep
  obtain ⟨-, -, -, -, -, -, fdone, fmore⟩ := afterLookup_fields g1 cur2 js
  rw [← hform] at fdone fmore
  obtain ⟨-, -, -, -, e5, -, e7, -⟩ := emitBlock_fields g2
  unfold TInMemoryGraceJoin.nextBucket
  rw [e7, e5]
  by_cases hge : g1.JoinState.ProbePackedInput.NTuples ≤ cur2
  · obtain ⟨a, b, -⟩ := fdone hge
    rw [a, b, hc1, hmod]
    rfl
  · obtain ⟨a, b, -⟩ := fmore (by omega)
    rw [a, b, hn1, hc1]
    rfl

theorem probeCore_finished_at_end (ctx : TComputationContext) (fuel : Nat)
    (g : TInMemoryGraceJoin) (hge : 2 ^ g.BucketsLogNum ≤ g.CurrBucket) :
    TInMemoryGraceJoin.probeCore ctx (fuel + 1) g = Except.ok (TGraceProbeEnd.Finished g) ∧
    TInMemoryGraceJoin.probeLoads ctx (fuel + 1) g = [] := by
  constructor
  · unfold TInMemoryGraceJoin.probeCore
    rw [if_pos ((shiftRight_ne_zero_iff _ _).2 hge)]
    rfl
  · unfold TInMemoryGraceJoin.probeLoads
    rw [if_pos ((shiftRight_ne_zero_iff _ _).2 hge)]

theorem nextBucket_of_finished (ctx : TComputationContext) (g : TInMemoryGraceJoin)
    (h : g.Ready ctx) (hge : 2 ^ g.BucketsLogNum ≤ g.CurrBucket) :
    g.nextBucket = 2 ^ g.BucketsLogNum := by
  have hr := h.bucketRange
  cases hneed : g.NeedNextBucket
  · simp [TInMemoryGraceJoin.nextBucket, hneed] at hr
    omega
  · simp only [TInMemoryGraceJoin.nextBucket, hneed, if_true] at hr ⊢
    omega

theorem grace_probeLoads_spec (ctx : TComputationContext) :
    ∀ (k fuel : Nat) (g : TInMemoryGraceJoin), g.Ready ctx →
      2 ^ g.BucketsLogNum - g.CurrBucket ≤ k → k < fuel →
      (∃ g1, TInMemoryGraceJoin.probeCore ctx fuel g = Except.ok (TGraceProbeEnd.Finished g1) ∧
        g1.BucketsLogNum = g.BucketsLogNum ∧ 2 ^ g1.BucketsLogNum ≤ g1.CurrBucket ∧
        TInMemoryGraceJoin.probeLoads ctx fuel g =
          List.range' g.nextBucket (2 ^ g.BucketsLogNum - g.nextBucket)) ∨
      (∃ g2 n, TInMemoryGraceJoin.probeCore ctx fuel g = Except.ok (TGraceProbeEnd.Emits g2) ∧
        TInMemoryGraceJoin.probeLoads ctx fuel g = List.range' g.nextBucket n ∧
        g2.emitBlock.2.FillOutput.2.nextBucket = g.nextBucket + n) := by
  intro k
  induction k with
  | zero =>
    intro fuel g h hk hfuel
    obtain ⟨f, rfl⟩ : ∃ f, fuel = f + 1 := ⟨fuel - 1, by omega⟩
    have hge : 2 ^ g.BucketsLogNum ≤ g.CurrBucket := by omega
    obtain ⟨h1, h2⟩ := probeCore_finished_at_end ctx f g hge
    left
    refine ⟨g, h1, rfl, hge, ?_⟩
    rw [h2, nextBucket_of_finished ctx g h hge, Nat.sub_self]
    rfl
  | succ k ih =>
    intro fuel g h hk hfuel
    obtain ⟨f, rfl⟩ : ∃ f, fuel = f + 1 := ⟨fuel - 1, by omega⟩
    by_cases hge : 2 ^ g.BucketsLogNum ≤ g.CurrBucket
    · obtain ⟨h1, h2⟩ := probeCore_finished_at_end ctx f g hge
      left
      refine ⟨g, h1, rfl, hge, ?_⟩
      rw [h2, nextBucket_of_finished ctx g h hge, Nat.sub_self]
      rfl
    · have hcb : g.CurrBucket < 2 ^ g.BucketsLogNum := by omega
      obtain ⟨g2, E, hstep, -, h2, -, -, h5, h6, -⟩ := grace_lookupStep_spec ctx g h hcb
      have hnext3 := lookupStep_next ctx g g2 h hcb hstep
      have hblocks : g.JoinState.HasBlocks = false := by
        simp [TJoinState.HasBlocks, h.count]
      have hshift : ¬ g.CurrBucket >>> g.BucketsLogNum ≠ 0 :=
        fun hc => hge ((shiftRight_ne_zero_iff _ _).1 hc)
      have hcore : TInMemoryGraceJoin.probeCore ctx (f + 1) g =
          (if g2.JoinState.OutputRows = 0 then TInMemoryGraceJoin.probeCore ctx f g2
            else pure (TGraceProbeEnd.Emits g2)) := by
        rw [TInMemoryGraceJoin.probeCore, if_neg hshift, hblocks, hstep]
        rfl
      have hloads : TInMemoryGraceJoin.probeLoads ctx (f + 1) g =
          (if g.NeedNextBucket then [g.CurrBucket] else []) ++
            (if g2.JoinState.OutputRows = 0 then TInMemoryGraceJoin.probeLoads ctx f g2
              else []) := by
        rw [TInMemoryGraceJoin.probeLoads, if_neg hshift, hblocks, hstep]
        rfl
      rw [hcore, hloads]
      by_cases hE : E = []
      · obtain ⟨a, -, c, d⟩ := h6 hE
        have h0 : g2.JoinState.OutputRows = 0 := by rw [h2, hE]; rfl
        rw [if_pos h0, if_pos h0]
        have hnb2 : g2.nextBucket = g.CurrBucket + 1 := by
          simp [TInMemoryGraceJoin.nextBucket, d, c]
        have hrec := ih f g2 a (by rw [h5, c]; omega) (by omega)
        rw [hnb2, h5] at hrec
        cases hneed : g.NeedNextBucket
        · have hnb : g.nextBucket = g.CurrBucket + 1 := by
            simp [TInMemoryGraceJoin.nextBucket, hneed]
          rw [hnb]
          simp only [Bool.false_eq_true, if_false, List.nil_append]
          rcases hrec with ⟨g1, r1, r2, r3, r4⟩ | ⟨g4, n, r1, r2, r3⟩
          · exact Or.inl ⟨g1, r1, r2, r3, r4⟩
          · exact Or.inr ⟨g4, n, r1, r2, r3⟩
        · have hnb : g.nextBucket = g.CurrBucket := by
            simp [TInMemoryGraceJoin.nextBucket, hneed]
          rw [hnb]
          simp only [if_true]
          rcases hrec with ⟨g1, r1, r2, r3, r4⟩ | ⟨g4, n, r1, r2, r3⟩
          · refine Or.inl ⟨g1, r1, r2, r3, ?_⟩
            rw [r4]
            have : 2 ^ g.BucketsLogNum - g.CurrBucket =
                (2 ^ g.BucketsLogNum - (g.CurrBucket + 1)) + 1 := by omega
            rw [this, List.range'_succ]
            rfl
          · refine Or.inr ⟨g4, n + 1, r1, ?_, by rw [r3]; omega⟩
            rw [r2, List.range'_succ]
            rfl
      · have h0 : g2.JoinState.OutputRows ≠ 0 := by
          rw [h2]
          intro hc
          exact hE (List.length_eq_zero.1 hc)
        rw [if_neg h0, if_neg h0]
        right
        cases hneed : g.NeedNextBucket
        · have hnb : g.nextBucket = g.CurrBucket + 1 := by
            simp [TInMemoryGraceJoin.nextBucket, hneed]
          exact ⟨g2, 0, rfl, by simp, by rw [hnext3, hnb]⟩
        · have hnb : g.nextBucket = g.CurrBucket := by
            simp [TInMemoryGraceJoin.nextBucket, hneed]
          exact ⟨g2, 1, rfl, by simp [hnb], by rw [hnext3, hnb]⟩

theorem grace_runLoads_spec (ctx : TComputationContext) :
    ∀ (k : Nat) (g : TInMemoryGraceJoin), g.Ready ctx → (g.pending ctx).length ≤ k →
      ∃ loads last,
        (∀ fuel, k < fuel → TInMemoryGraceJoin.runLoads ctx fuel g = Except.ok (loads, last)) ∧
        loads = List.range' g.nextBucket (2 ^ g.BucketsLogNum - g.nextBucket) ∧
        last.BucketsLogNum = g.BucketsLogNum ∧ 2 ^ last.BucketsLogNum ≤ last.CurrBucket := by
  intro k
  induction k with
  | zero =>
    intro g h hk
    have hfuel : 2 ^ g.BucketsLogNum - g.CurrBucket < 2 ^ g.BucketsLogNum + 2 :=
      Nat.lt_of_le_of_lt (Nat.sub_le _ _) (by omega)
    have hp := grace_probeCore_spec ctx _ _ g h (Nat.le_refl _) hfuel
    have hl := grace_probeLoads_spec ctx _ _ g h (Nat.le_refl _) hfuel
    rcases hp with ⟨g1, hr1, hr2⟩ | ⟨g2, E, r1, r2, r3, r4, r5, r6, r7, r8, r9⟩
    · rcases hl with ⟨g1b, l1, l2, l3, l4⟩ | ⟨g2b, n, l1, l2, l3⟩
      · rw [hr1] at l1
        injection l1 with l1
        injection l1 with l1
        subst l1
        refine ⟨_, g1, ?_, l4, l2, l3⟩
        intro fuel hf
        obtain ⟨f, rfl⟩ : ∃ f, fuel = f + 1 := ⟨fuel - 1, by omega⟩
        unfold TInMemoryGraceJoin.runLoads
        rw [hr1]
        rfl
      · rw [hr1] at l1
        injection l1 with l1
        cases l1
    · exfalso
      rw [r9, List.length_append] at hk
      have : E.length ≠ 0 := fun hc => r2 (List.length_eq_zero.1 hc)
      omega
  | succ k ih =>
    intro g h hk
    have hfuel : 2 ^ g.BucketsLogNum - g.CurrBucket < 2 ^ g.BucketsLogNum + 2 :=
      Nat.lt_of_le_of_lt (Nat.sub_le _ _) (by omega)
    have hp := grace_probeCore_spec ctx _ _ g h (Nat.le_refl _) hfuel
    have hl := grace_probeLoads_spec ctx _ _ g h (Nat.le_refl _) hfuel
    rcases hp with ⟨g1, hr1, hr2⟩ | ⟨g2, E, r1, r2, r3, r4, r5, r6, r7, r8, r9⟩
    · rcases hl with ⟨g1b, l1, l2, l3, l4⟩ | ⟨g2b, n, l1, l2, l3⟩
      · rw [hr1] at l1
        injection l1 with l1
        injection l1 with l1
        subst l1
        refine ⟨_, g1, ?_, l4, l2, l3⟩
        intro fuel hf
        obtain ⟨f, rfl⟩ : ∃ f, fuel = f + 1 := ⟨fuel - 1, by omega⟩
        unfold TInMemoryGraceJoin.runLoads
        rw [hr1]
        rfl
      · rw [hr1] at l1
        injection l1 with l1
        cases l1
    · rcases hl with ⟨g1b, l1, l2, l3, l4⟩ | ⟨g2b, n, l1, l2, l3⟩
      · rw [r1] at l1
        injection l1 with l1
        cases l1
      · rw [r1] at l1
        injection l1 with l1
        injection l1 with l1
        subst l1
        have hlen : E.length ≠ 0 := fun hc => r2 (List.length_eq_zero.1 hc)
        have hk2 : (g2.emitBlock.2.FillOutput.2.pending ctx).length ≤ k := by
          rw [r9, List.length_append] at hk
          omega
        obtain ⟨loads3, last, b1, b2, b3, b4⟩ := ih g2.emitBlock.2.FillOutput.2 r8 hk2
        have hlog3 : g2.emitBlock.2.FillOutput.2.BucketsLogNum = g.BucketsLogNum := by
          rw [(emitBlock_fields g2).1, r7]
        have hrange3 := r8.bucketRange
        rw [l3, hlog3] at hrange3
        refine ⟨TInMemoryGraceJoin.probeLoads ctx (2 ^ g.BucketsLogNum + 2) g ++ loads3, last,
          ?_, ?_, b3.trans hlog3, b4⟩
        · intro fuel hf
          obtain ⟨f, rfl⟩ : ∃ f, fuel = f + 1 := ⟨fuel - 1, by omega⟩
          unfold TInMemoryGraceJoin.runLoads
          rw [r1]
          simp only
          rw [b1 f (by omega)]
          rfl
        · rw [l2, b2, l3, hlog3]
          have h1 : 2 ^ g.BucketsLogNum - g.nextBucket =
              (2 ^ g.BucketsLogNum - (g.nextBucket + n)) + n := by omega
          have h2 := List.range'_append g.nextBucket n
            (2 ^ g.BucketsLogNum - (g.nextBucket + n)) 1
          rw [Nat.one_mul] at h2
          rw [h1, h2]

/-- C18. Bucket traversal.  Over the `DoProbe` calls of an in-memory grace join
from its constructed state up to the first `Finish`, `BuildIndex` is invoked for
the bucket indices `0, 1, …, 2 ^ BucketsLogNum_ - 1` in this order, each once
(so always with `CurrBucket_` inside the bucket arrays, and no call fails), and
on the join that the first `Finish` leaves every further `DoProbe` returns
`Finish` and changes nothing. -/
theorem TInMemoryGraceJoin.buckets_visited_in_order (ctx : TComputationContext)
    (g : TInMemoryGraceJoin) (hready : g.Ready ctx) (hneed : g.NeedNextBucket = true)
    (hfirst : g.CurrBucket = 0) :
    ∃ last,
      (∀ fuel, (g.pending ctx).length < fuel →
        TInMemoryGraceJoin.runLoads ctx fuel g =
          Except.ok (List.range (2 ^ g.BucketsLogNum), last)) ∧
      (∀ b ∈ List.range (2 ^ g.BucketsLogNum),
        b < g.LeftBuckets.length ∧ b < g.RightBuckets.length) ∧
      ∀ fuel, TInMemoryGraceJoin.DoProbe ctx (fuel + 1) last =
        Except.ok (EFetchStatus.Finish, last) := by
  obtain ⟨loads, last, h1, h2, h3, h4⟩ :=
    grace_runLoads_spec ctx (g.pending ctx).length g hready (Nat.le_refl _)
  have hnb : g.nextBucket = 0 := by simp [TInMemoryGraceJoin.nextBucket, hneed, hfirst]
  rw [hnb, Nat.sub_zero, ← List.range_eq_range'] at h2
  subst h2
  refine ⟨last, h1, ?_, ?_⟩
  · intro b hb
    rw [hready.leftLength, hready.rightLength]
    exact ⟨List.mem_range.1 hb, List.mem_range.1 hb⟩
  · intro fuel
    unfold TInMemoryGraceJoin.DoProbe
    rw [(probeCore_finished_at_end ctx fuel last h4).1]
    rfl

/-- C18 at `sampleGraceJoin`: two bucket pairs, loaded in the order 0, 1. -/
theorem TInMemoryGraceJoin.buckets_visited_in_order_witness :
    sampleGraceJoin.Ready sampleContext ∧ sampleGraceJoin.NeedNextBucket = true ∧
    sampleGraceJoin.CurrBucket = 0 ∧
    ∃ last,
      (∀ fuel, (sampleGraceJoin.pending sampleContext).length < fuel →
        TInMemoryGraceJoin.runLoads sampleContext fuel sampleGraceJoin =
          Except.ok (List.range (2 ^ sampleGraceJoin.BucketsLogNum), last)) ∧
      (∀ b ∈ List.range (2 ^ sampleGraceJoin.BucketsLogNum),
        b < sampleGraceJoin.LeftBuckets.length ∧ b < sampleGraceJoin.RightBuckets.length) ∧
      ∀ fuel, TInMemoryGraceJoin.DoProbe sampleContext (fuel + 1) last =
        Except.ok (EFetchStatus.Finish, last) :=
  ⟨sampleGraceJoin_ready, rfl, rfl,
    TInMemoryGraceJoin.buckets_visited_in_order sampleContext sampleGraceJoin
      sampleGraceJoin_ready rfl rfl⟩


/-! ## Roles of an indirected layout -/

/-- C21. Indirected layout roles, failing input.  With the payload indirected
the converter is built over the key column types followed by the `ui64` index
type, but `roles[keyCol] = Key` uses the key column's index in the whole input.
For two data columns joined on column 1 the item types are (type of column 1,
`ui64`) and the roles come out as `[Payload, Key]`: the key column is marked
payload and the index column is marked key.  For three data columns joined on
column 2 the role vector has two entries and the assignment at index 2 is
outside it, in the hash join constructor and in the grace join constructor. -/
theorem indirected_roles_indexed_by_source_column :
    splitItemTypes true [11, 22, 0] [1] = ([22, Ui64Type], [11]) ∧
    makeRoles (splitItemTypes true [11, 22, 0] [1]).1.length [1] =
      some [EColumnRole.Payload, EColumnRole.Key] ∧
    splitItemTypes true [11, 22, 33, 0] [2] = ([33, Ui64Type], [11, 22]) ∧
    makeRoles (splitItemTypes true [11, 22, 33, 0] [2]).1.length [2] = none ∧
    keyLastHashJoin = Except.error (TFailure.Undefined "buildRoles[keyCol]") ∧
    keyLastGraceJoin = Except.error (TFailure.Undefined "leftRoles[keyCol]") :=
  ⟨rfl, rfl, rfl, rfl, rfl, rfl⟩

/-! ## The build side of a bucket -/

/-- C23. Per-bucket build choice.  For the bucket pair `l`, `r` at `CurrBucket_`,
`BuildIndex` succeeds and the swap flag is false exactly when the left bucket has
strictly fewer tuples than the right one: then the join state is
`SetSwapped(false)` with the left bucket as build and the right bucket as probe
input and the table is built with the left converter's layout; otherwise the
join state is `SetSwapped(true)` with the right bucket as build and the left
bucket as probe input and the table is built with the right converter's layout.
In both cases the build input has no more tuples than the probe input, and the
table is the one built over the build input with the layout `DoBatchLookup`
takes for the build side. -/
theorem TInMemoryGraceJoin.BuildIndex_build_choice (ctx : TComputationContext)
    (g : TInMemoryGraceJoin) (l r : PackResult)
    (hl : g.LeftBuckets[g.CurrBucket]? = some l)
    (hr : g.RightBuckets[g.CurrBucket]? = some r) :
    ∃ g1, TInMemoryGraceJoin.BuildIndex ctx g = Except.ok g1 ∧
      (g1.JoinState.GetSwapped = false ↔ l.NTuples < r.NTuples) ∧
      (l.NTuples < r.NTuples →
        g1.JoinState = { g.JoinState.SetSwapped false with
          BuildPackedInput := l, ProbePackedInput := r } ∧
        g1.Table = ctx.BuildTable g.Objects.BuildConverter.Layout l) ∧
      (¬ l.NTuples < r.NTuples →
        g1.JoinState = { g.JoinState.SetSwapped true with
          BuildPackedInput := r, ProbePackedInput := l } ∧
        g1.Table = ctx.BuildTable g.Objects.ProbeConverter.Layout r) ∧
      g1.JoinState.BuildPackedInput.NTuples ≤ g1.JoinState.ProbePackedInput.NTuples ∧
      g1.Table = ctx.BuildTable g1.buildLayout g1.JoinState.BuildPackedInput := by
  have hsw : ∀ (js : TJoinState) (w : Bool), (js.SetSwapped w).WasSwapped = w := by
    intro js w
    unfold TJoinState.SetSwapped
    split
    · rfl
    · rename_i h
      have h2 : w = js.WasSwapped := by simpa using h
      exact h2.symm
  by_cases h : l.NTuples < r.NTuples
  · refine ⟨_, by simp only [TInMemoryGraceJoin.BuildIndex, hl, hr, if_pos h]; rfl, ?_⟩
    simp [TJoinState.GetSwapped, TInMemoryGraceJoin.buildLayout, hsw, h, Nat.le_of_lt h]
  · refine ⟨_, by simp only [TInMemoryGraceJoin.BuildIndex, hl, hr, if_neg h]; rfl, ?_⟩
    simp [TJoinState.GetSwapped, TInMemoryGraceJoin.buildLayout, hsw, h, Nat.le_of_not_lt h]

theorem TInMemoryGraceJoin.BuildIndex_build_choice_witness :
    ∃ g1, TInMemoryGraceJoin.BuildIndex sampleContext sampleGraceJoin = Except.ok g1 ∧
      g1.JoinState.GetSwapped = true ∧
      g1.JoinState.BuildPackedInput = packedKeys [2] ∧
      g1.JoinState.ProbePackedInput = packedKeys [2, 2] := by
  obtain ⟨g1, h1, h2, -, h4, -, -⟩ :=
    TInMemoryGraceJoin.BuildIndex_build_choice sampleContext sampleGraceJoin
      (packedKeys [2, 2]) (packedKeys [2]) rfl rfl
  have hn : ¬ (packedKeys [2, 2]).NTuples < (packedKeys [2]).NTuples := by decide
  refine ⟨g1, h1, ?_, ?_, ?_⟩
  · cases hs : g1.JoinState.GetSwapped
    · exact absurd (h2.1 hs) hn
    · rfl
  · rw [(h4 hn).1]
  · rw [(h4 hn).1]

/-! ## Batched and one-at-a-time lookup -/

theorem naiveLookup_eq (table : TTable) (bl pl : TTupleLayout) (js : TJoinState) :
    naiveLookup table bl pl js =
      emitPairs bl.TotalRowSize pl.TotalRowSize
        (foundPairs table pl.TotalRowSize js.ProbePackedInput js.ProbePackedInput.rows) js := by
  have h := drainBatch_eq bl.TotalRowSize pl.TotalRowSize
    ((List.range js.ProbePackedInput.NTuples).map fun inTuple =>
      (table.Find (tupleAt js.ProbePackedInput.PackedTuples pl.TotalRowSize inTuple)
        js.ProbePackedInput.Overflow, inTuple)) js
  simp only [drainBatch, List.foldl_map, List.flatMap_map] at h
  exact h

/-- C25. The batched lookup equals the one-tuple-at-a-time lookup.  For every
table, every pair of layouts and every join state (any number of packed probe
tuples), `THashJoin::DoBatchLookup` leaves the same join state as the loop that
takes the probe tuples in input order, calls `Find` for each and appends one
pair per `NextMatch` result in the order returned: the same packed outputs and
the same `OutputRows`.  Both append the pairs `foundPairs` lists, in that order. -/
theorem THashJoin.DoBatchLookup_eq_naiveLookup (table : TTable) (bl pl : TTupleLayout)
    (js : TJoinState) :
    THashJoin.DoBatchLookup table bl pl js = naiveLookup table bl pl js ∧
    naiveLookup table bl pl js =
      emitPairs bl.TotalRowSize pl.TotalRowSize
        (foundPairs table pl.TotalRowSize js.ProbePackedInput
          (List.range js.ProbePackedInput.NTuples)) js :=
  ⟨(DoBatchLookup_eq table bl pl js).trans (naiveLookup_eq table bl pl js).symm,
    naiveLookup_eq table bl pl js⟩


/-! ## Termination of the grace probe -/

/-- C28. `TInMemoryGraceJoin::DoProbe` terminates.  In a ready state
(well-formed bucket arrays within the `ui32` ranges, no held block,
`1 ≤ MaxLength_ < 2 ^ 30`): a lookup pass that leaves `OutputRows == 0`, the
only case in which `DoProbe` calls itself, has incremented `CurrBucket_` and
left a ready state; and with room for `2 ^ BucketsLogNum_ - CurrBucket_ + 1`
nested activations, in particular for `2 ^ BucketsLogNum_ + 1`, the call
returns `Ok` or `Finish`. -/
theorem TInMemoryGraceJoin.DoProbe_terminates (ctx : TComputationContext)
    (g : TInMemoryGraceJoin) (h : g.Ready ctx) :
    (∀ g2, g.CurrBucket < 2 ^ g.BucketsLogNum → g.lookupStep ctx = Except.ok g2 →
      g2.JoinState.OutputRows = 0 → g2.CurrBucket = g.CurrBucket + 1 ∧ g2.Ready ctx) ∧
    (∀ fuel, 2 ^ g.BucketsLogNum - g.CurrBucket < fuel →
      ∃ status g1, TInMemoryGraceJoin.DoProbe ctx fuel g = Except.ok (status, g1) ∧
        (status = EFetchStatus.Ok ∨ status = EFetchStatus.Finish)) ∧
    ∃ status g1,
      TInMemoryGraceJoin.DoProbe ctx (2 ^ g.BucketsLogNum + 1) g = Except.ok (status, g1) ∧
        (status = EFetchStatus.Ok ∨ status = EFetchStatus.Finish) := by
  have hterm : ∀ fuel, 2 ^ g.BucketsLogNum - g.CurrBucket < fuel →
      ∃ status g1, TInMemoryGraceJoin.DoProbe ctx fuel g = Except.ok (status, g1) ∧
        (status = EFetchStatus.Ok ∨ status = EFetchStatus.Finish) := by
    intro fuel hfuel
    rcases grace_probeCore_spec ctx _ fuel g h (Nat.le_refl _) hfuel with
      ⟨g1, hr, -⟩ | ⟨g2, E, hr, -⟩
    · exact ⟨EFetchStatus.Finish, g1, by unfold TInMemoryGraceJoin.DoProbe; rw [hr]; rfl,
        Or.inr rfl⟩
    · refine ⟨g2.emitBlock.1, g2.emitBlock.2,
        by unfold TInMemoryGraceJoin.DoProbe; rw [hr]; rfl, Or.inl ?_⟩
      unfold TInMemoryGraceJoin.emitBlock
      split <;> rfl
  refine ⟨?_, hterm, hterm _ (Nat.lt_of_le_of_lt (Nat.sub_le _ _) (Nat.lt_succ_self _))⟩
  intro g2 hcb hstep h0
  obtain ⟨g3, E, hstep3, -, hrows, -, -, -, hnil, -⟩ := grace_lookupStep_spec ctx g h hcb
  rw [hstep] at hstep3
  cases hstep3
  have hE : E = [] := List.length_eq_zero.1 (by rw [← hrows]; exact h0)
  obtain ⟨a, -, c, -⟩ := hnil hE
  exact ⟨c, a⟩

theorem TInMemoryGraceJoin.DoProbe_terminates_witness :
    ∃ status g1,
      TInMemoryGraceJoin.DoProbe sampleContext (2 ^ sampleGraceJoin.BucketsLogNum + 1)
        sampleGraceJoin = Except.ok (status, g1) ∧
      (status = EFetchStatus.Ok ∨ status = EFetchStatus.Finish) :=
  (TInMemoryGraceJoin.DoProbe_terminates sampleContext sampleGraceJoin sampleGraceJoin_ready).2.2


/-! ## A finished side stays within the limit -/

theorem fetchLeft_finishedBelowLimit (ctx : TComputationContext) (ts ts1 : TTempJoinStorage)
    (status : EFetchStatus) (h : ts.fetchLeft ctx = Except.ok (status, ts1))
    (hinv : ts.FinishedBelowLimit) : ts1.FinishedBelowLimit := by
  unfold TTempJoinStorage.fetchLeft at h
  by_cases hp : (!ts.LeftIsFinished &&
      decide (ts.LeftEstimatedSize < ts.Policy.GetMaximumInitiallyFetchedData)) = true
  · rw [if_pos hp] at h
    have hp2 : ts.LeftIsFinished = false ∧
        ts.LeftEstimatedSize < ts.Policy.GetMaximumInitiallyFetchedData := by simpa using hp
    split at h
    · split at h
      · cases h
      · simp only [pure, Except.pure, Except.ok.injEq, Prod.mk.injEq] at h
        obtain ⟨-, h2⟩ := h
        subst h2
        refine ⟨fun hc => ?_, hinv.2⟩
        rw [hp2.1] at hc
        cases hc
    · simp only [pure, Except.pure, Except.ok.injEq, Prod.mk.injEq] at h
      obtain ⟨-, h2⟩ := h
      subst h2
      exact ⟨fun _ => hp2.2, hinv.2⟩
    · simp only [pure, Except.pure, Except.ok.injEq, Prod.mk.injEq] at h
      obtain ⟨-, h2⟩ := h
      subst h2
      exact hinv
  · rw [if_neg hp] at h
    simp only [pure, Except.pure, Except.ok.injEq, Prod.mk.injEq] at h
    obtain ⟨-, h2⟩ := h
    subst h2
    exact hinv

theorem fetchRight_finishedBelowLimit (ctx : TComputationContext) (ts ts1 : TTempJoinStorage)
    (status : EFetchStatus) (h : ts.fetchRight ctx = Except.ok (status, ts1))
    (hinv : ts.FinishedBelowLimit) : ts1.FinishedBelowLimit := by
  unfold TTempJoinStorage.fetchRight at h
  by_cases hp : (!ts.RightIsFinished &&
      decide (ts.RightEstimatedSize < ts.Policy.GetMaximumInitiallyFetchedData)) = true
  · rw [if_pos hp] at h
    have hp2 : ts.RightIsFinished = false ∧
        ts.RightEstimatedSize < ts.Policy.GetMaximumInitiallyFetchedData := by simpa using hp
    split at h
    · split at h
      · cases h
      · simp only [pure, Except.pure, Except.ok.injEq, Prod.mk.injEq] at h
        obtain ⟨-, h2⟩ := h
        subst h2
        refine ⟨hinv.1, fun hc => ?_⟩
        rw [hp2.1] at hc
        cases hc
    · simp only [pure, Except.pure, Except.ok.injEq, Prod.mk.injEq] at h
      obtain ⟨-, h2⟩ := h
      subst h2
      exact ⟨hinv.1, fun _ => hp2.2⟩
    · simp only [pure, Except.pure, Except.ok.injEq, Prod.mk.injEq] at h
      obtain ⟨-, h2⟩ := h
      subst h2
      exact hinv
  · rw [if_neg hp] at h
    simp only [pure, Except.pure, Except.ok.injEq, Prod.mk.injEq] at h
    obtain ⟨-, h2⟩ := h
    subst h2
    exact hinv

theorem fetchLeft_policy (ctx : TComputationContext) (ts ts1 : TTempJoinStorage)
    (status : EFetchStatus) (h : ts.fetchLeft ctx = Except.ok (status, ts1)) :
    ts1.Policy = ts.Policy := by
  unfold TTempJoinStorage.fetchLeft at h
  split at h
  · split at h
    · split at h
      · cases h
      · simp only [pure, Except.pure, Except.ok.injEq, Prod.mk.injEq] at h
        rw [← h.2]
    · simp only [pure, Except.pure, Except.ok.injEq, Prod.mk.injEq] at h
      rw [← h.2]
    · simp only [pure, Except.pure, Except.ok.injEq, Prod.mk.injEq] at h
      rw [← h.2]
  · simp only [pure, Except.pure, Except.ok.injEq, Prod.mk.injEq] at h
    rw [← h.2]

theorem fetchRight_policy (ctx : TComputationContext) (ts ts1 : TTempJoinStorage)
    (status : EFetchStatus) (h : ts.fetchRight ctx = Except.ok (status, ts1)) :
    ts1.Policy = ts.Policy := by
  unfold TTempJoinStorage.fetchRight at h
  split at h
  · split at h
    · split at h
      · cases h
      · simp only [pure, Except.pure, Except.ok.injEq, Prod.mk.injEq] at h
        rw [← h.2]
    · simp only [pure, Except.pure, Except.ok.injEq, Prod.mk.injEq] at h
      rw [← h.2]
    · simp only [pure, Except.pure, Except.ok.injEq, Prod.mk.injEq] at h
      rw [← h.2]
  · simp only [pure, Except.pure, Except.ok.injEq, Prod.mk.injEq] at h
    rw [← h.2]

theorem fetchTimes_finishedBelowLimit (ctx : TComputationContext) :
    ∀ (n : Nat) (ts0 ts : TTempJoinStorage), ts0.FinishedBelowLimit →
      TTempJoinStorage.fetchTimes ctx n ts0 = Except.ok ts →
      ts.FinishedBelowLimit ∧ ts.Policy = ts0.Policy := by
  intro n
  induction n with
  | zero =>
    intro ts0 ts hinv h
    have he : ts0 = ts := by
      simpa [TTempJoinStorage.fetchTimes, pure, Except.pure] using h
    subst he
    exact ⟨hinv, rfl⟩
  | succ n ih =>
    intro ts0 ts hinv h
    unfold TTempJoinStorage.fetchTimes at h
    split at h
    · cases h
    · rename_i status ts1 hfetch
      obtain ⟨rl, tsl, rr, hleft, hright, -⟩ := FetchStreams_halves ctx ts0 ts1 status hfetch
      have h1 := fetchRight_finishedBelowLimit ctx tsl ts1 rr hright
        (fetchLeft_finishedBelowLimit ctx ts0 tsl rl hleft hinv)
      obtain ⟨a, b⟩ := ih ts1 ts h1 h
      exact ⟨a, by rw [b, fetchRight_policy ctx tsl ts1 rr hright,
        fetchLeft_policy ctx ts0 tsl rl hleft]⟩

theorem construct_fresh (ctx : TComputationContext)
    (leftItemTypesArg : List TType) (leftKeyColumns : List Nat) (leftStream : TStream)
    (rightItemTypesArg : List TType) (rightKeyColumns : List Nat) (rightStream : TStream)
    (policy : IBlockGraceJoinPolicy) (ts0 : TTempJoinStorage)
    (h : TTempJoinStorage.construct ctx leftItemTypesArg leftKeyColumns leftStream
      rightItemTypesArg rightKeyColumns rightStream policy = Except.ok ts0) :
    ts0.LeftIsFinished = false ∧ ts0.RightIsFinished = false ∧ ts0.Policy = policy ∧
    ts0.LeftEstimatedSize = 0 ∧ ts0.RightEstimatedSize = 0 := by
  unfold TTempJoinStorage.construct at h
  simp only [bind, Except.bind, pure, Except.pure] at h
  split at h
  · split at h
    · injection h with h
      subst h
      exact ⟨rfl, rfl, rfl, rfl, rfl⟩
    · cases h
  · cases h

/-- C22. Bootstrap never over-reads a finished relation.  In every state `ts`
reached from a freshly constructed `TTempJoinStorage` by any number of
`FetchStreams` calls under the policy's limit, a side marked finished has an
estimated size below (so not exceeding) the limit.  Hence when `GetStatus`
returns `BothStreamsFinished` neither side exceeds the limit, and the conditions
of the three statuses other than `Unknown` exclude each other pairwise, so that
each of them is returned exactly when its own condition holds. -/
theorem TTempJoinStorage.finished_side_within_limit (ctx : TComputationContext)
    (leftItemTypesArg : List TType) (leftKeyColumns : List Nat) (leftStream : TStream)
    (rightItemTypesArg : List TType) (rightKeyColumns : List Nat) (rightStream : TStream)
    (policy : IBlockGraceJoinPolicy) (ts0 ts : TTempJoinStorage) (n : Nat)
    (h0 : TTempJoinStorage.construct ctx leftItemTypesArg leftKeyColumns leftStream
      rightItemTypesArg rightKeyColumns rightStream policy = Except.ok ts0)
    (hn : TTempJoinStorage.fetchTimes ctx n ts0 = Except.ok ts) :
    (ts.LeftIsFinished = true →
      ts.LeftEstimatedSize ≤ policy.GetMaximumInitiallyFetchedData) ∧
    (ts.RightIsFinished = true →
      ts.RightEstimatedSize ≤ policy.GetMaximumInitiallyFetchedData) ∧
    (ts.GetStatus = EStatus.BothStreamsFinished →
      ts.LeftEstimatedSize ≤ policy.GetMaximumInitiallyFetchedData ∧
      ts.RightEstimatedSize ≤ policy.GetMaximumInitiallyFetchedData) ∧
    (ts.GetStatus = EStatus.BothStreamsFinished ↔
      ts.LeftIsFinished = true ∧ ts.RightIsFinished = true) ∧
    (ts.GetStatus = EStatus.OneStreamFinished ↔
      (ts.LeftIsFinished = true ∧
        ts.RightEstimatedSize > policy.GetMaximumInitiallyFetchedData) ∨
      (ts.LeftEstimatedSize > policy.GetMaximumInitiallyFetchedData ∧
        ts.RightIsFinished = true)) ∧
    (ts.GetStatus = EStatus.MemoryLimitExceeded ↔
      ts.LeftEstimatedSize > policy.GetMaximumInitiallyFetchedData ∧
      ts.RightEstimatedSize > policy.GetMaximumInitiallyFetchedData) ∧
    ¬ ((ts.LeftIsFinished = true ∧ ts.RightIsFinished = true) ∧
      ((ts.LeftIsFinished = true ∧
          ts.RightEstimatedSize > policy.GetMaximumInitiallyFetchedData) ∨
        (ts.LeftEstimatedSize > policy.GetMaximumInitiallyFetchedData ∧
          ts.RightIsFinished = true))) ∧
    ¬ ((ts.LeftIsFinished = true ∧ ts.RightIsFinished = true) ∧
      (ts.LeftEstimatedSize > policy.GetMaximumInitiallyFetchedData ∧
        ts.RightEstimatedSize > policy.GetMaximumInitiallyFetchedData)) ∧
    ¬ (((ts.LeftIsFinished = true ∧
          ts.RightEstimatedSize > policy.GetMaximumInitiallyFetchedData) ∨
        (ts.LeftEstimatedSize > policy.GetMaximumInitiallyFetchedData ∧
          ts.RightIsFinished = true)) ∧
      (ts.LeftEstimatedSize > policy.GetMaximumInitiallyFetchedData ∧
        ts.RightEstimatedSize > policy.GetMaximumInitiallyFetchedData)) := by
  obtain ⟨f1, f2, f3, -, -⟩ := construct_fresh ctx _ _ _ _ _ _ _ ts0 h0
  have hinv0 : ts0.FinishedBelowLimit :=
    ⟨fun hc => absurd (f1.symm.trans hc) (by decide),
      fun hc => absurd (f2.symm.trans hc) (by decide)⟩
  obtain ⟨⟨hl, hr⟩, hpol⟩ := fetchTimes_finishedBelowLimit ctx n ts0 ts hinv0 hn
  rw [hpol, f3] at hl hr
  have hstatus : ts.GetStatus =
      (if ts.LeftIsFinished && ts.RightIsFinished then EStatus.BothStreamsFinished
      else if (ts.LeftIsFinished &&
          decide (ts.RightEstimatedSize > policy.GetMaximumInitiallyFetchedData)) ||
          (decide (ts.LeftEstimatedSize > policy.GetMaximumInitiallyFetchedData) &&
            ts.RightIsFinished) then EStatus.OneStreamFinished
      else if decide (ts.LeftEstimatedSize > policy.GetMaximumInitiallyFetchedData) &&
          decide (ts.RightEstimatedSize > policy.GetMaximumInitiallyFetchedData) then
        EStatus.MemoryLimitExceeded
      else EStatus.Unknown) := by
    unfold TTempJoinStorage.GetStatus
    rw [hpol, f3]
  rw [hstatus]
  have hl2 : ts.LeftIsFinished = true →
      ¬ ts.LeftEstimatedSize > policy.GetMaximumInitiallyFetchedData :=
    fun hc => Nat.not_lt.2 (Nat.le_of_lt (hl hc))
  have hr2 : ts.RightIsFinished = true →
      ¬ ts.RightEstimatedSize > policy.GetMaximumInitiallyFetchedData :=
    fun hc => Nat.not_lt.2 (Nat.le_of_lt (hr hc))
  by_cases hL : ts.LeftIsFinished = true <;> by_cases hR : ts.RightIsFinished = true <;>
    by_cases hls : ts.LeftEstimatedSize > policy.GetMaximumInitiallyFetchedData <;>
    by_cases hrs : ts.RightEstimatedSize > policy.GetMaximumInitiallyFetchedData
  all_goals first
    | exact absurd hls (hl2 hL)
    | exact absurd hrs (hr2 hR)
    | (simp [hL, hR, hls, hrs]; done)
    | (simp [hL, hR, hls, hrs]; omega)

/-- C22 on an empty left stream and a right stream of one two-byte row under a
limit of 100 bytes: after two `FetchStreams` calls both sides are finished, with
0 and 2 bytes. -/
theorem TTempJoinStorage.finished_side_within_limit_witness :
    ∃ ts0 ts,
      TTempJoinStorage.construct sampleContext [1, 1, 0] [0] []
        [1, 1, 0] [0] [TFetched.Ok { Size := 1, Columns := [[5], [6]] }]
        (hashJoinPolicy 100) = Except.ok ts0 ∧
      TTempJoinStorage.fetchTimes sampleContext 2 ts0 = Except.ok ts ∧
      ts.GetStatus = EStatus.BothStreamsFinished ∧
      ts.RightEstimatedSize = 2 ∧
      (ts.GetStatus = EStatus.BothStreamsFinished →
        ts.LeftEstimatedSize ≤ 100 ∧ ts.RightEstimatedSize ≤ 100) :=
  ⟨_, _, rfl, rfl, rfl, rfl,
    (by
      exact (TTempJoinStorage.finished_side_within_limit sampleContext [1, 1, 0] [0] []
        [1, 1, 0] [0] [TFetched.Ok { Size := 1, Columns := [[5], [6]] }]
        (hashJoinPolicy 100) _ _ 2 (by rfl) (by rfl)).2.2.1)⟩


/-! ## Progress of the bootstrap loop -/

theorem bootstrapLoop_fixed (ctx : TComputationContext) (ts : TTempJoinStorage)
    (h1 : ts.FetchStreams ctx = Except.ok (EFetchStatus.Finish, ts))
    (h2 : ts.GetStatus = EStatus.Unknown) (fuel : Nat) :
    TStreamValue.bootstrapLoop ctx fuel ts = Except.error TFailure.OutOfFuel := by
  induction fuel with
  | zero => rfl
  | succ fuel ih =>
    simp only [TStreamValue.bootstrapLoop, h1, h2]
    simpa using ih

theorem bootstrapLoop_step (ctx : TComputationContext) (ts ts1 : TTempJoinStorage)
    (h1 : ts.FetchStreams ctx = Except.ok (EFetchStatus.Finish, ts1))
    (h2 : ts1.GetStatus = EStatus.Unknown) (fuel : Nat) :
    TStreamValue.bootstrapLoop ctx (fuel + 1) ts = TStreamValue.bootstrapLoop ctx fuel ts1 := by
  simp only [TStreamValue.bootstrapLoop, h1, h2]
  simp

/-- C27. Bootstrap progress, failing input.  Two finite streams that never
yield, each delivering one row of two bytes, under a fetch limit of two bytes.
After the first `FetchStreams` neither side is finished and both estimated sizes
equal the limit: `FetchStreams` pulls from neither side and returns the storage
unchanged, `GetStatus` is `Unknown`, and the bootstrap loop does not end within
any number of iterations. -/
theorem bootstrap_stalls_at_limit :
    ∃ ts0 ts,
      TTempJoinStorage.construct sampleContext
        [1, 1, 0] [0] [TFetched.Ok { Size := 1, Columns := [[5], [6]] }]
        [1, 1, 0] [0] [TFetched.Ok { Size := 1, Columns := [[5], [7]] }]
        (hashJoinPolicy 2) = Except.ok ts0 ∧
      TTempJoinStorage.fetchTimes sampleContext 1 ts0 = Except.ok ts ∧
      ts.LeftIsFinished = false ∧ ts.RightIsFinished = false ∧
      ts.LeftEstimatedSize = 2 ∧ ts.RightEstimatedSize = 2 ∧
      ts.Policy.GetMaximumInitiallyFetchedData = 2 ∧
      ts.FetchStreams sampleContext = Except.ok (EFetchStatus.Finish, ts) ∧
      ts.GetStatus = EStatus.Unknown ∧
      ∀ fuel, TStreamValue.bootstrapLoop sampleContext fuel ts0 =
        Except.error TFailure.OutOfFuel := by
  refine ⟨_, _, rfl, rfl, rfl, rfl, rfl, rfl, rfl, rfl, rfl, ?_⟩
  intro fuel
  cases fuel with
  | zero => rfl
  | succ fuel =>
    rw [bootstrapLoop_step sampleContext _ _ (by rfl) (by rfl)]
    exact bootstrapLoop_fixed sampleContext _ (by rfl) (by rfl) fuel


/-! ## The assertion after the probe loop -/

/-- C26. The `Y_ENSURE` of `THashJoin::DoProbe`, failing input.  The join holds
the bootstrap blocks (1, 2) and (3, 4) and its probe stream, not finished, still
delivers the block (7).  The first iteration fetches with status `Ok`, packs
block (1, 2) and finds no match; the probe overflow stands at 20 of 25 reserved
bytes, so `HasEnoughMemory()` ends the loop with `OutputRows == 0` and the last
status `Ok`, and `Y_ENSURE(status == Finish)` throws. -/
theorem THashJoin.DoProbe_ensure_fails_after_ok :
    ∃ hj hj1, openStreamJoin = Except.ok hj ∧
      hj.IsFinished = false ∧ hj.JoinState.HasBlocks = false ∧
      hj.ProbeData = [{ Size := 2, Columns := [[1, 2]] }, { Size := 2, Columns := [[3, 4]] }] ∧
      hj.ProbeStream = [TFetched.Ok { Size := 1, Columns := [[7]] }] ∧
      hj.JoinState.ProbePackedInput.OverflowCapacity = 25 ∧
      THashJoin.probeLoop (hj.ProbeStream.length + hj.ProbeData.length + 2)
        EFetchStatus.Finish hj = Except.ok (TProbeLoopEnd.Left EFetchStatus.Ok hj1) ∧
      hj1.JoinState.OutputRows = 0 ∧ hj1.JoinState.IsNotFull = true ∧
      hj1.JoinState.HasEnoughMemory = false ∧
      hj1.JoinState.ProbePackedInput.Overflow.length = 20 ∧
      hj.DoProbe =
        Except.error (TFailure.Exception "status == NUdf::EFetchStatus::Finish") :=
  ⟨_, _, rfl, rfl, rfl, rfl, rfl, rfl, rfl, rfl, rfl, rfl, rfl, rfl⟩


/-! ## The probe queue at `PackNextProbeBlock` -/

theorem fetchProbe_block (status : EFetchStatus) (hj : THashJoin)
    (hs : hj.IsFinished = true → status = EFetchStatus.Finish) :
    ((hj.fetchProbe status).1 = EFetchStatus.Ok →
      ∃ block, (hj.fetchProbe status).2.1 = some block) ∧
    ((hj.fetchProbe status).1 ≠ EFetchStatus.Ok → (hj.fetchProbe status).2.1 = none) ∧
    ((hj.fetchProbe status).2.2.IsFinished = true →
      (hj.fetchProbe status).1 = EFetchStatus.Finish) := by
  unfold THashJoin.fetchProbe
  split
  · rename_i hfin
    have h := hs hfin
    subst h
    exact ⟨fun hc => (by cases hc), fun _ => rfl, fun _ => rfl⟩
  · rename_i hfin
    split
    · exact ⟨fun _ => ⟨_, rfl⟩, fun hc => absurd rfl hc, fun hc => absurd hc hfin⟩
    · exact ⟨fun hc => (by cases hc), fun _ => rfl, fun hc => absurd hc hfin⟩
    · exact ⟨fun hc => (by cases hc), fun _ => rfl, fun _ => rfl⟩

theorem PackNextProbeBlock_front (hj : THashJoin) (front : TBlock) (rest : List TBlock)
    (hq : hj.ProbeData = front :: rest) :
    (∃ p, hj.PackNextProbeBlock = Except.ok p ∧ p.ProbeData = rest ∧
      p.IsFinished = hj.IsFinished ∧
      (hj.IsProbeIndirected = false →
        p.JoinState.ProbePackedInput =
          hj.Objects.ProbeConverter.Pack front.Columns hj.JoinState.ProbePackedInput) ∧
      (hj.IsProbeIndirected = true → ∃ st, hj.Objects.ProbePayloadStorage = some st ∧
        p.JoinState.ProbePackedInput =
          hj.Objects.ProbeConverter.Pack
            (TExternalPayloadStorage.SplitBlock front st hj.ProbeKeyColumnsSet).1.1.Columns
            hj.JoinState.ProbePackedInput)) ∨
    (hj.IsProbeIndirected = true ∧ hj.Objects.ProbePayloadStorage = none ∧
      hj.PackNextProbeBlock = Except.error (TFailure.Undefined "*payloadStorage")) := by
  unfold THashJoin.PackNextProbeBlock
  rw [hq]
  cases hi : hj.IsProbeIndirected
  · left
    exact ⟨_, rfl, rfl, rfl, fun _ => rfl, fun hc => (by cases hc)⟩
  · cases hst : hj.Objects.ProbePayloadStorage with
    | none => right; exact ⟨rfl, rfl, rfl⟩
    | some st =>
      left
      exact ⟨_, rfl, rfl, rfl, fun hc => (by cases hc), fun _ => ⟨st, rfl, rfl⟩⟩

theorem lookupAndClear_queue (hj : THashJoin) :
    hj.lookupAndClear.ProbeData = hj.ProbeData ∧
    hj.lookupAndClear.IsFinished = hj.IsFinished := ⟨rfl, rfl⟩

theorem afterFetch_queue (status : EFetchStatus) (fetched : Option TBlock) (hj : THashJoin)
    (hsome : status = EFetchStatus.Ok → ∃ block, fetched = some block)
    (hnone : status ≠ EFetchStatus.Ok → fetched = none)
    (hfin : hj.IsFinished = true → status = EFetchStatus.Finish) :
    (hj.afterFetch status fetched = Except.ok (TProbeStep.Yield hj) ∧
      status = EFetchStatus.Yield ∧ hj.ProbeData = []) ∨
    (hj.afterFetch status fetched =
        Except.ok (TProbeStep.Break status (hj.markFinished status)) ∧
      status = EFetchStatus.Finish ∧ hj.ProbeData = []) ∨
    (∃ front rest,
      ((hj.markFinished status).cacheFetched status fetched).ProbeData = front :: rest ∧
      ((hj.markFinished status).cacheFetched status fetched).ProbeData =
        hj.ProbeData ++ fetched.toList ∧
      ((∃ p, ((hj.markFinished status).cacheFetched status fetched).PackNextProbeBlock =
            Except.ok p ∧
          p.ProbeData = rest ∧
          (hj.IsProbeIndirected = false →
            p.JoinState.ProbePackedInput =
              hj.Objects.ProbeConverter.Pack front.Columns hj.JoinState.ProbePackedInput) ∧
          (hj.IsProbeIndirected = true → ∃ st, hj.Objects.ProbePayloadStorage = some st ∧
            p.JoinState.ProbePackedInput =
              hj.Objects.ProbeConverter.Pack
                (TExternalPayloadStorage.SplitBlock front st hj.ProbeKeyColumnsSet).1.1.Columns
                hj.JoinState.ProbePackedInput) ∧
          hj.afterFetch status fetched = Except.ok (TProbeStep.Next status p.lookupAndClear) ∧
          p.lookupAndClear.ProbeData = rest ∧
          (p.lookupAndClear.IsFinished = true → status = EFetchStatus.Finish)) ∨
        (hj.IsProbeIndirected = true ∧ hj.Objects.ProbePayloadStorage = none ∧
          hj.afterFetch status fetched =
            Except.error (TFailure.Undefined "*payloadStorage")))) := by
  have hq : ((hj.markFinished status).cacheFetched status fetched).ProbeData =
      hj.ProbeData ++ fetched.toList := by
    unfold THashJoin.cacheFetched
    by_cases hok : status = EFetchStatus.Ok
    · obtain ⟨block, hb⟩ := hsome hok
      subst hb
      rw [if_pos hok]
      simp [(markFinished_same status hj).2.2.2.1]
    · rw [if_neg hok, hnone hok]
      simp [(markFinished_same status hj).2.2.2.1]
  have hsame : ∀ x : THashJoin, x = (hj.markFinished status).cacheFetched status fetched →
      x.IsProbeIndirected = hj.IsProbeIndirected ∧ x.ProbeKeyColumnsSet = hj.ProbeKeyColumnsSet ∧
      x.Objects = hj.Objects ∧ x.JoinState = hj.JoinState ∧
      (x.IsFinished = true → status = EFetchStatus.Finish) := by
    intro x hx
    subst hx
    unfold THashJoin.cacheFetched THashJoin.markFinished
    by_cases hf : status = EFetchStatus.Finish
    · subst hf
      simp
    · rw [if_neg hf]
      split
      · split
        · exact ⟨rfl, rfl, rfl, rfl, hfin⟩
        · exact ⟨rfl, rfl, rfl, rfl, hfin⟩
      · exact ⟨rfl, rfl, rfl, rfl, hfin⟩
  unfold THashJoin.afterFetch
  by_cases hy : status = EFetchStatus.Yield ∧ hj.ProbeData = []
  · left
    rw [if_pos hy]
    exact ⟨rfl, hy.1, hy.2⟩
  · rw [if_neg hy]
    by_cases hf : status = EFetchStatus.Finish ∧ (hj.markFinished status).ProbeData = []
    · right; left
      rw [if_pos hf]
      exact ⟨rfl, hf.1, by rw [← (markFinished_same status hj).2.2.2.1]; exact hf.2⟩
    · right; right
      rw [if_neg hf]
      have hne : ((hj.markFinished status).cacheFetched status fetched).ProbeData ≠ [] := by
        rw [hq]
        intro hc
        obtain ⟨h1, h2⟩ := List.append_eq_nil.1 hc
        cases status with
        | Ok =>
          obtain ⟨block, hb⟩ := hsome rfl
          rw [hb] at h2
          cases h2
        | Finish => exact hf ⟨rfl, by rw [(markFinished_same _ hj).2.2.2.1]; exact h1⟩
        | Yield => exact hy ⟨rfl, h1⟩
      obtain ⟨front, rest, hfr⟩ := List.exists_cons_of_ne_nil hne
      obtain ⟨s1, s2, s3, s4, s5⟩ := hsame _ rfl
      refine ⟨front, rest, hfr, hq, ?_⟩
      rcases PackNextProbeBlock_front _ front rest hfr with
        ⟨p, hp, hrest, hpf, hdirect, hind⟩ | ⟨hi, hst, herr⟩
      · left
        rw [s1, s3, s4] at hdirect
        rw [s1, s2, s3, s4] at hind
        refine ⟨p, hp, hrest, hdirect, hind, by rw [hp]; rfl, hrest, ?_⟩
        intro hc
        exact s5 (by rw [← hpf]; exact hc)
      · right
        rw [s1] at hi
        rw [s3] at hst
        exact ⟨hi, hst, by rw [herr]; rfl⟩

theorem fetchProbe_config (status : EFetchStatus) (hj : THashJoin) :
    (hj.fetchProbe status).2.2.IsProbeIndirected = hj.IsProbeIndirected ∧
    (hj.fetchProbe status).2.2.ProbeKeyColumnsSet = hj.ProbeKeyColumnsSet := by
  unfold THashJoin.fetchProbe
  split
  · exact ⟨rfl, rfl⟩
  · split <;> exact ⟨rfl, rfl⟩

theorem probeStep_queue (status : EFetchStatus) (hj : THashJoin)
    (hs : hj.IsFinished = true → status = EFetchStatus.Finish) :
    (∃ hj1, hj.probeStep status = Except.ok (TProbeStep.Yield hj1) ∧
      hj.ProbeData = [] ∧ hj1.ProbeData = []) ∨
    (∃ hj1, hj.probeStep status = Except.ok (TProbeStep.Break EFetchStatus.Finish hj1) ∧
      hj.ProbeData = [] ∧ hj1.ProbeData = []) ∨
    (∃ front rest, hj.queueAtPack status = front :: rest ∧
      hj.queueAtPack status = hj.ProbeData ++ (hj.fetchProbe status).2.1.toList ∧
      ((∃ (p : THashJoin) (s : EFetchStatus), hj.probeStep status = Except.ok (TProbeStep.Next s p.lookupAndClear) ∧
          p.ProbeData = rest ∧ p.lookupAndClear.ProbeData = rest ∧
          (hj.IsProbeIndirected = false →
            p.JoinState.ProbePackedInput =
              hj.Objects.ProbeConverter.Pack front.Columns hj.JoinState.ProbePackedInput) ∧
          (hj.IsProbeIndirected = true → ∃ st, hj.Objects.ProbePayloadStorage = some st ∧
            p.JoinState.ProbePackedInput =
              hj.Objects.ProbeConverter.Pack
                (TExternalPayloadStorage.SplitBlock front st hj.ProbeKeyColumnsSet).1.1.Columns
                hj.JoinState.ProbePackedInput) ∧
          (p.lookupAndClear.IsFinished = true → s = EFetchStatus.Finish)) ∨
        (hj.IsProbeIndirected = true ∧ hj.Objects.ProbePayloadStorage = none ∧
          hj.probeStep status = Except.error (TFailure.Undefined "*payloadStorage")))) := by
  obtain ⟨b1, b2, b3⟩ := fetchProbe_block status hj hs
  obtain ⟨c1, c2, -, c4, -⟩ := fetchProbe_same status hj
  obtain ⟨d1, d2⟩ := fetchProbe_config status hj
  have h := afterFetch_queue (hj.fetchProbe status).1 (hj.fetchProbe status).2.1
    (hj.fetchProbe status).2.2 b1 b2 b3
  rw [c4, d1, d2, c1, c2] at h
  rcases h with ⟨h1, -, h3⟩ | ⟨h1, h2, h3⟩ | ⟨front, rest, h1, h2, h3⟩
  · left
    exact ⟨_, h1, h3, by rw [c4]; exact h3⟩
  · right; left
    refine ⟨(hj.fetchProbe status).2.2.markFinished (hj.fetchProbe status).1, ?_, h3, ?_⟩
    · unfold THashJoin.probeStep
      rw [h1, h2]
    · rw [(markFinished_same _ _).2.2.2.1, c4]
      exact h3
  · right; right
    refine ⟨front, rest, h1, h2, ?_⟩
    rcases h3 with ⟨p, -, e2, e3, e4, e5, e6, e7⟩ | ⟨e1, e2, e3⟩
    · left
      exact ⟨p, _, e5, e2, e6, e3, e4, e7⟩
    · right
      exact ⟨e1, e2, e3⟩

theorem probeLoop_front_defined :
    ∀ (fuel : Nat) (status : EFetchStatus) (hj : THashJoin),
      (hj.IsFinished = true → status = EFetchStatus.Finish) →
      THashJoin.probeLoop fuel status hj ≠
        Except.error (TFailure.Undefined "ProbeData_.front()") := by
  intro fuel
  induction fuel with
  | zero =>
    intro status hj _ hc
    simp [THashJoin.probeLoop, throw, throwThe, MonadExceptOf.throw] at hc
  | succ fuel ih =>
    intro status hj hs hc
    unfold THashJoin.probeLoop at hc
    by_cases hloop : (hj.JoinState.IsNotFull && hj.JoinState.HasEnoughMemory) = true
    · rw [if_pos hloop] at hc
      rcases probeStep_queue status hj hs with ⟨hj1, h1, -⟩ | ⟨hj1, h1, -⟩ |
        ⟨front, rest, -, -, ⟨p, s, h1, -, -, -, -, h6⟩ | ⟨-, -, h3⟩⟩
      · rw [h1] at hc
        simp [pure, Except.pure] at hc
      · rw [h1] at hc
        simp [pure, Except.pure] at hc
      · rw [h1] at hc
        exact ih s p.lookupAndClear h6 hc
      · rw [h3] at hc
        simp [throw, throwThe, MonadExceptOf.throw] at hc
    · rw [if_neg hloop] at hc
      simp [pure, Except.pure] at hc

theorem finishProbe_front_defined (status : EFetchStatus) (hj : THashJoin) :
    THashJoin.finishProbe status hj ≠
      Except.error (TFailure.Undefined "ProbeData_.front()") := by
  intro hc
  unfold THashJoin.finishProbe at hc
  split at hc
  · split at hc
    · simp [pure, Except.pure] at hc
    · simp [throw, throwThe, MonadExceptOf.throw] at hc
  · simp [pure, Except.pure] at hc

/-- C29. `PackNextProbeBlock` is reached with a non-empty probe queue.  Take an
iteration of the loop of `THashJoin::DoProbe` entered with `status`, where
`status` is `Finish` whenever `IsFinished_` is set (so on entry to `DoProbe`, and
after every iteration).  The iteration returns `Yield` with an empty queue, or
breaks on `Finish` with an empty queue, or reaches `PackNextProbeBlock` with the
queue `front :: rest`, the old queue with a fetched block appended at the back:
then the packed block is `front`, the queue left is `rest`, and `status` agrees
with `IsFinished_` again (or the indirected probe side has no payload storage).
Hence for every loop bound and every hash join, the loop and `DoProbe` never
take `ProbeData_.front()` of an empty queue. -/
theorem THashJoin.PackNextProbeBlock_queue_nonempty (status : EFetchStatus) (hj : THashJoin)
    (hs : hj.IsFinished = true → status = EFetchStatus.Finish) :
    ((∃ hj1, hj.probeStep status = Except.ok (TProbeStep.Yield hj1) ∧
        hj.ProbeData = [] ∧ hj1.ProbeData = []) ∨
      (∃ hj1, hj.probeStep status = Except.ok (TProbeStep.Break EFetchStatus.Finish hj1) ∧
        hj.ProbeData = [] ∧ hj1.ProbeData = []) ∨
      (∃ front rest, hj.queueAtPack status = front :: rest ∧
        hj.queueAtPack status = hj.ProbeData ++ (hj.fetchProbe status).2.1.toList ∧
        ((∃ (p : THashJoin) (s : EFetchStatus), hj.probeStep status = Except.ok (TProbeStep.Next s p.lookupAndClear) ∧
            p.ProbeData = rest ∧ p.lookupAndClear.ProbeData = rest ∧
            (hj.IsProbeIndirected = false →
              p.JoinState.ProbePackedInput =
                hj.Objects.ProbeConverter.Pack front.Columns hj.JoinState.ProbePackedInput) ∧
            (hj.IsProbeIndirected = true → ∃ st, hj.Objects.ProbePayloadStorage = some st ∧
              p.JoinState.ProbePackedInput =
                hj.Objects.ProbeConverter.Pack
                  (TExternalPayloadStorage.SplitBlock front st hj.ProbeKeyColumnsSet).1.1.Columns
                  hj.JoinState.ProbePackedInput) ∧
            (p.lookupAndClear.IsFinished = true → s = EFetchStatus.Finish)) ∨
          (hj.IsProbeIndirected = true ∧ hj.Objects.ProbePayloadStorage = none ∧
            hj.probeStep status = Except.error (TFailure.Undefined "*payloadStorage"))))) ∧
    (∀ fuel, THashJoin.probeLoop fuel status hj ≠
      Except.error (TFailure.Undefined "ProbeData_.front()")) ∧
    hj.DoProbe ≠ Except.error (TFailure.Undefined "ProbeData_.front()") := by
  refine ⟨probeStep_queue status hj hs, fun fuel => probeLoop_front_defined fuel status hj hs, ?_⟩
  intro hc
  unfold THashJoin.DoProbe at hc
  split at hc
  · simp [pure, Except.pure] at hc
  · split at hc
    · rename_i e he
      simp only [throw, throwThe, MonadExceptOf.throw, Except.error.injEq] at hc
      subst hc
      exact probeLoop_front_defined _ EFetchStatus.Finish hj (fun _ => rfl) he
    · simp [pure, Except.pure] at hc
    · exact finishProbe_front_defined _ _ hc

/-- C29 at `sampleHashJoin`, entered with `Finish`: the queue holds the one
buffered block at `PackNextProbeBlock`. -/
theorem THashJoin.PackNextProbeBlock_queue_nonempty_witness :
    (sampleHashJoin.IsFinished = true → EFetchStatus.Finish = EFetchStatus.Finish) ∧
    sampleHashJoin.queueAtPack EFetchStatus.Finish = [{ Size := 2, Columns := [[7, 7]] }] ∧
    (∀ fuel, THashJoin.probeLoop fuel EFetchStatus.Finish sampleHashJoin ≠
      Except.error (TFailure.Undefined "ProbeData_.front()")) ∧
    sampleHashJoin.DoProbe ≠ Except.error (TFailure.Undefined "ProbeData_.front()") :=
  ⟨fun _ => rfl, rfl,
    (THashJoin.PackNextProbeBlock_queue_nonempty EFetchStatus.Finish sampleHashJoin
      (fun _ => rfl)).2⟩


/-! ## Key column indices and the stream widths -/

theorem makeRoles_fold (keyColumns : List Nat) :
    ∀ roles : List EColumnRole, (∀ k ∈ keyColumns, k < roles.length) →
      ∃ r, keyColumns.foldlM (fun (roles : List EColumnRole) keyCol =>
          if keyCol < roles.length then some (roles.set keyCol EColumnRole.Key) else none)
          roles = some r ∧ r.length = roles.length := by
  induction keyColumns with
  | nil =>
    intro roles _
    exact ⟨roles, rfl, rfl⟩
  | cons k rest ih =>
    intro roles h
    have hk : k < roles.length := h k (by simp)
    obtain ⟨r, h1, h2⟩ := ih (roles.set k EColumnRole.Key)
      (fun j hj => by rw [List.length_set]; exact h j (by simp [hj]))
    refine ⟨r, ?_, by rw [h2, List.length_set]⟩
    rw [List.foldlM_cons, if_pos hk]
    exact h1

theorem makeRoles_in_range (size : Nat) (keyColumns : List Nat)
    (h : ∀ k ∈ keyColumns, k < size) :
    ∃ roles, makeRoles size keyColumns = some roles ∧ roles.length = size := by
  obtain ⟨r, h1, h2⟩ := makeRoles_fold keyColumns (List.replicate size EColumnRole.Payload)
    (fun k hk => by rw [List.length_replicate]; exact h k hk)
  exact ⟨r, h1, by rw [h2, List.length_replicate]⟩

theorem collectAll_isSome {α : Type} (l : List (Option α)) (h : ∀ x ∈ l, x.isSome = true) :
    (collectAll l).isSome = true := by
  induction l with
  | nil => rfl
  | cons a l ih =>
    have ha := h a (by simp)
    have hl := ih (fun x hx => h x (by simp [hx]))
    obtain ⟨v, hv⟩ := Option.isSome_iff_exists.1 ha
    obtain ⟨vs, hvs⟩ := Option.isSome_iff_exists.1 hl
    simp [collectAll, hv, hvs]

theorem SampleBlock_in_range (ctx : TComputationContext) (itemTypes : List TType)
    (block : TBlock) (keyColumns : List Nat)
    (htypes : ∀ k ∈ keyColumns, k < itemTypes.length)
    (hcols : ∀ k ∈ keyColumns, k < block.Columns.length)
    (hrows : ∀ column ∈ block.Columns, column.length = block.Size) :
    (SampleBlock ctx itemTypes block keyColumns).isSome = true := by
  unfold SampleBlock
  apply collectAll_isSome
  intro x hx
  obtain ⟨k, hk, rfl⟩ := List.mem_map.1 hx
  have hk2 : 100 * k < block.Size := by
    have := List.mem_range.1 hk
    omega
  unfold sampleRow
  have hall : (collectAll (keyColumns.map fun col => do
      let type ← itemTypes[col]?
      let column ← block.Columns[col]?
      let item ← column[100 * k]?
      some (ctx.Hash type item))).isSome = true := by
    apply collectAll_isSome
    intro y hy
    obtain ⟨col, hcol, rfl⟩ := List.mem_map.1 hy
    have h1 := htypes col hcol
    have h2 := hcols col hcol
    have h3 : 100 * k < (block.Columns[col]).length := by
      rw [hrows _ (List.getElem_mem _)]
      exact hk2
    simp [List.getElem?_eq_getElem h1, List.getElem?_eq_getElem h2, List.getElem?_eq_getElem h3]
  obtain ⟨v, hv⟩ := Option.isSome_iff_exists.1 hall
  simp only [bind, Option.bind] at hv ⊢
  rw [hv]
  rfl

/-- C30, counterexample.  `WrapBlockGraceJoinCore` accepts a call over inputs of
two data columns whose key column index is 5 on both sides: no check compares a
key column index with a stream width.  The role vector of the bootstrap storage
has two entries, and `leftRoles[5]` is outside it. -/
theorem WrapBlockGraceJoinCore_accepts_wide_key :
    ∃ w, WrapBlockGraceJoinCore wideKeyCallable = Except.ok w ∧
      w.LeftItemTypes = 3 ∧ w.LeftKeyColumns = [5] ∧
      w.RightItemTypes = 3 ∧ w.RightKeyColumns = [5] ∧
      ¬ (∀ k ∈ w.LeftKeyColumns, k < w.LeftItemTypes - 1) ∧
      ¬ (∀ k ∈ w.RightKeyColumns, k < w.RightItemTypes - 1) ∧
      makeRoles (w.LeftItemTypes - 1) w.LeftKeyColumns = none ∧
      TTempJoinStorage.construct sampleContext [1, 1, 0] w.LeftKeyColumns []
        [1, 1, 0] w.RightKeyColumns [] (hashJoinPolicy 100) =
        Except.error (TFailure.Undefined "leftRoles[keyCol]") :=
  ⟨_, rfl, rfl, rfl, rfl, rfl, by decide, by decide, rfl, rfl⟩

/-- C30, amended.  `WrapBlockGraceJoinCore` hands the key column indices on as
given.  For an accepted call whose left and right key column indices are all
smaller than the number of data columns of their stream (the width minus the
trailing block-length element): the constructor of the bootstrap storage builds
both role vectors with every `roles[keyCol]` assignment in bounds, and
`SampleBlock` reads every `readers[col]` and `block.Columns[col]` by key column
in bounds, for every block with one column of `Size` rows per data column. -/
theorem key_columns_in_range_of_caller (c : TCallable) (w : TBlockGraceJoinCoreWraper)
    (h : WrapBlockGraceJoinCore c = Except.ok w)
    (hl : ∀ k ∈ c.LeftKeyColumns, k < c.LeftComponents - 1)
    (hr : ∀ k ∈ c.RightKeyColumns, k < c.RightComponents - 1) :
    (∃ roles, makeRoles (w.LeftItemTypes - 1) w.LeftKeyColumns = some roles ∧
      roles.length = w.LeftItemTypes - 1) ∧
    (∃ roles, makeRoles (w.RightItemTypes - 1) w.RightKeyColumns = some roles ∧
      roles.length = w.RightItemTypes - 1) ∧
    (∀ (ctx : TComputationContext) (leftTypes rightTypes : List TType)
        (leftStream rightStream : TStream) (policy : IBlockGraceJoinPolicy),
      leftTypes.length = w.LeftItemTypes → rightTypes.length = w.RightItemTypes →
      ∃ ts, TTempJoinStorage.construct ctx leftTypes w.LeftKeyColumns leftStream
        rightTypes w.RightKeyColumns rightStream policy = Except.ok ts) ∧
    (∀ (ctx : TComputationContext) (itemTypes : List TType) (block : TBlock),
      itemTypes.length = w.LeftItemTypes - 1 → block.Columns.length = w.LeftItemTypes - 1 →
      (∀ column ∈ block.Columns, column.length = block.Size) →
      (SampleBlock ctx itemTypes block w.LeftKeyColumns).isSome = true) ∧
    (∀ (ctx : TComputationContext) (itemTypes : List TType) (block : TBlock),
      itemTypes.length = w.RightItemTypes - 1 → block.Columns.length = w.RightItemTypes - 1 →
      (∀ column ∈ block.Columns, column.length = block.Size) →
      (SampleBlock ctx itemTypes block w.RightKeyColumns).isSome = true) := by
  obtain ⟨-, -, h3, h4, h5, h6⟩ := WrapBlockGraceJoinCore_ok c w h
  rw [← h3, ← h5] at hl
  rw [← h4, ← h6] at hr
  refine ⟨makeRoles_in_range _ _ hl, makeRoles_in_range _ _ hr, ?_, ?_, ?_⟩
  · intro ctx leftTypes rightTypes leftStream rightStream policy hlt hrt
    obtain ⟨rl, hrl, -⟩ := makeRoles_in_range _ _ hl
    obtain ⟨rr, hrr, -⟩ := makeRoles_in_range _ _ hr
    unfold TTempJoinStorage.construct
    rw [hlt, hrt, hrl, hrr]
    exact ⟨_, rfl⟩
  · intro ctx itemTypes block ht hc hrows
    exact SampleBlock_in_range ctx itemTypes block _ (by rw [ht]; exact hl)
      (by rw [hc]; exact hl) hrows
  · intro ctx itemTypes block ht hc hrows
    exact SampleBlock_in_range ctx itemTypes block _ (by rw [ht]; exact hr)
      (by rw [hc]; exact hr) hrows

/-- C30, amended, at `sampleCallable`: key column 0 of two data columns on both
sides. -/
theorem key_columns_in_range_of_caller_witness :
    WrapBlockGraceJoinCore sampleCallable = Except.ok sampleWrapper ∧
    (∃ roles, makeRoles (sampleWrapper.LeftItemTypes - 1) sampleWrapper.LeftKeyColumns =
        some roles ∧ roles.length = sampleWrapper.LeftItemTypes - 1) ∧
    (∃ roles, makeRoles (sampleWrapper.RightItemTypes - 1) sampleWrapper.RightKeyColumns =
        some roles ∧ roles.length = sampleWrapper.RightItemTypes - 1) :=
  ⟨rfl,
    (key_columns_in_range_of_caller sampleCallable sampleWrapper rfl
      (by decide) (by decide)).1,
    (key_columns_in_range_of_caller sampleCallable sampleWrapper rfl
      (by decide) (by decide)).2.1⟩


/-! ## Payload indices until emission -/

theorem tupleAt_append_left (a b : List Nat) (rowSize row : Nat)
    (h : (row + 1) * rowSize ≤ a.length) :
    tupleAt (a ++ b) rowSize row = tupleAt a rowSize row := by
  unfold tupleAt
  have h1 : row * rowSize ≤ a.length := by
    have : (row + 1) * rowSize = row * rowSize + rowSize := by ring
    omega
  rw [List.drop_append_of_le_length h1, List.take_append_of_le_length]
  rw [List.length_drop]
  have : (row + 1) * rowSize = row * rowSize + rowSize := by ring
  omega

theorem tupleAt_append_right (a b : List Nat) (rowSize n i : Nat)
    (h : a.length = n * rowSize) :
    tupleAt (a ++ b) rowSize (n + i) = tupleAt b rowSize i := by
  unfold tupleAt
  have h1 : (n + i) * rowSize = a.length + i * rowSize := by rw [h]; ring
  rw [h1, List.drop_append]

theorem tupleAt_flatten (rowSize : Nat) :
    ∀ (tuples : List (List Nat)), (∀ t ∈ tuples, t.length = rowSize) →
      ∀ r (hr : r < tuples.length), tupleAt tuples.flatten rowSize r = tuples[r] := by
  intro tuples
  induction tuples with
  | nil => intro _ r hr; cases hr
  | cons t rest ih =>
    intro hlen r hr
    have ht : t.length = rowSize := hlen t (by simp)
    cases r with
    | zero =>
      unfold tupleAt
      simp only [List.flatten_cons, Nat.zero_mul, List.drop_zero, List.getElem_cons_zero]
      rw [List.take_append_of_le_length (by omega), List.take_of_length_le (by omega)]
    | succ r =>
      have h1 := tupleAt_append_right t rest.flatten rowSize 1 r (by omega)
      rw [Nat.add_comm 1 r] at h1
      simp only [List.flatten_cons, List.getElem_cons_succ]
      rw [h1]
      exact ih (fun x hx => hlen x (by simp [hx])) r (by simpa using hr)

theorem holds_of_append (st st1 : TExternalPayloadStorage) (added : List TBlock) (raw : Nat)
    (h1 : st1.PayloadColumnsStorage = st.PayloadColumnsStorage ++ added)
    (h : st.holds raw = true) : st1.holds raw = true := by
  unfold TExternalPayloadStorage.holds at h ⊢
  split at h
  · rename_i block hb
    have hlt : decodeBlockIndex raw < st.PayloadColumnsStorage.length := by
      by_contra hc
      rw [List.getElem?_eq_none (by omega)] at hb
      cases hb
    rw [h1, List.getElem?_append_left hlt, hb]
    exact h
  · cases h

theorem holds_issued (st : TExternalPayloadStorage) (block : TBlock) (keyColumnsSet : List Nat)
    (i : Nat) (hroom : st.PayloadColumnsStorage.length < UI32) (hsize : block.Size ≤ UI32)
    (hi : i < block.Size) :
    ((TExternalPayloadStorage.SplitBlock block st keyColumnsSet).2.AddBlock
      (TExternalPayloadStorage.SplitBlock block st keyColumnsSet).1.2).holds
        (indirectionIndex st.Size i) = true := by
  have hs : st.Size = st.PayloadColumnsStorage.length := Nat.mod_eq_of_lt hroom
  unfold TExternalPayloadStorage.holds
  rw [hs, decodeBlockIndex_indirectionIndex _ _ hroom (by omega),
    decodeElemIndex_indirectionIndex _ _ hroom (by omega)]
  simp [TExternalPayloadStorage.AddBlock, TExternalPayloadStorage.SplitBlock, hi]

theorem foundPairs_probe_rows (table : TTable) (p : Nat) (probe : PackResult)
    (rows : List Nat) : ∀ q ∈ foundPairs table p probe rows, q.2 ∈ rows := by
  intro q hq
  simp only [foundPairs, List.mem_flatMap, List.mem_map] at hq
  obtain ⟨r, hr, j, -, rfl⟩ := hq
  exact hr

theorem IndexSafe_transfer (indexOf : List Nat → Nat) (hj hj1 : THashJoin)
    (st : TExternalPayloadStorage) (h : hj.IndexSafe indexOf st)
    (h1 : hj1.IsProbeIndirected = hj.IsProbeIndirected) (h2 : hj1.Objects = hj.Objects)
    (h3 : hj1.JoinState = hj.JoinState)
    (h4 : hj1.ProbeData.length + hj1.ProbeStream.length ≤
      hj.ProbeData.length + hj.ProbeStream.length)
    (h5 : ∀ block ∈ hj1.ProbeData, block ∈ hj.ProbeData ∨ TFetched.Ok block ∈ hj.ProbeStream)
    (h6 : ∀ block, TFetched.Ok block ∈ hj1.ProbeStream → TFetched.Ok block ∈ hj.ProbeStream) :
    hj1.IndexSafe indexOf st where
  indirected := by rw [h1]; exact h.indirected
  storage := by rw [h2]; exact h.storage
  input := by rw [h2, h3]; exact h.input
  inputRows := by rw [h2, h3]; exact h.inputRows
  output := by rw [h2, h3]; exact h.output
  room := by have := h.room; omega
  queued := fun block hb => by
    rcases h5 block hb with hq | hs
    · exact h.queued block hq
    · exact h.upstream block hs
  upstream := fun block hb => h.upstream block (h6 block hb)

theorem markFinished_indexSafe (indexOf : List Nat → Nat) (status : EFetchStatus)
    (hj : THashJoin) (st : TExternalPayloadStorage) (h : hj.IndexSafe indexOf st) :
    (hj.markFinished status).IndexSafe indexOf st := by
  unfold THashJoin.markFinished
  split
  · exact IndexSafe_transfer indexOf hj _ st h rfl rfl rfl (Nat.le_refl _)
      (fun _ hb => Or.inl hb) (fun _ hb => hb)
  · exact h

theorem cacheFetched_none (status : EFetchStatus) (hj : THashJoin) :
    hj.cacheFetched status none = hj := by
  unfold THashJoin.cacheFetched
  split <;> rfl

theorem fetchProbe_cases (status : EFetchStatus) (hj : THashJoin) :
    hj.fetchProbe status = (status, none, hj) ∨
    (∃ block rest, hj.ProbeStream = TFetched.Ok block :: rest ∧
      hj.fetchProbe status = (EFetchStatus.Ok, some block, { hj with ProbeStream := rest })) ∨
    (∃ s rest, hj.fetchProbe status = (s, none, { hj with ProbeStream := rest }) ∧
      rest.length ≤ hj.ProbeStream.length ∧
      ∀ block, TFetched.Ok block ∈ rest → TFetched.Ok block ∈ hj.ProbeStream) := by
  unfold THashJoin.fetchProbe
  split
  · left; rfl
  · right
    cases hs : hj.ProbeStream with
    | nil =>
      right
      exact ⟨EFetchStatus.Finish, [], rfl, Nat.le_refl _, fun _ hb => hb⟩
    | cons a rest =>
      cases a with
      | Ok block => left; exact ⟨block, rest, rfl, rfl⟩
      | Yield =>
        right
        exact ⟨EFetchStatus.Yield, rest, rfl, by simp, fun _ hb => List.mem_cons_of_mem _ hb⟩
      | Finish =>
        right
        exact ⟨EFetchStatus.Finish, rest, rfl, by simp, fun _ hb => List.mem_cons_of_mem _ hb⟩

theorem fetched_indexSafe (indexOf : List Nat → Nat) (status : EFetchStatus) (hj : THashJoin)
    (st : TExternalPayloadStorage) (h : hj.IndexSafe indexOf st) :
    (hj.fetchProbe status).2.2.IndexSafe indexOf st ∧
    ((hj.fetchProbe status).2.2.markFinished (hj.fetchProbe status).1).IndexSafe indexOf st ∧
    (((hj.fetchProbe status).2.2.markFinished (hj.fetchProbe status).1).cacheFetched
      (hj.fetchProbe status).1 (hj.fetchProbe status).2.1).IndexSafe indexOf st := by
  rcases fetchProbe_cases status hj with he | ⟨block, rest, hstream, he⟩ |
    ⟨s, rest, he, hlen, hmem⟩
  · rw [he]
    simp only [cacheFetched_none]
    exact ⟨h, markFinished_indexSafe indexOf _ _ st h, markFinished_indexSafe indexOf _ _ st h⟩
  · rw [he]
    have h1 : ({ hj with ProbeStream := rest } : THashJoin).IndexSafe indexOf st :=
      IndexSafe_transfer indexOf hj _ st h rfl rfl rfl (by rw [hstream]; simp)
        (fun _ hb => Or.inl hb) (fun _ hb => by rw [hstream]; exact List.mem_cons_of_mem _ hb)
    refine ⟨h1, markFinished_indexSafe indexOf _ _ st h1, ?_⟩
    exact IndexSafe_transfer indexOf hj _ st h rfl rfl rfl
      (by rw [hstream]; simp [THashJoin.cacheFetched, THashJoin.markFinished]; omega)
      (fun b hb => by
        rw [hstream]
        simp only [THashJoin.cacheFetched, THashJoin.markFinished] at hb
        simp at hb
        rcases hb with hb | hb
        · exact Or.inl hb
        · right; rw [hb]; exact List.mem_cons_self _ _)
      (fun _ hb => by rw [hstream]; exact List.mem_cons_of_mem _ hb)
  · rw [he]
    simp only [cacheFetched_none]
    have h1 : ({ hj with ProbeStream := rest } : THashJoin).IndexSafe indexOf st :=
      IndexSafe_transfer indexOf hj _ st h rfl rfl rfl (by simpa using hlen)
        (fun _ hb => Or.inl hb) hmem
    exact ⟨h1, markFinished_indexSafe indexOf _ _ st h1, markFinished_indexSafe indexOf _ _ st h1⟩

theorem PackNextProbeBlock_indirected (hj : THashJoin) (st : TExternalPayloadStorage)
    (front : TBlock) (rest : List TBlock) (hi : hj.IsProbeIndirected = true)
    (hst : hj.Objects.ProbePayloadStorage = some st) (hq : hj.ProbeData = front :: rest) :
    ∃ p, hj.PackNextProbeBlock = Except.ok p ∧ p.ProbeData = rest ∧
      p.ProbeStream = hj.ProbeStream ∧ p.IsProbeIndirected = true ∧
      p.Objects.ProbeConverter = hj.Objects.ProbeConverter ∧
      p.Objects.BuildPayloadStorage = hj.Objects.BuildPayloadStorage ∧
      p.Objects.ProbePayloadStorage =
        some ((TExternalPayloadStorage.SplitBlock front st hj.ProbeKeyColumnsSet).2.AddBlock
          (TExternalPayloadStorage.SplitBlock front st hj.ProbeKeyColumnsSet).1.2) ∧
      p.JoinState.ProbePackedInput =
        hj.Objects.ProbeConverter.Pack
          (TExternalPayloadStorage.SplitBlock front st hj.ProbeKeyColumnsSet).1.1.Columns
          hj.JoinState.ProbePackedInput ∧
      p.JoinState.ProbePackedOutput = hj.JoinState.ProbePackedOutput := by
  unfold THashJoin.PackNextProbeBlock
  rw [hq]
  cases hi2 : hj.IsProbeIndirected
  · rw [hi2] at hi
    cases hi
  · cases hst2 : hj.Objects.ProbePayloadStorage with
    | none =>
      rw [hst2] at hst
      cases hst
    | some st2 =>
      rw [hst2] at hst
      injection hst with hst
      subst hst
      exact ⟨_, rfl, rfl, rfl, rfl, rfl, rfl, rfl, rfl, rfl⟩

theorem PackNextProbeBlock_indexSafe (indexOf : List Nat → Nat) (hj : THashJoin)
    (st : TExternalPayloadStorage) (hconv : hj.Objects.ProbeConverter.CarriesIndex indexOf)
    (h : hj.IndexSafe indexOf st) (front : TBlock) (rest : List TBlock)
    (hq : hj.ProbeData = front :: rest) :
    ∃ p st1, hj.PackNextProbeBlock = Except.ok p ∧ p.IndexSafe indexOf st1 ∧
      st1.PayloadColumnsStorage = st.PayloadColumnsStorage ++
        [(TExternalPayloadStorage.SplitBlock front st hj.ProbeKeyColumnsSet).1.2] ∧
      st1.NonClearable = st.NonClearable ∧
      p.Objects.ProbeConverter = hj.Objects.ProbeConverter ∧
      p.Objects.BuildPayloadStorage = hj.Objects.BuildPayloadStorage := by
  obtain ⟨-, hpack, -⟩ := hconv
  have hroom : st.PayloadColumnsStorage.length < UI32 := by
    have := h.room
    omega
  have hsize : front.Size ≤ UI32 := h.queued front (by rw [hq]; exact List.mem_cons_self _ _)
  have hlast : (TExternalPayloadStorage.SplitBlock front st hj.ProbeKeyColumnsSet).1.1.Columns.getLast? =
      some ((List.range front.Size).map fun i => indirectionIndex st.Size i) := by
    simp [TExternalPayloadStorage.SplitBlock]
  obtain ⟨c1, c2, c3, c4⟩ := hpack _ _ hj.JoinState.ProbePackedInput hlast h.input
  rw [List.length_map, List.length_range] at c2 c4
  have hadded : ((TExternalPayloadStorage.SplitBlock front st hj.ProbeKeyColumnsSet).2.AddBlock
      (TExternalPayloadStorage.SplitBlock front st hj.ProbeKeyColumnsSet).1.2).PayloadColumnsStorage =
      st.PayloadColumnsStorage ++
        [(TExternalPayloadStorage.SplitBlock front st hj.ProbeKeyColumnsSet).1.2] := rfl
  obtain ⟨p, e1, e2, e3, e4, e5, e6, e7, e8, e9⟩ :=
    PackNextProbeBlock_indirected hj st front rest h.indirected h.storage hq
  refine ⟨p, _, e1, ?_, hadded, rfl, e5, e6⟩
  exact
    { indirected := e4
      storage := e7
      input := by rw [e5, e8]; exact c1
      inputRows := by
        rw [e5, e8]
        intro r hr
        by_cases hold : r < hj.JoinState.ProbePackedInput.NTuples
        · rw [c3 r hold]
          exact holds_of_append st _ _ _ hadded (h.inputRows r hold)
        · obtain ⟨i, rfl⟩ : ∃ i, r = hj.JoinState.ProbePackedInput.NTuples + i :=
            ⟨r - hj.JoinState.ProbePackedInput.NTuples, by omega⟩
          have hi : i < front.Size := by omega
          have h3 : ((List.range front.Size).map fun i => indirectionIndex st.Size i).getD i 0 =
              indirectionIndex st.Size i := by
            rw [List.getD_eq_getElem?_getD, List.getElem?_map,
              List.getElem?_range hi]
            rfl
          rw [c4 i hi, h3]
          exact holds_issued st front hj.ProbeKeyColumnsSet i hroom hsize hi
      output := by
        rw [e5, e9]
        obtain ⟨tuples, ht, hall⟩ := h.output
        exact ⟨tuples, ht, fun t hmem =>
          ⟨(hall t hmem).1, holds_of_append st _ _ _ hadded (hall t hmem).2⟩⟩
      room := by
        have := h.room
        rw [hq] at this
        rw [e2, e3, hadded]
        simp only [List.length_append, List.length_cons, List.length_nil] at this ⊢
        omega
      queued := fun block hb => h.queued block (by
        rw [hq]
        rw [e2] at hb
        exact List.mem_cons_of_mem _ hb)
      upstream := by rw [e3]; exact h.upstream }

theorem lookupAndClear_indexSafe (indexOf : List Nat → Nat) (hj : THashJoin)
    (st : TExternalPayloadStorage) (h : hj.IndexSafe indexOf st) :
    hj.lookupAndClear.IndexSafe indexOf st := by
  have hout : hj.lookupAndClear.JoinState.ProbePackedOutput =
      hj.JoinState.ProbePackedOutput ++
        ((foundPairs hj.Table hj.Objects.ProbeConverter.Layout.TotalRowSize
          hj.JoinState.ProbePackedInput hj.JoinState.ProbePackedInput.rows).map fun q =>
            tupleAt hj.JoinState.ProbePackedInput.PackedTuples
              hj.Objects.ProbeConverter.Layout.TotalRowSize q.2).flatten := by
    simp only [THashJoin.lookupAndClear, DoBatchLookup_eq]
    exact emitPairs_probe _ _ _ _
  exact
    { indirected := h.indirected
      storage := h.storage
      input := by simp [THashJoin.lookupAndClear, PackResult.WellFormed]
      inputRows := by
        intro r hr
        simp [THashJoin.lookupAndClear] at hr
      output := by
        obtain ⟨tuples, ht, hall⟩ := h.output
        refine ⟨tuples ++ (foundPairs hj.Table hj.Objects.ProbeConverter.Layout.TotalRowSize
          hj.JoinState.ProbePackedInput hj.JoinState.ProbePackedInput.rows).map fun q =>
            tupleAt hj.JoinState.ProbePackedInput.PackedTuples
              hj.Objects.ProbeConverter.Layout.TotalRowSize q.2, ?_, ?_⟩
        · rw [hout, ht, List.flatten_append]
        · intro t hmem
          rcases List.mem_append.1 hmem with hold | hnew
          · exact hall t hold
          · obtain ⟨q, hq, rfl⟩ := List.mem_map.1 hnew
            have hrow : q.2 < hj.JoinState.ProbePackedInput.NTuples :=
              List.mem_range.1 (foundPairs_probe_rows _ _ _ _ q hq)
            exact ⟨tupleAt_length _ _ _ _ h.input hrow, h.inputRows q.2 hrow⟩
      room := h.room
      queued := h.queued
      upstream := h.upstream }

theorem probeStep_indexSafe (indexOf : List Nat → Nat) (status : EFetchStatus) (hj : THashJoin)
    (st : TExternalPayloadStorage) (hconv : hj.Objects.ProbeConverter.CarriesIndex indexOf)
    (h : hj.IndexSafe indexOf st) (r : TProbeStep)
    (hstep : hj.probeStep status = Except.ok r) :
    ∃ st1 added, r.join.IndexSafe indexOf st1 ∧
      st1.PayloadColumnsStorage = st.PayloadColumnsStorage ++ added ∧
      st1.NonClearable = st.NonClearable ∧
      r.join.Objects.ProbeConverter = hj.Objects.ProbeConverter ∧
      r.join.Objects.BuildPayloadStorage = hj.Objects.BuildPayloadStorage := by
  obtain ⟨i1, i2, i3⟩ := fetched_indexSafe indexOf status hj st h
  obtain ⟨-, c2, -, -, -⟩ := fetchProbe_same status hj
  have m2 := (markFinished_same (hj.fetchProbe status).1 (hj.fetchProbe status).2.2).2.1
  have k2 := (cacheFetched_same (hj.fetchProbe status).1 (hj.fetchProbe status).2.1
    ((hj.fetchProbe status).2.2.markFinished (hj.fetchProbe status).1)).2.1
  unfold THashJoin.probeStep THashJoin.afterFetch at hstep
  split at hstep
  · simp only [pure, Except.pure, Except.ok.injEq] at hstep
    subst hstep
    exact ⟨st, [], i1, by simp, rfl, by rw [TProbeStep.join, c2], by rw [TProbeStep.join, c2]⟩
  · split at hstep
    · simp only [pure, Except.pure, Except.ok.injEq] at hstep
      subst hstep
      exact ⟨st, [], i2, by simp, rfl, by rw [TProbeStep.join, m2, c2],
        by rw [TProbeStep.join, m2, c2]⟩
    · split at hstep
      · cases hstep
      · rename_i packed hpacked
        simp only [pure, Except.pure, Except.ok.injEq] at hstep
        subst hstep
        have hobj : (((hj.fetchProbe status).2.2.markFinished (hj.fetchProbe status).1).cacheFetched
            (hj.fetchProbe status).1 (hj.fetchProbe status).2.1).Objects = hj.Objects := by
          rw [k2, m2, c2]
        cases hqd : (((hj.fetchProbe status).2.2.markFinished
            (hj.fetchProbe status).1).cacheFetched
            (hj.fetchProbe status).1 (hj.fetchProbe status).2.1).ProbeData with
        | nil =>
          unfold THashJoin.PackNextProbeBlock at hpacked
          rw [hqd] at hpacked
          cases hpacked
        | cons front rest =>
          obtain ⟨p, st1, e1, e2, e3, e4, e5, e6⟩ :=
            PackNextProbeBlock_indexSafe indexOf _ st (by rw [hobj]; exact hconv) i3 front rest hqd
          rw [hpacked] at e1
          injection e1 with e1
          subst e1
          refine ⟨st1, _, lookupAndClear_indexSafe indexOf _ st1 e2, e3, e4, ?_, ?_⟩
          · show packed.lookupAndClear.Objects.ProbeConverter = _
            rw [(lookupAndClear_rows packed).2.2.2, e5, hobj]
          · show packed.lookupAndClear.Objects.BuildPayloadStorage = _
            rw [(lookupAndClear_rows packed).2.2.2, e6, hobj]

theorem probeLoop_indexSafe (indexOf : List Nat → Nat) :
    ∀ (fuel : Nat) (status : EFetchStatus) (hj : THashJoin) (st : TExternalPayloadStorage),
      hj.Objects.ProbeConverter.CarriesIndex indexOf → hj.IndexSafe indexOf st →
      ∀ r, THashJoin.probeLoop fuel status hj = Except.ok r →
      ∃ st1 added, r.join.IndexSafe indexOf st1 ∧
        st1.PayloadColumnsStorage = st.PayloadColumnsStorage ++ added ∧
        st1.NonClearable = st.NonClearable ∧
        r.join.Objects.ProbeConverter = hj.Objects.ProbeConverter ∧
        r.join.Objects.BuildPayloadStorage = hj.Objects.BuildPayloadStorage := by
  intro fuel
  induction fuel with
  | zero =>
    intro status hj st _ _ r hr
    simp [THashJoin.probeLoop, throw, throwThe, MonadExceptOf.throw] at hr
  | succ fuel ih =>
    intro status hj st hconv h r hr
    unfold THashJoin.probeLoop at hr
    split at hr
    · split at hr
      · cases hr
      · rename_i hj1 hstep
        simp only [pure, Except.pure, Except.ok.injEq] at hr
        subst hr
        exact probeStep_indexSafe indexOf status hj st hconv h _ hstep
      · rename_i status1 hj1 hstep
        simp only [pure, Except.pure, Except.ok.injEq] at hr
        subst hr
        exact probeStep_indexSafe indexOf status hj st hconv h _ hstep
      · rename_i status1 hj1 hstep
        obtain ⟨st1, added, a1, a2, a3, a4, a5⟩ :=
          probeStep_indexSafe indexOf status hj st hconv h _ hstep
        simp only [TProbeStep.join] at a1 a4 a5
        obtain ⟨st2, added2, b1, b2, b3, b4, b5⟩ :=
          ih status1 hj1 st1 (by rw [a4]; exact hconv) a1 r hr
        exact ⟨st2, added ++ added2, b1, by rw [b2, a2, List.append_assoc], b3.trans a3,
          b4.trans a4, b5.trans a5⟩
    · simp only [pure, Except.pure, Except.ok.injEq] at hr
      subst hr
      exact ⟨st, [], h, by simp, rfl, rfl, rfl⟩

theorem Clear_blocks (st : TExternalPayloadStorage) :
    (st.NonClearable = true → st.Clear = st) ∧
    (st.NonClearable = false → st.Clear.PayloadColumnsStorage = []) ∧
    st.Clear.PayloadColumnsStorage.length ≤ st.PayloadColumnsStorage.length := by
  unfold TExternalPayloadStorage.Clear
  cases hn : st.NonClearable <;> simp

theorem finishProbe_indexSafe (indexOf : List Nat → Nat) (status : EFetchStatus)
    (hj : THashJoin) (st : TExternalPayloadStorage) (h : hj.IndexSafe indexOf st)
    (result : EFetchStatus × THashJoin)
    (hfin : THashJoin.finishProbe status hj = Except.ok result) :
    result.2.IndexSafe indexOf st.Clear ∧
    result.2.Objects.ProbePayloadStorage = some st.Clear ∧
    result.2.Objects.BuildPayloadStorage =
      hj.Objects.BuildPayloadStorage.map TExternalPayloadStorage.Clear ∧
    result.2.Objects.ProbeConverter = hj.Objects.ProbeConverter ∧
    (result.1 = EFetchStatus.Ok →
      result.2.JoinState.Values = (hj.JoinState.MakeBlocks hj.Objects).Values) ∧
    (result.1 = EFetchStatus.Ok ∨ result.1 = EFetchStatus.Finish) := by
  have hstorage : (hj.Objects.ProbePayloadStorage.map TExternalPayloadStorage.Clear) =
      some st.Clear := by rw [h.storage]; rfl
  have hroom : st.Clear.PayloadColumnsStorage.length + hj.ProbeData.length +
      hj.ProbeStream.length < UI32 := by
    have := h.room
    have := (Clear_blocks st).2.2
    omega
  unfold THashJoin.finishProbe at hfin
  split at hfin
  · split at hfin
    · simp only [pure, Except.pure, Except.ok.injEq] at hfin
      subst hfin
      refine ⟨?_, hstorage, rfl, rfl, fun hc => (by cases hc), Or.inr rfl⟩
      exact
        { indirected := h.indirected
          storage := hstorage
          input := by simp [TJoinState.ResetInput, TJoinState.ResetOutput, PackResult.WellFormed]
          inputRows := by
            intro r hr
            simp [TJoinState.ResetInput, TJoinState.ResetOutput] at hr
          output := ⟨[], rfl, fun t ht => (by cases ht)⟩
          room := hroom
          queued := h.queued
          upstream := h.upstream }
    · cases hfin
  · simp only [pure, Except.pure, Except.ok.injEq] at hfin
    subst hfin
    refine ⟨?_, hstorage, rfl, rfl, fun _ => rfl, Or.inl rfl⟩
    exact
      { indirected := h.indirected
        storage := hstorage
        input := by simp [TJoinState.ResetInput, TJoinState.ResetOutput, PackResult.WellFormed]
        inputRows := by
          intro r hr
          simp [TJoinState.ResetInput, TJoinState.ResetOutput] at hr
        output := ⟨[], rfl, fun t ht => (by cases ht)⟩
        room := hroom
        queued := h.queued
        upstream := h.upstream }

theorem indexes_held (indexOf : List Nat → Nat) (hj : THashJoin) (st : TExternalPayloadStorage)
    (hconv : hj.Objects.ProbeConverter.CarriesIndex indexOf) (h : hj.IndexSafe indexOf st)
    (hrows : (hj.JoinState.packResultOf ESide.Probe ESide.Probe).WellFormed
      hj.Objects.ProbeConverter.Layout.TotalRowSize)
    (indexes : List Nat)
    (hunpack : (hj.Objects.ProbeConverter.Unpack
      (hj.JoinState.packResultOf ESide.Probe ESide.Probe)).getLast? = some indexes) :
    ∀ raw ∈ indexes, st.holds raw = true := by
  obtain ⟨hpos, -, hun⟩ := hconv
  rw [hun _ hrows] at hunpack
  injection hunpack with hunpack
  subst hunpack
  obtain ⟨tuples, ht, hall⟩ := h.output
  have hlen : tuples.length = hj.JoinState.OutputRows := by
    have h1 : tuples.flatten.length =
        tuples.length * hj.Objects.ProbeConverter.Layout.TotalRowSize := by
      have := length_flatten_const (fun t : List Nat => t)
        hj.Objects.ProbeConverter.Layout.TotalRowSize tuples (fun t hmem => (hall t hmem).1)
      simpa using this
    have h2 : tuples.flatten.length =
        hj.JoinState.OutputRows * hj.Objects.ProbeConverter.Layout.TotalRowSize := by
      rw [← ht]
      exact hrows
    exact Nat.eq_of_mul_eq_mul_right hpos (h1.symm.trans h2)
  intro raw hraw
  obtain ⟨r, hr, rfl⟩ := List.mem_map.1 hraw
  have hr2 : r < tuples.length := by
    rw [hlen]
    exact List.mem_range.1 hr
  have htuple : tupleAt (hj.JoinState.packResultOf ESide.Probe ESide.Probe).PackedTuples
      hj.Objects.ProbeConverter.Layout.TotalRowSize r = tuples[r] := by
    show tupleAt hj.JoinState.ProbePackedOutput _ r = _
    rw [ht]
    exact tupleAt_flatten _ tuples (fun t hmem => (hall t hmem).1) r hr2
  rw [htuple]
  exact (hall _ (List.getElem_mem _)).2

theorem indexedConverter_carriesIndex : indexedConverter.CarriesIndex indexValue := by
  refine ⟨by decide, ?_, ?_⟩
  · intro columns indexes out hlast hwf
    have hrows : ∀ r ∈ List.range indexes.length,
        ([(columns.headD []).getD r 0, indexes.getD r 0] : List Nat).length = 2 :=
      fun _ _ => rfl
    have hlen := length_flatten_const
      (fun r => ([(columns.headD []).getD r 0, indexes.getD r 0] : List Nat)) 2
      (List.range indexes.length) hrows
    rw [List.length_range] at hlen
    have hpacked : (indexedConverter.Pack columns out).PackedTuples =
        out.PackedTuples ++ ((List.range indexes.length).map fun r =>
          [(columns.headD []).getD r 0, indexes.getD r 0]).flatten := by
      simp [indexedConverter, hlast]
    have hn : (indexedConverter.Pack columns out).NTuples = out.NTuples + indexes.length := by
      simp [indexedConverter, hlast]
    have hout : out.PackedTuples.length = out.NTuples * 2 := hwf
    refine ⟨?_, hn, ?_, ?_⟩
    · show (indexedConverter.Pack columns out).PackedTuples.length =
        (indexedConverter.Pack columns out).NTuples * 2
      rw [hpacked, hn, List.length_append, hlen, hout]
      ring
    · intro r hr
      rw [hpacked]
      exact tupleAt_append_left _ _ 2 r (by rw [hout]; omega)
    · intro i hi
      rw [hpacked]
      show indexValue (tupleAt _ 2 (out.NTuples + i)) = _
      rw [tupleAt_append_right _ _ 2 out.NTuples i hout,
        tupleAt_flatten 2 _ (by
          intro t ht
          obtain ⟨r, -, rfl⟩ := List.mem_map.1 ht
          rfl) i (by simpa using hi)]
      simp [indexValue]
  · intro packed _
    rfl

theorem indirectedHashJoin_indexSafe :
    indirectedHashJoin.IndexSafe indexValue (TExternalPayloadStorage.construct [1] false) where
  indirected := rfl
  storage := rfl
  input := rfl
  inputRows := fun r hr => absurd hr (Nat.not_lt_zero r)
  output := ⟨[], rfl, fun t ht => (by cases ht)⟩
  room := by decide
  queued := by
    intro block hb
    have : block = { Size := 2, Columns := [[7, 7], [30, 40]] } := by
      simpa [indirectedHashJoin] using hb
    subst this
    decide
  upstream := fun block hb => (by cases hb)

/-- C24. Payload indices stay valid until emission.  Take a hash join with an
indirected probe side whose converter carries the index of each row (`Pack`
keeps the packed rows and appends one row per index of the key block, `Unpack`
returns the index of every row as its last column), in a state where every index
held in the packed probe input and output designates a block and row of the
probe payload storage `st`.  For every `DoProbe` call that returns:

* the same holds of the join it leaves, so also for every later call, whatever
  the fetch statuses;
* on `Yield` the storage still holds all its blocks (new blocks are appended);
* otherwise the loop ended in a join `hj1` whose storage `st1` holds all blocks
  of `st`; every entry of the index column that `MakeBlocks` unpacks from the
  packed probe output and hands to `RestorePayload` designates a block and row
  of `st1` (provided `OutputRows` counts the packed output tuples); the emitted
  values are those `MakeBlocks` assembled with `st1`; and only then does
  `ResetInput` clear the storages, after `MakeBlocks` or at `Finish`;
* `Clear` leaves a storage constructed non-clearable as it is. -/
theorem THashJoin.payload_indices_valid_until_emission (indexOf : List Nat → Nat)
    (hj : THashJoin) (st : TExternalPayloadStorage)
    (hconv : hj.Objects.ProbeConverter.CarriesIndex indexOf)
    (hsafe : hj.IndexSafe indexOf st) (status : EFetchStatus) (hj2 : THashJoin)
    (hprobe : hj.DoProbe = Except.ok (status, hj2)) :
    (∃ st2, hj2.IndexSafe indexOf st2 ∧
      hj2.Objects.ProbeConverter = hj.Objects.ProbeConverter) ∧
    (status = EFetchStatus.Yield → ∃ st2 added,
      hj2.Objects.ProbePayloadStorage = some st2 ∧
      st2.PayloadColumnsStorage = st.PayloadColumnsStorage ++ added) ∧
    (hj.JoinState.HasBlocks = false → status ≠ EFetchStatus.Yield →
      ∃ s hj1 st1 added,
        THashJoin.probeLoop (hj.ProbeStream.length + hj.ProbeData.length + 2)
          EFetchStatus.Finish hj = Except.ok (TProbeLoopEnd.Left s hj1) ∧
        THashJoin.finishProbe s hj1 = Except.ok (status, hj2) ∧
        hj1.Objects.ProbePayloadStorage = some st1 ∧
        st1.PayloadColumnsStorage = st.PayloadColumnsStorage ++ added ∧
        (∀ indexes,
          (hj1.JoinState.packResultOf ESide.Probe ESide.Probe).WellFormed
            hj1.Objects.ProbeConverter.Layout.TotalRowSize →
          (hj1.Objects.ProbeConverter.Unpack
            (hj1.JoinState.packResultOf ESide.Probe ESide.Probe)).getLast? = some indexes →
          ∀ raw ∈ indexes, st1.holds raw = true) ∧
        (status = EFetchStatus.Ok →
          hj2.JoinState.Values = (hj1.JoinState.MakeBlocks hj1.Objects).Values) ∧
        hj2.Objects.ProbePayloadStorage = some st1.Clear ∧
        hj2.Objects.BuildPayloadStorage =
          hj1.Objects.BuildPayloadStorage.map TExternalPayloadStorage.Clear) ∧
    (∀ s : TExternalPayloadStorage, s.NonClearable = true → s.Clear = s) ∧
    (∀ payloadItemTypes,
      (TExternalPayloadStorage.construct payloadItemTypes true).Clear =
        TExternalPayloadStorage.construct payloadItemTypes true) := by
  refine ⟨?_, ?_, ?_, fun s hs => (Clear_blocks s).1 hs, fun _ => rfl⟩
  · unfold THashJoin.DoProbe at hprobe
    split at hprobe
    · simp only [pure, Except.pure, Except.ok.injEq, Prod.mk.injEq] at hprobe
      rw [← hprobe.2]
      exact ⟨st, hsafe, rfl⟩
    · split at hprobe
      · cases hprobe
      · rename_i hj1 hloop
        simp only [pure, Except.pure, Except.ok.injEq, Prod.mk.injEq] at hprobe
        obtain ⟨st1, added, a1, -, -, a4, -⟩ :=
          probeLoop_indexSafe indexOf _ _ hj st hconv hsafe _ hloop
        rw [← hprobe.2]
        exact ⟨st1, a1, a4⟩
      · rename_i s hj1 hloop
        obtain ⟨st1, added, a1, -, -, a4, -⟩ :=
          probeLoop_indexSafe indexOf _ _ hj st hconv hsafe _ hloop
        obtain ⟨b1, -, -, b4, -, -⟩ := finishProbe_indexSafe indexOf s hj1 st1 a1 _ hprobe
        exact ⟨st1.Clear, b1, b4.trans a4⟩
  · intro hy
    unfold THashJoin.DoProbe at hprobe
    split at hprobe
    · simp only [pure, Except.pure, Except.ok.injEq, Prod.mk.injEq] at hprobe
      rw [hy] at hprobe
      exact absurd hprobe.1 (by decide)
    · split at hprobe
      · cases hprobe
      · rename_i hj1 hloop
        simp only [pure, Except.pure, Except.ok.injEq, Prod.mk.injEq] at hprobe
        obtain ⟨st1, added, a1, a2, -, -, -⟩ :=
          probeLoop_indexSafe indexOf _ _ hj st hconv hsafe _ hloop
        rw [← hprobe.2]
        exact ⟨st1, added, a1.storage, a2⟩
      · rename_i s hj1 hloop
        obtain ⟨st1, added, a1, -, -, -, -⟩ :=
          probeLoop_indexSafe indexOf _ _ hj st hconv hsafe _ hloop
        obtain ⟨-, -, -, -, -, b6⟩ := finishProbe_indexSafe indexOf s hj1 st1 a1 _ hprobe
        rw [hy] at b6
        rcases b6 with b6 | b6 <;> cases b6
  · intro hblocks hny
    unfold THashJoin.DoProbe at hprobe
    rw [hblocks] at hprobe
    simp only [Bool.false_eq_true, if_false] at hprobe
    split at hprobe
    · cases hprobe
    · simp only [pure, Except.pure, Except.ok.injEq, Prod.mk.injEq] at hprobe
      exact absurd hprobe.1.symm hny
    · rename_i s hj1 hloop
      obtain ⟨st1, added, a1, a2, -, a4, -⟩ :=
        probeLoop_indexSafe indexOf _ _ hj st hconv hsafe _ hloop
      obtain ⟨-, b2, b3, -, b5, -⟩ := finishProbe_indexSafe indexOf s hj1 st1 a1 _ hprobe
      refine ⟨s, hj1, st1, added, hloop, hprobe, a1.storage, a2, ?_, b5, b2, b3⟩
      intro indexes hwf hun
      exact indexes_held indexOf hj1 st1
        (by
          rw [show hj1.Objects.ProbeConverter = hj.Objects.ProbeConverter from a4]
          exact hconv) a1 hwf indexes hun

/-- C24 at `indirectedHashJoin`: the call packs the buffered block, emits the
four matching row pairs and returns `Ok`; the storage, which held the payload
block at `MakeBlocks`, is cleared afterwards. -/
theorem THashJoin.payload_indices_valid_until_emission_witness :
    ∃ hj2, indirectedHashJoin.DoProbe = Except.ok (EFetchStatus.Ok, hj2) ∧
      hj2.JoinState.Count = 4 ∧
      (hj2.Objects.ProbePayloadStorage.map fun s => s.PayloadColumnsStorage) = some [] ∧
      ∃ st2, hj2.IndexSafe indexValue st2 ∧
        hj2.Objects.ProbeConverter = indirectedHashJoin.Objects.ProbeConverter :=
  ⟨_, rfl, rfl, rfl,
    (by
      exact (THashJoin.payload_indices_valid_until_emission indexValue indirectedHashJoin
        (TExternalPayloadStorage.construct [1] false) indexedConverter_carriesIndex
        indirectedHashJoin_indexSafe EFetchStatus.Ok _ (by rfl)).1)⟩

end BlockGraceJoin
